import Mathlib

/-!
UASWaypointManager: a shallow embedding of the waypoint protocol handler.

The definitions below follow `src/uas/UASWaypointManager.cc` function by function.

Conventions of the embedding
* The manager object is the record `Manager`; every member function is a function
  `Manager → Manager` (with the arguments of the C++ function in front, and a
  returned `int` paired with the new record).
* `quint16` members (`current_wp_id`, `current_count`, waypoint ids) are natural
  numbers and every write that can leave the range is reduced `% 65536`;
  `quint8` members are reduced `% 256`.  Arguments typed `quint8`/`quint16` in the
  source are natural numbers that the caller supplies in range.
* `double` and `float` values are rationals.  The arithmetic on x and y (the division
  and the products by 1E7 and 1e-7, the narrowing to `float`) rounds to the nearest
  value of the format, a tie to the even significand (`roundDouble`, `roundFloat`); the
  exponent range is not bounded, which no value computed here can tell: a product
  below the smallest `double` is cast to 0 and one above the largest to `INT32_MIN`
  either way.  The cast `(int32_t)` truncates toward zero.
* The protocol timer is connected to `timeout()` by the constructor only when a vehicle
  is attached; `step` delivers a timer expiry only then.
* `uas->sendMessage(message)` appends the message to the trace `sent`.
* `protocol_timer` is the Boolean "the timer is running".
* Qt signals (status strings, list-changed notifications), logging and the
  20 ms sleep after a send have no effect on the record and are left out.
* A `Waypoint*` is the waypoint value together with its address `ptr`; `new`
  takes the next unused address `heap_next`.
-/

set_option linter.unusedVariables false

namespace UASWaypointManager

/-- Maximum number of send retries after a timeout (`PROTOCOL_MAX_RETRIES`). -/
def PROTOCOL_MAX_RETRIES : Nat := 5

/-- States of the transfer state machine (`WaypointState`). -/
inductive WaypointState where
  | WP_IDLE
  | WP_GETLIST
  | WP_GETLIST_GETWPS
  | WP_SENDLIST
  | WP_SENDLIST_SENDWPSINT
  | WP_SENDLIST_SENDWPSFLOAT
  | WP_CLEARLIST
  | WP_SETCURRENT
  deriving DecidableEq, Repr

/-- Wire form asked for by a mission request (`MissionItemEncoding`). -/
inductive MissionItemEncoding where
  | Float
  | Int
  deriving DecidableEq, Repr

/-- Modelled from the spec: the `Waypoint` class (its header and implementation are
not among the sources).  One mission item with the attributes of the spec's
`MissionItem`; `ptr` is the address of the object. -/
structure Waypoint where
  ptr : Nat
  id : Nat
  x : ℚ
  y : ℚ
  z : ℚ
  param1 : ℚ
  param2 : ℚ
  param3 : ℚ
  param4 : ℚ
  autocontinue : Bool
  current : Bool
  frame : Nat
  action : Nat
  deriving DecidableEq

/-- The wire record `mavlink_mission_item_int_t`: x and y are 32-bit fixed point. -/
structure MissionItemInt where
  target_system : Nat
  target_component : Nat
  seq : Nat
  frame : Nat
  command : Nat
  current : Nat
  autocontinue : Nat
  param1 : ℚ
  param2 : ℚ
  param3 : ℚ
  param4 : ℚ
  x : Int
  y : Int
  z : ℚ
  mission_type : Nat
  deriving DecidableEq

/-- The wire record `mavlink_mission_item_t`: x and y are floats. -/
structure MissionItemFloat where
  target_system : Nat
  target_component : Nat
  seq : Nat
  frame : Nat
  command : Nat
  current : Nat
  autocontinue : Nat
  param1 : ℚ
  param2 : ℚ
  param3 : ℚ
  param4 : ℚ
  x : ℚ
  y : ℚ
  z : ℚ
  mission_type : Nat
  deriving DecidableEq

/-- Messages handed to `uas->sendMessage`. -/
inductive Msg where
  | MISSION_REQUEST_LIST (target_system target_component : Nat)
  | MISSION_REQUEST_INT (target_system target_component seq : Nat)
  | MISSION_COUNT (target_system target_component count : Nat)
  | MISSION_ITEM_INT (wp : MissionItemInt)
  | MISSION_ITEM (wp : MissionItemFloat)
  | MISSION_ACK (target_system target_component type : Nat)
  | MISSION_CLEAR_ALL (target_system target_component : Nat)
  | MISSION_SET_CURRENT (target_system target_component seq : Nat)
  deriving DecidableEq

/-- The data members of `UASWaypointManager`.  `uas` is "the `uas` pointer is not
NULL".  `MAV_COMP_ID_PRIMARY` and `MAV_COMP_ID_MISSIONPLANNER` are the two MAVLink
component constants the source uses; their header is not among the sources, so they
are carried as read-only parameters.  `sent` is the trace of sent messages.
`m_defaultAcceptanceRadius` and `m_defaultRelativeAlt` are the two defaults used for
newly created waypoints. -/
structure Manager where
  uas : Bool
  current_retries : Nat
  current_wp_id : Nat
  current_count : Nat
  current_state : WaypointState
  current_partner_systemid : Nat
  current_partner_compid : Nat
  read_to_edit : Bool
  waypointsViewOnly : List Waypoint
  waypointsEditable : List Waypoint
  currentWaypointEditable : Option Nat
  waypoint_buffer : List MissionItemInt
  protocol_timer : Bool
  uasid : Nat
  m_waypointComponentID : Nat
  waypointIDHandled : Nat
  heap_next : Nat
  MAV_COMP_ID_PRIMARY : Nat
  MAV_COMP_ID_MISSIONPLANNER : Nat
  sent : List Msg
  m_defaultAcceptanceRadius : ℚ
  m_defaultRelativeAlt : ℚ
  deriving DecidableEq

/-- Modelled from the spec: the declaration of `currentWaypointEditable` is in the
header, which is not among the sources; the spec describes it as a weak
back-reference that is invalidated when the item it designates is deleted.
`onDelete ws cur` is the reference after the objects of `ws` were deleted. -/
def onDelete (ws : List Waypoint) (cur : Option Nat) : Option Nat :=
  match cur with
  | none => none
  | some p => if ws.any (fun w => w.ptr == p) then none else some p

/-- The call `uas->sendMessage(message)`. -/
def sendMessage (msg : Msg) (m : Manager) : Manager :=
  { m with sent := m.sent ++ [msg] }

/-- Source function `sendWaypointClearAll`. -/
def sendWaypointClearAll (m : Manager) : Manager :=
  if m.uas = false then m
  else sendMessage (Msg.MISSION_CLEAR_ALL (m.uasid % 256) m.m_waypointComponentID) m

/-- Source function `sendWaypointSetCurrent`. -/
def sendWaypointSetCurrent (seq : Nat) (m : Manager) : Manager :=
  if m.uas = false then m
  else sendMessage (Msg.MISSION_SET_CURRENT (m.uasid % 256) m.m_waypointComponentID seq) m

/-- Source function `sendWaypointCount`. -/
def sendWaypointCount (m : Manager) : Manager :=
  if m.uas = false then m
  else sendMessage (Msg.MISSION_COUNT (m.uasid % 256) m.m_waypointComponentID m.current_count) m

/-- Source function `sendWaypointRequestList`. -/
def sendWaypointRequestList (m : Manager) : Manager :=
  if m.uas = false then m
  else sendMessage (Msg.MISSION_REQUEST_LIST (m.uasid % 256) m.m_waypointComponentID) m

/-- Source function `sendWaypointRequest`. -/
def sendWaypointRequest (seq : Nat) (m : Manager) : Manager :=
  if m.uas = false then m
  else sendMessage (Msg.MISSION_REQUEST_INT (m.uasid % 256) m.m_waypointComponentID seq) m

/-- Source function `sendWaypointAck`. -/
def sendWaypointAck (type : Nat) (m : Manager) : Manager :=
  if m.uas = false then m
  else sendMessage (Msg.MISSION_ACK (m.uasid % 256) m.m_waypointComponentID type) m

/-- Rounding to the nearest whole number, a tie to the even neighbour. -/
def roundHalfEven (q : ℚ) : Int :=
  if 2 * (q - ⌊q⌋) < 1 then ⌊q⌋
  else if 1 < 2 * (q - ⌊q⌋) then ⌊q⌋ + 1
  else if ⌊q⌋ % 2 = 0 then ⌊q⌋ else ⌊q⌋ + 1

/-- Rounding to the nearest binary floating-point number with a significand of `p`
bits, a tie to the even significand: the value is scaled into the range of the
`p`-bit significands, rounded to a whole number and scaled back. -/
def roundBinary (p : Nat) (q : ℚ) : ℚ :=
  if q = 0 then 0
  else (roundHalfEven (q / 2 ^ (Int.log 2 |q| - ((p : Int) - 1))) : ℚ)
        * 2 ^ (Int.log 2 |q| - ((p : Int) - 1))

/-- The result of an operation on `double` values: the exact result rounded to 53 bits. -/
def roundDouble (q : ℚ) : ℚ := roundBinary 53 q

/-- The conversion of a `double` to `float`: rounding to 24 bits. -/
def roundFloat (q : ℚ) : ℚ := roundBinary 24 q

/-- Source function `convertMavlinkMissionItem`.  The literal `1e-7` is the `double`
nearest to 10^-7, the product is a `double` and the fields `x` and `y` of the float
item are `float`. -/
def convertMavlinkMissionItem (src : MissionItemInt) : MissionItemFloat :=
  { target_system := src.target_system
    target_component := src.target_component
    seq := src.seq
    frame := src.frame
    command := src.command
    current := src.current
    autocontinue := src.autocontinue
    param1 := src.param1
    param2 := src.param2
    param3 := src.param3
    param4 := src.param4
    x := roundFloat (roundDouble (roundDouble (1 / 10000000) * (src.x : ℚ)))
    y := roundFloat (roundDouble (roundDouble (1 / 10000000) * (src.y : ℚ)))
    z := src.z
    mission_type := src.mission_type }

/-- Source function `sendWaypoint`: stamps the target ids into the buffered item
and sends it in the encoding of the current state. -/
def sendWaypoint (seq : Nat) (m : Manager) : Manager :=
  if m.uas = false then m
  else
    match m.waypoint_buffer[seq]? with
    | none => m
    | some wp0 =>
      let wp : MissionItemInt :=
        { wp0 with target_system := m.uasid % 256, target_component := m.m_waypointComponentID }
      let m1 : Manager := { m with waypoint_buffer := m.waypoint_buffer.set seq wp }
      if m1.current_state = WaypointState.WP_SENDLIST_SENDWPSINT then
        sendMessage (Msg.MISSION_ITEM_INT wp) m1
      else if m1.current_state = WaypointState.WP_SENDLIST_SENDWPSFLOAT then
        sendMessage (Msg.MISSION_ITEM (convertMavlinkMissionItem wp)) m1
      else m1

/-- Source function `timeout`. -/
def timeout (m : Manager) : Manager :=
  if m.current_retries > 0 then
    let m1 : Manager := { m with protocol_timer := true, current_retries := m.current_retries - 1 }
    if m1.current_state = WaypointState.WP_GETLIST then sendWaypointRequestList m1
    else if m1.current_state = WaypointState.WP_GETLIST_GETWPS then
      sendWaypointRequest m1.current_wp_id m1
    else if m1.current_state = WaypointState.WP_SENDLIST then sendWaypointCount m1
    else if m1.current_state = WaypointState.WP_SENDLIST_SENDWPSINT
        ∨ m1.current_state = WaypointState.WP_SENDLIST_SENDWPSFLOAT then
      sendWaypoint m1.current_wp_id m1
    else if m1.current_state = WaypointState.WP_CLEARLIST then sendWaypointClearAll m1
    else if m1.current_state = WaypointState.WP_SETCURRENT then
      sendWaypointSetCurrent m1.current_wp_id m1
    else m1
  else
    { m with
      protocol_timer := false
      current_state := WaypointState.WP_IDLE
      current_count := 0
      current_wp_id := 0
      current_partner_systemid := 0
      current_partner_compid := m.MAV_COMP_ID_PRIMARY }

/-- Source function `addWaypointViewOnly`. -/
def addWaypointViewOnly (wp : Waypoint) (m : Manager) : Manager :=
  { m with waypointsViewOnly := m.waypointsViewOnly ++ [wp] }

/-- Source function `addWaypointEditable`. -/
def addWaypointEditable (wp : Waypoint) (enforceFirstActive : Bool) (m : Manager) : Manager :=
  let wp1 : Waypoint := { wp with id := m.waypointsEditable.length % 65536 }
  if enforceFirstActive = true ∧ m.waypointsEditable.length = 0 then
    { m with
      currentWaypointEditable := some wp1.ptr
      waypointsEditable := m.waypointsEditable ++ [{ wp1 with current := true }] }
  else
    { m with waypointsEditable := m.waypointsEditable ++ [wp1] }

/-- The expression `new Waypoint(wp->seq, wp_x, wp_y, wp->z, ...)` of `handleWaypoint`,
with the conversion of x and y from `int32_t` to `double`: `wp->x / (double) 1E7` is the
quotient rounded to a `double`. -/
def newWaypointFromItem (ptr : Nat) (wp : MissionItemInt) : Waypoint :=
  { ptr := ptr
    id := wp.seq
    x := roundDouble ((wp.x : ℚ) / 10000000)
    y := roundDouble ((wp.y : ℚ) / 10000000)
    z := wp.z
    param1 := wp.param1
    param2 := wp.param2
    param3 := wp.param3
    param4 := wp.param4
    autocontinue := decide (wp.autocontinue ≠ 0)
    current := decide (wp.current ≠ 0)
    frame := wp.frame
    action := wp.command }

/-- Source function `handleWaypointCount`. -/
def handleWaypointCount (systemId compId count : Nat) (m : Manager) : Manager :=
  if m.current_state = WaypointState.WP_GETLIST ∧ systemId = m.current_partner_systemid then
    let m1 : Manager := { m with protocol_timer := true, current_retries := PROTOCOL_MAX_RETRIES }
    let m2 : Manager :=
      if m1.read_to_edit = true then
        { m1 with
          currentWaypointEditable := onDelete m1.waypointsEditable m1.currentWaypointEditable
          waypointsEditable := [] }
      else m1
    if count > 0 then
      let m3 : Manager :=
        { m2 with
          current_count := count
          current_wp_id := 0
          current_state := WaypointState.WP_GETLIST_GETWPS }
      sendWaypointRequest m3.current_wp_id m3
    else
      { m2 with
        protocol_timer := false
        current_state := WaypointState.WP_IDLE
        current_count := 0
        current_wp_id := 0
        current_partner_systemid := 0
        current_partner_compid := m2.MAV_COMP_ID_PRIMARY }
  else m

/-- Source function `handleWaypoint`. -/
def handleWaypoint (systemId compId : Nat) (wp : MissionItemInt) (m : Manager) : Manager :=
  if systemId = m.current_partner_systemid
      ∧ m.current_state = WaypointState.WP_GETLIST_GETWPS then
    if wp.seq = m.current_wp_id then
      let m1 : Manager := { m with protocol_timer := true, current_retries := PROTOCOL_MAX_RETRIES }
      let lwp_vo : Waypoint := newWaypointFromItem m1.heap_next wp
      let m2 : Manager := addWaypointViewOnly lwp_vo { m1 with heap_next := m1.heap_next + 1 }
      let m3 : Manager :=
        if m2.read_to_edit = true then
          let lwp_ed : Waypoint := newWaypointFromItem m2.heap_next wp
          let m2a : Manager := addWaypointEditable lwp_ed false { m2 with heap_next := m2.heap_next + 1 }
          if wp.current = 1 then { m2a with currentWaypointEditable := some lwp_ed.ptr } else m2a
        else m2
      let m4 : Manager := { m3 with current_wp_id := (m3.current_wp_id + 1) % 65536 }
      if m4.current_wp_id < m4.current_count then
        sendWaypointRequest m4.current_wp_id m4
      else
        let m5 : Manager := sendWaypointAck 0 m4
        { m5 with
          current_state := WaypointState.WP_IDLE
          current_count := 0
          current_wp_id := 0
          current_partner_systemid := 0
          current_partner_compid := m5.MAV_COMP_ID_PRIMARY
          waypointIDHandled := 65534
          protocol_timer := false }
    else m
  else m

/-- Source function `readWaypoints`. -/
def readWaypoints (readToEdit : Bool) (m : Manager) : Manager :=
  let m1 : Manager := { m with read_to_edit := readToEdit }
  if m1.current_state = WaypointState.WP_IDLE then
    let m2 : Manager :=
      { m1 with
        waypointsViewOnly := []
        protocol_timer := true
        current_retries := PROTOCOL_MAX_RETRIES
        current_state := WaypointState.WP_GETLIST
        current_wp_id := 0
        current_partner_systemid := m1.uasid % 256
        current_partner_compid := m1.m_waypointComponentID }
    sendWaypointRequestList m2
  else m1

/-- Source function `handleWaypointAck`. -/
def handleWaypointAck (systemId compId type : Nat) (m : Manager) : Manager :=
  if systemId = m.current_partner_systemid
      ∧ (compId = m.current_partner_compid ∨ compId = m.MAV_COMP_ID_PRIMARY) then
    if (m.current_state = WaypointState.WP_SENDLIST
          ∨ m.current_state = WaypointState.WP_SENDLIST_SENDWPSINT
          ∨ m.current_state = WaypointState.WP_SENDLIST_SENDWPSFLOAT)
        ∧ ((m.current_wp_id : Int) = (m.waypoint_buffer.length : Int) - 1 ∧ type = 0) then
      readWaypoints false
        { m with protocol_timer := false, current_state := WaypointState.WP_IDLE }
    else if m.current_state = WaypointState.WP_CLEARLIST then
      { m with protocol_timer := false, current_state := WaypointState.WP_IDLE }
    else m
  else m

/-- Source function `handleWaypointRequest` (the four-argument overload). -/
def handleWaypointRequest (systemId compId wpRequestId : Nat) (wpEncoding : MissionItemEncoding)
    (m : Manager) : Manager :=
  if systemId = m.current_partner_systemid
      ∧ ((m.current_state = WaypointState.WP_SENDLIST ∧ wpRequestId = 0)
        ∨ ((m.current_state = WaypointState.WP_SENDLIST_SENDWPSINT
              ∨ m.current_state = WaypointState.WP_SENDLIST_SENDWPSFLOAT)
            ∧ (wpRequestId = m.current_wp_id ∨ wpRequestId = m.current_wp_id + 1))) then
    let m1 : Manager := { m with protocol_timer := true, current_retries := PROTOCOL_MAX_RETRIES }
    if wpRequestId < m1.waypoint_buffer.length then
      let m2 : Manager :=
        { m1 with
          current_state :=
            if wpEncoding = MissionItemEncoding.Int then WaypointState.WP_SENDLIST_SENDWPSINT
            else WaypointState.WP_SENDLIST_SENDWPSFLOAT
          current_wp_id := wpRequestId }
      sendWaypoint m2.current_wp_id m2
    else m1
  else m

/-- Source function `handleWaypointReached`: it only publishes a status string. -/
def handleWaypointReached (systemId compId seq : Nat) (m : Manager) : Manager := m

/-- The loop body of `handleWaypointCurrent` and `setCurrentEditable` over one list:
the item whose id equals `seq` becomes current, every other item not current. -/
def markCurrent (seq : Nat) (ws : List Waypoint) : List Waypoint :=
  ws.map (fun w => { w with current := decide (w.id = seq) })

/-- Source function `handleWaypointCurrent`. -/
def handleWaypointCurrent (systemId compId seq : Nat) (m : Manager) : Manager :=
  if m.uas = false then m
  else if systemId = m.uasid then
    let m1 : Manager :=
      if m.current_state = WaypointState.WP_SETCURRENT then
        let m0 : Manager := { m with protocol_timer := false, current_state := WaypointState.WP_IDLE }
        if seq < m0.waypointsViewOnly.length then
          { m0 with waypointsViewOnly := markCurrent seq m0.waypointsViewOnly }
        else m0
      else m
    if m1.waypointIDHandled ≠ seq then { m1 with waypointIDHandled := seq } else m1
  else m

/-- Source function `setCurrentWaypoint`; the first component is the returned `int`. -/
def setCurrentWaypoint (seq : Nat) (m : Manager) : Int × Manager :=
  if seq < m.waypointsViewOnly.length then
    if m.current_state = WaypointState.WP_IDLE then
      let m1 : Manager :=
        { m with
          protocol_timer := true
          current_retries := PROTOCOL_MAX_RETRIES
          current_state := WaypointState.WP_SETCURRENT
          current_wp_id := seq
          current_partner_systemid := m.uasid % 256
          current_partner_compid := m.MAV_COMP_ID_MISSIONPLANNER }
      (0, sendWaypointSetCurrent m1.current_wp_id m1)
    else (-1, m)
  else (-1, m)

/-- Source function `clearWaypointList`. -/
def clearWaypointList (m : Manager) : Manager :=
  if m.current_state = WaypointState.WP_IDLE then
    let m1 : Manager :=
      { m with
        protocol_timer := true
        current_retries := PROTOCOL_MAX_RETRIES
        current_state := WaypointState.WP_CLEARLIST
        current_wp_id := 0
        current_partner_systemid := m.uasid % 256
        current_partner_compid := m.m_waypointComponentID }
    sendWaypointClearAll m1
  else m

/-- Truncation of a rational toward zero. -/
def truncate (v : ℚ) : Int :=
  Int.tdiv v.num (v.den : Int)

/-- The conversion `(int32_t) v` of a `double` in `writeWaypoints`: truncation toward
zero.  For a value whose truncation is outside the 32-bit range the conversion is
undefined in C++; the conversion instruction of the x86 targets stores `INT32_MIN`
then, which is the result taken here. -/
def toInt32 (v : ℚ) : Int :=
  if -2147483648 ≤ truncate v ∧ truncate v ≤ 2147483647 then truncate v
  else -2147483648

/-- The copy loop of `writeWaypoints`: `i` is the loop counter, the list argument
holds `waypointsEditable.at(i)` and the items after it, `noCurrent` is the local flag. -/
def copyToBuffer (current_count : Nat) : List Waypoint → Nat → Bool → List MissionItemInt
  | [], _, _ => []
  | cur_s :: rest, i, noCurrent =>
    if i < current_count then
      let cur0 : Bool := cur_s.current && noCurrent
      let noCurrent1 : Bool := if cur_s.current = true ∧ noCurrent = true then false else noCurrent
      let cur1 : Bool := if i = current_count - 1 ∧ noCurrent1 = true then true else cur0
      { target_system := 0
        target_component := 0
        seq := i
        frame := cur_s.frame
        command := cur_s.action
        current := if cur1 then 1 else 0
        autocontinue := if cur_s.autocontinue then 1 else 0
        param1 := cur_s.param1
        param2 := cur_s.param2
        param3 := cur_s.param3
        param4 := cur_s.param4
        x := toInt32 (roundDouble (cur_s.x * 10000000))
        y := toInt32 (roundDouble (cur_s.y * 10000000))
        z := cur_s.z
        mission_type := 0 } :: copyToBuffer current_count rest (i + 1) noCurrent1
    else []

/-- Source function `writeWaypoints`. -/
def writeWaypoints (m : Manager) : Manager :=
  if m.current_state = WaypointState.WP_IDLE then
    if m.waypointsEditable.length > 0 then
      let m1 : Manager :=
        { m with
          protocol_timer := true
          current_retries := PROTOCOL_MAX_RETRIES
          current_count := m.waypointsEditable.length % 65536
          current_state := WaypointState.WP_SENDLIST
          current_wp_id := 0
          current_partner_systemid := m.uasid % 256
          current_partner_compid := m.m_waypointComponentID }
      let m2 : Manager :=
        { m1 with waypoint_buffer := copyToBuffer m1.current_count m1.waypointsEditable 0 true }
      sendWaypointCount m2
    else sendWaypointClearAll m
  else m

/-- The three event sources of the manager: expiry of the protocol timer and the
decoded inbound messages, each with the sender's system and component id. -/
inductive Event where
  | timeout
  | count (systemId compId count : Nat)
  | item (systemId compId : Nat) (wp : MissionItemInt)
  | ack (systemId compId type : Nat)
  | request (systemId compId seq : Nat)
  | requestInt (systemId compId seq : Nat)
  | current (systemId compId seq : Nat)
  | reached (systemId compId seq : Nat)
  deriving DecidableEq

/-- Dispatch of one event to its handler.  The timer only fires while it runs, and
the expiry reaches `timeout()` only through the connection that the constructor makes
under `if (uas)`; the member `uas` is never assigned afterwards. -/
def step (m : Manager) : Event → Manager
  | Event.timeout => if m.protocol_timer = true ∧ m.uas = true then timeout m else m
  | Event.count s c n => handleWaypointCount s c n m
  | Event.item s c wp => handleWaypoint s c wp m
  | Event.ack s c t => handleWaypointAck s c t m
  | Event.request s c q => handleWaypointRequest s c q MissionItemEncoding.Float m
  | Event.requestInt s c q => handleWaypointRequest s c q MissionItemEncoding.Int m
  | Event.current s c q => handleWaypointCurrent s c q m
  | Event.reached s c q => handleWaypointReached s c q m

/-- The manager after a sequence of events, processed in arrival order. -/
def run (m : Manager) (evs : List Event) : Manager :=
  evs.foldl step m

/-- A manager as left by the constructor, with a vehicle of the given id attached
or not, and the given lists. -/
def mkManager (uas : Bool) (uasid : Nat) (viewOnly editable : List Waypoint) : Manager :=
  { uas := uas
    current_retries := 0
    current_wp_id := 0
    current_count := 0
    current_state := WaypointState.WP_IDLE
    current_partner_systemid := 0
    current_partner_compid := 1
    read_to_edit := false
    waypointsViewOnly := viewOnly
    waypointsEditable := editable
    currentWaypointEditable := none
    waypoint_buffer := []
    protocol_timer := false
    uasid := uasid
    m_waypointComponentID := 190
    waypointIDHandled := 65534
    heap_next := 1000
    MAV_COMP_ID_PRIMARY := 1
    MAV_COMP_ID_MISSIONPLANNER := 190
    sent := []
    m_defaultAcceptanceRadius := 5
    m_defaultRelativeAlt := 20 }

/-- A waypoint with the given id and current flag, everything else zero. -/
def mkWaypoint (id : Nat) (current : Bool) : Waypoint :=
  { ptr := id, id := id, x := 0, y := 0, z := 0, param1 := 0, param2 := 0, param3 := 0,
    param4 := 0, autocontinue := true, current := current, frame := 3, action := 16 }

/-- An inbound item with the given sequence number and current flag. -/
def mkItem (seq current : Nat) : MissionItemInt :=
  { target_system := 255, target_component := 190, seq := seq, frame := 3, command := 16,
    current := current, autocontinue := 1, param1 := 0, param2 := 0, param3 := 0, param4 := 0,
    x := 473977420, y := 85455940, z := 10, mission_type := 0 }

/-- The download in progress used to show what `readWaypoints` does while a transfer
is active: a download started without read-to-edit, one item of two received. -/
def busyDownload : Manager :=
  run (readWaypoints false (mkManager true 1 [] [mkWaypoint 0 true]))
    [Event.count 1 0 2, Event.item 1 0 (mkItem 0 0)]

/-- The message a timeout retransmits in the four states that wait for the first
answer of a transfer (the corresponding branch of `timeout`). -/
def openingMsg (m : Manager) : Option Msg :=
  if m.current_state = WaypointState.WP_GETLIST then
    some (Msg.MISSION_REQUEST_LIST (m.uasid % 256) m.m_waypointComponentID)
  else if m.current_state = WaypointState.WP_SENDLIST then
    some (Msg.MISSION_COUNT (m.uasid % 256) m.m_waypointComponentID m.current_count)
  else if m.current_state = WaypointState.WP_CLEARLIST then
    some (Msg.MISSION_CLEAR_ALL (m.uasid % 256) m.m_waypointComponentID)
  else if m.current_state = WaypointState.WP_SETCURRENT then
    some (Msg.MISSION_SET_CURRENT (m.uasid % 256) m.m_waypointComponentID m.current_wp_id)
  else none

/-- A transfer that waits for its first answer, with a vehicle attached and the timer
running; `msg` is its opening message. -/
def Stalled (m : Manager) (msg : Msg) : Prop :=
  m.uas = true ∧ m.protocol_timer = true ∧ openingMsg m = some msg

/-- The retry bound of a transfer that was started by `start` from a manager whose
trace was `before`, with opening message `msg`, when only timeouts follow: after
`k ≤ 5` timeouts exactly `k + 1` copies of `msg` have been sent, after the sixth timeout
still `PROTOCOL_MAX_RETRIES + 1` and the state is IDLE. -/
def RetryBound (before : List Msg) (start : Manager) (msg : Msg) : Prop :=
  (∀ k, k ≤ PROTOCOL_MAX_RETRIES →
      (run start (List.replicate k Event.timeout)).sent
        = before ++ List.replicate (k + 1) msg)
  ∧ (run start (List.replicate (PROTOCOL_MAX_RETRIES + 1) Event.timeout)).sent
      = before ++ List.replicate (PROTOCOL_MAX_RETRIES + 1) msg
  ∧ (run start (List.replicate (PROTOCOL_MAX_RETRIES + 1) Event.timeout)).current_state
      = WaypointState.WP_IDLE

/-- The two assignments `wp->target_system = uasid; wp->target_component =
m_waypointComponentID` that `sendWaypoint` makes on the buffered item before sending. -/
def stampTarget (m : Manager) (wp : MissionItemInt) : MissionItemInt :=
  { wp with target_system := m.uasid % 256, target_component := m.m_waypointComponentID }

/-- An upload of one item without a vehicle attached, waiting for the first request. -/
def offlineUpload : Manager :=
  writeWaypoints (mkManager false 0 [] [mkWaypoint 0 true])

/-- An upload of one item to vehicle 1: item 0 was requested and sent, then one
timeout took a retry. -/
def uploadAfterTimeout : Manager :=
  run (writeWaypoints (mkManager true 1 [] [mkWaypoint 0 true]))
    [Event.requestInt 1 0 0, Event.timeout]

/-- An idle manager with vehicle 1 attached and one item in each list. -/
def idleManager : Manager :=
  mkManager true 1 [mkWaypoint 0 true] [mkWaypoint 0 true]

/-- An upload of one item to vehicle 1, waiting for the first request. -/
def onlineUpload : Manager :=
  writeWaypoints (mkManager true 1 [] [mkWaypoint 0 true])

/-- The index the claim about the upload buffer names: the index of the first item
whose current flag is set, or the last index when no item is flagged. -/
def firstCurrentOrLast (ws : List Waypoint) : Nat :=
  if ws.findIdx (fun w => w.current) < ws.length then ws.findIdx (fun w => w.current)
  else ws.length - 1

/-- An idle manager whose editable list holds 65536 items. -/
def oversizedManager : Manager :=
  mkManager true 1 [] (List.replicate 65536 (mkWaypoint 0 false))

/-- An idle manager with vehicle 1 attached and three editable items, none current. -/
def threeItems : Manager :=
  mkManager true 1 [] [mkWaypoint 0 false, mkWaypoint 1 false, mkWaypoint 2 false]

/-- The guard under which `handleWaypointCount` accepts a COUNT. -/
def countAccepted (systemId : Nat) (m : Manager) : Prop :=
  m.current_state = WaypointState.WP_GETLIST ∧ systemId = m.current_partner_systemid

/-- The conditions under which `handleWaypoint` takes its "all waypoints retrieved"
branch for the item `wp`: the item is accepted and the incremented `current_wp_id` is
not below `current_count`. -/
def completesDownload (systemId : Nat) (wp : MissionItemInt) (m : Manager) : Prop :=
  systemId = m.current_partner_systemid
    ∧ m.current_state = WaypointState.WP_GETLIST_GETWPS
    ∧ wp.seq = m.current_wp_id
    ∧ ¬ ((m.current_wp_id + 1) % 65536 < m.current_count)

/-- Invariant of the manager: while it waits for the count of a download, the
view-only list is empty. -/
def AwaitingCountInv (m : Manager) : Prop :=
  m.current_state = WaypointState.WP_GETLIST → m.waypointsViewOnly = []

/-- Invariant of a download after its COUNT(N) was accepted: the manager is idle, or
it fetches items, `current_count` is N, `current_wp_id` is below N and (for N in the
16-bit range) the view-only list holds the items `0 .. current_wp_id - 1` in order. -/
def FetchingInv (N : Nat) (m : Manager) : Prop :=
  m.current_state = WaypointState.WP_IDLE
    ∨ (m.current_state = WaypointState.WP_GETLIST_GETWPS
        ∧ m.current_count = N
        ∧ m.current_wp_id < N
        ∧ (N < 65536 →
            m.waypointsViewOnly.map (fun w => w.id) = List.range m.current_wp_id))

/-- An idle manager with vehicle 1 attached whose view-only list still holds one item
of an earlier download. -/
def staleManager : Manager :=
  mkManager true 1 [mkWaypoint 7 true] []

/-- The sequence number carried by an item message; none for every other message. -/
def itemSeq : Msg → Option Nat
  | Msg.MISSION_ITEM_INT wp => some wp.seq
  | Msg.MISSION_ITEM wp => some wp.seq
  | _ => none

/-- The sequence numbers of the item messages of a trace, in the order of sending. -/
def itemSeqs (l : List Msg) : List Nat :=
  l.filterMap itemSeq

/-- The conditions under which `handleWaypointAck` takes its "all waypoints sent and ack
received" branch. -/
def ackCompletesUpload (systemId compId type : Nat) (m : Manager) : Prop :=
  (systemId = m.current_partner_systemid
    ∧ (compId = m.current_partner_compid ∨ compId = m.MAV_COMP_ID_PRIMARY))
  ∧ (m.current_state = WaypointState.WP_SENDLIST
      ∨ m.current_state = WaypointState.WP_SENDLIST_SENDWPSINT
      ∨ m.current_state = WaypointState.WP_SENDLIST_SENDWPSFLOAT)
  ∧ (m.current_wp_id : Int) = (m.waypoint_buffer.length : Int) - 1 ∧ type = 0

/-- The shape of the item numbers sent during an upload: the first is 0 and each
further one repeats the previous number or is its successor; `t` is the last one. -/
inductive Stair : List Nat → Nat → Prop where
  | first : Stair [0] 0
  | again {l : List Nat} {t : Nat} : Stair l t → Stair (l ++ [t]) t
  | next {l : List Nat} {t : Nat} : Stair l t → Stair (l ++ [t + 1]) (t + 1)

/-- The facts about an upload started from `m0` that hold as long as it runs; `outs`
are the messages sent since `writeWaypoints`.  A vehicle is attached; the ids stamped
into sent items are those of `m0`; the buffer has the sequence numbers `0 .. N-1` and
differs from the buffer filled by `writeWaypoints` at most by stamped target ids; every
item message sent is the integer or float form of the stamped buffer entry with its
sequence number. -/
def UploadCore (m0 m : Manager) (outs : List Msg) : Prop :=
  m.uas = true
  ∧ (m.uasid = m0.uasid ∧ m.m_waypointComponentID = m0.m_waypointComponentID)
  ∧ m.waypoint_buffer.map (fun d => d.seq) = List.range m0.waypointsEditable.length
  ∧ m.waypoint_buffer.map (stampTarget m0)
      = (writeWaypoints m0).waypoint_buffer.map (stampTarget m0)
  ∧ m.sent = m0.sent ++ outs
  ∧ ∀ msg, msg ∈ outs → ∀ i, itemSeq msg = some i →
      ∃ wp0, (writeWaypoints m0).waypoint_buffer[i]? = some wp0
        ∧ (msg = Msg.MISSION_ITEM_INT (stampTarget m0 wp0)
          ∨ msg = Msg.MISSION_ITEM (convertMavlinkMissionItem (stampTarget m0 wp0)))

/-- Invariant of an upload started from `m0` with a vehicle attached: in SENDLIST no
item was sent yet and `current_wp_id` is 0; in the two SENDLIST_SENDWPS states the
numbers of the items sent so far form a stair that ends at `current_wp_id`; or the
manager has left the upload (IDLE, or the download that follows it). -/
def UploadInv (m0 m : Manager) : Prop :=
  (m.current_state = WaypointState.WP_SENDLIST
      ∧ m.current_wp_id = 0
      ∧ ∃ outs, UploadCore m0 m outs ∧ itemSeqs outs = [])
  ∨ ((m.current_state = WaypointState.WP_SENDLIST_SENDWPSINT
        ∨ m.current_state = WaypointState.WP_SENDLIST_SENDWPSFLOAT)
      ∧ ∃ outs, UploadCore m0 m outs ∧ Stair (itemSeqs outs) m.current_wp_id)
  ∨ (m.current_state = WaypointState.WP_IDLE
      ∨ m.current_state = WaypointState.WP_GETLIST
      ∨ m.current_state = WaypointState.WP_GETLIST_GETWPS)

/-- The events of a complete upload of three items: the three requests (the last in
the float form) with one timeout after item 1. -/
def threeItemsEvents : List Event :=
  [Event.requestInt 1 0 0, Event.requestInt 1 0 1, Event.timeout, Event.request 1 0 2]

/-- An idle manager whose editable list holds 65537 items. -/
def oversizedManager2 : Manager :=
  mkManager true 1 [] (List.replicate 65537 (mkWaypoint 0 false))

/-! ### Editing the editable list -/

/-- MAVLink frame `MAV_FRAME_GLOBAL` (the MAVLink header is not among the sources). -/
def MAV_FRAME_GLOBAL : Nat := 0

/-- MAVLink frame `MAV_FRAME_LOCAL_NED`. -/
def MAV_FRAME_LOCAL_NED : Nat := 1

/-- MAVLink frame `MAV_FRAME_MISSION`. -/
def MAV_FRAME_MISSION : Nat := 2

/-- MAVLink frame `MAV_FRAME_GLOBAL_RELATIVE_ALT`. -/
def MAV_FRAME_GLOBAL_RELATIVE_ALT : Nat := 3

/-- MAVLink frame `MAV_FRAME_LOCAL_ENU`. -/
def MAV_FRAME_LOCAL_ENU : Nat := 4

/-- MAVLink command `MAV_CMD_NAV_WAYPOINT`. -/
def MAV_CMD_NAV_WAYPOINT : Nat := 16

/-- Modelled from the spec: the default constructor `new Waypoint()` of the `Waypoint`
class, which is not among the sources: all numbers zero, autocontinue set, not current,
global frame, navigation command. -/
def newWaypoint (ptr : Nat) : Waypoint :=
  { ptr := ptr, id := 0, x := 0, y := 0, z := 0, param1 := 0, param2 := 0, param3 := 0,
    param4 := 0, autocontinue := true, current := false, frame := MAV_FRAME_GLOBAL,
    action := MAV_CMD_NAV_WAYPOINT }

/-- Modelled from the spec: `Waypoint::getAltitude`, the z coordinate. -/
def Waypoint.getAltitude (w : Waypoint) : ℚ := w.z

/-- Modelled from the spec: `Waypoint::getAcceptanceRadius`, derived from the second
command parameter. -/
def Waypoint.getAcceptanceRadius (w : Waypoint) : ℚ := w.param2

/-- Source function `getFrameRecommendation`. -/
def getFrameRecommendation (m : Manager) : Nat :=
  if m.uas = false then
    if m.waypointsEditable.length = 0 then MAV_FRAME_GLOBAL
    else if m.waypointsEditable.length > 1 then
      match m.waypointsEditable.getLast? with
      | some w => w.frame
      | none => MAV_FRAME_GLOBAL_RELATIVE_ALT
    else MAV_FRAME_GLOBAL_RELATIVE_ALT
  else if m.waypointsEditable.length > 1 then
    match m.waypointsEditable.getLast? with
    | some w => w.frame
    | none => MAV_FRAME_GLOBAL_RELATIVE_ALT
  else MAV_FRAME_GLOBAL_RELATIVE_ALT

/-- Source function `getAltitudeRecommendation`. -/
def getAltitudeRecommendation (frame : Nat) (m : Manager) : ℚ :=
  if frame = MAV_FRAME_GLOBAL then
    if m.waypointsEditable.length = 1 then
      match m.waypointsEditable.getLast? with
      | some w => w.getAltitude + m.m_defaultRelativeAlt
      | none => 0
    else if m.waypointsEditable.length > 1 then
      match m.waypointsEditable.getLast? with
      | some w => w.getAltitude
      | none => 0
    else 0
  else
    if m.waypointsEditable.length = 1 then m.m_defaultRelativeAlt
    else if m.waypointsEditable.length > 1 then
      match m.waypointsEditable.getLast? with
      | some w => w.getAltitude
      | none => 0
    else 0

/-- Source function `getAcceptanceRadiusRecommendation`. -/
def getAcceptanceRadiusRecommendation (m : Manager) : ℚ :=
  if m.waypointsEditable.length > 0 then
    match m.waypointsEditable.getLast? with
    | some w => w.getAcceptanceRadius
    | none => m.m_defaultAcceptanceRadius
  else m.m_defaultAcceptanceRadius

/-- Source function `createWaypoint`; the first component is the returned waypoint. -/
def createWaypoint (enforceFirstActive : Bool) (m : Manager) : Waypoint × Manager :=
  let wp0 : Waypoint := newWaypoint m.heap_next
  let m1 : Manager := { m with heap_next := m.heap_next + 1 }
  let wp1 : Waypoint := { wp0 with id := m1.waypointsEditable.length % 65536 }
  let wp2 : Waypoint := { wp1 with frame := getFrameRecommendation m1 }
  let wp3 : Waypoint := { wp2 with z := getAltitudeRecommendation wp2.frame m1 }
  let wp4 : Waypoint := { wp3 with param2 := getAcceptanceRadiusRecommendation m1 }
  if enforceFirstActive = true ∧ m1.waypointsEditable.length = 0 then
    let wp5 : Waypoint := { wp4 with current := true }
    (wp5, { m1 with
            currentWaypointEditable := some wp5.ptr
            waypointsEditable := m1.waypointsEditable ++ [wp5] })
  else
    (wp4, { m1 with waypointsEditable := m1.waypointsEditable ++ [wp4] })

/-- The statement `waypointsEditable[i]->setCurrent(true)`. -/
def setCurrentAt : Nat → List Waypoint → List Waypoint
  | _, [] => []
  | 0, w :: ws => { w with current := true } :: ws
  | i + 1, w :: ws => w :: setCurrentAt i ws

/-- The loop `for (int i = seq; i < count; i++) waypointsEditable[i]->setId(i)` of
`removeWaypoint`; the second argument is the index of the head of the list. -/
def restampFrom (seq : Nat) : Nat → List Waypoint → List Waypoint
  | _, [] => []
  | i, w :: ws =>
    (if seq ≤ i then { w with id := i % 65536 } else w) :: restampFrom seq (i + 1) ws

/-- Source function `removeWaypoint`; the first component is the returned `int`.
The comparison `seq-1 >= 0` is made on `int`. -/
def removeWaypoint (seq : Nat) (m : Manager) : Int × Manager :=
  if h : seq < m.waypointsEditable.length then
    let t : Waypoint := m.waypointsEditable[seq]
    let ws1 : List Waypoint :=
      if t.current = true then
        if seq + 1 < m.waypointsEditable.length then setCurrentAt (seq + 1) m.waypointsEditable
        else if (seq : Int) - 1 ≥ 0 then setCurrentAt (seq - 1) m.waypointsEditable
        else m.waypointsEditable
      else m.waypointsEditable
    let ws2 : List Waypoint := ws1.eraseIdx seq
    let ws3 : List Waypoint := restampFrom seq 0 ws2
    (0, { m with
          waypointsEditable := ws3
          currentWaypointEditable := onDelete [t] m.currentWaypointEditable })
  else (-1, m)

/-- The two statements `waypointsEditable[i] = waypointsEditable[j];
waypointsEditable[i]->setId(i)` of the loops of `moveWaypoint`.  In the source slot `j`
then holds the same object; it is overwritten by the next iteration or by the final
assignment of the moved item, so its content is never read again. -/
def assignSlot (ws : List Waypoint) (i j : Nat) : List Waypoint :=
  match ws[j]? with
  | some w => ws.set i { w with id := i % 65536 }
  | none => ws

/-- The loop `for (int i = cur_seq; i < new_seq; i++)` of `moveWaypoint`: the first
argument counts the remaining iterations, the second is `i`. -/
def moveUp : Nat → Nat → List Waypoint → List Waypoint
  | 0, _, ws => ws
  | n + 1, i, ws => moveUp n (i + 1) (assignSlot ws i (i + 1))

/-- The loop `for (int i = cur_seq; i > new_seq; i--)` of `moveWaypoint`: the first
argument counts the remaining iterations, the second is `i`. -/
def moveDown : Nat → Nat → List Waypoint → List Waypoint
  | 0, _, ws => ws
  | n + 1, i, ws => moveDown n (i - 1) (assignSlot ws i (i - 1))

/-- Source function `moveWaypoint`. -/
def moveWaypoint (cur_seq new_seq : Nat) (m : Manager) : Manager :=
  if h : cur_seq ≠ new_seq ∧ cur_seq < m.waypointsEditable.length
      ∧ new_seq < m.waypointsEditable.length then
    let t : Waypoint := m.waypointsEditable[cur_seq]
    let ws1 : List Waypoint :=
      if cur_seq < new_seq then moveUp (new_seq - cur_seq) cur_seq m.waypointsEditable
      else moveDown (cur_seq - new_seq) cur_seq m.waypointsEditable
    { m with waypointsEditable := ws1.set new_seq { t with id := new_seq % 65536 } }
  else m

/-- Source function `setCurrentEditable`; the first component is the returned `int`. -/
def setCurrentEditable (seq : Nat) (m : Manager) : Int × Manager :=
  if seq < m.waypointsEditable.length then
    if m.current_state = WaypointState.WP_IDLE then
      (0, { m with waypointsEditable := markCurrent seq m.waypointsEditable })
    else (-1, m)
  else (-1, m)

/-- Modelled from the spec: what `loadWaypoints` reads from a file it could open.
`header` is `in.readLine().split(" ")`; `items` are the results of the successive calls
`t->load(in)` until the end of the file, `some w` for a line that `Waypoint::load`
(not among the sources) accepts with the loaded values `w`, `none` for a line it
rejects. -/
structure WaypointFile where
  header : List String
  items : List (Option Waypoint)

/-- The value of a string of decimal digits, continuing from `acc`; `none` when a
character is not a digit. -/
def digitsValue : List Char → Nat → Option Nat
  | [], acc => some acc
  | c :: cs, acc =>
    if c.isDigit = true then digitsValue cs (acc * 10 + (c.toNat - 48)) else none

/-- The Qt library conversion `QString::toInt` in base 10: the number read from decimal
digits with an optional sign, and 0 when the text is not such a number or the number is
outside the 32-bit range. -/
def toInt (s : String) : Int :=
  match s.data with
  | [] => 0
  | '-' :: cs =>
    if cs = [] then 0
    else
      match digitsValue cs 0 with
      | some n => if n ≤ 2147483648 then - (n : Int) else 0
      | none => 0
  | '+' :: cs =>
    if cs = [] then 0
    else
      match digitsValue cs 0 with
      | some n => if n ≤ 2147483647 then (n : Int) else 0
      | none => 0
  | cs =>
    match digitsValue cs 0 with
    | some n => if n ≤ 2147483647 then (n : Int) else 0
    | none => 0

/-- The `while (!in.atEnd())` loop of `loadWaypoints`. -/
def loadItems : List (Option Waypoint) → Manager → Manager
  | [], m => m
  | none :: _, m => { m with heap_next := m.heap_next + 1 }
  | some w :: rest, m =>
    loadItems rest
      { m with
        heap_next := m.heap_next + 1
        waypointsEditable := m.waypointsEditable ++
          [{ w with ptr := m.heap_next, id := m.waypointsEditable.length % 65536 }] }

/-- Source function `loadWaypoints`.  The argument is `none` when the file cannot be
opened.  The result is `none` when the source reads `version[2]` outside the list. -/
def loadWaypoints (file : Option WaypointFile) (m : Manager) : Option Manager :=
  match file with
  | none => some m
  | some f =>
    let m1 : Manager :=
      { m with
        currentWaypointEditable := onDelete m.waypointsEditable m.currentWaypointEditable
        waypointsEditable := [] }
    if f.header.length < 2 then some m1
    else
      match f.header[2]? with
      | none => none
      | some v2 =>
        let versionInt : Int := toInt v2
        if ¬ (f.header.length = 3 ∧ f.header[0]? = some "QGC" ∧ f.header[1]? = some "WPL"
            ∧ versionInt ≥ 110) then some m1
        else some (loadItems f.items m1)

/-- Every item of the list has its index as sequence number. -/
def SeqIsIndex (ws : List Waypoint) : Prop :=
  ws.map (fun w => w.id) = List.range ws.length

/-- At most one item of the list is flagged current. -/
def AtMostOneCurrent (ws : List Waypoint) : Prop :=
  ws.countP (fun w => w.current) ≤ 1

/-- Whether the event is a COUNT that `handleWaypointCount` accepts in the manager `m`. -/
def acceptsCount (m : Manager) : Event → Bool
  | Event.count s _ _ =>
    decide (m.current_state = WaypointState.WP_GETLIST ∧ s = m.current_partner_systemid)
  | _ => false

/-- No event of the sequence is a COUNT that is accepted at the moment it arrives. -/
def noAcceptedCount : Manager → List Event → Bool
  | _, [] => true
  | m, ev :: rest => !acceptsCount m ev && noAcceptedCount (step m ev) rest

/-- Events after which a download that never gets its count has run out of retries:
a timeout, messages that are dropped, five more timeouts, and a late COUNT. -/
def countlessEvents : List Event :=
  [Event.timeout, Event.item 1 0 (mkItem 0 0), Event.ack 1 0 0, Event.count 9 0 2,
   Event.timeout, Event.timeout, Event.timeout, Event.timeout, Event.timeout,
   Event.count 1 0 2]

/-- An idle manager with vehicle 1 attached and an empty editable list. -/
def emptyManager : Manager :=
  mkManager true 1 [] []

/-- A set-current transfer for item 0 of a view-only list of one item, which is
flagged current, waiting for the CURRENT notification. -/
def awaitingCurrent : Manager :=
  (setCurrentWaypoint 0 idleManager).2

/-- An idle manager with vehicle 1 attached and three editable items; the middle one
is current. -/
def middleCurrent : Manager :=
  mkManager true 1 [] [mkWaypoint 0 false, mkWaypoint 1 true, mkWaypoint 2 false]

/-- An editable list of 65536 items whose ids are their positions. -/
def fullList : List Waypoint :=
  (List.range 65536).map (fun i => mkWaypoint i false)

/-- An idle manager with vehicle 1 attached whose editable list holds 65536 items with
the ids 0 .. 65535 in order. -/
def fullManager : Manager :=
  mkManager true 1 [] fullList

/-- A download from vehicle 1 with two items announced; the first item has arrived and
is flagged current, the second is due. -/
def secondItemDue : Manager :=
  run (readWaypoints false emptyManager) [Event.count 1 0 2, Event.item 1 0 (mkItem 0 1)]

/-- The manager `fullManager` after one more `addWaypointEditable`: 65537 editable
items, none current, the last with the sequence number 0 like the first. -/
def wrappedManager : Manager :=
  addWaypointEditable (mkWaypoint 7 false) false fullManager

/-- The current-editable reference is empty or designates an item of the editable
list. -/
def refValid (m : Manager) : Bool :=
  match m.currentWaypointEditable with
  | none => true
  | some p => m.waypointsEditable.any (fun w => w.ptr == p)

/-- An idle manager with vehicle 1 attached and three editable items; the reference
designates the middle one, which is current. -/
def middleDesignated : Manager :=
  { middleCurrent with currentWaypointEditable := some 1 }

/-- A download into the editable list, started by `middleDesignated`, that waits for
the count. -/
def awaitingCountToEdit : Manager :=
  readWaypoints true middleDesignated

/-- A waypoint file with a valid header and two items. -/
def twoItemFile : WaypointFile :=
  { header := ["QGC", "WPL", "110"]
    items := [some (mkWaypoint 5 true), some (mkWaypoint 6 false)] }

/-! ### Queries on the editable list -/

/-- Source function `getWaypoint`.  The result `none` stands for the read
`waypointsEditable[index]` at an index outside the list, which `QList` does not define;
`some none` is the returned `NULL`, `some (some w)` the returned item. -/
def getWaypoint (index : Int) (m : Manager) : Option (Option Waypoint) :=
  if index > 0 ∨ index < (m.waypointsEditable.length : Int) then
    if 0 ≤ index then
      match m.waypointsEditable[index.toNat]? with
      | some w => some (some w)
      | none => none
    else none
  else some none

/-- The methods `isGlobalFrame`, `isNavigationType` and `visibleOnMapWidget` of the
`Waypoint` class, which is not among the sources: they are parameters of the filtered
queries. -/
structure WaypointKinds where
  isGlobalFrame : Waypoint → Bool
  isNavigationType : Waypoint → Bool
  visibleOnMapWidget : Waypoint → Bool

/-- The `foreach` loop of `getGlobalFrameAndNavTypeWaypointList`. -/
def collectGlobalFrameAndNavType (K : WaypointKinds) (onlypath : Bool) :
    List Waypoint → List Waypoint
  | [] => []
  | wp :: rest =>
    if K.isGlobalFrame wp = true
        ∧ (K.isNavigationType wp = true ∨ K.visibleOnMapWidget wp = true) then
      if K.visibleOnMapWidget wp = true ∧ onlypath = true then
        collectGlobalFrameAndNavType K onlypath rest
      else wp :: collectGlobalFrameAndNavType K onlypath rest
    else collectGlobalFrameAndNavType K onlypath rest

/-- Source function `getGlobalFrameAndNavTypeWaypointList`. -/
def getGlobalFrameAndNavTypeWaypointList (K : WaypointKinds) (onlypath : Bool)
    (m : Manager) : List Waypoint :=
  collectGlobalFrameAndNavType K onlypath m.waypointsEditable

/-- The `foreach` loop of `getGlobalFrameAndNavTypeIndexOf`: `wp` is the address
searched for, `i` the counter. -/
def searchGlobalFrameAndNavType (K : WaypointKinds) (wp : Nat) : List Waypoint → Int → Int
  | [], _ => -1
  | p :: rest, i =>
    if K.isGlobalFrame p = true ∧ K.isNavigationType p = true then
      if p.ptr = wp then i
      else searchGlobalFrameAndNavType K wp rest (i + 1)
    else searchGlobalFrameAndNavType K wp rest i

/-- Source function `getGlobalFrameAndNavTypeIndexOf`; the argument is the address of
the waypoint. -/
def getGlobalFrameAndNavTypeIndexOf (K : WaypointKinds) (wp : Nat) (m : Manager) : Int :=
  searchGlobalFrameAndNavType K wp m.waypointsEditable 0

/-- The `foreach` loop of `getGlobalFrameAndNavTypeCount`. -/
def countGlobalFrameAndNavType (K : WaypointKinds) : List Waypoint → Int → Int
  | [], i => i
  | p :: rest, i =>
    if K.isGlobalFrame p = true ∧ K.isNavigationType p = true then
      countGlobalFrameAndNavType K rest (i + 1)
    else countGlobalFrameAndNavType K rest i

/-- Source function `getGlobalFrameAndNavTypeCount`. -/
def getGlobalFrameAndNavTypeCount (K : WaypointKinds) (m : Manager) : Int :=
  countGlobalFrameAndNavType K m.waypointsEditable 0

/-- MAVLink command `MAV_CMD_DO_SET_ROI` (the MAVLink header is not among the sources). -/
def MAV_CMD_DO_SET_ROI : Nat := 201

/-- MAVLink command bound `MAV_CMD_NAV_LAST`. -/
def MAV_CMD_NAV_LAST : Nat := 95

/-- One choice of the three `Waypoint` methods: the global frames are `GLOBAL` and
`GLOBAL_RELATIVE_ALT`, the navigation commands are those below `MAV_CMD_NAV_LAST`, and
a region of interest is shown on the map without being part of the path. -/
def mapKinds : WaypointKinds :=
  { isGlobalFrame := fun w =>
      decide (w.frame = MAV_FRAME_GLOBAL ∨ w.frame = MAV_FRAME_GLOBAL_RELATIVE_ALT)
    isNavigationType := fun w => decide (w.action < MAV_CMD_NAV_LAST)
    visibleOnMapWidget := fun w => decide (w.action = MAV_CMD_DO_SET_ROI) }

/-- An idle manager with vehicle 1 attached and three editable items in a global
frame: a waypoint, a region of interest and a second waypoint. -/
def roiManager : Manager :=
  mkManager true 1 []
    [mkWaypoint 0 false, { mkWaypoint 1 false with action := MAV_CMD_DO_SET_ROI },
     mkWaypoint 2 false]

/-- A file whose first line has two words, neither of them the expected one, followed
by one item line. -/
def twoWordFile : WaypointFile :=
  { header := ["FOO", "BAR"]
    items := [some (mkWaypoint 0 false)] }

/-- A file whose first line is `QGC WPL`, without a version, followed by one item
line. -/
def versionlessFile : WaypointFile :=
  { header := ["QGC", "WPL"]
    items := [some (mkWaypoint 0 false)] }

/-- A file with the version 100, followed by one item line. -/
def oldVersionFile : WaypointFile :=
  { header := ["QGC", "WPL", "100"]
    items := [some (mkWaypoint 0 false)] }

/-- A file whose first line is the single word `QGC`. -/
def oneWordFile : WaypointFile :=
  { header := ["QGC"]
    items := [some (mkWaypoint 0 false)] }

/-- The editable items that are in a global frame and of navigation type, in list
order: the enumeration that the names of the three queries describe. -/
def globalNavItems (K : WaypointKinds) (m : Manager) : List Waypoint :=
  m.waypointsEditable.filter (fun w => K.isGlobalFrame w && K.isNavigationType w)

/-- An idle manager with vehicle 1 attached and one editable item in the frame
LOCAL_NED at x = 3, y = 4. -/
def localManager : Manager :=
  mkManager true 1 [] [{ mkWaypoint 0 true with frame := MAV_FRAME_LOCAL_NED, x := 3, y := 4 }]

/-- An inbound item in the frame LOCAL_NED with the wire values x = 30000000,
y = 40000000. -/
def localItem : MissionItemInt :=
  { mkItem 0 1 with frame := MAV_FRAME_LOCAL_NED, x := 30000000, y := 40000000 }

/-- An inbound item with the given wire values of x and y. -/
def wireItem (x y : Int) : MissionItemInt :=
  { mkItem 0 1 with x := x, y := y }

/-- A download of one item from vehicle 1 that waits for the item. -/
def firstItemDue : Manager :=
  run (readWaypoints false emptyManager) [Event.count 1 0 1]

/-- The list obtained by removing the item at index `c` and inserting it again at
index `n`. -/
def removeAndInsert (c n : Nat) (ws : List Waypoint) : List Waypoint :=
  match ws[c]? with
  | some t => (ws.eraseIdx c).insertIdx n t
  | none => ws

/-! ### Reachable states -/

/-- What drives the manager: the events (timer expiry and inbound messages) and the
calls of its public functions that write members.  The remaining public functions
(the queries, `saveWaypoints`, `goToWaypoint`, `setDefaultRelAltitude` and the position
handlers) write neither `current_state` nor the timer. -/
inductive Action where
  | event (ev : Event)
  | readWaypoints (readToEdit : Bool)
  | writeWaypoints
  | clearWaypointList
  | setCurrentWaypoint (seq : Nat)
  | setCurrentEditable (seq : Nat)
  | addWaypointEditable (wp : Waypoint) (enforceFirstActive : Bool)
  | createWaypoint (enforceFirstActive : Bool)
  | removeWaypoint (seq : Nat)
  | moveWaypoint (cur_seq new_seq : Nat)
  | loadWaypoints (file : Option WaypointFile)

/-- The manager after one action; `none` when `loadWaypoints` reads outside the header. -/
def perform (m : Manager) : Action → Option Manager
  | Action.event ev => some (step m ev)
  | Action.readWaypoints readToEdit => some (readWaypoints readToEdit m)
  | Action.writeWaypoints => some (writeWaypoints m)
  | Action.clearWaypointList => some (clearWaypointList m)
  | Action.setCurrentWaypoint seq => some (setCurrentWaypoint seq m).2
  | Action.setCurrentEditable seq => some (setCurrentEditable seq m).2
  | Action.addWaypointEditable wp enforceFirstActive =>
    some (addWaypointEditable wp enforceFirstActive m)
  | Action.createWaypoint enforceFirstActive => some (createWaypoint enforceFirstActive m).2
  | Action.removeWaypoint seq => some (removeWaypoint seq m).2
  | Action.moveWaypoint cur_seq new_seq => some (moveWaypoint cur_seq new_seq m)
  | Action.loadWaypoints file => loadWaypoints file m

/-- The manager after a sequence of actions. -/
def performAll : Manager → List Action → Option Manager
  | m, [] => some m
  | m, a :: rest =>
    match perform m a with
    | some m1 => performAll m1 rest
    | none => none

/-- The timer runs exactly in the states other than IDLE. -/
def TimerInv (m : Manager) : Prop :=
  m.protocol_timer = true ↔ m.current_state ≠ WaypointState.WP_IDLE

/-- An upload of two items with its answers, a load, an edit and a timed-out clear. -/
def busyDay : List Action :=
  [Action.createWaypoint true, Action.createWaypoint false, Action.writeWaypoints,
   Action.event (Event.requestInt 1 0 0), Action.event Event.timeout,
   Action.event (Event.requestInt 1 0 1), Action.event (Event.ack 1 190 0),
   Action.event (Event.count 1 190 0), Action.loadWaypoints (some twoItemFile),
   Action.moveWaypoint 0 1, Action.clearWaypointList,
   Action.event Event.timeout, Action.event Event.timeout, Action.event Event.timeout,
   Action.event Event.timeout, Action.event Event.timeout, Action.event Event.timeout]

/-! ### Download into the editable list -/

/-- The waypoint without its address: two waypoints are field-equal if they agree
after this. -/
def withoutAddress (w : Waypoint) : Waypoint :=
  { w with ptr := 0 }

/-- The item that `handleWaypoint` accepts when the event is an ITEM it accepts. -/
def acceptedItem (m : Manager) : Event → List MissionItemInt
  | Event.item s _ wp =>
    if s = m.current_partner_systemid ∧ m.current_state = WaypointState.WP_GETLIST_GETWPS
        ∧ wp.seq = m.current_wp_id then [wp]
    else []
  | _ => []

/-- The reference designates the editable copy of the last received item whose
`current` field is 1, if there is one. -/
def ReferenceFollows (R : List MissionItemInt) (m : Manager) : Prop :=
  ∀ (i : Nat) (it : MissionItemInt), R[i]? = some it → it.current = 1 →
    (∀ (j : Nat) (it2 : MissionItemInt), i < j → R[j]? = some it2 → it2.current ≠ 1) →
    m.currentWaypointEditable = (m.waypointsEditable[i]?).map (fun w => w.ptr)

/-- Invariant of a download started with read-to-edit while it waits for the count. -/
def AwaitingCountToEditInv (m : Manager) : Prop :=
  (m.current_state = WaypointState.WP_GETLIST ∧ m.read_to_edit = true
      ∧ m.waypointsViewOnly = [])
    ∨ m.current_state = WaypointState.WP_GETLIST_GETWPS
    ∨ m.current_state = WaypointState.WP_IDLE

/-- Invariant of a download into the editable list after its COUNT(N) was accepted,
with `R` the items received so far: the manager is idle, or it fetches items with
read-to-edit set and (for N in the 16-bit range) both lists hold the items of `R`, with
the sequence numbers `0 .. current_wp_id - 1`, and the reference follows `R`. -/
def MirrorInv (N : Nat) (R : List MissionItemInt) (m : Manager) : Prop :=
  m.current_state = WaypointState.WP_IDLE
    ∨ (m.current_state = WaypointState.WP_GETLIST_GETWPS
        ∧ m.read_to_edit = true
        ∧ m.current_count = N
        ∧ m.current_wp_id < N
        ∧ (N < 65536 →
            R.length = m.current_wp_id
            ∧ R.map (fun it => it.seq) = List.range R.length
            ∧ m.waypointsViewOnly.map withoutAddress
                = R.map (fun it => withoutAddress (newWaypointFromItem 0 it))
            ∧ m.waypointsEditable.map withoutAddress
                = R.map (fun it => withoutAddress (newWaypointFromItem 0 it))
            ∧ ReferenceFollows R m))

/-- What can happen while a transfer is in progress without a local edit: a timer
expiry or an inbound message, or a call that the manager refuses because of the transfer
(`readWaypoints(true)`, `writeWaypoints`, `clearWaypointList`, `setCurrentWaypoint` and
`setCurrentEditable`, made in a state other than IDLE). -/
def allowedDuring (m : Manager) : Action → Bool
  | Action.event _ => true
  | Action.readWaypoints readToEdit =>
    readToEdit && decide (m.current_state ≠ WaypointState.WP_IDLE)
  | Action.writeWaypoints => decide (m.current_state ≠ WaypointState.WP_IDLE)
  | Action.clearWaypointList => decide (m.current_state ≠ WaypointState.WP_IDLE)
  | Action.setCurrentWaypoint _ => decide (m.current_state ≠ WaypointState.WP_IDLE)
  | Action.setCurrentEditable _ => decide (m.current_state ≠ WaypointState.WP_IDLE)
  | Action.addWaypointEditable _ _ => false
  | Action.createWaypoint _ => false
  | Action.removeWaypoint _ => false
  | Action.moveWaypoint _ _ => false
  | Action.loadWaypoints _ => false

/-- The manager after a sequence of actions each of which is allowed during a transfer
when it is made; `none` if one of them is not. -/
def during : Manager → List Action → Option Manager
  | m, [] => some m
  | m, a :: rest =>
    if allowedDuring m a = true then
      match perform m a with
      | some m1 => during m1 rest
      | none => none
    else none

/-- The item that `handleWaypoint` accepts when the action is an ITEM it accepts. -/
def acceptedBy (m : Manager) : Action → List MissionItemInt
  | Action.event ev => acceptedItem m ev
  | _ => []

/-- The items that `handleWaypoint` accepts during a sequence of actions, in order. -/
def acceptedDuring : Manager → List Action → List MissionItemInt
  | _, [] => []
  | m, a :: rest =>
    acceptedBy m a ++
      (match perform m a with
       | some m1 => acceptedDuring m1 rest
       | none => [])

/-- A download of two items into the editable list during which the caller adds an
item of its own: the call of `readWaypoints(true)`, COUNT(2), item 0, the call of
`addWaypointEditable`, item 1. -/
def editedDownload : List Action :=
  [Action.readWaypoints true, Action.event (Event.count 1 0 2),
   Action.event (Event.item 1 0 (mkItem 0 0)),
   Action.addWaypointEditable (mkWaypoint 7 false) false,
   Action.event (Event.item 1 0 (mkItem 1 1))]

/-- What follows the COUNT(2) in the download of the spec's scenario 2, with two calls
that the manager refuses: item 0, a call of `writeWaypoints` and a call of
`readWaypoints(true)`. -/
def quietDownload : List Action :=
  [Action.event (Event.item 1 0 (mkItem 0 0)), Action.writeWaypoints,
   Action.readWaypoints true]

/-! ### The upload buffer while items are sent -/

/-- The members that the item lookup of an upload depends on. -/
def uploadView (m : Manager) : WaypointState × Nat × Nat × List MissionItemInt :=
  (m.current_state, m.current_count, m.current_wp_id, m.waypoint_buffer)

/-- In the three upload states the buffer has `current_count` entries, and in the two
states in which items are sent `current_wp_id` is an index of the buffer. -/
def BufferInv (m : Manager) : Prop :=
  ((m.current_state = WaypointState.WP_SENDLIST
      ∨ m.current_state = WaypointState.WP_SENDLIST_SENDWPSINT
      ∨ m.current_state = WaypointState.WP_SENDLIST_SENDWPSFLOAT) →
    m.waypoint_buffer.length = m.current_count)
  ∧ ((m.current_state = WaypointState.WP_SENDLIST_SENDWPSINT
      ∨ m.current_state = WaypointState.WP_SENDLIST_SENDWPSFLOAT) →
    m.current_wp_id < m.waypoint_buffer.length)

/-- The item message that `sendWaypoint` sends for the buffer entry `wp0` in the
state of `m`. -/
def itemMsg (m : Manager) (wp0 : MissionItemInt) : Msg :=
  if m.current_state = WaypointState.WP_SENDLIST_SENDWPSINT then
    Msg.MISSION_ITEM_INT (stampTarget m wp0)
  else Msg.MISSION_ITEM (convertMavlinkMissionItem (stampTarget m wp0))

/-! ## Theorems -/

open WaypointState

/-- A list is never equal to itself with one more element. -/
theorem append_singleton_ne {α : Type} (l : List α) (a : α) : l ≠ l ++ [a] := by
  intro h
  have := congrArg List.length h
  simp at this

/-! ### Download: the sequence check of `handleWaypoint` -/

/-- Claim C2: in state GETLIST_GETWPS an ITEM from the partner system is accepted (the
received item is appended to the view-only list) if and only if its seq equals
`current_wp_id`; an ITEM with any other seq leaves the whole manager record unchanged:
state, `current_wp_id`, `current_count`, `current_retries`, both lists, and the trace of
sent messages. -/
theorem handleWaypoint_accepts_iff_expected_seq (m : Manager) (systemId compId : Nat)
    (wp : MissionItemInt) (hst : m.current_state = WP_GETLIST_GETWPS)
    (hp : systemId = m.current_partner_systemid) :
    ((handleWaypoint systemId compId wp m).waypointsViewOnly
        = m.waypointsViewOnly ++ [newWaypointFromItem m.heap_next wp]
      ↔ wp.seq = m.current_wp_id)
    ∧ (wp.seq ≠ m.current_wp_id → handleWaypoint systemId compId wp m = m) := by
  constructor
  · constructor
    · intro h
      by_contra hne
      simp [handleWaypoint, hst, hp, hne] at h
    · intro h
      by_cases hr : m.read_to_edit = true <;> by_cases hc : wp.current = 1 <;>
        by_cases hlt : (m.current_wp_id + 1) % 65536 < m.current_count <;>
        by_cases hu : m.uas = false <;>
        simp [handleWaypoint, hst, hp, h, addWaypointViewOnly, addWaypointEditable,
          sendWaypointRequest, sendWaypointAck, sendMessage, hr, hc, hlt, hu]
  · intro hne
    simp [handleWaypoint, hne]

/-- Witness for C2: the theorem applied to a download of two items that has received
item 0: item 1 is accepted, a second item 0 leaves the manager unchanged. -/
theorem handleWaypoint_accepts_iff_expected_seq_witness :
    busyDownload.current_state = WP_GETLIST_GETWPS
    ∧ 1 = busyDownload.current_partner_systemid
    ∧ (handleWaypoint 1 0 (mkItem 1 1) busyDownload).waypointsViewOnly
        = busyDownload.waypointsViewOnly ++ [newWaypointFromItem busyDownload.heap_next (mkItem 1 1)]
    ∧ handleWaypoint 1 0 (mkItem 0 0) busyDownload = busyDownload :=
  ⟨by decide, by decide,
   (handleWaypoint_accepts_iff_expected_seq busyDownload 1 0 (mkItem 1 1)
      (by decide) (by decide)).1.2 (by decide),
   (handleWaypoint_accepts_iff_expected_seq busyDownload 1 0 (mkItem 0 0)
      (by decide) (by decide)).2 (by decide)⟩

/-! ### Starting a transfer while one is active -/

/-- Claim C4: when `current_state` is not IDLE, `writeWaypoints`, `clearWaypointList` and
`setCurrentWaypoint seq` each leave the whole manager record unchanged (state, partner
ids, `current_wp_id`, `current_count`, `current_retries`, upload buffer, both lists, and
the trace of sent messages), and `setCurrentWaypoint` returns -1. -/
theorem transfer_rejected_when_busy (m : Manager) (seq : Nat)
    (hbusy : m.current_state ≠ WP_IDLE) :
    writeWaypoints m = m ∧ clearWaypointList m = m ∧ setCurrentWaypoint seq m = (-1, m) := by
  simp [writeWaypoints, clearWaypointList, setCurrentWaypoint, hbusy]

/-- Witness for C4: the theorem applied to a manager in the middle of a download. -/
theorem transfer_rejected_when_busy_witness :
    busyDownload.current_state ≠ WP_IDLE
    ∧ writeWaypoints busyDownload = busyDownload
    ∧ clearWaypointList busyDownload = busyDownload
    ∧ setCurrentWaypoint 0 busyDownload = (-1, busyDownload) :=
  ⟨by decide, transfer_rejected_when_busy busyDownload 0 (by decide)⟩

/-- While a transfer is active `readWaypoints r` changes exactly the `read_to_edit`
member: the assignment precedes the test of the state. -/
theorem readWaypoints_busy (m : Manager) (r : Bool) (hbusy : m.current_state ≠ WP_IDLE) :
    readWaypoints r m = { m with read_to_edit := r } := by
  simp [readWaypoints, hbusy]

/-- Claim C5, evaluated on the code: a download started with `readWaypoints false` is in
state GETLIST_GETWPS with item 0 of 2 received; a call `readWaypoints true` is not
started (the state stays GETLIST_GETWPS) but it does change the manager: `read_to_edit`
becomes true, so the next accepted item is also appended to the editable list, which
without the call would have kept its single item. -/
theorem readWaypoints_busy_overwrites_read_to_edit :
    busyDownload.current_state = WP_GETLIST_GETWPS
    ∧ busyDownload.read_to_edit = false
    ∧ (readWaypoints true busyDownload).current_state = WP_GETLIST_GETWPS
    ∧ (readWaypoints true busyDownload).read_to_edit = true
    ∧ readWaypoints true busyDownload ≠ busyDownload
    ∧ (run busyDownload [Event.item 1 0 (mkItem 1 1)]).waypointsEditable.map (fun w => w.id) = [0]
    ∧ (run (readWaypoints true busyDownload) [Event.item 1 0 (mkItem 1 1)]).waypointsEditable.map
        (fun w => w.id) = [0, 1] := by
  refine ⟨by decide, by decide, by decide, by decide, ?_, by decide, by decide⟩
  intro h
  have := congrArg Manager.read_to_edit h
  revert this
  decide

/-! ### Retry bound -/

/-- One timeout of a stalled transfer with retries left resends the opening message,
takes one retry and leaves the transfer stalled. -/
theorem stalled_timeout_retry (m : Manager) (msg : Msg) (n : Nat) (h : Stalled m msg)
    (hn : m.current_retries = n + 1) :
    Stalled (step m Event.timeout) msg ∧ (step m Event.timeout).current_retries = n
      ∧ (step m Event.timeout).sent = m.sent ++ [msg] := by
  obtain ⟨hu, ht, ho⟩ := h
  cases hst : m.current_state <;> simp [openingMsg, hst] at ho <;>
    simp [Stalled, openingMsg, step, timeout, ht, hn, hu, hst, sendWaypointRequestList,
      sendWaypointCount, sendWaypointClearAll, sendWaypointSetCurrent, sendMessage, ho]

/-- One timeout of a stalled transfer without retries left sends nothing and returns
to IDLE. -/
theorem stalled_timeout_abort (m : Manager) (msg : Msg) (h : Stalled m msg)
    (hn : m.current_retries = 0) :
    (step m Event.timeout).sent = m.sent ∧ (step m Event.timeout).current_state = WP_IDLE := by
  obtain ⟨hu, ht, ho⟩ := h
  simp [step, timeout, ht, hn, hu]

/-- After `k` timeouts, `k` not above the retries left, a stalled transfer has resent
its opening message `k` times. -/
theorem stalled_run_timeouts (k : Nat) : ∀ (m : Manager) (msg : Msg) (n : Nat), Stalled m msg →
    m.current_retries = n → k ≤ n →
    Stalled (run m (List.replicate k Event.timeout)) msg
      ∧ (run m (List.replicate k Event.timeout)).current_retries = n - k
      ∧ (run m (List.replicate k Event.timeout)).sent = m.sent ++ List.replicate k msg := by
  induction k with
  | zero => intro m msg n h hn _; simpa [run] using ⟨h, hn⟩
  | succ k ih =>
    intro m msg n h hn hk
    obtain ⟨n', rfl⟩ : ∃ n', n = n' + 1 := ⟨n - 1, by omega⟩
    obtain ⟨h1, h2, h3⟩ := stalled_timeout_retry m msg n' h hn
    obtain ⟨i1, i2, i3⟩ := ih (step m Event.timeout) msg n' h1 h2 (by omega)
    have hrun : run m (List.replicate (k + 1) Event.timeout)
        = run (step m Event.timeout) (List.replicate k Event.timeout) := by
      simp [run, List.replicate_succ]
    rw [hrun]
    refine ⟨i1, by omega, ?_⟩
    rw [i3, h3, List.replicate_succ]
    simp

/-- The retry bound for a transfer that has just sent its opening message. -/
theorem stalled_retry_bound (m0 : List Msg) (s : Manager) (msg : Msg) (h : Stalled s msg)
    (hr : s.current_retries = PROTOCOL_MAX_RETRIES) (hs : s.sent = m0 ++ [msg]) :
    (∀ k, k ≤ PROTOCOL_MAX_RETRIES →
        (run s (List.replicate k Event.timeout)).sent = m0 ++ List.replicate (k + 1) msg)
    ∧ (run s (List.replicate (PROTOCOL_MAX_RETRIES + 1) Event.timeout)).sent
        = m0 ++ List.replicate (PROTOCOL_MAX_RETRIES + 1) msg
    ∧ (run s (List.replicate (PROTOCOL_MAX_RETRIES + 1) Event.timeout)).current_state = WP_IDLE := by
  have key : ∀ k, k ≤ PROTOCOL_MAX_RETRIES →
      (run s (List.replicate k Event.timeout)).sent = m0 ++ List.replicate (k + 1) msg := by
    intro k hk
    obtain ⟨_, _, h3⟩ := stalled_run_timeouts k s msg _ h hr hk
    rw [h3, hs, List.replicate_succ]
    simp
  refine ⟨key, ?_⟩
  obtain ⟨h1, h2, h3⟩ := stalled_run_timeouts PROTOCOL_MAX_RETRIES s msg _ h hr (le_refl _)
  have hrun : run s (List.replicate (PROTOCOL_MAX_RETRIES + 1) Event.timeout)
      = step (run s (List.replicate PROTOCOL_MAX_RETRIES Event.timeout)) Event.timeout := by
    simp [run, List.replicate_succ', List.foldl_append]
  obtain ⟨a1, a2⟩ := stalled_timeout_abort _ msg h1 (by omega)
  rw [hrun, a1, a2, key _ (le_refl _)]
  exact ⟨rfl, rfl⟩

/-- Claim C3: let the manager be in state IDLE with a vehicle attached and let a transfer
be started by `readWaypoints`, by `writeWaypoints` on a non-empty editable list, by
`clearWaypointList` or by `setCurrentWaypoint seq` with `seq` below the view-only count
(the condition on the list belongs to the write and to the set-current only), and let
only timeouts follow.  Then after `k ≤ 5` timeouts exactly `k + 1` messages have been
sent since the start, all equal to the opening message of the transfer (REQUEST_LIST,
COUNT, CLEAR_ALL, SET_CURRENT seq); after the sixth timeout the trace still holds
exactly `PROTOCOL_MAX_RETRIES + 1 = 6` of them and the state is IDLE. -/
theorem retry_bound_of_stalled_transfer (m : Manager)
    (hidle : m.current_state = WP_IDLE) (huas : m.uas = true) :
    (∀ r, RetryBound m.sent (readWaypoints r m)
        (Msg.MISSION_REQUEST_LIST (m.uasid % 256) m.m_waypointComponentID))
    ∧ (0 < m.waypointsEditable.length →
        RetryBound m.sent (writeWaypoints m)
          (Msg.MISSION_COUNT (m.uasid % 256) m.m_waypointComponentID
            (m.waypointsEditable.length % 65536)))
    ∧ RetryBound m.sent (clearWaypointList m)
        (Msg.MISSION_CLEAR_ALL (m.uasid % 256) m.m_waypointComponentID)
    ∧ (∀ seq, seq < m.waypointsViewOnly.length →
        RetryBound m.sent (setCurrentWaypoint seq m).2
          (Msg.MISSION_SET_CURRENT (m.uasid % 256) m.m_waypointComponentID seq)) := by
  unfold RetryBound
  refine ⟨?_, ?_, ?_, ?_⟩
  · intro r
    apply stalled_retry_bound <;>
      simp [Stalled, openingMsg, readWaypoints, hidle, huas, sendWaypointRequestList, sendMessage]
  · intro hne
    apply stalled_retry_bound <;>
      simp [Stalled, openingMsg, writeWaypoints, hidle, huas, hne, sendWaypointCount, sendMessage]
  · apply stalled_retry_bound <;>
      simp [Stalled, openingMsg, clearWaypointList, hidle, huas, sendWaypointClearAll, sendMessage]
  · intro seq hseq
    apply stalled_retry_bound <;>
      simp [Stalled, openingMsg, setCurrentWaypoint, hidle, huas, hseq, sendWaypointSetCurrent,
        sendMessage]

/-- Witness for C3: the theorem applied to the manager left by the constructor for
vehicle 1, both lists empty, for the clear transfer (the spec's scenario 6): six
CLEAR_ALL in total, then IDLE. -/
theorem retry_bound_of_stalled_transfer_witness :
    emptyManager.current_state = WP_IDLE
    ∧ emptyManager.uas = true
    ∧ emptyManager.waypointsEditable = []
    ∧ emptyManager.waypointsViewOnly = []
    ∧ (run (clearWaypointList emptyManager)
          (List.replicate (PROTOCOL_MAX_RETRIES + 1) Event.timeout)).sent
        = emptyManager.sent ++ List.replicate (PROTOCOL_MAX_RETRIES + 1)
            (Msg.MISSION_CLEAR_ALL (emptyManager.uasid % 256) emptyManager.m_waypointComponentID)
    ∧ (run (clearWaypointList emptyManager)
          (List.replicate (PROTOCOL_MAX_RETRIES + 1) Event.timeout)).current_state = WP_IDLE :=
  ⟨by decide, by decide, rfl, rfl,
   ((retry_bound_of_stalled_transfer emptyManager (by decide) (by decide)).2.2.1).2⟩

/-! ### Upload: requests from the vehicle -/

/-- Claim C7: for a request `r` from the partner system with `r` below the buffer
count: if (state = SENDLIST and r = 0) or (state is SENDLIST_SENDWPSINT or
SENDLIST_SENDWPSFLOAT and (r = current_wp_id or r = current_wp_id + 1)) the request is
accepted: the state becomes SENDLIST_SENDWPSINT for an integer request and
SENDLIST_SENDWPSFLOAT for a float one, `current_wp_id` becomes r, `current_retries`
becomes 5 and the timer is restarted; the vehicle that delivered the request being
attached (`uas` is not NULL), exactly one message is sent, the buffered item r (with the
target ids stamped in) in the matching encoding, and the only other change is the
stamped buffer entry.  Otherwise the manager is unchanged. -/
theorem request_accepted_iff_in_window (m : Manager) (systemId compId r : Nat)
    (enc : MissionItemEncoding) (hp : systemId = m.current_partner_systemid)
    (hr : r < m.waypoint_buffer.length) :
    (((m.current_state = WP_SENDLIST ∧ r = 0)
        ∨ ((m.current_state = WP_SENDLIST_SENDWPSINT ∨ m.current_state = WP_SENDLIST_SENDWPSFLOAT)
            ∧ (r = m.current_wp_id ∨ r = m.current_wp_id + 1))) →
      (handleWaypointRequest systemId compId r enc m).current_state
          = (if enc = MissionItemEncoding.Int then WP_SENDLIST_SENDWPSINT
             else WP_SENDLIST_SENDWPSFLOAT)
      ∧ (handleWaypointRequest systemId compId r enc m).current_wp_id = r
      ∧ (handleWaypointRequest systemId compId r enc m).current_retries = 5
      ∧ (handleWaypointRequest systemId compId r enc m).protocol_timer = true
      ∧ (m.uas = true →
          handleWaypointRequest systemId compId r enc m =
            { m with
              protocol_timer := true
              current_retries := 5
              current_state :=
                if enc = MissionItemEncoding.Int then WP_SENDLIST_SENDWPSINT
                else WP_SENDLIST_SENDWPSFLOAT
              current_wp_id := r
              waypoint_buffer := m.waypoint_buffer.set r (stampTarget m m.waypoint_buffer[r])
              sent := m.sent ++
                [if enc = MissionItemEncoding.Int then
                   Msg.MISSION_ITEM_INT (stampTarget m m.waypoint_buffer[r])
                 else Msg.MISSION_ITEM
                   (convertMavlinkMissionItem (stampTarget m m.waypoint_buffer[r]))] }))
    ∧ (¬ ((m.current_state = WP_SENDLIST ∧ r = 0)
        ∨ ((m.current_state = WP_SENDLIST_SENDWPSINT ∨ m.current_state = WP_SENDLIST_SENDWPSFLOAT)
            ∧ (r = m.current_wp_id ∨ r = m.current_wp_id + 1))) →
      handleWaypointRequest systemId compId r enc m = m) := by
  constructor
  · intro hw
    have hwp0 : m.waypoint_buffer[r]? = some m.waypoint_buffer[r] :=
      List.getElem?_eq_getElem hr
    by_cases huas : m.uas = true
    · cases enc <;>
        simp [handleWaypointRequest, hp, hw, hr, sendWaypoint, huas, hwp0, sendMessage,
          PROTOCOL_MAX_RETRIES, stampTarget]
    · have hu : m.uas = false := by simpa using huas
      cases enc <;>
        simp [handleWaypointRequest, hp, hw, hr, sendWaypoint, hu, PROTOCOL_MAX_RETRIES]
  · intro hw
    simp [handleWaypointRequest, hw]

/-- Witness for C7: the theorem applied to an upload of one item to vehicle 1 that
waits in SENDLIST and is asked for item 0 in the float form. -/
theorem request_accepted_iff_in_window_witness :
    1 = onlineUpload.current_partner_systemid
    ∧ 0 < onlineUpload.waypoint_buffer.length
    ∧ onlineUpload.uas = true
    ∧ onlineUpload.current_state = WP_SENDLIST
    ∧ handleWaypointRequest 1 0 0 MissionItemEncoding.Float onlineUpload =
        { onlineUpload with
          protocol_timer := true
          current_retries := 5
          current_state :=
            if MissionItemEncoding.Float = MissionItemEncoding.Int then WP_SENDLIST_SENDWPSINT
            else WP_SENDLIST_SENDWPSFLOAT
          current_wp_id := 0
          waypoint_buffer :=
            onlineUpload.waypoint_buffer.set 0 (stampTarget onlineUpload onlineUpload.waypoint_buffer[0])
          sent := onlineUpload.sent ++
            [if MissionItemEncoding.Float = MissionItemEncoding.Int then
               Msg.MISSION_ITEM_INT (stampTarget onlineUpload onlineUpload.waypoint_buffer[0])
             else Msg.MISSION_ITEM (convertMavlinkMissionItem
                 (stampTarget onlineUpload onlineUpload.waypoint_buffer[0]))] } :=
  ⟨by decide, by decide, by decide, by decide,
   ((request_accepted_iff_in_window onlineUpload 1 0 0 MissionItemEncoding.Float
      (by decide) (by decide)).1 (Or.inl ⟨by decide, rfl⟩)).2.2.2.2 (by decide)⟩

/-- Claim C8 on the code: an upload of one item has sent item 0 and lost one retry to a
timeout (`current_retries = 4`).  The partner requests index 1, which is not below the
buffer count 1 but is `current_wp_id + 1`: the request sends nothing and keeps state
and `current_wp_id`, yet `current_retries` is back at 5. -/
theorem request_beyond_buffer_resets_retries :
    uploadAfterTimeout.current_state = WP_SENDLIST_SENDWPSINT
    ∧ uploadAfterTimeout.waypoint_buffer.length = 1
    ∧ uploadAfterTimeout.current_retries = 4
    ∧ (handleWaypointRequest 1 0 1 MissionItemEncoding.Int uploadAfterTimeout).current_retries = 5
    ∧ (handleWaypointRequest 1 0 1 MissionItemEncoding.Int uploadAfterTimeout).sent
        = uploadAfterTimeout.sent :=
  ⟨by decide, by decide, by decide, by decide, rfl⟩

/-- Claim C8 as amended: a request `r` not below the buffer count never changes the
state or `current_wp_id` and never sends a message.  If it comes from the partner system
and lies in the acceptance window (state = SENDLIST and r = 0, or state is
SENDLIST_SENDWPSINT or SENDLIST_SENDWPSFLOAT and r is `current_wp_id` or `current_wp_id +
1`) it restarts the timer and sets `current_retries` to 5, and changes nothing else;
otherwise the manager is unchanged. -/
theorem request_beyond_buffer (m : Manager) (systemId compId r : Nat) (enc : MissionItemEncoding)
    (hr : m.waypoint_buffer.length ≤ r) :
    (handleWaypointRequest systemId compId r enc m).current_state = m.current_state
    ∧ (handleWaypointRequest systemId compId r enc m).current_wp_id = m.current_wp_id
    ∧ (handleWaypointRequest systemId compId r enc m).sent = m.sent
    ∧ ((systemId = m.current_partner_systemid
          ∧ ((m.current_state = WP_SENDLIST ∧ r = 0)
            ∨ ((m.current_state = WP_SENDLIST_SENDWPSINT
                  ∨ m.current_state = WP_SENDLIST_SENDWPSFLOAT)
                ∧ (r = m.current_wp_id ∨ r = m.current_wp_id + 1)))) →
        handleWaypointRequest systemId compId r enc m
          = { m with protocol_timer := true, current_retries := 5 })
    ∧ (¬ (systemId = m.current_partner_systemid
          ∧ ((m.current_state = WP_SENDLIST ∧ r = 0)
            ∨ ((m.current_state = WP_SENDLIST_SENDWPSINT
                  ∨ m.current_state = WP_SENDLIST_SENDWPSFLOAT)
                ∧ (r = m.current_wp_id ∨ r = m.current_wp_id + 1)))) →
        handleWaypointRequest systemId compId r enc m = m) := by
  have hnr : ¬ r < m.waypoint_buffer.length := by omega
  by_cases hw : systemId = m.current_partner_systemid
      ∧ ((m.current_state = WP_SENDLIST ∧ r = 0)
        ∨ ((m.current_state = WP_SENDLIST_SENDWPSINT
              ∨ m.current_state = WP_SENDLIST_SENDWPSFLOAT)
            ∧ (r = m.current_wp_id ∨ r = m.current_wp_id + 1)))
  · simp [handleWaypointRequest, hw, hnr, PROTOCOL_MAX_RETRIES]
  · simp [handleWaypointRequest, hw]

/-- Witness for C8: the theorem applied to the upload of one item asked for index 1. -/
theorem request_beyond_buffer_witness :
    uploadAfterTimeout.waypoint_buffer.length ≤ 1
    ∧ (handleWaypointRequest 1 0 1 MissionItemEncoding.Int uploadAfterTimeout).current_state
      = uploadAfterTimeout.current_state
    ∧ (handleWaypointRequest 1 0 1 MissionItemEncoding.Int uploadAfterTimeout).current_wp_id
      = uploadAfterTimeout.current_wp_id
    ∧ (handleWaypointRequest 1 0 1 MissionItemEncoding.Int uploadAfterTimeout).sent
      = uploadAfterTimeout.sent :=
  ⟨by decide,
   (request_beyond_buffer uploadAfterTimeout 1 0 1 MissionItemEncoding.Int (by decide)).1,
   (request_beyond_buffer uploadAfterTimeout 1 0 1 MissionItemEncoding.Int (by decide)).2.1,
   (request_beyond_buffer uploadAfterTimeout 1 0 1 MissionItemEncoding.Int (by decide)).2.2.1⟩

/-! ### Upload: the final acknowledgement -/

/-- Claim C10 on the code.  First, with no vehicle attached: an upload of one item is in
SENDLIST with `current_wp_id = 0 = N - 1`; an ACK of type 0 from the partner system and
component completes it and starts the download (state GETLIST), but
`sendWaypointRequestList` returns at its `if (!uas)` guard and no REQUEST_LIST is sent.
Second, with a vehicle attached: an ACK of type 0 from the partner system whose
component id is neither the partner component nor MAV_COMP_ID_PRIMARY changes nothing. -/
theorem ack_completes_upload_offline_sends_nothing :
    (offlineUpload.current_state = WP_SENDLIST
      ∧ (offlineUpload.current_wp_id : Int) = (offlineUpload.waypoint_buffer.length : Int) - 1
      ∧ 0 = offlineUpload.current_partner_systemid
      ∧ 190 = offlineUpload.current_partner_compid
      ∧ (handleWaypointAck 0 190 0 offlineUpload).current_state = WP_GETLIST
      ∧ (handleWaypointAck 0 190 0 offlineUpload).sent = offlineUpload.sent)
    ∧ (uploadAfterTimeout.current_state = WP_SENDLIST_SENDWPSINT
      ∧ (uploadAfterTimeout.current_wp_id : Int)
          = (uploadAfterTimeout.waypoint_buffer.length : Int) - 1
      ∧ 1 = uploadAfterTimeout.current_partner_systemid
      ∧ handleWaypointAck 1 77 0 uploadAfterTimeout = uploadAfterTimeout) :=
  ⟨⟨by decide, by decide, by decide, by decide, by decide, rfl⟩,
   ⟨by decide, by decide, by decide, rfl⟩⟩

/-- Claim C10 as amended: in state SENDLIST, SENDLIST_SENDWPSINT or
SENDLIST_SENDWPSFLOAT with `current_wp_id = N - 1` (N the buffer count), for an ACK whose
system id is the partner's and whose component id is the partner's or
MAV_COMP_ID_PRIMARY: if its type is 0 the upload completes and a download without
read-to-edit is started at once: afterwards `read_to_edit` is false, the view-only list
is empty, the editable list is unchanged, the state is GETLIST, and the trace has gained
exactly one REQUEST_LIST when a vehicle is attached and nothing when none is; if its
type is not 0 the manager is unchanged. -/
theorem ack_completes_upload (m : Manager) (systemId compId type : Nat)
    (hst : m.current_state = WP_SENDLIST ∨ m.current_state = WP_SENDLIST_SENDWPSINT
      ∨ m.current_state = WP_SENDLIST_SENDWPSFLOAT)
    (hseq : (m.current_wp_id : Int) = (m.waypoint_buffer.length : Int) - 1)
    (hsys : systemId = m.current_partner_systemid)
    (hcomp : compId = m.current_partner_compid ∨ compId = m.MAV_COMP_ID_PRIMARY) :
    (type = 0 →
      (handleWaypointAck systemId compId type m).read_to_edit = false
      ∧ (handleWaypointAck systemId compId type m).waypointsViewOnly = []
      ∧ (handleWaypointAck systemId compId type m).waypointsEditable = m.waypointsEditable
      ∧ (handleWaypointAck systemId compId type m).current_state = WP_GETLIST
      ∧ (m.uas = true → (handleWaypointAck systemId compId type m).sent
          = m.sent ++ [Msg.MISSION_REQUEST_LIST (m.uasid % 256) m.m_waypointComponentID])
      ∧ (m.uas = false → (handleWaypointAck systemId compId type m).sent = m.sent))
    ∧ (type ≠ 0 → handleWaypointAck systemId compId type m = m) := by
  have hnc : m.current_state ≠ WP_CLEARLIST := by
    rcases hst with h | h | h <;> simp [h]
  constructor
  · intro ht
    by_cases hu : m.uas = true <;>
      simp [handleWaypointAck, hsys, hcomp, hst, hseq, ht, readWaypoints,
        sendWaypointRequestList, sendMessage, hu]
  · intro ht
    simp [handleWaypointAck, hsys, hcomp, hst, hseq, ht, hnc]

/-- Witness for C10: the theorem applied to the upload of one item to vehicle 1 whose
item 0 has been sent, acknowledged with type 0 by the primary component. -/
theorem ack_completes_upload_witness :
    uploadAfterTimeout.current_state = WP_SENDLIST_SENDWPSINT
    ∧ (uploadAfterTimeout.current_wp_id : Int)
        = (uploadAfterTimeout.waypoint_buffer.length : Int) - 1
    ∧ 1 = uploadAfterTimeout.current_partner_systemid
    ∧ 1 = uploadAfterTimeout.MAV_COMP_ID_PRIMARY
    ∧ (handleWaypointAck 1 1 0 uploadAfterTimeout).read_to_edit = false
    ∧ (handleWaypointAck 1 1 0 uploadAfterTimeout).waypointsViewOnly = []
    ∧ (handleWaypointAck 1 1 0 uploadAfterTimeout).waypointsEditable
        = uploadAfterTimeout.waypointsEditable
    ∧ (handleWaypointAck 1 1 0 uploadAfterTimeout).current_state = WP_GETLIST
    ∧ (handleWaypointAck 1 1 0 uploadAfterTimeout).sent
        = uploadAfterTimeout.sent ++ [Msg.MISSION_REQUEST_LIST (uploadAfterTimeout.uasid % 256)
            uploadAfterTimeout.m_waypointComponentID] :=
  have h := (ack_completes_upload uploadAfterTimeout 1 1 0 (Or.inr (Or.inl (by decide)))
    (by decide) (by decide) (Or.inr (by decide))).1 rfl
  ⟨by decide, by decide, by decide, by decide, h.1, h.2.1, h.2.2.1, h.2.2.2.1,
   h.2.2.2.2.1 (by decide)⟩

/-! ### Upload: filling the buffer -/

/-- With a count of zero the copy loop of `writeWaypoints` does not run. -/
theorem copyToBuffer_zero (ws : List Waypoint) (i : Nat) (nc : Bool) :
    copyToBuffer 0 ws i nc = [] := by
  cases ws <;> simp [copyToBuffer]

/-- The copy loop makes one buffer entry per item while the counter is below the count. -/
theorem copyToBuffer_length (c : Nat) : ∀ (ws : List Waypoint) (i : Nat) (nc : Bool),
    i + ws.length ≤ c → (copyToBuffer c ws i nc).length = ws.length := by
  intro ws
  induction ws with
  | nil => intro i nc _; simp [copyToBuffer]
  | cons w rest ih =>
    intro i nc h
    simp only [List.length_cons] at h
    have hi : i < c := by omega
    simp [copyToBuffer, hi, ih (i + 1) _ (by omega)]

/-- The copy loop numbers the buffer entries with the loop counter. -/
theorem copyToBuffer_seq (c : Nat) : ∀ (ws : List Waypoint) (i : Nat) (nc : Bool),
    i + ws.length ≤ c →
    (copyToBuffer c ws i nc).map (fun d => d.seq) = List.range' i ws.length := by
  intro ws
  induction ws with
  | nil => intro i nc _; simp [copyToBuffer]
  | cons w rest ih =>
    intro i nc h
    simp only [List.length_cons] at h
    have hi : i < c := by omega
    simp [copyToBuffer, hi, ih (i + 1) _ (by omega), List.range'_succ]

/-- Once an item was chosen as current, the copy loop flags no later entry. -/
theorem copyToBuffer_current_of_chosen (c : Nat) : ∀ (ws : List Waypoint) (i : Nat),
    i + ws.length ≤ c →
    (copyToBuffer c ws i false).map (fun d => d.current) = List.replicate ws.length 0 := by
  intro ws
  induction ws with
  | nil => intro i _; simp [copyToBuffer]
  | cons w rest ih =>
    intro i h
    simp only [List.length_cons] at h
    have hi : i < c := by omega
    simp [copyToBuffer, hi, ih (i + 1) (by omega), List.replicate_succ]

/-- While no item was chosen, the copy loop flags exactly the first flagged item, or
the last item when none is flagged. -/
theorem copyToBuffer_current (c : Nat) : ∀ (ws : List Waypoint) (i : Nat),
    ws ≠ [] → i + ws.length = c →
    (copyToBuffer c ws i true).map (fun d => d.current)
      = List.replicate (firstCurrentOrLast ws) 0 ++ [1]
          ++ List.replicate (ws.length - 1 - firstCurrentOrLast ws) 0
    ∧ firstCurrentOrLast ws < ws.length := by
  intro ws
  induction ws with
  | nil => intro i h; exact absurd rfl h
  | cons w rest ih =>
    intro i _ h
    simp only [List.length_cons] at h
    have hi : i < c := by omega
    by_cases hw : w.current = true
    · have hk : firstCurrentOrLast (w :: rest) = 0 := by
        simp [firstCurrentOrLast, List.findIdx_cons, hw]
      rw [hk]
      simp [copyToBuffer, hi, hw, copyToBuffer_current_of_chosen c rest (i + 1) (by omega)]
    · have hw' : w.current = false := by simpa using hw
      by_cases hrest : rest = []
      · subst hrest
        have hk : firstCurrentOrLast [w] = 0 := by
          simp [firstCurrentOrLast, List.findIdx_cons, hw']
        have hic : i = c - 1 := by simp at h; omega
        rw [hk]
        simp [copyToBuffer, hi, hw', ← hic]
      · have hlen : 0 < rest.length := List.length_pos.mpr hrest
        obtain ⟨ih1, ih2⟩ := ih (i + 1) hrest (by omega)
        have hk : firstCurrentOrLast (w :: rest) = firstCurrentOrLast rest + 1 := by
          unfold firstCurrentOrLast
          rw [List.findIdx_cons]
          simp only [hw', cond_false, List.length_cons]
          split_ifs <;> omega
        have hic : ¬ i = c - 1 := by omega
        have hsub : (rest.length + 1) - 1 - (firstCurrentOrLast rest + 1)
            = rest.length - 1 - firstCurrentOrLast rest := by omega
        rw [hk]
        refine ⟨?_, by simp only [List.length_cons]; omega⟩
        simp only [List.length_cons, hsub]
        simp [copyToBuffer, hi, hw', hic, ih1, List.replicate_succ]

/-- With exactly 65536 editable items the 16-bit count wraps to zero and
`writeWaypoints` leaves the upload buffer empty. -/
theorem writeWaypoints_count_wraps (m : Manager) (hidle : m.current_state = WP_IDLE)
    (h : m.waypointsEditable.length = 65536) :
    (writeWaypoints m).current_count = 0 ∧ (writeWaypoints m).waypoint_buffer = [] := by
  by_cases hu : m.uas = false <;>
    simp [writeWaypoints, hidle, h, sendWaypointCount, sendMessage, hu, copyToBuffer_zero]

/-- The copy loop makes at most `current_count - i` buffer entries. -/
theorem copyToBuffer_length_le (c : Nat) : ∀ (ws : List Waypoint) (i : Nat) (nc : Bool),
    (copyToBuffer c ws i nc).length ≤ c - i := by
  intro ws
  induction ws with
  | nil => intro i nc; simp [copyToBuffer]
  | cons w rest ih =>
    intro i nc
    by_cases hi : i < c
    · have := ih (i + 1) (if w.current = true ∧ nc = true then false else nc)
      simp only [copyToBuffer, hi, if_true, List.length_cons]
      omega
    · simp [copyToBuffer, hi]

/-- The upload buffer never has more entries than the 16-bit `current_count`. -/
theorem writeWaypoints_buffer_length_le (m : Manager) (hidle : m.current_state = WP_IDLE)
    (hpos : 0 < m.waypointsEditable.length) :
    (writeWaypoints m).waypoint_buffer.length ≤ m.waypointsEditable.length % 65536 := by
  have hb : (writeWaypoints m).waypoint_buffer
      = copyToBuffer (m.waypointsEditable.length % 65536) m.waypointsEditable 0 true := by
    by_cases hu : m.uas = false <;>
      simp [writeWaypoints, hidle, hpos, sendWaypointCount, sendMessage, hu]
  rw [hb]
  exact copyToBuffer_length_le _ _ _ _

/-- Claim C6 on the code: with 65536 items in the editable list the 16-bit
`current_count` becomes 0, the copy loop does not run and the upload buffer is empty;
with 65537 items `current_count` becomes 1 and the buffer has at most one entry. -/
theorem writeWaypoints_buffer_short_for_oversized_list :
    (oversizedManager.current_state = WP_IDLE
      ∧ oversizedManager.waypointsEditable.length = 65536
      ∧ (writeWaypoints oversizedManager).current_count = 0
      ∧ (writeWaypoints oversizedManager).waypoint_buffer = [])
    ∧ (oversizedManager2.current_state = WP_IDLE
      ∧ oversizedManager2.waypointsEditable.length = 65537
      ∧ (writeWaypoints oversizedManager2).waypoint_buffer.length ≤ 1) :=
  ⟨⟨rfl, List.length_replicate _ _,
     writeWaypoints_count_wraps oversizedManager rfl (List.length_replicate _ _)⟩,
   ⟨rfl, List.length_replicate _ _,
     have h := writeWaypoints_buffer_length_le oversizedManager2 rfl
       (by rw [show oversizedManager2.waypointsEditable.length = 65537 from
         List.length_replicate _ _]; decide)
     by rw [show oversizedManager2.waypointsEditable.length = 65537 from
         List.length_replicate _ _] at h; exact h⟩⟩

/-- Claim C6 as amended: for a non-empty editable list of N items with N at most 65535
(the range of the 16-bit `current_count`), after `writeWaypoints` in state IDLE the
upload buffer has N entries, entry i has seq i, and exactly one entry has current set
(value 1, all others 0): the entry at the index of the first editable item whose current
flag is set, or entry N - 1 when no editable item is flagged. -/
theorem writeWaypoints_fills_buffer (m : Manager) (hidle : m.current_state = WP_IDLE)
    (hpos : 0 < m.waypointsEditable.length) (hN : m.waypointsEditable.length ≤ 65535) :
    (writeWaypoints m).waypoint_buffer.length = m.waypointsEditable.length
    ∧ (writeWaypoints m).waypoint_buffer.map (fun d => d.seq)
        = List.range m.waypointsEditable.length
    ∧ firstCurrentOrLast m.waypointsEditable < m.waypointsEditable.length
    ∧ (writeWaypoints m).waypoint_buffer.map (fun d => d.current)
        = List.replicate (firstCurrentOrLast m.waypointsEditable) 0 ++ [1]
            ++ List.replicate
                (m.waypointsEditable.length - 1 - firstCurrentOrLast m.waypointsEditable) 0 := by
  have hmod : m.waypointsEditable.length % 65536 = m.waypointsEditable.length :=
    Nat.mod_eq_of_lt (by omega)
  have hne : m.waypointsEditable ≠ [] := by
    intro h; rw [h] at hpos; simp at hpos
  have hb : (writeWaypoints m).waypoint_buffer
      = copyToBuffer m.waypointsEditable.length m.waypointsEditable 0 true := by
    by_cases hu : m.uas = false <;>
      simp [writeWaypoints, hidle, hpos, hmod, sendWaypointCount, sendMessage, hu]
  obtain ⟨h1, h2⟩ := copyToBuffer_current m.waypointsEditable.length m.waypointsEditable 0 hne
    (by omega)
  rw [hb]
  refine ⟨copyToBuffer_length _ _ _ _ (by omega), ?_, h2, h1⟩
  rw [copyToBuffer_seq _ _ _ _ (by omega), List.range_eq_range']

/-- Witness for C6: the theorem applied to the spec's scenario 4, an editable list of
three items none of which is current. -/
theorem writeWaypoints_fills_buffer_witness :
    threeItems.current_state = WP_IDLE
    ∧ 0 < threeItems.waypointsEditable.length
    ∧ threeItems.waypointsEditable.length ≤ 65535
    ∧ (writeWaypoints threeItems).waypoint_buffer.length = threeItems.waypointsEditable.length
    ∧ (writeWaypoints threeItems).waypoint_buffer.map (fun d => d.seq)
        = List.range threeItems.waypointsEditable.length
    ∧ firstCurrentOrLast threeItems.waypointsEditable < threeItems.waypointsEditable.length
    ∧ (writeWaypoints threeItems).waypoint_buffer.map (fun d => d.current)
        = List.replicate (firstCurrentOrLast threeItems.waypointsEditable) 0 ++ [1]
            ++ List.replicate (threeItems.waypointsEditable.length - 1
                - firstCurrentOrLast threeItems.waypointsEditable) 0 :=
  ⟨by decide, by decide, by decide,
   writeWaypoints_fills_buffer threeItems (by decide) (by decide) (by decide)⟩

/-! ### What each handler changes -/

/-- A COUNT outside GETLIST is dropped. -/
theorem handleWaypointCount_of_ne (s c n : Nat) (m : Manager)
    (h : m.current_state ≠ WP_GETLIST) : handleWaypointCount s c n m = m := by
  simp [handleWaypointCount, h]

/-- An ITEM outside GETLIST_GETWPS is dropped. -/
theorem handleWaypoint_of_ne (s c : Nat) (wp : MissionItemInt) (m : Manager)
    (h : m.current_state ≠ WP_GETLIST_GETWPS) : handleWaypoint s c wp m = m := by
  simp [handleWaypoint, h]

/-- An ACK outside the SENDLIST states and CLEARLIST is dropped. -/
theorem handleWaypointAck_of_ne (s c t : Nat) (m : Manager)
    (h1 : m.current_state ≠ WP_SENDLIST) (h2 : m.current_state ≠ WP_SENDLIST_SENDWPSINT)
    (h3 : m.current_state ≠ WP_SENDLIST_SENDWPSFLOAT) (h4 : m.current_state ≠ WP_CLEARLIST) :
    handleWaypointAck s c t m = m := by
  simp [handleWaypointAck, h1, h2, h3, h4]

/-- A REQUEST outside the SENDLIST states is dropped. -/
theorem handleWaypointRequest_of_ne (s c r : Nat) (enc : MissionItemEncoding) (m : Manager)
    (h1 : m.current_state ≠ WP_SENDLIST) (h2 : m.current_state ≠ WP_SENDLIST_SENDWPSINT)
    (h3 : m.current_state ≠ WP_SENDLIST_SENDWPSFLOAT) :
    handleWaypointRequest s c r enc m = m := by
  simp [handleWaypointRequest, h1, h2, h3]

/-- A CURRENT outside SETCURRENT changes at most `waypointIDHandled`. -/
theorem handleWaypointCurrent_of_ne (s c q : Nat) (m : Manager)
    (h : m.current_state ≠ WP_SETCURRENT) :
    ∃ v, handleWaypointCurrent s c q m = { m with waypointIDHandled := v } := by
  unfold handleWaypointCurrent
  rw [if_neg h]
  dsimp only
  split_ifs <;> exact ⟨_, rfl⟩

/-- A CURRENT in SETCURRENT ends the transfer; besides the timer and the state it
changes at most the view-only list and `waypointIDHandled`. -/
theorem handleWaypointCurrent_frame (s c q : Nat) (m : Manager) :
    handleWaypointCurrent s c q m = m
    ∨ (∃ v, handleWaypointCurrent s c q m = { m with waypointIDHandled := v })
    ∨ ∃ V v, handleWaypointCurrent s c q m =
        { m with
          protocol_timer := false
          current_state := WP_IDLE
          waypointsViewOnly := V
          waypointIDHandled := v } := by
  unfold handleWaypointCurrent
  dsimp only
  split_ifs
  · exact Or.inl rfl
  · exact Or.inr (Or.inr ⟨_, _, rfl⟩)
  · exact Or.inr (Or.inr ⟨_, _, rfl⟩)
  · exact Or.inr (Or.inr ⟨_, _, rfl⟩)
  · exact Or.inr (Or.inr ⟨_, _, rfl⟩)
  · exact Or.inr (Or.inl ⟨_, rfl⟩)
  · exact Or.inl rfl
  · exact Or.inl rfl

/-- `sendWaypoint` changes at most the upload buffer and the trace. -/
theorem sendWaypoint_frame (q : Nat) (m : Manager) :
    ∃ B S, sendWaypoint q m = { m with waypoint_buffer := B, sent := S } := by
  unfold sendWaypoint
  by_cases hu : m.uas = false
  · rw [if_pos hu]; exact ⟨m.waypoint_buffer, m.sent, rfl⟩
  · rw [if_neg hu]
    cases hb : m.waypoint_buffer[q]? with
    | none => exact ⟨m.waypoint_buffer, m.sent, rfl⟩
    | some wp0 =>
      dsimp only
      split_ifs
      · exact ⟨_, _, rfl⟩
      · exact ⟨_, _, rfl⟩
      · exact ⟨_, m.sent, rfl⟩

/-- A timeout with retries left restarts the timer, takes one retry and changes at
most the upload buffer and the trace besides. -/
theorem timeout_retry_frame (m : Manager) (hr : m.current_retries > 0) :
    ∃ B S, timeout m =
      { m with
        protocol_timer := true
        current_retries := m.current_retries - 1
        waypoint_buffer := B
        sent := S } := by
  unfold timeout
  rw [if_pos hr]
  dsimp only
  split_ifs
  · unfold sendWaypointRequestList; split_ifs <;> exact ⟨_, _, rfl⟩
  · unfold sendWaypointRequest; split_ifs <;> exact ⟨_, _, rfl⟩
  · unfold sendWaypointCount; split_ifs <;> exact ⟨_, _, rfl⟩
  · obtain ⟨B, S, h⟩ := sendWaypoint_frame m.current_wp_id
      { m with protocol_timer := true, current_retries := m.current_retries - 1 }
    exact ⟨B, S, h⟩
  · unfold sendWaypointClearAll; split_ifs <;> exact ⟨_, _, rfl⟩
  · unfold sendWaypointSetCurrent; split_ifs <;> exact ⟨_, _, rfl⟩
  · exact ⟨_, _, rfl⟩

/-- A timeout without retries left stops the timer and resets the transfer. -/
theorem timeout_abort (m : Manager) (hr : ¬ m.current_retries > 0) :
    timeout m =
      { m with
        protocol_timer := false
        current_state := WP_IDLE
        current_count := 0
        current_wp_id := 0
        current_partner_systemid := 0
        current_partner_compid := m.MAV_COMP_ID_PRIMARY } := by
  unfold timeout
  rw [if_neg hr]

/-- An accepted COUNT of at least one item. -/
theorem handleWaypointCount_accept_pos (s c n : Nat) (m : Manager)
    (hg : m.current_state = WP_GETLIST) (hs : s = m.current_partner_systemid) (hn : n > 0) :
    ∃ E C S, handleWaypointCount s c n m =
      { m with
        protocol_timer := true
        current_retries := PROTOCOL_MAX_RETRIES
        waypointsEditable := E
        currentWaypointEditable := C
        current_count := n
        current_wp_id := 0
        current_state := WP_GETLIST_GETWPS
        sent := S } := by
  by_cases hr : m.read_to_edit = true <;> by_cases hu : m.uas = false <;>
    simp only [handleWaypointCount, hs, hg, hn, hr, hu, sendWaypointRequest, sendMessage,
      and_self, if_true, if_false, Bool.false_eq_true, not_false_eq_true, not_true_eq_false] <;>
    exact ⟨_, _, _, rfl⟩

/-- An accepted COUNT of zero items. -/
theorem handleWaypointCount_accept_zero (s c n : Nat) (m : Manager)
    (hg : m.current_state = WP_GETLIST) (hs : s = m.current_partner_systemid) (hn : ¬ n > 0) :
    ∃ E C, handleWaypointCount s c n m =
      { m with
        protocol_timer := false
        current_retries := PROTOCOL_MAX_RETRIES
        waypointsEditable := E
        currentWaypointEditable := C
        current_count := 0
        current_wp_id := 0
        current_state := WP_IDLE
        current_partner_systemid := 0
        current_partner_compid := m.MAV_COMP_ID_PRIMARY } := by
  by_cases hr : m.read_to_edit = true <;>
    simp only [handleWaypointCount, hs, hg, hn, hr, and_self, if_true, if_false,
      Bool.false_eq_true, not_false_eq_true, not_true_eq_false] <;>
    exact ⟨_, _, rfl⟩

/-- An accepted ITEM that is not the last one. -/
theorem handleWaypoint_accept_more (s c : Nat) (wp : MissionItemInt) (m : Manager)
    (hs : s = m.current_partner_systemid) (hg : m.current_state = WP_GETLIST_GETWPS)
    (hq : wp.seq = m.current_wp_id) (hlt : (m.current_wp_id + 1) % 65536 < m.current_count) :
    ∃ E C H S, handleWaypoint s c wp m =
      { m with
        protocol_timer := true
        current_retries := PROTOCOL_MAX_RETRIES
        heap_next := H
        waypointsViewOnly := m.waypointsViewOnly ++ [newWaypointFromItem m.heap_next wp]
        waypointsEditable := E
        currentWaypointEditable := C
        current_wp_id := (m.current_wp_id + 1) % 65536
        sent := S } := by
  by_cases hr : m.read_to_edit = true <;> by_cases hc : wp.current = 1 <;>
    by_cases hu : m.uas = false <;>
    simp only [handleWaypoint, hs, hg, hq, hlt, hr, hc, hu, addWaypointViewOnly,
      addWaypointEditable, sendWaypointRequest, sendMessage, and_self, if_true, if_false,
      false_and, Bool.false_eq_true, not_false_eq_true, not_true_eq_false] <;>
    exact ⟨_, _, _, _, rfl⟩

/-- The accepted ITEM that completes the download. -/
theorem handleWaypoint_accept_last (s c : Nat) (wp : MissionItemInt) (m : Manager)
    (hs : s = m.current_partner_systemid) (hg : m.current_state = WP_GETLIST_GETWPS)
    (hq : wp.seq = m.current_wp_id) (hlt : ¬ (m.current_wp_id + 1) % 65536 < m.current_count) :
    ∃ E C H S, handleWaypoint s c wp m =
      { m with
        protocol_timer := false
        current_retries := PROTOCOL_MAX_RETRIES
        heap_next := H
        waypointsViewOnly := m.waypointsViewOnly ++ [newWaypointFromItem m.heap_next wp]
        waypointsEditable := E
        currentWaypointEditable := C
        current_state := WP_IDLE
        current_count := 0
        current_wp_id := 0
        current_partner_systemid := 0
        current_partner_compid := m.MAV_COMP_ID_PRIMARY
        waypointIDHandled := 65534
        sent := S } := by
  by_cases hr : m.read_to_edit = true <;> by_cases hc : wp.current = 1 <;>
    by_cases hu : m.uas = false <;>
    simp only [handleWaypoint, hs, hg, hq, hlt, hr, hc, hu, addWaypointViewOnly,
      addWaypointEditable, sendWaypointAck, sendMessage, and_self, if_true, if_false,
      false_and, Bool.false_eq_true, not_false_eq_true, not_true_eq_false] <;>
    exact ⟨_, _, _, _, rfl⟩

/-- An ITEM is dropped unless it comes from the partner system, in GETLIST_GETWPS, with
the expected sequence number. -/
theorem handleWaypoint_reject (s c : Nat) (wp : MissionItemInt) (m : Manager)
    (h : ¬ (s = m.current_partner_systemid ∧ m.current_state = WP_GETLIST_GETWPS
      ∧ wp.seq = m.current_wp_id)) : handleWaypoint s c wp m = m := by
  unfold handleWaypoint
  by_cases h1 : s = m.current_partner_systemid ∧ m.current_state = WP_GETLIST_GETWPS
  · by_cases h2 : wp.seq = m.current_wp_id
    · exact absurd ⟨h1.1, h1.2, h2⟩ h
    · rw [if_pos h1, if_neg h2]
  · rw [if_neg h1]

/-- An ACK leaves the manager unchanged, or completes a clear, or completes an upload
and starts the download that follows it. -/
theorem handleWaypointAck_frame (s c t : Nat) (m : Manager) :
    handleWaypointAck s c t m = m
    ∨ (m.current_state = WP_CLEARLIST ∧ handleWaypointAck s c t m =
        { m with protocol_timer := false, current_state := WP_IDLE })
    ∨ ((m.current_state = WP_SENDLIST ∨ m.current_state = WP_SENDLIST_SENDWPSINT
          ∨ m.current_state = WP_SENDLIST_SENDWPSFLOAT)
        ∧ ∃ S, handleWaypointAck s c t m =
          { m with
            read_to_edit := false
            waypointsViewOnly := []
            protocol_timer := true
            current_retries := PROTOCOL_MAX_RETRIES
            current_state := WP_GETLIST
            current_wp_id := 0
            current_partner_systemid := m.uasid % 256
            current_partner_compid := m.m_waypointComponentID
            sent := S }) := by
  unfold handleWaypointAck
  split_ifs with h1 h2 h3
  · refine Or.inr (Or.inr ⟨h2.1, ?_⟩)
    by_cases hu : m.uas = false <;>
      simp only [readWaypoints, sendWaypointRequestList, sendMessage, hu, if_true, if_false,
        Bool.false_eq_true, not_false_eq_true, not_true_eq_false] <;>
      exact ⟨_, rfl⟩
  · exact Or.inr (Or.inl ⟨h3, rfl⟩)
  · exact Or.inl rfl
  · exact Or.inl rfl

/-- A REQUEST leaves the manager unchanged, or (in a SENDLIST state) restarts timer and
retries and, when it asks for a buffered item, sets state and `current_wp_id` and sends. -/
theorem handleWaypointRequest_frame (s c r : Nat) (enc : MissionItemEncoding) (m : Manager) :
    handleWaypointRequest s c r enc m = m
    ∨ ((m.current_state = WP_SENDLIST ∨ m.current_state = WP_SENDLIST_SENDWPSINT
          ∨ m.current_state = WP_SENDLIST_SENDWPSFLOAT)
        ∧ (handleWaypointRequest s c r enc m =
            { m with protocol_timer := true, current_retries := PROTOCOL_MAX_RETRIES }
          ∨ ∃ st B S, (st = WP_SENDLIST_SENDWPSINT ∨ st = WP_SENDLIST_SENDWPSFLOAT)
              ∧ handleWaypointRequest s c r enc m =
                { m with
                  protocol_timer := true
                  current_retries := PROTOCOL_MAX_RETRIES
                  current_state := st
                  current_wp_id := r
                  waypoint_buffer := B
                  sent := S })) := by
  unfold handleWaypointRequest
  by_cases h1 : s = m.current_partner_systemid
      ∧ ((m.current_state = WP_SENDLIST ∧ r = 0)
        ∨ ((m.current_state = WP_SENDLIST_SENDWPSINT
              ∨ m.current_state = WP_SENDLIST_SENDWPSFLOAT)
            ∧ (r = m.current_wp_id ∨ r = m.current_wp_id + 1)))
  · have hst : m.current_state = WP_SENDLIST ∨ m.current_state = WP_SENDLIST_SENDWPSINT
        ∨ m.current_state = WP_SENDLIST_SENDWPSFLOAT := by
      rcases h1 with ⟨_, ⟨h, _⟩ | ⟨h | h, _⟩⟩ <;> simp [h]
    rw [if_pos h1]
    dsimp only
    by_cases h2 : r < m.waypoint_buffer.length
    · rw [if_pos h2]
      obtain ⟨B, S, h⟩ := sendWaypoint_frame r
        { m with
          protocol_timer := true
          current_retries := PROTOCOL_MAX_RETRIES
          current_state :=
            if enc = MissionItemEncoding.Int then WP_SENDLIST_SENDWPSINT
            else WP_SENDLIST_SENDWPSFLOAT
          current_wp_id := r }
      refine Or.inr ⟨hst, Or.inr ⟨if enc = MissionItemEncoding.Int then WP_SENDLIST_SENDWPSINT
        else WP_SENDLIST_SENDWPSFLOAT, B, S, ?_, h⟩⟩
      cases enc <;> simp
    · rw [if_neg h2]
      exact Or.inr ⟨hst, Or.inl rfl⟩
  · rw [if_neg h1]
    exact Or.inl rfl

/-- A property kept by every step is kept by every run. -/
theorem run_preserves (P : Manager → Prop) (hstep : ∀ m ev, P m → P (step m ev)) :
    ∀ (evs : List Event) (m : Manager), P m → P (run m evs) := by
  intro evs
  induction evs with
  | nil => intro m h; simpa [run] using h
  | cons ev rest ih =>
    intro m h
    have : run m (ev :: rest) = run (step m ev) rest := by simp [run]
    rw [this]
    exact ih _ (hstep m ev h)
/-! ### Download: exactly N items in sequence -/

/-- Every event keeps the view-only list empty while the count is awaited. -/
theorem step_awaitingCountInv (m : Manager) (ev : Event) (h : AwaitingCountInv m) :
    AwaitingCountInv (step m ev) := by
  unfold AwaitingCountInv at *
  cases ev with
  | timeout =>
    simp only [step]
    by_cases ht : m.protocol_timer = true ∧ m.uas = true
    · rw [if_pos ht]
      by_cases hr : m.current_retries > 0
      · obtain ⟨B, S, e⟩ := timeout_retry_frame m hr
        rw [e]; exact h
      · rw [timeout_abort m hr]; intro hc; simp at hc
    · rw [if_neg ht]; exact h
  | count s c n =>
    simp only [step]
    by_cases hg : m.current_state = WP_GETLIST
    · by_cases hs : s = m.current_partner_systemid
      · by_cases hn : n > 0
        · obtain ⟨E, C, S, e⟩ := handleWaypointCount_accept_pos s c n m hg hs hn
          rw [e]; intro hc; simp at hc
        · obtain ⟨E, C, e⟩ := handleWaypointCount_accept_zero s c n m hg hs hn
          rw [e]; intro hc; simp at hc
      · have e : handleWaypointCount s c n m = m := by simp [handleWaypointCount, hs]
        rw [e]; exact h
    · rw [handleWaypointCount_of_ne s c n m hg]; exact h
  | item s c wp =>
    simp only [step]
    by_cases ha : s = m.current_partner_systemid ∧ m.current_state = WP_GETLIST_GETWPS
        ∧ wp.seq = m.current_wp_id
    · by_cases hlt : (m.current_wp_id + 1) % 65536 < m.current_count
      · obtain ⟨E, C, H, S, e⟩ := handleWaypoint_accept_more s c wp m ha.1 ha.2.1 ha.2.2 hlt
        rw [e]; intro hc; simp [ha.2.1] at hc
      · obtain ⟨E, C, H, S, e⟩ := handleWaypoint_accept_last s c wp m ha.1 ha.2.1 ha.2.2 hlt
        rw [e]; intro hc; simp at hc
    · rw [handleWaypoint_reject s c wp m ha]; exact h
  | ack s c t =>
    simp only [step]
    rcases handleWaypointAck_frame s c t m with e | ⟨_, e⟩ | ⟨_, S, e⟩
    · rw [e]; exact h
    · rw [e]; intro hc; simp at hc
    · rw [e]; intro _; rfl
  | request s c q =>
    simp only [step]
    rcases handleWaypointRequest_frame s c q MissionItemEncoding.Float m with
      e | ⟨hst, e | ⟨st, B, S, hst2, e⟩⟩
    · rw [e]; exact h
    · rw [e]; exact h
    · rw [e]; intro hc; rcases hst2 with h2 | h2 <;> simp [h2] at hc
  | requestInt s c q =>
    simp only [step]
    rcases handleWaypointRequest_frame s c q MissionItemEncoding.Int m with
      e | ⟨hst, e | ⟨st, B, S, hst2, e⟩⟩
    · rw [e]; exact h
    · rw [e]; exact h
    · rw [e]; intro hc; rcases hst2 with h2 | h2 <;> simp [h2] at hc
  | current s c q =>
    simp only [step]
    rcases handleWaypointCurrent_frame s c q m with e | ⟨v, e⟩ | ⟨V, v, e⟩
    · rw [e]; exact h
    · rw [e]; exact h
    · rw [e]; intro hc; simp at hc
  | reached s c q => exact h

/-- Every event keeps the invariant of a download whose COUNT(N) was accepted. -/
theorem step_fetchingInv (N : Nat) (m : Manager) (ev : Event) (h : FetchingInv N m) :
    FetchingInv N (step m ev) := by
  unfold FetchingInv at *
  have hne : m.current_state ≠ WP_GETLIST ∧ m.current_state ≠ WP_SENDLIST
      ∧ m.current_state ≠ WP_SENDLIST_SENDWPSINT ∧ m.current_state ≠ WP_SENDLIST_SENDWPSFLOAT
      ∧ m.current_state ≠ WP_CLEARLIST ∧ m.current_state ≠ WP_SETCURRENT := by
    rcases h with h | ⟨h, _⟩ <;> simp [h]
  obtain ⟨n1, n2, n3, n4, n5, n6⟩ := hne
  cases ev with
  | timeout =>
    simp only [step]
    by_cases ht : m.protocol_timer = true ∧ m.uas = true
    · rw [if_pos ht]
      by_cases hr : m.current_retries > 0
      · obtain ⟨B, S, e⟩ := timeout_retry_frame m hr
        rw [e]; exact h
      · rw [timeout_abort m hr]; exact Or.inl rfl
    · rw [if_neg ht]; exact h
  | count s c n => simp only [step]; rw [handleWaypointCount_of_ne s c n m n1]; exact h
  | item s c wp =>
    simp only [step]
    by_cases ha : s = m.current_partner_systemid ∧ m.current_state = WP_GETLIST_GETWPS
        ∧ wp.seq = m.current_wp_id
    · by_cases hlt : (m.current_wp_id + 1) % 65536 < m.current_count
      · obtain ⟨E, C, H, S, e⟩ := handleWaypoint_accept_more s c wp m ha.1 ha.2.1 ha.2.2 hlt
        rw [e]
        rcases h with h | ⟨hg, hc, hw, hv⟩
        · rw [h] at ha; simp at ha
        · refine Or.inr ⟨hg, hc, ?_, ?_⟩
          · show (m.current_wp_id + 1) % 65536 < N
            rw [← hc]; exact hlt
          · intro hN
            show (m.waypointsViewOnly ++ [newWaypointFromItem m.heap_next wp]).map (fun w => w.id)
              = List.range ((m.current_wp_id + 1) % 65536)
            have hmod : (m.current_wp_id + 1) % 65536 = m.current_wp_id + 1 := by omega
            rw [hmod, List.map_append, hv hN, List.range_succ]
            simp [newWaypointFromItem, ha.2.2]
      · obtain ⟨E, C, H, S, e⟩ := handleWaypoint_accept_last s c wp m ha.1 ha.2.1 ha.2.2 hlt
        rw [e]; exact Or.inl rfl
    · rw [handleWaypoint_reject s c wp m ha]; exact h
  | ack s c t => simp only [step]; rw [handleWaypointAck_of_ne s c t m n2 n3 n4 n5]; exact h
  | request s c q =>
    simp only [step]; rw [handleWaypointRequest_of_ne s c q _ m n2 n3 n4]; exact h
  | requestInt s c q =>
    simp only [step]; rw [handleWaypointRequest_of_ne s c q _ m n2 n3 n4]; exact h
  | current s c q =>
    simp only [step]
    obtain ⟨v, e⟩ := handleWaypointCurrent_of_ne s c q m n6
    rw [e]; exact h
  | reached s c q => exact h

/-- A download started in IDLE awaits the count with an empty view-only list. -/
theorem readWaypoints_awaitingCountInv (r : Bool) (m : Manager)
    (hidle : m.current_state = WP_IDLE) : AwaitingCountInv (readWaypoints r m) := by
  intro _
  by_cases hu : m.uas = false <;>
    simp [readWaypoints, hidle, sendWaypointRequestList, sendMessage, hu]

/-- Accepting COUNT(N) while the view-only list is empty establishes the invariant of
the download of N items. -/
theorem handleWaypointCount_fetchingInv (s c N : Nat) (m : Manager) (h : AwaitingCountInv m)
    (hacc : countAccepted s m) : FetchingInv N (handleWaypointCount s c N m) := by
  obtain ⟨hg, hs⟩ := hacc
  by_cases hn : N > 0
  · obtain ⟨E, C, S, e⟩ := handleWaypointCount_accept_pos s c N m hg hs hn
    rw [e]
    refine Or.inr ⟨rfl, rfl, hn, ?_⟩
    intro _
    show m.waypointsViewOnly.map (fun w => w.id) = List.range 0
    rw [h hg]; rfl
  · obtain ⟨E, C, e⟩ := handleWaypointCount_accept_zero s c N m hg hs hn
    rw [e]; exact Or.inl rfl

/-- Claim C1: a download is started by `readWaypoints` in state IDLE; any sequence `pre`
of inbound messages and timeouts follows; a COUNT(N) is accepted; any sequence `post` of
inbound messages and timeouts follows; then an ITEM arrives for which `handleWaypoint`
takes its "all waypoints retrieved" branch.  Afterwards the view-only list has exactly N
items and item i has sequence number i, for every i below N. -/
theorem download_delivers_items_in_sequence (m0 : Manager) (readToEdit : Bool)
    (pre post : List Event) (sysC compC N sysI compI : Nat) (wp : MissionItemInt)
    (hidle : m0.current_state = WP_IDLE)
    (hcount : countAccepted sysC (run (readWaypoints readToEdit m0) pre))
    (hdone : completesDownload sysI wp
      (run (handleWaypointCount sysC compC N (run (readWaypoints readToEdit m0) pre)) post)) :
    (handleWaypoint sysI compI wp
        (run (handleWaypointCount sysC compC N (run (readWaypoints readToEdit m0) pre))
          post)).waypointsViewOnly.length = N
    ∧ (handleWaypoint sysI compI wp
        (run (handleWaypointCount sysC compC N (run (readWaypoints readToEdit m0) pre))
          post)).waypointsViewOnly.map (fun w => w.id) = List.range N := by
  have hA : AwaitingCountInv (run (readWaypoints readToEdit m0) pre) :=
    run_preserves AwaitingCountInv step_awaitingCountInv pre _
      (readWaypoints_awaitingCountInv readToEdit m0 hidle)
  have hB : FetchingInv N
      (run (handleWaypointCount sysC compC N (run (readWaypoints readToEdit m0) pre)) post) :=
    run_preserves (FetchingInv N) (step_fetchingInv N) post _
      (handleWaypointCount_fetchingInv sysC compC N _ hA hcount)
  generalize run (handleWaypointCount sysC compC N (run (readWaypoints readToEdit m0) pre)) post
    = mB at hB hdone
  obtain ⟨hs, hg, hq, hlt⟩ := hdone
  rcases hB with hB | ⟨_, hc, hw, hv⟩
  · rw [hB] at hg; simp at hg
  · obtain ⟨E, C, H, S, e⟩ := handleWaypoint_accept_last sysI compI wp mB hs hg hq hlt
    rw [hc] at hlt
    have hN : N < 65536 := by omega
    have hN1 : mB.current_wp_id + 1 = N := by omega
    have hmap : (handleWaypoint sysI compI wp mB).waypointsViewOnly.map (fun w => w.id)
        = List.range N := by
      rw [e]
      show (mB.waypointsViewOnly ++ [newWaypointFromItem mB.heap_next wp]).map (fun w => w.id)
        = List.range N
      rw [← hN1, List.map_append, hv hN, List.range_succ]
      simp [newWaypointFromItem, hq]
    refine ⟨?_, hmap⟩
    have := congrArg List.length hmap
    simpa using this

/-- Witness for C1: the theorem applied to a download of two items into a manager with
a stale view-only list: one timeout before the COUNT (the spec's scenario 5), item 0
delivered twice (scenario 3), then item 1. -/
theorem download_delivers_items_in_sequence_witness :
    staleManager.current_state = WP_IDLE
    ∧ countAccepted 1 (run (readWaypoints false staleManager) [Event.timeout])
    ∧ completesDownload 1 (mkItem 1 1)
        (run (handleWaypointCount 1 0 2 (run (readWaypoints false staleManager) [Event.timeout]))
          [Event.item 1 0 (mkItem 0 0), Event.item 1 0 (mkItem 0 0)])
    ∧ (handleWaypoint 1 0 (mkItem 1 1)
        (run (handleWaypointCount 1 0 2 (run (readWaypoints false staleManager) [Event.timeout]))
          [Event.item 1 0 (mkItem 0 0), Event.item 1 0 (mkItem 0 0)])).waypointsViewOnly.length = 2
    ∧ (handleWaypoint 1 0 (mkItem 1 1)
        (run (handleWaypointCount 1 0 2 (run (readWaypoints false staleManager) [Event.timeout]))
          [Event.item 1 0 (mkItem 0 0), Event.item 1 0 (mkItem 0 0)])).waypointsViewOnly.map
            (fun w => w.id) = List.range 2 :=
  ⟨by decide, ⟨by decide, by decide⟩, ⟨by decide, by decide, by decide, by decide⟩,
   download_delivers_items_in_sequence staleManager false [Event.timeout]
     [Event.item 1 0 (mkItem 0 0), Event.item 1 0 (mkItem 0 0)] 1 0 2 1 0 (mkItem 1 1)
     (by decide) ⟨by decide, by decide⟩ ⟨by decide, by decide, by decide, by decide⟩⟩

/-! ### Upload: every item is sent before the upload completes -/

/-- Writing to a position the value it already holds leaves a list unchanged. -/
theorem set_of_getElem? {α : Type} (l : List α) (q : Nat) (v : α) (h : l[q]? = some v) :
    l.set q v = l := by
  apply List.ext_getElem?
  intro i
  rw [List.getElem?_set']
  split_ifs with hi
  · subst hi; simp [h]
  · rfl

/-- In a stair that ends at `t` every number up to `t` occurs. -/
theorem Stair.mem_of_le {l : List Nat} {t : Nat} (h : Stair l t) : ∀ i, i ≤ t → i ∈ l := by
  induction h with
  | first => intro i hi; simp; omega
  | again _ ih => intro i hi; exact List.mem_append_left _ (ih i hi)
  | @next l t _ ih =>
    intro i hi
    rcases Nat.lt_or_ge i (t + 1) with h1 | h1
    · exact List.mem_append_left _ (ih i (by omega))
    · have : i = t + 1 := by omega
      rw [this]; simp

/-- In a stair that ends at `t` no number above `t` occurs. -/
theorem Stair.le_of_mem {l : List Nat} {t : Nat} (h : Stair l t) : ∀ x, x ∈ l → x ≤ t := by
  induction h with
  | first => intro x hx; simp at hx; omega
  | again _ ih =>
    intro x hx
    rcases List.mem_append.mp hx with h1 | h1
    · exact ih x h1
    · simp at h1; omega
  | next _ ih =>
    intro x hx
    rcases List.mem_append.mp hx with h1 | h1
    · have := ih x h1; omega
    · simp at h1; omega

/-- In a stair the first occurrence of a smaller number precedes the first occurrence
of a larger one. -/
theorem Stair.indexOf_lt {l : List Nat} {t : Nat} (h : Stair l t) :
    ∀ i j, i < j → j ≤ t → l.indexOf i < l.indexOf j := by
  induction h with
  | first => intro i j hij hj; omega
  | @again l t hs ih =>
    intro i j hij hj
    rw [List.indexOf_append_of_mem (hs.mem_of_le i (by omega)),
      List.indexOf_append_of_mem (hs.mem_of_le j hj)]
    exact ih i j hij hj
  | @next l t hs ih =>
    intro i j hij hj
    rcases Nat.lt_or_ge j (t + 1) with h1 | h1
    · rw [List.indexOf_append_of_mem (hs.mem_of_le i (by omega)),
        List.indexOf_append_of_mem (hs.mem_of_le j (by omega))]
      exact ih i j hij (by omega)
    · have hj' : j = t + 1 := by omega
      have hnot : j ∉ l := by
        intro hm; have := hs.le_of_mem j hm; omega
      rw [List.indexOf_append_of_mem (hs.mem_of_le i (by omega)),
        List.indexOf_append_of_not_mem hnot]
      have := List.indexOf_lt_length.mpr (hs.mem_of_le i (by omega))
      omega

/-- With a vehicle attached and in a SENDLIST_SENDWPS state, `sendWaypoint q` keeps the
facts about the upload, changes only buffer and trace, and sends the item numbered `q`
if `q` is below the buffer count, and nothing otherwise. -/
theorem sendWaypoint_core (q : Nat) (m0 m : Manager) (outs : List Msg)
    (hst : m.current_state = WP_SENDLIST_SENDWPSINT
      ∨ m.current_state = WP_SENDLIST_SENDWPSFLOAT)
    (hcore : UploadCore m0 m outs) :
    ∃ B o2, sendWaypoint q m = { m with waypoint_buffer := B, sent := m.sent ++ o2 }
      ∧ UploadCore m0 { m with waypoint_buffer := B, sent := m.sent ++ o2 } (outs ++ o2)
      ∧ itemSeqs o2 = if q < m0.waypointsEditable.length then [q] else [] := by
  obtain ⟨hu, hid, hb, hbuf, hs, hmsgs⟩ := hcore
  have hlen : m.waypoint_buffer.length = m0.waypointsEditable.length := by
    have := congrArg List.length hb
    simpa using this
  unfold sendWaypoint
  have hu' : ¬ m.uas = false := by simp [hu]
  rw [if_neg hu']
  cases hq : m.waypoint_buffer[q]? with
  | none =>
    have hqN : ¬ q < m0.waypointsEditable.length := by
      intro hlt
      rw [← hlen] at hlt
      rw [List.getElem?_eq_getElem hlt] at hq
      exact Option.noConfusion hq
    refine ⟨m.waypoint_buffer, [], by simp, ⟨hu, hid, hb, hbuf, ?_, ?_⟩,
      by simp [hqN, itemSeqs]⟩
    · show m.sent ++ [] = m0.sent ++ (outs ++ [])
      simp [hs]
    · intro msg hm
      rw [List.append_nil] at hm
      exact hmsgs msg hm
  | some wp0 =>
    have hqN : q < m0.waypointsEditable.length := by
      rw [← hlen]
      by_contra hge
      rw [List.getElem?_eq_none (by omega)] at hq
      exact Option.noConfusion hq
    have hseq : wp0.seq = q := by
      have h1 : (m.waypoint_buffer.map (fun d => d.seq))[q]? = some wp0.seq := by
        rw [List.getElem?_map, hq]; rfl
      rw [hb, List.getElem?_range hqN] at h1
      exact (Option.some.inj h1).symm
    have hstamp :
        ({ wp0 with
            target_system := m.uasid % 256
            target_component := m.m_waypointComponentID } : MissionItemInt)
          = stampTarget m0 wp0 := by
      simp [stampTarget, hid.1, hid.2]
    have hB : (m.waypoint_buffer.set q (stampTarget m0 wp0)).map (fun d => d.seq)
        = List.range m0.waypointsEditable.length := by
      rw [List.map_set]
      show (m.waypoint_buffer.map (fun d => d.seq)).set q wp0.seq = _
      rw [set_of_getElem? _ _ _ (by rw [List.getElem?_map, hq]; rfl), hb]
    have hB2 : (m.waypoint_buffer.set q (stampTarget m0 wp0)).map (stampTarget m0)
        = (writeWaypoints m0).waypoint_buffer.map (stampTarget m0) := by
      rw [List.map_set]
      show (m.waypoint_buffer.map (stampTarget m0)).set q (stampTarget m0 wp0) = _
      rw [set_of_getElem? _ _ _ (by rw [List.getElem?_map, hq]; rfl), hbuf]
    obtain ⟨wp1, hwp1, hwp1s⟩ : ∃ wp1, (writeWaypoints m0).waypoint_buffer[q]? = some wp1
        ∧ stampTarget m0 wp1 = stampTarget m0 wp0 := by
      have h1 : (m.waypoint_buffer.map (stampTarget m0))[q]? = some (stampTarget m0 wp0) := by
        rw [List.getElem?_map, hq]; rfl
      rw [hbuf, List.getElem?_map] at h1
      cases hw : (writeWaypoints m0).waypoint_buffer[q]? with
      | none => rw [hw] at h1; exact Option.noConfusion h1
      | some wp1 =>
        rw [hw] at h1
        exact ⟨wp1, rfl, Option.some.inj h1⟩
    dsimp only
    rw [hstamp]
    have hnew : ∀ (x : Msg), itemSeq x = some q →
        (x = Msg.MISSION_ITEM_INT (stampTarget m0 wp0)
          ∨ x = Msg.MISSION_ITEM (convertMavlinkMissionItem (stampTarget m0 wp0))) →
        UploadCore m0
          { m with
            waypoint_buffer := m.waypoint_buffer.set q (stampTarget m0 wp0)
            sent := m.sent ++ [x] } (outs ++ [x]) := by
      intro x hx hform
      refine ⟨hu, hid, hB, hB2, ?_, ?_⟩
      · show m.sent ++ [x] = m0.sent ++ (outs ++ [x])
        rw [hs, List.append_assoc]
      · intro msg hm i hi
        rcases List.mem_append.mp hm with h1 | h1
        · exact hmsgs msg h1 i hi
        · have hmx : msg = x := by simpa using h1
          rw [hmx] at hi ⊢
          have hiq : i = q := by
            rw [hx] at hi; exact (Option.some.inj hi).symm
          rw [hiq]
          refine ⟨wp1, hwp1, ?_⟩
          rw [hwp1s]; exact hform
    rcases hst with hst | hst
    · rw [if_pos hst]
      refine ⟨_, [Msg.MISSION_ITEM_INT (stampTarget m0 wp0)], rfl, ?_, ?_⟩
      · exact hnew _ (by simp [itemSeq, stampTarget, hseq]) (Or.inl rfl)
      · simp [itemSeqs, itemSeq, hqN, hseq, stampTarget]
    · have hne : ¬ m.current_state = WP_SENDLIST_SENDWPSINT := by simp [hst]
      rw [if_neg hne, if_pos hst]
      refine ⟨_, [Msg.MISSION_ITEM (convertMavlinkMissionItem (stampTarget m0 wp0))], rfl,
        ?_, ?_⟩
      · exact hnew _ (by simp [itemSeq, stampTarget, hseq, convertMavlinkMissionItem])
          (Or.inr rfl)
      · simp [itemSeqs, itemSeq, hqN, hseq, stampTarget, convertMavlinkMissionItem]

/-- A timeout with retries left in SENDLIST, with a vehicle attached, resends the count. -/
theorem timeout_sendlist (m : Manager) (hr : m.current_retries > 0)
    (hst : m.current_state = WP_SENDLIST) (hu : m.uas = true) :
    timeout m =
      { m with
        protocol_timer := true
        current_retries := m.current_retries - 1
        sent := m.sent ++
          [Msg.MISSION_COUNT (m.uasid % 256) m.m_waypointComponentID m.current_count] } := by
  simp [timeout, hr, hst, hu, sendWaypointCount, sendMessage]

/-- A timeout with retries left in a SENDLIST_SENDWPS state resends the current item. -/
theorem timeout_sendwps (m : Manager) (hr : m.current_retries > 0)
    (hst : m.current_state = WP_SENDLIST_SENDWPSINT
      ∨ m.current_state = WP_SENDLIST_SENDWPSFLOAT) :
    timeout m = sendWaypoint m.current_wp_id
      { m with protocol_timer := true, current_retries := m.current_retries - 1 } := by
  rcases hst with hst | hst <;> simp [timeout, hr, hst]

/-- A request from the partner inside the window for a buffered item. -/
theorem handleWaypointRequest_accept_in (s c r : Nat) (enc : MissionItemEncoding) (m : Manager)
    (h1 : s = m.current_partner_systemid
      ∧ ((m.current_state = WP_SENDLIST ∧ r = 0)
        ∨ ((m.current_state = WP_SENDLIST_SENDWPSINT
              ∨ m.current_state = WP_SENDLIST_SENDWPSFLOAT)
            ∧ (r = m.current_wp_id ∨ r = m.current_wp_id + 1))))
    (h2 : r < m.waypoint_buffer.length) :
    handleWaypointRequest s c r enc m = sendWaypoint r
      { m with
        protocol_timer := true
        current_retries := PROTOCOL_MAX_RETRIES
        current_state :=
          if enc = MissionItemEncoding.Int then WP_SENDLIST_SENDWPSINT
          else WP_SENDLIST_SENDWPSFLOAT
        current_wp_id := r } := by
  unfold handleWaypointRequest
  rw [if_pos h1]
  dsimp only
  rw [if_pos h2]

/-- A request from the partner inside the window for an index outside the buffer. -/
theorem handleWaypointRequest_accept_beyond (s c r : Nat) (enc : MissionItemEncoding)
    (m : Manager)
    (h1 : s = m.current_partner_systemid
      ∧ ((m.current_state = WP_SENDLIST ∧ r = 0)
        ∨ ((m.current_state = WP_SENDLIST_SENDWPSINT
              ∨ m.current_state = WP_SENDLIST_SENDWPSFLOAT)
            ∧ (r = m.current_wp_id ∨ r = m.current_wp_id + 1))))
    (h2 : ¬ r < m.waypoint_buffer.length) :
    handleWaypointRequest s c r enc m =
      { m with protocol_timer := true, current_retries := PROTOCOL_MAX_RETRIES } := by
  unfold handleWaypointRequest
  rw [if_pos h1]
  dsimp only
  rw [if_neg h2]

/-- A request that is not from the partner or is outside the window is dropped. -/
theorem handleWaypointRequest_reject (s c r : Nat) (enc : MissionItemEncoding) (m : Manager)
    (h1 : ¬ (s = m.current_partner_systemid
      ∧ ((m.current_state = WP_SENDLIST ∧ r = 0)
        ∨ ((m.current_state = WP_SENDLIST_SENDWPSINT
              ∨ m.current_state = WP_SENDLIST_SENDWPSFLOAT)
            ∧ (r = m.current_wp_id ∨ r = m.current_wp_id + 1))))) :
    handleWaypointRequest s c r enc m = m := by
  unfold handleWaypointRequest
  rw [if_neg h1]

/-- Once the manager is idle or downloading, inbound messages and timeouts keep it idle
or downloading. -/
theorem step_left_upload (m : Manager) (ev : Event)
    (h : m.current_state = WP_IDLE ∨ m.current_state = WP_GETLIST
      ∨ m.current_state = WP_GETLIST_GETWPS) :
    (step m ev).current_state = WP_IDLE ∨ (step m ev).current_state = WP_GETLIST
      ∨ (step m ev).current_state = WP_GETLIST_GETWPS := by
  have hne : m.current_state ≠ WP_SENDLIST
      ∧ m.current_state ≠ WP_SENDLIST_SENDWPSINT ∧ m.current_state ≠ WP_SENDLIST_SENDWPSFLOAT
      ∧ m.current_state ≠ WP_CLEARLIST ∧ m.current_state ≠ WP_SETCURRENT := by
    rcases h with h | h | h <;> simp [h]
  obtain ⟨n2, n3, n4, n5, n6⟩ := hne
  cases ev with
  | timeout =>
    simp only [step]
    by_cases ht : m.protocol_timer = true ∧ m.uas = true
    · rw [if_pos ht]
      by_cases hr : m.current_retries > 0
      · obtain ⟨B, S, e⟩ := timeout_retry_frame m hr
        rw [e]; exact h
      · rw [timeout_abort m hr]; exact Or.inl rfl
    · rw [if_neg ht]; exact h
  | count s c n =>
    simp only [step]
    by_cases hg : m.current_state = WP_GETLIST
    · by_cases hs : s = m.current_partner_systemid
      · by_cases hn : n > 0
        · obtain ⟨E, C, S, e⟩ := handleWaypointCount_accept_pos s c n m hg hs hn
          rw [e]; exact Or.inr (Or.inr rfl)
        · obtain ⟨E, C, e⟩ := handleWaypointCount_accept_zero s c n m hg hs hn
          rw [e]; exact Or.inl rfl
      · have e : handleWaypointCount s c n m = m := by simp [handleWaypointCount, hs]
        rw [e]; exact h
    · rw [handleWaypointCount_of_ne s c n m hg]; exact h
  | item s c wp =>
    simp only [step]
    by_cases ha : s = m.current_partner_systemid ∧ m.current_state = WP_GETLIST_GETWPS
        ∧ wp.seq = m.current_wp_id
    · by_cases hlt : (m.current_wp_id + 1) % 65536 < m.current_count
      · obtain ⟨E, C, H, S, e⟩ := handleWaypoint_accept_more s c wp m ha.1 ha.2.1 ha.2.2 hlt
        rw [e]; exact h
      · obtain ⟨E, C, H, S, e⟩ := handleWaypoint_accept_last s c wp m ha.1 ha.2.1 ha.2.2 hlt
        rw [e]; exact Or.inl rfl
    · rw [handleWaypoint_reject s c wp m ha]; exact h
  | ack s c t => simp only [step]; rw [handleWaypointAck_of_ne s c t m n2 n3 n4 n5]; exact h
  | request s c q =>
    simp only [step]; rw [handleWaypointRequest_of_ne s c q _ m n2 n3 n4]; exact h
  | requestInt s c q =>
    simp only [step]; rw [handleWaypointRequest_of_ne s c q _ m n2 n3 n4]; exact h
  | current s c q =>
    simp only [step]
    obtain ⟨v, e⟩ := handleWaypointCurrent_of_ne s c q m n6
    rw [e]; exact h
  | reached s c q => exact h

/-- A request keeps the invariant of the upload. -/
theorem handleWaypointRequest_uploadInv (m0 m : Manager)
    (s c r : Nat) (enc : MissionItemEncoding) (h : UploadInv m0 m) :
    UploadInv m0 (handleWaypointRequest s c r enc m) := by
  by_cases h1 : s = m.current_partner_systemid
      ∧ ((m.current_state = WP_SENDLIST ∧ r = 0)
        ∨ ((m.current_state = WP_SENDLIST_SENDWPSINT
              ∨ m.current_state = WP_SENDLIST_SENDWPSFLOAT)
            ∧ (r = m.current_wp_id ∨ r = m.current_wp_id + 1)))
  · by_cases h2 : r < m.waypoint_buffer.length
    · rw [handleWaypointRequest_accept_in s c r enc m h1 h2]
      have hst' : (if enc = MissionItemEncoding.Int then WP_SENDLIST_SENDWPSINT
          else WP_SENDLIST_SENDWPSFLOAT) = WP_SENDLIST_SENDWPSINT
          ∨ (if enc = MissionItemEncoding.Int then WP_SENDLIST_SENDWPSINT
          else WP_SENDLIST_SENDWPSFLOAT) = WP_SENDLIST_SENDWPSFLOAT := by
        cases enc <;> simp
      rcases h with ⟨hst, hw, outs, hcore, hi⟩ | ⟨hst, outs, hcore, hi⟩ | hother
      · have hlen : m.waypoint_buffer.length = m0.waypointsEditable.length := by
          have := congrArg List.length hcore.2.2.1
          simpa using this
        have hr0 : r = 0 := by
          rcases h1.2 with ⟨_, h0⟩ | ⟨h0, _⟩
          · exact h0
          · rw [hst] at h0; simp at h0
        obtain ⟨B, o2, e, hc2, ho2⟩ := sendWaypoint_core r m0
          { m with
            protocol_timer := true
            current_retries := PROTOCOL_MAX_RETRIES
            current_state :=
              if enc = MissionItemEncoding.Int then WP_SENDLIST_SENDWPSINT
              else WP_SENDLIST_SENDWPSFLOAT
            current_wp_id := r } outs hst' hcore
        rw [e]
        refine Or.inr (Or.inl ⟨hst', outs ++ o2, hc2, ?_⟩)
        show Stair (itemSeqs (outs ++ o2)) r
        have hrN : r < m0.waypointsEditable.length := by omega
        have : itemSeqs (outs ++ o2) = [0] := by
          unfold itemSeqs at *
          rw [List.filterMap_append, hi, ho2, if_pos hrN, hr0]
          rfl
        rw [this, hr0]
        exact Stair.first
      · have hlen : m.waypoint_buffer.length = m0.waypointsEditable.length := by
          have := congrArg List.length hcore.2.2.1
          simpa using this
        obtain ⟨B, o2, e, hc2, ho2⟩ := sendWaypoint_core r m0
          { m with
            protocol_timer := true
            current_retries := PROTOCOL_MAX_RETRIES
            current_state :=
              if enc = MissionItemEncoding.Int then WP_SENDLIST_SENDWPSINT
              else WP_SENDLIST_SENDWPSFLOAT
            current_wp_id := r } outs hst' hcore
        rw [e]
        refine Or.inr (Or.inl ⟨hst', outs ++ o2, hc2, ?_⟩)
        show Stair (itemSeqs (outs ++ o2)) r
        have hrN : r < m0.waypointsEditable.length := by omega
        have hsq : itemSeqs (outs ++ o2) = itemSeqs outs ++ [r] := by
          unfold itemSeqs at *
          rw [List.filterMap_append, ho2, if_pos hrN]
        rw [hsq]
        have hr : r = m.current_wp_id ∨ r = m.current_wp_id + 1 := by
          rcases h1.2 with ⟨h0, _⟩ | ⟨_, h0⟩
          · rcases hst with h3 | h3 <;> rw [h3] at h0 <;> simp at h0
          · exact h0
        rcases hr with hr | hr
        · rw [hr]; exact Stair.again hi
        · rw [hr]; exact Stair.next hi
      · exfalso
        rcases h1.2 with ⟨h0, _⟩ | ⟨h0 | h0, _⟩ <;>
          rcases hother with h3 | h3 | h3 <;> rw [h3] at h0 <;> simp at h0
    · rw [handleWaypointRequest_accept_beyond s c r enc m h1 h2]
      exact h
  · rw [handleWaypointRequest_reject s c r enc m h1]
    exact h

/-- Every inbound message and every timeout keeps the invariant of the upload. -/
theorem step_uploadInv (m0 m : Manager) (ev : Event)
    (h : UploadInv m0 m) : UploadInv m0 (step m ev) := by
  rcases h with ⟨hst, hw, outs, hcore, hi⟩ | ⟨hst, outs, hcore, hi⟩ | hother
  · -- SENDLIST
    have n1 : m.current_state ≠ WP_GETLIST := by simp [hst]
    have n2 : m.current_state ≠ WP_GETLIST_GETWPS := by simp [hst]
    have n3 : m.current_state ≠ WP_SETCURRENT := by simp [hst]
    have hinv : UploadInv m0 m := Or.inl ⟨hst, hw, outs, hcore, hi⟩
    cases ev with
    | timeout =>
      simp only [step]
      by_cases ht : m.protocol_timer = true ∧ m.uas = true
      · rw [if_pos ht]
        by_cases hr : m.current_retries > 0
        · rw [timeout_sendlist m hr hst hcore.1]
          obtain ⟨hu, hid, hb, hbuf, hs, hmsgs⟩ := hcore
          refine Or.inl ⟨hst, hw, outs ++
            [Msg.MISSION_COUNT (m.uasid % 256) m.m_waypointComponentID m.current_count],
            ⟨hu, hid, hb, hbuf, ?_, ?_⟩, ?_⟩
          · show m.sent ++ [_] = m0.sent ++ (outs ++ [_])
            rw [hs, List.append_assoc]
          · intro msg hm i hi'
            rcases List.mem_append.mp hm with h1 | h1
            · exact hmsgs msg h1 i hi'
            · have hmx : msg = Msg.MISSION_COUNT (m.uasid % 256) m.m_waypointComponentID
                  m.current_count := by simpa using h1
              rw [hmx] at hi'
              simp [itemSeq] at hi'
          · unfold itemSeqs at *
            rw [List.filterMap_append, hi]
            rfl
        · rw [timeout_abort m hr]; exact Or.inr (Or.inr (Or.inl rfl))
      · rw [if_neg ht]; exact hinv
    | count s c n => simp only [step]; rw [handleWaypointCount_of_ne s c n m n1]; exact hinv
    | item s c wp => simp only [step]; rw [handleWaypoint_of_ne s c wp m n2]; exact hinv
    | ack s c t =>
      simp only [step]
      rcases handleWaypointAck_frame s c t m with e | ⟨_, e⟩ | ⟨_, S, e⟩
      · rw [e]; exact hinv
      · rw [e]; exact Or.inr (Or.inr (Or.inl rfl))
      · rw [e]; exact Or.inr (Or.inr (Or.inr (Or.inl rfl)))
    | request s c q => exact handleWaypointRequest_uploadInv m0 m s c q _ hinv
    | requestInt s c q => exact handleWaypointRequest_uploadInv m0 m s c q _ hinv
    | current s c q =>
      simp only [step]
      obtain ⟨v, e⟩ := handleWaypointCurrent_of_ne s c q m n3
      rw [e]; exact hinv
    | reached s c q => exact hinv
  · -- SENDLIST_SENDWPSINT or SENDLIST_SENDWPSFLOAT
    have n1 : m.current_state ≠ WP_GETLIST := by rcases hst with h | h <;> simp [h]
    have n2 : m.current_state ≠ WP_GETLIST_GETWPS := by rcases hst with h | h <;> simp [h]
    have n3 : m.current_state ≠ WP_SETCURRENT := by rcases hst with h | h <;> simp [h]
    have hinv : UploadInv m0 m := Or.inr (Or.inl ⟨hst, outs, hcore, hi⟩)
    cases ev with
    | timeout =>
      simp only [step]
      by_cases ht : m.protocol_timer = true ∧ m.uas = true
      · rw [if_pos ht]
        by_cases hr : m.current_retries > 0
        · rw [timeout_sendwps m hr hst]
          obtain ⟨B, o2, e, hc2, ho2⟩ := sendWaypoint_core m.current_wp_id m0
            { m with protocol_timer := true, current_retries := m.current_retries - 1 }
            outs hst hcore
          rw [e]
          refine Or.inr (Or.inl ⟨hst, outs ++ o2, hc2, ?_⟩)
          show Stair (itemSeqs (outs ++ o2)) m.current_wp_id
          have hsq : itemSeqs (outs ++ o2) = itemSeqs outs
              ++ (if m.current_wp_id < m0.waypointsEditable.length then [m.current_wp_id]
                  else []) := by
            unfold itemSeqs at *
            rw [List.filterMap_append, ho2]
          rw [hsq]
          split_ifs
          · exact Stair.again hi
          · simpa using hi
        · rw [timeout_abort m hr]; exact Or.inr (Or.inr (Or.inl rfl))
      · rw [if_neg ht]; exact hinv
    | count s c n => simp only [step]; rw [handleWaypointCount_of_ne s c n m n1]; exact hinv
    | item s c wp => simp only [step]; rw [handleWaypoint_of_ne s c wp m n2]; exact hinv
    | ack s c t =>
      simp only [step]
      rcases handleWaypointAck_frame s c t m with e | ⟨_, e⟩ | ⟨_, S, e⟩
      · rw [e]; exact hinv
      · rw [e]; exact Or.inr (Or.inr (Or.inl rfl))
      · rw [e]; exact Or.inr (Or.inr (Or.inr (Or.inl rfl)))
    | request s c q => exact handleWaypointRequest_uploadInv m0 m s c q _ hinv
    | requestInt s c q => exact handleWaypointRequest_uploadInv m0 m s c q _ hinv
    | current s c q =>
      simp only [step]
      obtain ⟨v, e⟩ := handleWaypointCurrent_of_ne s c q m n3
      rw [e]; exact hinv
    | reached s c q => exact hinv
  · exact Or.inr (Or.inr (step_left_upload m ev hother))

/-- An upload started in IDLE with a vehicle attached and at most 65535 items
establishes the invariant of the upload. -/
theorem writeWaypoints_uploadInv (m : Manager) (hidle : m.current_state = WP_IDLE)
    (hu : m.uas = true) (hpos : 0 < m.waypointsEditable.length)
    (hN : m.waypointsEditable.length ≤ 65535) :
    UploadInv m (writeWaypoints m) := by
  have hmod : m.waypointsEditable.length % 65536 = m.waypointsEditable.length :=
    Nat.mod_eq_of_lt (by omega)
  have e : writeWaypoints m =
      { m with
        protocol_timer := true
        current_retries := PROTOCOL_MAX_RETRIES
        current_count := m.waypointsEditable.length
        current_state := WP_SENDLIST
        current_wp_id := 0
        current_partner_systemid := m.uasid % 256
        current_partner_compid := m.m_waypointComponentID
        waypoint_buffer := copyToBuffer m.waypointsEditable.length m.waypointsEditable 0 true
        sent := m.sent ++ [Msg.MISSION_COUNT (m.uasid % 256) m.m_waypointComponentID
          m.waypointsEditable.length] } := by
    simp [writeWaypoints, hidle, hpos, hmod, sendWaypointCount, sendMessage, hu]
  have hseq : (writeWaypoints m).waypoint_buffer.map (fun d => d.seq)
      = List.range m.waypointsEditable.length := by
    rw [e]
    show (copyToBuffer m.waypointsEditable.length m.waypointsEditable 0 true).map
      (fun d => d.seq) = List.range m.waypointsEditable.length
    rw [copyToBuffer_seq _ _ _ _ (by omega), List.range_eq_range']
  have hsent : (writeWaypoints m).sent = m.sent
      ++ [Msg.MISSION_COUNT (m.uasid % 256) m.m_waypointComponentID
          m.waypointsEditable.length] := by
    rw [e]
  refine Or.inl ⟨by rw [e], by rw [e], [_],
    ⟨by rw [e]; exact hu, ⟨by rw [e], by rw [e]⟩, hseq, rfl, hsent, ?_⟩, rfl⟩
  intro msg hm i hi
  have hmx : msg = Msg.MISSION_COUNT (m.uasid % 256) m.m_waypointComponentID
      m.waypointsEditable.length := by simpa using hm
  rw [hmx] at hi
  simp [itemSeq] at hi

/-- Claim C9 on the code: an upload of one item to vehicle 1 has sent only its COUNT
and waits in SENDLIST, where `current_wp_id = 0 = N - 1`.  An ACK of type 0 from the
partner is accepted by the branch of `handleWaypointAck` that carries the comment
"all waypoints sent and ack received" and completes the upload (the manager goes on to
GETLIST), although no item message was ever sent. -/
theorem upload_of_one_item_completes_without_sending :
    onlineUpload.current_state = WP_SENDLIST
    ∧ onlineUpload.waypoint_buffer.length = 1
    ∧ ackCompletesUpload 1 190 0 onlineUpload
    ∧ (handleWaypointAck 1 190 0 onlineUpload).current_state = WP_GETLIST
    ∧ itemSeqs onlineUpload.sent = []
    ∧ itemSeqs (handleWaypointAck 1 190 0 onlineUpload).sent = [] :=
  ⟨by decide, by decide, ⟨⟨by decide, Or.inl (by decide)⟩, Or.inl (by decide), by decide, rfl⟩,
   by decide, by decide, by decide⟩

/-- Where the upload order holds: an upload of N items, 1 ≤ N ≤ 65535, is started by
`writeWaypoints` in state IDLE with a vehicle attached, and any sequence of inbound
messages and timeouts follows.  If then an ACK is accepted by the "all waypoints sent"
branch of `handleWaypointAck` and a request has been accepted before (the state is no
longer SENDLIST) or N ≥ 2, then among the messages sent since the start of the upload
(1) every item number 0 .. N-1 occurs, (2) for i < j < N the first message carrying
item i was sent before the first message carrying item j, and (3) every message
carrying item number i is the integer or float form of entry i of the buffer filled by
`writeWaypoints`, with the target ids stamped in.  The case left is the upload of one
item whose ACK arrives in SENDLIST. -/
theorem upload_sends_every_item_before_completion (m0 : Manager) (evs : List Event)
    (systemId compId type : Nat)
    (hidle : m0.current_state = WP_IDLE) (huas : m0.uas = true)
    (h1 : 1 ≤ m0.waypointsEditable.length) (hN : m0.waypointsEditable.length ≤ 65535)
    (hreq : (run (writeWaypoints m0) evs).current_state ≠ WP_SENDLIST
      ∨ 2 ≤ m0.waypointsEditable.length)
    (hack : ackCompletesUpload systemId compId type (run (writeWaypoints m0) evs)) :
    (∀ i, i < m0.waypointsEditable.length →
        i ∈ itemSeqs ((run (writeWaypoints m0) evs).sent.drop m0.sent.length))
    ∧ (∀ i j, i < j → j < m0.waypointsEditable.length →
        (itemSeqs ((run (writeWaypoints m0) evs).sent.drop m0.sent.length)).indexOf i
          < (itemSeqs ((run (writeWaypoints m0) evs).sent.drop m0.sent.length)).indexOf j)
    ∧ (∀ msg, msg ∈ (run (writeWaypoints m0) evs).sent.drop m0.sent.length →
        ∀ i, itemSeq msg = some i →
          ∃ wp0, (writeWaypoints m0).waypoint_buffer[i]? = some wp0
            ∧ (msg = Msg.MISSION_ITEM_INT (stampTarget m0 wp0)
              ∨ msg = Msg.MISSION_ITEM (convertMavlinkMissionItem (stampTarget m0 wp0)))) := by
  have hinv : UploadInv m0 (run (writeWaypoints m0) evs) :=
    run_preserves (UploadInv m0) (step_uploadInv m0) evs _
      (writeWaypoints_uploadInv m0 hidle huas (by omega) hN)
  generalize run (writeWaypoints m0) evs = mB at hinv hack hreq
  obtain ⟨_, hst, hlast, _⟩ := hack
  rcases hinv with ⟨hsl, hw, outs, hcore, _⟩ | ⟨_, outs, hcore, hi⟩ | hother
  · exfalso
    have hlen : mB.waypoint_buffer.length = m0.waypointsEditable.length := by
      have := congrArg List.length hcore.2.2.1
      simpa using this
    rw [hw, hlen] at hlast
    rcases hreq with hreq | hreq
    · exact hreq hsl
    · omega
  · obtain ⟨_, _, hb, _, hs, hmsgs⟩ := hcore
    have hlen : mB.waypoint_buffer.length = m0.waypointsEditable.length := by
      have := congrArg List.length hb
      simpa using this
    have hdrop : mB.sent.drop m0.sent.length = outs := by
      rw [hs]; simp
    have hwp : mB.current_wp_id + 1 = m0.waypointsEditable.length := by
      rw [hlen] at hlast; omega
    rw [hdrop]
    exact ⟨fun i hi' => hi.mem_of_le i (by omega),
      fun i j hij hj => hi.indexOf_lt i j hij (by omega), hmsgs⟩
  · exfalso
    rcases hst with h | h | h <;> rcases hother with h' | h' | h' <;>
      rw [h] at h' <;> simp at h'

/-- The upload order applied to the upload of three items of the spec's
scenario 4: the three requests are answered, item 1 is resent after a timeout, and the
ACK arrives.  Items 0, 1 and 2 were sent, first sent in this order. -/
theorem upload_sends_every_item_before_completion_witness :
    threeItems.current_state = WP_IDLE
    ∧ threeItems.uas = true
    ∧ 1 ≤ threeItems.waypointsEditable.length
    ∧ threeItems.waypointsEditable.length ≤ 65535
    ∧ ackCompletesUpload 1 190 0 (run (writeWaypoints threeItems) threeItemsEvents)
    ∧ 0 ∈ itemSeqs ((run (writeWaypoints threeItems) threeItemsEvents).sent.drop
        threeItems.sent.length)
    ∧ 1 ∈ itemSeqs ((run (writeWaypoints threeItems) threeItemsEvents).sent.drop
        threeItems.sent.length)
    ∧ 2 ∈ itemSeqs ((run (writeWaypoints threeItems) threeItemsEvents).sent.drop
        threeItems.sent.length)
    ∧ (itemSeqs ((run (writeWaypoints threeItems) threeItemsEvents).sent.drop
          threeItems.sent.length)).indexOf 0
        < (itemSeqs ((run (writeWaypoints threeItems) threeItemsEvents).sent.drop
          threeItems.sent.length)).indexOf 1
    ∧ (itemSeqs ((run (writeWaypoints threeItems) threeItemsEvents).sent.drop
          threeItems.sent.length)).indexOf 1
        < (itemSeqs ((run (writeWaypoints threeItems) threeItemsEvents).sent.drop
          threeItems.sent.length)).indexOf 2 :=
  have h := upload_sends_every_item_before_completion threeItems threeItemsEvents
    1 190 0 (by decide) (by decide) (by decide) (by decide) (Or.inl (by decide))
    ⟨⟨by decide, Or.inl (by decide)⟩, Or.inr (Or.inr (by decide)), by decide, rfl⟩
  ⟨by decide, by decide, by decide, by decide,
   ⟨⟨by decide, Or.inl (by decide)⟩, Or.inr (Or.inr (by decide)), by decide, rfl⟩,
   h.1 0 (by decide), h.1 1 (by decide), h.1 2 (by decide),
   h.2.1 0 1 (by decide) (by decide), h.2.1 1 2 (by decide) (by decide)⟩

/-! ### Timeouts -/

/-- Claim C11: `timeout()` runs as the slot of the protocol timer, which the
constructor connects only when a vehicle is attached (`step` delivers the expiry only
then).  On a timeout with retries left `current_retries` decreases by exactly one and
state and `current_wp_id` are unchanged; the vehicle being attached, exactly one
message is sent, determined by the state: REQUEST_LIST in GETLIST,
REQUEST(`current_wp_id`) in GETLIST_GETWPS, COUNT in SENDLIST, the buffered item
`current_wp_id` in the integer form in SENDLIST_SENDWPSINT and in the float form in
SENDLIST_SENDWPSFLOAT, CLEAR_ALL in CLEARLIST, SET_CURRENT(`current_wp_id`) in
SETCURRENT. -/
theorem timeout_retry_resends (m : Manager) (hr : m.current_retries > 0) :
    (m.protocol_timer = true → m.uas = true → step m Event.timeout = timeout m)
    ∧ (m.uas = false → step m Event.timeout = m)
    ∧ (timeout m).current_retries = m.current_retries - 1
    ∧ (timeout m).current_state = m.current_state
    ∧ (timeout m).current_wp_id = m.current_wp_id
    ∧ (m.uas = true →
      (m.current_state = WP_GETLIST → (timeout m).sent
          = m.sent ++ [Msg.MISSION_REQUEST_LIST (m.uasid % 256) m.m_waypointComponentID])
      ∧ (m.current_state = WP_GETLIST_GETWPS → (timeout m).sent
          = m.sent ++ [Msg.MISSION_REQUEST_INT (m.uasid % 256) m.m_waypointComponentID
              m.current_wp_id])
      ∧ (m.current_state = WP_SENDLIST → (timeout m).sent
          = m.sent ++ [Msg.MISSION_COUNT (m.uasid % 256) m.m_waypointComponentID
              m.current_count])
      ∧ (m.current_state = WP_SENDLIST_SENDWPSINT →
          ∀ wp0, m.waypoint_buffer[m.current_wp_id]? = some wp0 →
            (timeout m).sent = m.sent ++ [Msg.MISSION_ITEM_INT (stampTarget m wp0)])
      ∧ (m.current_state = WP_SENDLIST_SENDWPSFLOAT →
          ∀ wp0, m.waypoint_buffer[m.current_wp_id]? = some wp0 →
            (timeout m).sent
              = m.sent ++ [Msg.MISSION_ITEM (convertMavlinkMissionItem (stampTarget m wp0))])
      ∧ (m.current_state = WP_CLEARLIST → (timeout m).sent
          = m.sent ++ [Msg.MISSION_CLEAR_ALL (m.uasid % 256) m.m_waypointComponentID])
      ∧ (m.current_state = WP_SETCURRENT → (timeout m).sent
          = m.sent ++ [Msg.MISSION_SET_CURRENT (m.uasid % 256) m.m_waypointComponentID
              m.current_wp_id])) := by
  obtain ⟨B, S, e⟩ := timeout_retry_frame m hr
  refine ⟨?_, ?_, by rw [e], by rw [e], by rw [e], ?_⟩
  · intro ht hu
    simp only [step]
    rw [if_pos ⟨ht, hu⟩]
  · intro hu
    simp [step, hu]
  intro hu
  refine ⟨?_, ?_, ?_, ?_, ?_, ?_, ?_⟩
  · intro hst
    simp [timeout, hr, hst, hu, sendWaypointRequestList, sendMessage]
  · intro hst
    simp [timeout, hr, hst, hu, sendWaypointRequest, sendMessage]
  · intro hst
    simp [timeout, hr, hst, hu, sendWaypointCount, sendMessage]
  · intro hst wp0 hwp
    simp [timeout, hr, hst, hu, sendWaypoint, sendMessage, hwp, stampTarget]
  · intro hst wp0 hwp
    simp [timeout, hr, hst, hu, sendWaypoint, sendMessage, hwp, stampTarget]
  · intro hst
    simp [timeout, hr, hst, hu, sendWaypointClearAll, sendMessage]
  · intro hst
    simp [timeout, hr, hst, hu, sendWaypointSetCurrent, sendMessage]

/-- Witness for C11: the theorem applied to the download of two items that has received
item 0: the timer expiry runs `timeout`, which takes one retry and requests item 1
again. -/
theorem timeout_retry_resends_witness :
    busyDownload.current_retries > 0
    ∧ busyDownload.uas = true
    ∧ busyDownload.protocol_timer = true
    ∧ busyDownload.current_state = WP_GETLIST_GETWPS
    ∧ step busyDownload Event.timeout = timeout busyDownload
    ∧ (timeout busyDownload).current_retries = busyDownload.current_retries - 1
    ∧ (timeout busyDownload).current_state = busyDownload.current_state
    ∧ (timeout busyDownload).current_wp_id = busyDownload.current_wp_id
    ∧ (timeout busyDownload).sent
        = busyDownload.sent ++ [Msg.MISSION_REQUEST_INT (busyDownload.uasid % 256)
            busyDownload.m_waypointComponentID busyDownload.current_wp_id] :=
  have h := timeout_retry_resends busyDownload (by decide)
  ⟨by decide, by decide, by decide, by decide, h.1 (by decide) (by decide), h.2.2.1,
   h.2.2.2.1, h.2.2.2.2.1, (h.2.2.2.2.2 (by decide)).2.1 (by decide)⟩

/-- Claim C12 on the code: the download of two items has received item 0; six timeouts
exhaust the retries.  The manager is back in IDLE, but the item received so far is
still in the view-only list. -/
theorem timeout_abort_keeps_partial_download :
    busyDownload.current_state = WP_GETLIST_GETWPS
    ∧ busyDownload.waypointsViewOnly.length = 1
    ∧ (run busyDownload (List.replicate 5 Event.timeout)).current_retries = 0
    ∧ (run busyDownload (List.replicate 6 Event.timeout)).current_state = WP_IDLE
    ∧ (run busyDownload (List.replicate 6 Event.timeout)).waypointsViewOnly.length = 1 := by
  decide

/-- Claim C12 as amended: on a timeout with no retries left during a download (state
GETLIST or GETLIST_GETWPS) the manager aborts to IDLE, stops the timer, resets
`current_count`, `current_wp_id` and the partner ids, and sends nothing; the view-only
list is left as it is. -/
theorem timeout_abort_download (m : Manager) (hr : m.current_retries = 0)
    (hst : m.current_state = WP_GETLIST ∨ m.current_state = WP_GETLIST_GETWPS) :
    (timeout m).current_state = WP_IDLE
    ∧ (timeout m).protocol_timer = false
    ∧ (timeout m).current_count = 0
    ∧ (timeout m).current_wp_id = 0
    ∧ (timeout m).current_partner_systemid = 0
    ∧ (timeout m).sent = m.sent
    ∧ (timeout m).waypointsViewOnly = m.waypointsViewOnly
    ∧ (timeout m).waypointsEditable = m.waypointsEditable
    ∧ (timeout m).current_partner_compid = m.MAV_COMP_ID_PRIMARY := by
  rw [timeout_abort m (by omega)]
  exact ⟨rfl, rfl, rfl, rfl, rfl, rfl, rfl, rfl, rfl⟩

/-- Witness for C12: the theorem applied to the download of two items after five
timeouts. -/
theorem timeout_abort_download_witness :
    (run busyDownload (List.replicate 5 Event.timeout)).current_retries = 0
    ∧ (run busyDownload (List.replicate 5 Event.timeout)).current_state = WP_GETLIST_GETWPS
    ∧ (timeout (run busyDownload (List.replicate 5 Event.timeout))).current_state = WP_IDLE
    ∧ (timeout (run busyDownload (List.replicate 5 Event.timeout))).waypointsViewOnly
        = (run busyDownload (List.replicate 5 Event.timeout)).waypointsViewOnly :=
  have h := timeout_abort_download (run busyDownload (List.replicate 5 Event.timeout))
    (by decide) (Or.inr (by decide))
  ⟨by decide, by decide, h.1, h.2.2.2.2.2.2.1⟩

/-! ### Messages that do not match the transfer -/

/-- Claim C13: a COUNT, ITEM, REQUEST (either form) or ACK whose sender system id
differs from `current_partner_systemid`, or which arrives in a state that is not
compatible with its kind (COUNT outside GETLIST, ITEM outside GETLIST_GETWPS, REQUEST
outside the three SENDLIST states, ACK outside the three SENDLIST states and CLEARLIST),
leaves the whole manager record unchanged, the trace of sent messages included. -/
theorem mismatched_message_dropped (m : Manager) (systemId compId : Nat) :
    (∀ n, (systemId ≠ m.current_partner_systemid ∨ m.current_state ≠ WP_GETLIST) →
        handleWaypointCount systemId compId n m = m)
    ∧ (∀ wp, (systemId ≠ m.current_partner_systemid
          ∨ m.current_state ≠ WP_GETLIST_GETWPS) →
        handleWaypoint systemId compId wp m = m)
    ∧ (∀ r enc, (systemId ≠ m.current_partner_systemid
          ∨ (m.current_state ≠ WP_SENDLIST ∧ m.current_state ≠ WP_SENDLIST_SENDWPSINT
              ∧ m.current_state ≠ WP_SENDLIST_SENDWPSFLOAT)) →
        handleWaypointRequest systemId compId r enc m = m)
    ∧ (∀ t, (systemId ≠ m.current_partner_systemid
          ∨ (m.current_state ≠ WP_SENDLIST ∧ m.current_state ≠ WP_SENDLIST_SENDWPSINT
              ∧ m.current_state ≠ WP_SENDLIST_SENDWPSFLOAT
              ∧ m.current_state ≠ WP_CLEARLIST)) →
        handleWaypointAck systemId compId t m = m) := by
  refine ⟨?_, ?_, ?_, ?_⟩
  · intro n h
    rcases h with h | h <;> simp [handleWaypointCount, h]
  · intro wp h
    rcases h with h | h <;> simp [handleWaypoint, h]
  · intro r enc h
    rcases h with h | ⟨h1, h2, h3⟩
    · simp [handleWaypointRequest, h]
    · exact handleWaypointRequest_of_ne _ _ _ _ _ h1 h2 h3
  · intro t h
    rcases h with h | ⟨h1, h2, h3, h4⟩
    · simp [handleWaypointAck, h]
    · exact handleWaypointAck_of_ne _ _ _ _ h1 h2 h3 h4

/-- Witness for C13: the theorem applied to the download of two items: a COUNT in
GETLIST_GETWPS, an ITEM from system 9, a REQUEST and an ACK during the download are
all dropped. -/
theorem mismatched_message_dropped_witness :
    busyDownload.current_state ≠ WP_GETLIST
    ∧ 9 ≠ busyDownload.current_partner_systemid
    ∧ handleWaypointCount 1 0 3 busyDownload = busyDownload
    ∧ handleWaypoint 9 0 (mkItem 1 0) busyDownload = busyDownload
    ∧ handleWaypointRequest 1 0 0 MissionItemEncoding.Int busyDownload = busyDownload
    ∧ handleWaypointAck 1 0 0 busyDownload = busyDownload :=
  ⟨by decide, by decide,
   (mismatched_message_dropped busyDownload 1 0).1 3 (Or.inr (by decide)),
   (mismatched_message_dropped busyDownload 9 0).2.1 (mkItem 1 0) (Or.inl (by decide)),
   (mismatched_message_dropped busyDownload 1 0).2.2.1 0 MissionItemEncoding.Int
     (Or.inr ⟨by decide, by decide, by decide⟩),
   (mismatched_message_dropped busyDownload 1 0).2.2.2 0
     (Or.inr ⟨by decide, by decide, by decide, by decide⟩)⟩

/-! ### Download: the editable list until the count arrives -/

/-- A timeout never changes the editable list. -/
theorem timeout_waypointsEditable (m : Manager) :
    (timeout m).waypointsEditable = m.waypointsEditable := by
  by_cases hr : m.current_retries > 0
  · obtain ⟨B, S, e⟩ := timeout_retry_frame m hr
    rw [e]
  · rw [timeout_abort m hr]

/-- A COUNT empties the editable list when it is accepted with `read_to_edit` set and
leaves it unchanged otherwise. -/
theorem handleWaypointCount_waypointsEditable (s c n : Nat) (m : Manager) :
    (handleWaypointCount s c n m).waypointsEditable
      = if (m.current_state = WP_GETLIST ∧ s = m.current_partner_systemid)
            ∧ m.read_to_edit = true then [] else m.waypointsEditable := by
  by_cases hg : m.current_state = WP_GETLIST ∧ s = m.current_partner_systemid
  · by_cases hr : m.read_to_edit = true <;> by_cases hn : n > 0 <;>
      by_cases hu : m.uas = false <;>
      simp [handleWaypointCount, hg, hr, hn, hu, sendWaypointRequest, sendMessage]
  · simp [handleWaypointCount, hg]

/-- An ITEM leaves the editable list unchanged or appends one item to it. -/
theorem handleWaypoint_waypointsEditable (s c : Nat) (wp : MissionItemInt) (m : Manager) :
    (handleWaypoint s c wp m).waypointsEditable = m.waypointsEditable
    ∨ ∃ w, (handleWaypoint s c wp m).waypointsEditable = m.waypointsEditable ++ [w] := by
  by_cases ha : s = m.current_partner_systemid ∧ m.current_state = WP_GETLIST_GETWPS
      ∧ wp.seq = m.current_wp_id
  · by_cases hr : m.read_to_edit = true <;> by_cases hc : wp.current = 1 <;>
      by_cases hlt : (m.current_wp_id + 1) % 65536 < m.current_count <;>
      by_cases hu : m.uas = false <;>
      simp [handleWaypoint, ha.1, ha.2.1, ha.2.2, hr, hc, hlt, hu, addWaypointViewOnly,
        addWaypointEditable, sendWaypointRequest, sendWaypointAck, sendMessage]
  · rw [handleWaypoint_reject s c wp m ha]; exact Or.inl rfl

/-- An event other than a COUNT or an ITEM never changes the editable list. -/
theorem step_waypointsEditable (m : Manager) (ev : Event) :
    (step m ev).waypointsEditable = m.waypointsEditable
    ∨ (∃ s c n, ev = Event.count s c n)
    ∨ (∃ s c wp, ev = Event.item s c wp) := by
  cases ev with
  | timeout =>
    simp only [step]
    split_ifs
    · exact Or.inl (timeout_waypointsEditable m)
    · exact Or.inl rfl
  | count s c n => exact Or.inr (Or.inl ⟨s, c, n, rfl⟩)
  | item s c wp => exact Or.inr (Or.inr ⟨s, c, wp, rfl⟩)
  | ack s c t =>
    simp only [step]
    rcases handleWaypointAck_frame s c t m with e | ⟨_, e⟩ | ⟨_, S, e⟩ <;>
      rw [e] <;> exact Or.inl rfl
  | request s c q =>
    simp only [step]
    rcases handleWaypointRequest_frame s c q MissionItemEncoding.Float m with
      e | ⟨_, e | ⟨st, B, S, _, e⟩⟩ <;> rw [e] <;> exact Or.inl rfl
  | requestInt s c q =>
    simp only [step]
    rcases handleWaypointRequest_frame s c q MissionItemEncoding.Int m with
      e | ⟨_, e | ⟨st, B, S, _, e⟩⟩ <;> rw [e] <;> exact Or.inl rfl
  | current s c q =>
    simp only [step]
    rcases handleWaypointCurrent_frame s c q m with e | ⟨v, e⟩ | ⟨V, v, e⟩ <;>
      rw [e] <;> exact Or.inl rfl
  | reached s c q => exact Or.inl rfl

/-- An event that empties a non-empty editable list is a COUNT that is accepted while
`read_to_edit` is set. -/
theorem step_clears_only_on_count (m : Manager) (ev : Event)
    (hc : (step m ev).waypointsEditable = []) (hne : m.waypointsEditable ≠ []) :
    acceptsCount m ev = true ∧ m.read_to_edit = true := by
  rcases step_waypointsEditable m ev with h | ⟨s, c, n, rfl⟩ | ⟨s, c, wp, rfl⟩
  · rw [h] at hc; exact absurd hc hne
  · simp only [step] at hc
    rw [handleWaypointCount_waypointsEditable] at hc
    split_ifs at hc with hcond
    · exact ⟨by simpa [acceptsCount] using hcond.1, hcond.2⟩
    · exact absurd hc hne
  · simp only [step] at hc
    rcases handleWaypoint_waypointsEditable s c wp m with h | ⟨w, h⟩
    · rw [h] at hc; exact absurd hc hne
    · rw [h] at hc; simp at hc

/-- While the count is awaited or the manager is idle, an event that is not an accepted
COUNT keeps it so and keeps the editable list. -/
theorem step_awaiting_keeps_editable (E : List Waypoint) (m : Manager) (ev : Event)
    (hst : m.current_state = WP_GETLIST ∨ m.current_state = WP_IDLE)
    (hE : m.waypointsEditable = E) (hno : acceptsCount m ev = false) :
    ((step m ev).current_state = WP_GETLIST ∨ (step m ev).current_state = WP_IDLE)
    ∧ (step m ev).waypointsEditable = E := by
  have n2 : m.current_state ≠ WP_GETLIST_GETWPS := by rcases hst with h | h <;> simp [h]
  have n3 : m.current_state ≠ WP_SENDLIST := by rcases hst with h | h <;> simp [h]
  have n4 : m.current_state ≠ WP_SENDLIST_SENDWPSINT := by rcases hst with h | h <;> simp [h]
  have n5 : m.current_state ≠ WP_SENDLIST_SENDWPSFLOAT := by
    rcases hst with h | h <;> simp [h]
  have n6 : m.current_state ≠ WP_CLEARLIST := by rcases hst with h | h <;> simp [h]
  have n7 : m.current_state ≠ WP_SETCURRENT := by rcases hst with h | h <;> simp [h]
  cases ev with
  | timeout =>
    simp only [step]
    by_cases ht : m.protocol_timer = true ∧ m.uas = true
    · rw [if_pos ht]
      by_cases hr : m.current_retries > 0
      · obtain ⟨B, S, e⟩ := timeout_retry_frame m hr
        rw [e]; exact ⟨hst, hE⟩
      · rw [timeout_abort m hr]; exact ⟨Or.inr rfl, hE⟩
    · rw [if_neg ht]; exact ⟨hst, hE⟩
  | count s c n =>
    simp only [step]
    have hrej : ¬ (m.current_state = WP_GETLIST ∧ s = m.current_partner_systemid) := by
      simpa [acceptsCount] using hno
    have e : handleWaypointCount s c n m = m := by
      unfold handleWaypointCount
      rw [if_neg hrej]
    rw [e]; exact ⟨hst, hE⟩
  | item s c wp => simp only [step]; rw [handleWaypoint_of_ne s c wp m n2]; exact ⟨hst, hE⟩
  | ack s c t =>
    simp only [step]; rw [handleWaypointAck_of_ne s c t m n3 n4 n5 n6]; exact ⟨hst, hE⟩
  | request s c q =>
    simp only [step]; rw [handleWaypointRequest_of_ne s c q _ m n3 n4 n5]; exact ⟨hst, hE⟩
  | requestInt s c q =>
    simp only [step]; rw [handleWaypointRequest_of_ne s c q _ m n3 n4 n5]; exact ⟨hst, hE⟩
  | current s c q =>
    simp only [step]
    obtain ⟨v, e⟩ := handleWaypointCurrent_of_ne s c q m n7
    rw [e]; exact ⟨hst, hE⟩
  | reached s c q => exact ⟨hst, hE⟩

/-- A run without accepted COUNT from a manager that awaits the count or is idle keeps
the editable list. -/
theorem run_awaiting_keeps_editable (E : List Waypoint) :
    ∀ (evs : List Event) (m : Manager),
      (m.current_state = WP_GETLIST ∨ m.current_state = WP_IDLE) →
      m.waypointsEditable = E → noAcceptedCount m evs = true →
      (run m evs).waypointsEditable = E := by
  intro evs
  induction evs with
  | nil => intro m _ hE _; simpa [run] using hE
  | cons ev rest ih =>
    intro m hst hE hno
    simp only [noAcceptedCount, Bool.and_eq_true, Bool.not_eq_true'] at hno
    obtain ⟨h1, h2⟩ := step_awaiting_keeps_editable E m ev hst hE hno.1
    have : run m (ev :: rest) = run (step m ev) rest := by simp [run]
    rw [this]
    exact ih _ h1 h2 hno.2

/-- Claim C14: after `readWaypoints true` in state IDLE the view-only list is empty and
the editable list is unchanged; after every following sequence of timeouts and inbound
messages in which no COUNT is accepted (retry exhaustion included) the editable list
still equals its value before the call.  An event empties a non-empty editable list
only if it is a COUNT accepted in GETLIST from the partner with `read_to_edit` set, and
such a COUNT does empty it. -/
theorem editable_kept_until_count_accepted (m0 : Manager) (evs : List Event)
    (hidle : m0.current_state = WP_IDLE)
    (hno : noAcceptedCount (readWaypoints true m0) evs = true) :
    (readWaypoints true m0).waypointsViewOnly = []
    ∧ (readWaypoints true m0).waypointsEditable = m0.waypointsEditable
    ∧ (run (readWaypoints true m0) evs).waypointsEditable = m0.waypointsEditable
    ∧ (∀ m ev, (step m ev).waypointsEditable = [] → m.waypointsEditable ≠ [] →
        acceptsCount m ev = true ∧ m.read_to_edit = true)
    ∧ (∀ m s c n, m.current_state = WP_GETLIST → s = m.current_partner_systemid →
        m.read_to_edit = true → (handleWaypointCount s c n m).waypointsEditable = []) := by
  have hv : (readWaypoints true m0).waypointsViewOnly = [] := by
    by_cases hu : m0.uas = false <;>
      simp [readWaypoints, hidle, sendWaypointRequestList, sendMessage, hu]
  have he : (readWaypoints true m0).waypointsEditable = m0.waypointsEditable := by
    by_cases hu : m0.uas = false <;>
      simp [readWaypoints, hidle, sendWaypointRequestList, sendMessage, hu]
  have hs : (readWaypoints true m0).current_state = WP_GETLIST := by
    by_cases hu : m0.uas = false <;>
      simp [readWaypoints, hidle, sendWaypointRequestList, sendMessage, hu]
  refine ⟨hv, he, run_awaiting_keeps_editable _ evs _ (Or.inl hs) he hno,
    step_clears_only_on_count, ?_⟩
  intro m s c n hg hp hr
  rw [handleWaypointCount_waypointsEditable, if_pos ⟨⟨hg, hp⟩, hr⟩]

/-- Witness for C14: the theorem applied to a manager with one editable item: the count
never arrives from the partner while the download waits, and the retries run out. -/
theorem editable_kept_until_count_accepted_witness :
    idleManager.current_state = WP_IDLE
    ∧ noAcceptedCount (readWaypoints true idleManager) countlessEvents = true
    ∧ (run (readWaypoints true idleManager) countlessEvents).current_state = WP_IDLE
    ∧ (readWaypoints true idleManager).waypointsViewOnly = []
    ∧ (readWaypoints true idleManager).waypointsEditable = idleManager.waypointsEditable
    ∧ (run (readWaypoints true idleManager) countlessEvents).waypointsEditable
        = idleManager.waypointsEditable :=
  have h := editable_kept_until_count_accepted idleManager countlessEvents
    (by decide) (by decide)
  ⟨by decide, by decide, by decide, h.1, h.2.1, h.2.2.1⟩

/-! ### Writing an empty list -/

/-- Claim C15 on the code: with an empty editable list in IDLE, `clearWaypointList`
starts the clear transfer (state CLEARLIST, timer running, five retries, partner set),
while `writeWaypoints` only sends the CLEAR_ALL and stays in IDLE with the timer
stopped, no retries and no partner. -/
theorem writeWaypoints_empty_stays_idle :
    emptyManager.current_state = WP_IDLE
    ∧ emptyManager.waypointsEditable = []
    ∧ (clearWaypointList emptyManager).current_state = WP_CLEARLIST
    ∧ (writeWaypoints emptyManager).current_state = WP_IDLE
    ∧ (clearWaypointList emptyManager).protocol_timer = true
    ∧ (writeWaypoints emptyManager).protocol_timer = false
    ∧ (clearWaypointList emptyManager).current_retries = 5
    ∧ (writeWaypoints emptyManager).current_retries = 0
    ∧ (clearWaypointList emptyManager).current_partner_systemid = 1
    ∧ (writeWaypoints emptyManager).current_partner_systemid = 0 := by
  decide

/-- Claim C15 as amended: with an empty editable list in state IDLE, `writeWaypoints`
sends the same messages as `clearWaypointList` called in the same state (one CLEAR_ALL
when a vehicle is attached, nothing otherwise) and changes nothing else: the state stays
IDLE, the timer, `current_retries` and the partner ids are untouched; `clearWaypointList`
is the one that enters CLEARLIST with the partner set, five retries and the timer
running. -/
theorem writeWaypoints_empty_sends_clear_all (m : Manager)
    (hidle : m.current_state = WP_IDLE) (hempty : m.waypointsEditable = []) :
    (writeWaypoints m).sent = (clearWaypointList m).sent
    ∧ writeWaypoints m = { m with sent := (clearWaypointList m).sent }
    ∧ (writeWaypoints m).current_state = WP_IDLE
    ∧ (clearWaypointList m).current_state = WP_CLEARLIST
    ∧ (clearWaypointList m).current_retries = 5
    ∧ (clearWaypointList m).protocol_timer = true
    ∧ (clearWaypointList m).current_partner_systemid = m.uasid % 256
    ∧ (clearWaypointList m).current_partner_compid = m.m_waypointComponentID := by
  by_cases hu : m.uas = false
  · have e1 : writeWaypoints m = m := by
      simp [writeWaypoints, hidle, hempty, sendWaypointClearAll, hu]
    have e2 : clearWaypointList m =
        { m with
          protocol_timer := true
          current_retries := PROTOCOL_MAX_RETRIES
          current_state := WP_CLEARLIST
          current_wp_id := 0
          current_partner_systemid := m.uasid % 256
          current_partner_compid := m.m_waypointComponentID } := by
      simp [clearWaypointList, hidle, sendWaypointClearAll, hu]
    rw [e1, e2]
    exact ⟨rfl, rfl, hidle, rfl, rfl, rfl, rfl, rfl⟩
  · have e1 : writeWaypoints m = { m with sent := m.sent
        ++ [Msg.MISSION_CLEAR_ALL (m.uasid % 256) m.m_waypointComponentID] } := by
      simp [writeWaypoints, hidle, hempty, sendWaypointClearAll, sendMessage, hu]
    have e2 : clearWaypointList m =
        { m with
          protocol_timer := true
          current_retries := PROTOCOL_MAX_RETRIES
          current_state := WP_CLEARLIST
          current_wp_id := 0
          current_partner_systemid := m.uasid % 256
          current_partner_compid := m.m_waypointComponentID
          sent := m.sent ++ [Msg.MISSION_CLEAR_ALL (m.uasid % 256) m.m_waypointComponentID] } := by
      simp [clearWaypointList, hidle, sendWaypointClearAll, sendMessage, hu]
    rw [e1, e2]
    exact ⟨rfl, rfl, hidle, rfl, rfl, rfl, rfl, rfl⟩

/-- Witness for C15: the theorem applied to an idle manager with vehicle 1 attached and
an empty editable list. -/
theorem writeWaypoints_empty_sends_clear_all_witness :
    emptyManager.current_state = WP_IDLE
    ∧ emptyManager.waypointsEditable = []
    ∧ (writeWaypoints emptyManager).sent = (clearWaypointList emptyManager).sent
    ∧ writeWaypoints emptyManager
        = { emptyManager with sent := (clearWaypointList emptyManager).sent }
    ∧ (writeWaypoints emptyManager).current_state = WP_IDLE
    ∧ (clearWaypointList emptyManager).current_state = WP_CLEARLIST :=
  have h := writeWaypoints_empty_sends_clear_all emptyManager (by decide) (by decide)
  ⟨by decide, by decide, h.1, h.2.1, h.2.2.1, h.2.2.2.1⟩

/-! ### Completion of set-current -/

/-- Claim C16 on the code: a set-current transfer waits in SETCURRENT; the view-only
list has one item, with sequence number 0 and flagged current.  The vehicle reports
CURRENT(5).  The transfer completes, but 5 is not below the count of the view-only
list, so the flags are not touched: the item with sequence number 0 is still current. -/
theorem current_beyond_list_keeps_flags :
    awaitingCurrent.current_state = WP_SETCURRENT
    ∧ awaitingCurrent.uas = true
    ∧ 1 = awaitingCurrent.uasid
    ∧ awaitingCurrent.waypointsViewOnly.map (fun w => (w.id, w.current)) = [(0, true)]
    ∧ (handleWaypointCurrent 1 0 5 awaitingCurrent).current_state = WP_IDLE
    ∧ (handleWaypointCurrent 1 0 5 awaitingCurrent).waypointsViewOnly.map
        (fun w => (w.id, w.current)) = [(0, true)] := by
  decide

/-- Claim C16 as amended: in state SETCURRENT, for a CURRENT(s) notification from the
attached vehicle the transfer completes (state IDLE, timer stopped).  If s is below the
count of the view-only list, afterwards a view-only item is current if and only if its
stored sequence number equals s (the list is otherwise unchanged); if s is not below
the count, the view-only list is unchanged. -/
theorem current_completes_set_current (m : Manager) (systemId compId s : Nat)
    (hst : m.current_state = WP_SETCURRENT) (hu : m.uas = true)
    (hsys : systemId = m.uasid) :
    (handleWaypointCurrent systemId compId s m).current_state = WP_IDLE
    ∧ (handleWaypointCurrent systemId compId s m).protocol_timer = false
    ∧ (s < m.waypointsViewOnly.length →
        (handleWaypointCurrent systemId compId s m).waypointsViewOnly
            = m.waypointsViewOnly.map (fun w => { w with current := decide (w.id = s) })
        ∧ ∀ w, w ∈ (handleWaypointCurrent systemId compId s m).waypointsViewOnly →
            (w.current = true ↔ w.id = s))
    ∧ (¬ s < m.waypointsViewOnly.length →
        (handleWaypointCurrent systemId compId s m).waypointsViewOnly
          = m.waypointsViewOnly) := by
  have hu' : ¬ m.uas = false := by simp [hu]
  by_cases hlt : s < m.waypointsViewOnly.length <;>
    by_cases hw : m.waypointIDHandled = s
  all_goals
    refine ⟨?_, ?_, ?_, ?_⟩
    · simp [handleWaypointCurrent, hu, hsys, hst, hlt, hw]
    · simp [handleWaypointCurrent, hu, hsys, hst, hlt, hw]
    · intro h
      first
        | exact absurd h hlt
        | (have e : (handleWaypointCurrent systemId compId s m).waypointsViewOnly
              = m.waypointsViewOnly.map (fun w => { w with current := decide (w.id = s) }) := by
            simp [handleWaypointCurrent, hu, hsys, hst, hlt, hw, markCurrent]
           refine ⟨e, ?_⟩
           intro w hwm
           rw [e] at hwm
           obtain ⟨w0, _, rfl⟩ := List.mem_map.mp hwm
           simp)
    · intro h
      first
        | exact absurd hlt h
        | simp [handleWaypointCurrent, hu, hsys, hst, hlt, hw]

/-- Witness for C16: the theorem applied to the set-current transfer for item 0 and
the notification CURRENT(0). -/
theorem current_completes_set_current_witness :
    awaitingCurrent.current_state = WP_SETCURRENT
    ∧ awaitingCurrent.uas = true
    ∧ 1 = awaitingCurrent.uasid
    ∧ 0 < awaitingCurrent.waypointsViewOnly.length
    ∧ (handleWaypointCurrent 1 0 0 awaitingCurrent).current_state = WP_IDLE
    ∧ (handleWaypointCurrent 1 0 0 awaitingCurrent).protocol_timer = false
    ∧ (handleWaypointCurrent 1 0 0 awaitingCurrent).waypointsViewOnly
        = awaitingCurrent.waypointsViewOnly.map
            (fun w => { w with current := decide (w.id = 0) }) :=
  have h := current_completes_set_current awaitingCurrent 1 0 0 (by decide) (by decide)
    (by decide)
  ⟨by decide, by decide, by decide, by decide, h.1, h.2.1, (h.2.2.1 (by decide)).1⟩

/-! ### Editing the editable list -/

/-- Number of items at position `i` that satisfy `p`: one or zero. -/
theorem countP_le_one_unique {α : Type} (p : α → Bool) :
    ∀ (l : List α) (i j : Nat) (a b : α), l.countP p ≤ 1 → l[i]? = some a →
      l[j]? = some b → p a = true → p b = true → i = j := by
  intro l
  induction l with
  | nil => intro i j a b _ hi; simp at hi
  | cons x xs ih =>
    intro i j a b hc hi hj ha hb
    cases i with
    | zero =>
      cases j with
      | zero => rfl
      | succ j =>
        simp only [List.getElem?_cons_zero, Option.some.injEq] at hi
        simp only [List.getElem?_cons_succ] at hj
        subst hi
        rw [List.countP_cons_of_pos _ _ ha] at hc
        have h0 : xs.countP p = 0 := by omega
        have hmem : b ∈ xs := List.getElem?_mem hj
        have := List.countP_eq_zero.mp h0 b hmem
        exact absurd hb this
    | succ i =>
      cases j with
      | zero =>
        simp only [List.getElem?_cons_zero, Option.some.injEq] at hj
        simp only [List.getElem?_cons_succ] at hi
        subst hj
        rw [List.countP_cons_of_pos _ _ hb] at hc
        have h0 : xs.countP p = 0 := by omega
        have hmem : a ∈ xs := List.getElem?_mem hi
        have := List.countP_eq_zero.mp h0 a hmem
        exact absurd ha this
      | succ j =>
        simp only [List.getElem?_cons_succ] at hi hj
        have hc2 : xs.countP p ≤ 1 := by
          have := List.countP_cons p x xs
          omega
        rw [ih i j a b hc2 hi hj ha hb]

/-- The length of the list after `setCurrentAt`. -/
theorem setCurrentAt_length : ∀ (i : Nat) (ws : List Waypoint),
    (setCurrentAt i ws).length = ws.length := by
  intro i ws
  induction ws generalizing i with
  | nil => cases i <;> rfl
  | cons w ws ih =>
    cases i with
    | zero => rfl
    | succ i => simp [setCurrentAt, ih]

/-- The items of the list after `setCurrentAt`. -/
theorem setCurrentAt_getElem? : ∀ (i : Nat) (ws : List Waypoint) (j : Nat),
    (setCurrentAt i ws)[j]?
      = if j = i then (ws[j]?).map (fun w => { w with current := true }) else ws[j]? := by
  intro i ws
  induction ws generalizing i with
  | nil => intro j; cases i <;> simp [setCurrentAt]
  | cons w ws ih =>
    intro j
    cases i with
    | zero =>
      cases j with
      | zero => simp [setCurrentAt]
      | succ j => simp [setCurrentAt]
    | succ i =>
      cases j with
      | zero => simp [setCurrentAt]
      | succ j => simp [setCurrentAt, ih]

/-- The length of the list after the re-stamping loop. -/
theorem restampFrom_length (seq : Nat) : ∀ (ws : List Waypoint) (k : Nat),
    (restampFrom seq k ws).length = ws.length := by
  intro ws
  induction ws with
  | nil => intro k; rfl
  | cons w ws ih => intro k; simp [restampFrom, ih]

/-- The items of the list after the re-stamping loop. -/
theorem restampFrom_getElem? (seq : Nat) : ∀ (ws : List Waypoint) (k j : Nat),
    (restampFrom seq k ws)[j]?
      = (ws[j]?).map (fun w => if seq ≤ k + j then { w with id := (k + j) % 65536 } else w) := by
  intro ws
  induction ws with
  | nil => intro k j; simp [restampFrom]
  | cons w ws ih =>
    intro k j
    cases j with
    | zero => simp [restampFrom]
    | succ j =>
      simp only [restampFrom, List.getElem?_cons_succ, ih]
      have : k + 1 + j = k + (j + 1) := by omega
      rw [this]

/-- The re-stamping loop does not change a property that does not depend on the id. -/
theorem restampFrom_map {β : Type} (f : Waypoint → β)
    (hf : ∀ w k, f { w with id := k } = f w) (seq : Nat) :
    ∀ (ws : List Waypoint) (k : Nat), (restampFrom seq k ws).map f = ws.map f := by
  intro ws
  induction ws with
  | nil => intro k; rfl
  | cons w ws ih =>
    intro k
    simp only [restampFrom, List.map_cons, ih]
    split_ifs
    · rw [hf]
    · rfl

/-- What `removeWaypoint` does for a sequence number in range: `ws1` is the list after
the promotion of a neighbour. -/
theorem removeWaypoint_of_lt (seq : Nat) (m : Manager)
    (h : seq < m.waypointsEditable.length) :
    removeWaypoint seq m
      = (0, { m with
              waypointsEditable := restampFrom seq 0
                ((if m.waypointsEditable[seq].current = true then
                    if seq + 1 < m.waypointsEditable.length then
                      setCurrentAt (seq + 1) m.waypointsEditable
                    else if 0 < seq then setCurrentAt (seq - 1) m.waypointsEditable
                    else m.waypointsEditable
                  else m.waypointsEditable).eraseIdx seq)
              currentWaypointEditable :=
                onDelete [m.waypointsEditable[seq]] m.currentWaypointEditable }) := by
  have hi : ((seq : Int) - 1 ≥ 0) ↔ 0 < seq := by omega
  simp only [removeWaypoint, dif_pos h, hi]

/-- What `removeWaypoint` does for a sequence number out of range. -/
theorem removeWaypoint_of_ge (seq : Nat) (m : Manager)
    (h : m.waypointsEditable.length ≤ seq) : removeWaypoint seq m = (-1, m) := by
  have : ¬ seq < m.waypointsEditable.length := by omega
  simp only [removeWaypoint, dif_neg this]

/-- Erasing position `i` lowers the number of items that satisfy `p` by one when the
erased item satisfies `p`, and keeps it otherwise. -/
theorem countP_eraseIdx_add {α : Type} (p : α → Bool) :
    ∀ (l : List α) (i : Nat) (a : α), l[i]? = some a →
      (l.eraseIdx i).countP p + (if p a = true then 1 else 0) = l.countP p := by
  intro l
  induction l with
  | nil => intro i a h; simp at h
  | cons x xs ih =>
    intro i a h
    cases i with
    | zero =>
      simp only [List.getElem?_cons_zero, Option.some.injEq] at h
      subst h
      simp only [List.eraseIdx_cons_zero, List.countP_cons]
    | succ i =>
      simp only [List.getElem?_cons_succ] at h
      have := ih i a h
      simp only [List.eraseIdx_cons_succ, List.countP_cons]
      omega

/-- Replacing position `i` changes the number of items that satisfy `p` by the
difference between the new and the old item. -/
theorem countP_set_add {α : Type} (p : α → Bool) :
    ∀ (l : List α) (i : Nat) (a b : α), l[i]? = some a →
      (l.set i b).countP p + (if p a = true then 1 else 0)
        = l.countP p + (if p b = true then 1 else 0) := by
  intro l
  induction l with
  | nil => intro i a b h; simp at h
  | cons x xs ih =>
    intro i a b h
    cases i with
    | zero =>
      simp only [List.getElem?_cons_zero, Option.some.injEq] at h
      subst h
      simp only [List.set_cons_zero, List.countP_cons]
      omega
    | succ i =>
      simp only [List.getElem?_cons_succ] at h
      have := ih i a b h
      simp only [List.set_cons_succ, List.countP_cons]
      omega

/-- The statement `waypointsEditable[i]->setCurrent(true)` adds at most one current item. -/
theorem setCurrentAt_countP_le : ∀ (i : Nat) (ws : List Waypoint),
    (setCurrentAt i ws).countP (fun w => w.current) ≤ ws.countP (fun w => w.current) + 1 := by
  intro i ws
  induction ws generalizing i with
  | nil => cases i <;> simp [setCurrentAt]
  | cons w ws ih =>
    cases i with
    | zero =>
      simp only [setCurrentAt, List.countP_cons]
      split_ifs <;> simp
    | succ i =>
      have := ih i
      simp only [setCurrentAt, List.countP_cons]
      omega

/-- The re-stamping loop does not change the number of items that satisfy a property
that does not depend on the id. -/
theorem restampFrom_countP (p : Waypoint → Bool)
    (hp : ∀ w k, p { w with id := k } = p w) (seq : Nat) :
    ∀ (ws : List Waypoint) (k : Nat), (restampFrom seq k ws).countP p = ws.countP p := by
  intro ws
  induction ws with
  | nil => intro k; rfl
  | cons w ws ih =>
    intro k
    simp only [restampFrom, List.countP_cons, ih]
    split_ifs <;> simp_all

/-- The items of the editable list after `removeWaypoint` with a sequence number in
range. -/
theorem removeWaypoint_getElem? (seq : Nat) (m : Manager)
    (h : seq < m.waypointsEditable.length) (j : Nat) :
    (removeWaypoint seq m).2.waypointsEditable[j]?
      = (((if m.waypointsEditable[seq].current = true then
              if seq + 1 < m.waypointsEditable.length then
                setCurrentAt (seq + 1) m.waypointsEditable
              else if 0 < seq then setCurrentAt (seq - 1) m.waypointsEditable
              else m.waypointsEditable
            else m.waypointsEditable).eraseIdx seq)[j]?).map
          (fun w => if seq ≤ j then { w with id := j % 65536 } else w) := by
  rw [removeWaypoint_of_lt seq m h]
  simp only [restampFrom_getElem?, Nat.zero_add]

/-- The length of the editable list after `removeWaypoint` with a sequence number in
range. -/
theorem removeWaypoint_length (seq : Nat) (m : Manager)
    (h : seq < m.waypointsEditable.length) :
    (removeWaypoint seq m).2.waypointsEditable.length + 1 = m.waypointsEditable.length := by
  rw [removeWaypoint_of_lt seq m h]
  simp only [restampFrom_length]
  by_cases hc : m.waypointsEditable[seq].current = true
  · by_cases h1 : seq + 1 < m.waypointsEditable.length
    · rw [if_pos hc, if_pos h1]
      rw [List.length_eraseIdx_of_lt (by rw [setCurrentAt_length]; exact h),
        setCurrentAt_length]
      omega
    · by_cases h2 : 0 < seq
      · rw [if_pos hc, if_neg h1, if_pos h2]
        rw [List.length_eraseIdx_of_lt (by rw [setCurrentAt_length]; exact h),
          setCurrentAt_length]
        omega
      · rw [if_pos hc, if_neg h1, if_neg h2]
        rw [List.length_eraseIdx_of_lt h]
        omega
  · rw [if_neg hc]
    rw [List.length_eraseIdx_of_lt h]
    omega

/-- After `removeWaypoint` at most one item is current if at most one was before. -/
theorem removeWaypoint_atMostOneCurrent (seq : Nat) (m : Manager)
    (hinv : AtMostOneCurrent m.waypointsEditable) :
    AtMostOneCurrent (removeWaypoint seq m).2.waypointsEditable := by
  unfold AtMostOneCurrent at *
  by_cases h : seq < m.waypointsEditable.length
  · rw [removeWaypoint_of_lt seq m h]
    simp only
    rw [restampFrom_countP (fun w => w.current) (fun w k => rfl)]
    have ht : m.waypointsEditable[seq]? = some m.waypointsEditable[seq] :=
      List.getElem?_eq_getElem h
    by_cases hc : m.waypointsEditable[seq].current = true
    · have key : ∀ k, k ≠ seq →
          ((setCurrentAt k m.waypointsEditable).eraseIdx seq).countP (fun w => w.current)
            ≤ 1 := by
        intro k hk
        have h1 : (setCurrentAt k m.waypointsEditable)[seq]?
            = some m.waypointsEditable[seq] := by
          rw [setCurrentAt_getElem?, if_neg (Ne.symm hk), ht]
        have h2 := countP_eraseIdx_add (fun w => w.current) _ seq _ h1
        have h3 := setCurrentAt_countP_le k m.waypointsEditable
        simp only [hc, if_true] at h2
        omega
      by_cases h1 : seq + 1 < m.waypointsEditable.length
      · rw [if_pos hc, if_pos h1]
        exact key _ (by omega)
      · by_cases h2 : 0 < seq
        · rw [if_pos hc, if_neg h1, if_pos h2]
          exact key _ (by omega)
        · rw [if_pos hc, if_neg h1, if_neg h2]
          have h3 := countP_eraseIdx_add (fun w => w.current) _ seq _ ht
          omega
    · rw [if_neg hc]
      have h3 := countP_eraseIdx_add (fun w => w.current) _ seq _ ht
      omega
  · rw [removeWaypoint_of_ge seq m (by omega)]
    exact hinv

/-- Claim C19: `removeWaypoint seq` on an editable list with at most one current item.
If `seq` is in range and its item is current, the call returns 0 and the list is one
shorter; the former successor, if there was one, is current (now at position `seq`);
otherwise the former predecessor, if there was one, is current; otherwise the list is
empty; at most one item is current afterwards.  If the item at `seq` is not current,
the call returns 0 and the current flags of the remaining items are unchanged.  If
`seq` is out of range, the call returns -1 and changes nothing. -/
theorem removeWaypoint_promotes_neighbour (m : Manager) (seq : Nat) :
    (∀ t, m.waypointsEditable[seq]? = some t → t.current = true →
      AtMostOneCurrent m.waypointsEditable →
        (removeWaypoint seq m).1 = 0
        ∧ (removeWaypoint seq m).2.waypointsEditable.length + 1 = m.waypointsEditable.length
        ∧ (∀ s, m.waypointsEditable[seq + 1]? = some s →
            (removeWaypoint seq m).2.waypointsEditable[seq]?
              = some { s with current := true, id := seq % 65536 })
        ∧ (∀ p, m.waypointsEditable[seq + 1]? = none → 0 < seq →
            m.waypointsEditable[seq - 1]? = some p →
            (removeWaypoint seq m).2.waypointsEditable[seq - 1]?
              = some { p with current := true })
        ∧ (m.waypointsEditable[seq + 1]? = none → seq = 0 →
            (removeWaypoint seq m).2.waypointsEditable = [])
        ∧ AtMostOneCurrent (removeWaypoint seq m).2.waypointsEditable)
    ∧ (∀ t, m.waypointsEditable[seq]? = some t → t.current = false →
        (removeWaypoint seq m).1 = 0
        ∧ (removeWaypoint seq m).2.waypointsEditable.length + 1 = m.waypointsEditable.length
        ∧ (removeWaypoint seq m).2.waypointsEditable.map (fun w => w.current)
            = (m.waypointsEditable.eraseIdx seq).map (fun w => w.current))
    ∧ (m.waypointsEditable.length ≤ seq → removeWaypoint seq m = (-1, m)) := by
  refine ⟨?_, ?_, removeWaypoint_of_ge seq m⟩
  · intro t ht hc hinv
    obtain ⟨h, hte⟩ := List.getElem?_eq_some_iff.mp ht
    have hc' : m.waypointsEditable[seq].current = true := by rw [hte]; exact hc
    refine ⟨by rw [removeWaypoint_of_lt seq m h], removeWaypoint_length seq m h, ?_, ?_, ?_,
      removeWaypoint_atMostOneCurrent seq m hinv⟩
    · intro s hs
      have h1 : seq + 1 < m.waypointsEditable.length :=
        (List.getElem?_eq_some_iff.mp hs).1
      rw [removeWaypoint_getElem? seq m h, if_pos hc', if_pos h1,
        List.getElem?_eraseIdx_of_ge _ _ _ (Nat.le_refl seq), setCurrentAt_getElem?,
        if_pos rfl, hs]
      simp
    · intro p hn hpos hp
      have h1 : ¬ seq + 1 < m.waypointsEditable.length := by
        intro hlt
        rw [List.getElem?_eq_getElem hlt] at hn
        exact absurd hn (by simp)
      rw [removeWaypoint_getElem? seq m h, if_pos hc', if_neg h1, if_pos hpos,
        List.getElem?_eraseIdx_of_lt _ _ _ (by omega), setCurrentAt_getElem?, if_pos rfl, hp]
      have : ¬ seq ≤ seq - 1 := by omega
      simp [this]
    · intro hn h0
      have h1 : ¬ seq + 1 < m.waypointsEditable.length := by
        intro hlt
        rw [List.getElem?_eq_getElem hlt] at hn
        exact absurd hn (by simp)
      have hl := removeWaypoint_length seq m h
      exact List.length_eq_zero.mp (by omega)
  · intro t ht hc
    obtain ⟨h, hte⟩ := List.getElem?_eq_some_iff.mp ht
    have hc' : ¬ m.waypointsEditable[seq].current = true := by rw [hte, hc]; simp
    refine ⟨by rw [removeWaypoint_of_lt seq m h], removeWaypoint_length seq m h, ?_⟩
    rw [removeWaypoint_of_lt seq m h]
    simp only
    rw [restampFrom_map (fun w => w.current) (fun w k => rfl), if_neg hc']

/-- Witness for C19: the theorem applied to the removal of the current middle item of
three; the former last item is then at position 1 and current. -/
theorem removeWaypoint_promotes_neighbour_witness :
    middleCurrent.waypointsEditable[1]? = some (mkWaypoint 1 true)
    ∧ (mkWaypoint 1 true).current = true
    ∧ AtMostOneCurrent middleCurrent.waypointsEditable
    ∧ middleCurrent.waypointsEditable[1 + 1]? = some (mkWaypoint 2 false)
    ∧ (removeWaypoint 1 middleCurrent).1 = 0
    ∧ (removeWaypoint 1 middleCurrent).2.waypointsEditable.length + 1
        = middleCurrent.waypointsEditable.length
    ∧ (removeWaypoint 1 middleCurrent).2.waypointsEditable[1]?
        = some { mkWaypoint 2 false with current := true, id := 1 % 65536 }
    ∧ AtMostOneCurrent (removeWaypoint 1 middleCurrent).2.waypointsEditable :=
  have hinv : AtMostOneCurrent middleCurrent.waypointsEditable := by
    unfold AtMostOneCurrent; decide
  have h := (removeWaypoint_promotes_neighbour middleCurrent 1).1 (mkWaypoint 1 true)
    rfl rfl hinv
  ⟨rfl, rfl, hinv, rfl, h.1, h.2.1, h.2.2.1 (mkWaypoint 2 false) rfl, h.2.2.2.2.2⟩

/-- The two statements of the loop body of `moveWaypoint` when slot `j` exists. -/
theorem assignSlot_of_some (ws : List Waypoint) (i j : Nat) (w : Waypoint)
    (h : ws[j]? = some w) : assignSlot ws i j = ws.set i { w with id := i % 65536 } := by
  simp only [assignSlot, h]

/-- The loop body of `moveWaypoint` keeps the length of the list. -/
theorem assignSlot_length (ws : List Waypoint) (i j : Nat) :
    (assignSlot ws i j).length = ws.length := by
  unfold assignSlot
  cases ws[j]? with
  | none => rfl
  | some w => simp

/-- The upward loop of `moveWaypoint` keeps the length of the list. -/
theorem moveUp_length : ∀ (n i : Nat) (ws : List Waypoint),
    (moveUp n i ws).length = ws.length := by
  intro n
  induction n with
  | zero => intro i ws; rfl
  | succ n ih => intro i ws; simp only [moveUp, ih, assignSlot_length]

/-- The downward loop of `moveWaypoint` keeps the length of the list. -/
theorem moveDown_length : ∀ (n i : Nat) (ws : List Waypoint),
    (moveDown n i ws).length = ws.length := by
  intro n
  induction n with
  | zero => intro i ws; rfl
  | succ n ih => intro i ws; simp only [moveDown, ih, assignSlot_length]

/-- The items after the upward loop of `moveWaypoint`: the slots `i .. i+n-1` hold the
former items `i+1 .. i+n` with their new ids, every other slot is unchanged. -/
theorem moveUp_getElem? : ∀ (n i : Nat) (ws : List Waypoint) (j : Nat),
    i + n < ws.length →
    (moveUp n i ws)[j]?
      = if i ≤ j ∧ j < i + n then (ws[j + 1]?).map (fun w => { w with id := j % 65536 })
        else ws[j]? := by
  intro n
  induction n with
  | zero =>
    intro i ws j _
    have : ¬ (i ≤ j ∧ j < i + 0) := by omega
    simp only [moveUp, if_neg this]
  | succ n ih =>
    intro i ws j h
    have h1 : i + 1 < ws.length := by omega
    rw [moveUp, assignSlot_of_some ws i (i + 1) ws[i + 1] (List.getElem?_eq_getElem h1),
      ih (i + 1) _ j (by rw [List.length_set]; omega)]
    by_cases hj : j = i
    · subst hj
      have c1 : ¬ (j + 1 ≤ j ∧ j < j + 1 + n) := by omega
      have c2 : j ≤ j ∧ j < j + (n + 1) := by omega
      rw [if_neg c1, if_pos c2, List.getElem?_set_self (by omega),
        List.getElem?_eq_getElem h1]
      rfl
    · by_cases hin : i + 1 ≤ j ∧ j < i + 1 + n
      · have c2 : i ≤ j ∧ j < i + (n + 1) := by omega
        rw [if_pos hin, if_pos c2, List.getElem?_set_ne (by omega)]
      · have c2 : ¬ (i ≤ j ∧ j < i + (n + 1)) := by omega
        rw [if_neg hin, if_neg c2, List.getElem?_set_ne (by omega)]

/-- The items after the downward loop of `moveWaypoint`: the slots `i-n+1 .. i` hold the
former items `i-n .. i-1` with their new ids, every other slot is unchanged. -/
theorem moveDown_getElem? : ∀ (n i : Nat) (ws : List Waypoint) (j : Nat),
    n ≤ i → i < ws.length →
    (moveDown n i ws)[j]?
      = if i - n < j ∧ j ≤ i then (ws[j - 1]?).map (fun w => { w with id := j % 65536 })
        else ws[j]? := by
  intro n
  induction n with
  | zero =>
    intro i ws j _ _
    have : ¬ (i - 0 < j ∧ j ≤ i) := by omega
    simp only [moveDown, if_neg this]
  | succ n ih =>
    intro i ws j hn h
    have h1 : i - 1 < ws.length := by omega
    rw [moveDown, assignSlot_of_some ws i (i - 1) ws[i - 1] (List.getElem?_eq_getElem h1),
      ih (i - 1) _ j (by omega) (by rw [List.length_set]; omega)]
    by_cases hj : j = i
    · subst hj
      have c1 : ¬ (j - 1 - n < j ∧ j ≤ j - 1) := by omega
      have c2 : j - (n + 1) < j ∧ j ≤ j := by omega
      rw [if_neg c1, if_pos c2, List.getElem?_set_self (by omega),
        List.getElem?_eq_getElem h1]
      rfl
    · by_cases hin : i - 1 - n < j ∧ j ≤ i - 1
      · have c2 : i - (n + 1) < j ∧ j ≤ i := by omega
        have c3 : i ≠ j - 1 := by omega
        rw [if_pos hin, if_pos c2, List.getElem?_set_ne c3]
      · have c2 : ¬ (i - (n + 1) < j ∧ j ≤ i) := by omega
        rw [if_neg hin, if_neg c2, List.getElem?_set_ne (by omega)]

/-- The upward loop of `moveWaypoint` and the number of items that satisfy a property
that does not depend on the id: the item of slot `i` is lost, the item of slot `i+n`
is there twice. -/
theorem moveUp_countP (p : Waypoint → Bool) (hp : ∀ w k, p { w with id := k } = p w) :
    ∀ (n i : Nat) (ws : List Waypoint) (a b : Waypoint),
      ws[i]? = some a → ws[i + n]? = some b →
      (moveUp n i ws).countP p + (if p a = true then 1 else 0)
        = ws.countP p + (if p b = true then 1 else 0) := by
  intro n
  induction n with
  | zero =>
    intro i ws a b ha hb
    simp only [Nat.add_zero] at hb
    rw [ha] at hb
    cases hb
    rfl
  | succ n ih =>
    intro i ws a b ha hb
    have hlen : i + (n + 1) < ws.length := (List.getElem?_eq_some_iff.mp hb).1
    have h1 : i + 1 < ws.length := by omega
    have e1 : ws[i + 1]? = some ws[i + 1] := List.getElem?_eq_getElem h1
    obtain ⟨w1, hw1⟩ : ∃ w1 : Waypoint, w1 = { ws[i + 1] with id := i % 65536 } := ⟨_, rfl⟩
    have hstep : moveUp (n + 1) i ws = moveUp n (i + 1) (ws.set i w1) := by
      subst hw1
      simp only [moveUp, assignSlot, e1]
    have hpw : p w1 = p ws[i + 1] := by subst hw1; exact hp _ _
    rw [hstep]
    have hs := countP_set_add p ws i a w1 ha
    rw [hpw] at hs
    have e2 : (ws.set i w1)[i + 1]? = some ws[i + 1] := by
      rw [List.getElem?_set_ne (by omega), e1]
    have e3 : (ws.set i w1)[i + 1 + n]? = some b := by
      rw [List.getElem?_set_ne (by omega)]
      have : i + 1 + n = i + (n + 1) := by omega
      rw [this, hb]
    have := ih (i + 1) _ ws[i + 1] b e2 e3
    omega

/-- The downward loop of `moveWaypoint` and the number of items that satisfy a property
that does not depend on the id. -/
theorem moveDown_countP (p : Waypoint → Bool) (hp : ∀ w k, p { w with id := k } = p w) :
    ∀ (n i : Nat) (ws : List Waypoint) (a b : Waypoint), n ≤ i →
      ws[i]? = some a → ws[i - n]? = some b →
      (moveDown n i ws).countP p + (if p a = true then 1 else 0)
        = ws.countP p + (if p b = true then 1 else 0) := by
  intro n
  induction n with
  | zero =>
    intro i ws a b _ ha hb
    simp only [Nat.sub_zero] at hb
    rw [ha] at hb
    cases hb
    rfl
  | succ n ih =>
    intro i ws a b hn ha hb
    have hlen : i < ws.length := (List.getElem?_eq_some_iff.mp ha).1
    have h1 : i - 1 < ws.length := by omega
    have e1 : ws[i - 1]? = some ws[i - 1] := List.getElem?_eq_getElem h1
    obtain ⟨w1, hw1⟩ : ∃ w1 : Waypoint, w1 = { ws[i - 1] with id := i % 65536 } := ⟨_, rfl⟩
    have hstep : moveDown (n + 1) i ws = moveDown n (i - 1) (ws.set i w1) := by
      subst hw1
      simp only [moveDown, assignSlot, e1]
    have hpw : p w1 = p ws[i - 1] := by subst hw1; exact hp _ _
    rw [hstep]
    have hs := countP_set_add p ws i a w1 ha
    rw [hpw] at hs
    have e2 : (ws.set i w1)[i - 1]? = some ws[i - 1] := by
      rw [List.getElem?_set_ne (by omega), e1]
    have e3 : (ws.set i w1)[i - 1 - n]? = some b := by
      rw [List.getElem?_set_ne (by omega)]
      have : i - 1 - n = i - (n + 1) := by omega
      rw [this, hb]
    have := ih (i - 1) _ ws[i - 1] b (by omega) e2 e3
    omega

/-- What `moveWaypoint` does when its guard holds; `t` is the moved item. -/
theorem moveWaypoint_of_guard (c n : Nat) (m : Manager) (t : Waypoint)
    (h : c ≠ n ∧ c < m.waypointsEditable.length ∧ n < m.waypointsEditable.length)
    (ht : m.waypointsEditable[c]? = some t) :
    moveWaypoint c n m
      = { m with
          waypointsEditable :=
            (if c < n then moveUp (n - c) c m.waypointsEditable
              else moveDown (c - n) c m.waypointsEditable).set n { t with id := n % 65536 } } := by
  obtain ⟨_, hte⟩ := List.getElem?_eq_some_iff.mp ht
  subst hte
  simp only [moveWaypoint, dif_pos h]

/-- What `moveWaypoint` does when its guard fails. -/
theorem moveWaypoint_of_not_guard (c n : Nat) (m : Manager)
    (h : ¬ (c ≠ n ∧ c < m.waypointsEditable.length ∧ n < m.waypointsEditable.length)) :
    moveWaypoint c n m = m := by
  simp only [moveWaypoint, dif_neg h]

/-- The function `moveWaypoint` changes only the editable list. -/
theorem moveWaypoint_frame (c n : Nat) (m : Manager) :
    ∃ E, moveWaypoint c n m = { m with waypointsEditable := E } := by
  by_cases h : c ≠ n ∧ c < m.waypointsEditable.length ∧ n < m.waypointsEditable.length
  · exact ⟨_, moveWaypoint_of_guard c n m _ h (List.getElem?_eq_getElem h.2.1)⟩
  · exact ⟨m.waypointsEditable, moveWaypoint_of_not_guard c n m h⟩

/-- The function `moveWaypoint` keeps the length of the editable list. -/
theorem moveWaypoint_length (c n : Nat) (m : Manager) :
    (moveWaypoint c n m).waypointsEditable.length = m.waypointsEditable.length := by
  by_cases h : c ≠ n ∧ c < m.waypointsEditable.length ∧ n < m.waypointsEditable.length
  · rw [moveWaypoint_of_guard c n m _ h (List.getElem?_eq_getElem h.2.1)]
    simp only [List.length_set]
    split_ifs
    · exact moveUp_length _ _ _
    · exact moveDown_length _ _ _
  · rw [moveWaypoint_of_not_guard c n m h]

/-- The items of the editable list after `moveWaypoint` when its guard holds: the moved
item is at `n`, the items between are shifted by one towards `c`, all with their new
ids; every other item is unchanged. -/
theorem moveWaypoint_getElem? (c n : Nat) (m : Manager)
    (h : c ≠ n ∧ c < m.waypointsEditable.length ∧ n < m.waypointsEditable.length)
    (j : Nat) :
    (moveWaypoint c n m).waypointsEditable[j]?
      = if j = n then (m.waypointsEditable[c]?).map (fun w => { w with id := j % 65536 })
        else if c ≤ j ∧ j < n then
          (m.waypointsEditable[j + 1]?).map (fun w => { w with id := j % 65536 })
        else if n < j ∧ j ≤ c then
          (m.waypointsEditable[j - 1]?).map (fun w => { w with id := j % 65536 })
        else m.waypointsEditable[j]? := by
  rw [moveWaypoint_of_guard c n m _ h (List.getElem?_eq_getElem h.2.1)]
  simp only
  by_cases hj : j = n
  · subst hj
    rw [if_pos rfl, List.getElem?_set_self, List.getElem?_eq_getElem h.2.1]
    · rfl
    · split_ifs
      · rw [moveUp_length]; exact h.2.2
      · rw [moveDown_length]; exact h.2.2
  · rw [if_neg hj, List.getElem?_set_ne (Ne.symm hj)]
    by_cases hcn : c < n
    · rw [if_pos hcn, moveUp_getElem? _ _ _ _ (by omega)]
      have e : c + (n - c) = n := by omega
      rw [e]
      have c3 : ¬ (n < j ∧ j ≤ c) := by omega
      by_cases hin : c ≤ j ∧ j < n
      · rw [if_pos hin, if_pos hin]
      · rw [if_neg hin, if_neg hin, if_neg c3]
    · rw [if_neg hcn, moveDown_getElem? _ _ _ _ (by omega) h.2.1]
      have e : c - (c - n) = n := by omega
      rw [e]
      have c3 : ¬ (c ≤ j ∧ j < n) := by omega
      by_cases hin : n < j ∧ j ≤ c
      · rw [if_pos hin, if_neg c3]
      · rw [if_neg hin, if_neg c3]

/-- The function `moveWaypoint` keeps the number of items that satisfy a property that
does not depend on the id. -/
theorem moveWaypoint_countP (p : Waypoint → Bool) (hp : ∀ w k, p { w with id := k } = p w)
    (c n : Nat) (m : Manager) :
    (moveWaypoint c n m).waypointsEditable.countP p = m.waypointsEditable.countP p := by
  by_cases h : c ≠ n ∧ c < m.waypointsEditable.length ∧ n < m.waypointsEditable.length
  · have ec : m.waypointsEditable[c]? = some m.waypointsEditable[c] :=
      List.getElem?_eq_getElem h.2.1
    have en : m.waypointsEditable[n]? = some m.waypointsEditable[n] :=
      List.getElem?_eq_getElem h.2.2
    obtain ⟨w1, hw1⟩ : ∃ w1 : Waypoint,
        w1 = { m.waypointsEditable[c] with id := n % 65536 } := ⟨_, rfl⟩
    have hpw : p w1 = p m.waypointsEditable[c] := by subst hw1; exact hp _ _
    have hmv : (moveWaypoint c n m).waypointsEditable
        = (if c < n then moveUp (n - c) c m.waypointsEditable
            else moveDown (c - n) c m.waypointsEditable).set n w1 := by
      subst hw1
      rw [moveWaypoint_of_guard c n m _ h ec]
    rw [hmv]
    by_cases hcn : c < n
    · rw [if_pos hcn]
      have e : c + (n - c) = n := by omega
      have h1 := moveUp_countP p hp (n - c) c m.waypointsEditable _ _ ec (by rw [e]; exact en)
      have h2 : (moveUp (n - c) c m.waypointsEditable)[n]? = some m.waypointsEditable[n] := by
        rw [moveUp_getElem? _ _ _ _ (by omega), if_neg (by omega), en]
      have h3 := countP_set_add p _ n _ w1 h2
      rw [hpw] at h3
      omega
    · rw [if_neg hcn]
      have e : c - (c - n) = n := by omega
      have h1 := moveDown_countP p hp (c - n) c m.waypointsEditable _ _ (by omega) ec
        (by rw [e]; exact en)
      have h2 : (moveDown (c - n) c m.waypointsEditable)[n]?
          = some m.waypointsEditable[n] := by
        rw [moveDown_getElem? _ _ _ _ (by omega) h.2.1, if_neg (by omega), en]
      have h3 := countP_set_add p _ n _ w1 h2
      rw [hpw] at h3
      omega
  · rw [moveWaypoint_of_not_guard c n m h]

/-- The editable list after `addWaypointEditable`: the item is appended with its id
set to the former count, truncated to 16 bits, and it is made current when
`enforceFirstActive` is set and the list was empty. -/
theorem addWaypointEditable_waypointsEditable (wp : Waypoint) (f : Bool) (m : Manager) :
    (addWaypointEditable wp f m).waypointsEditable
      = m.waypointsEditable ++
          [{ wp with
             id := m.waypointsEditable.length % 65536
             current := if f = true ∧ m.waypointsEditable.length = 0 then true
                        else wp.current }] := by
  by_cases h : f = true ∧ m.waypointsEditable.length = 0
  · simp only [addWaypointEditable, if_pos h]
  · simp only [addWaypointEditable, if_neg h]

/-- The editable list after `createWaypoint`: one item is appended, with the id set to
the former count, truncated to 16 bits; it is current exactly if `enforceFirstActive`
is set and the list was empty. -/
theorem createWaypoint_waypointsEditable (f : Bool) (m : Manager) :
    (createWaypoint f m).2.waypointsEditable = m.waypointsEditable ++ [(createWaypoint f m).1]
    ∧ (createWaypoint f m).1.id = m.waypointsEditable.length % 65536
    ∧ (createWaypoint f m).1.ptr = m.heap_next
    ∧ (createWaypoint f m).1.current
        = (if f = true ∧ m.waypointsEditable.length = 0 then true else false) := by
  by_cases h : f = true ∧ m.waypointsEditable.length = 0
  · simp only [createWaypoint, if_pos h]
    simp [newWaypoint]
  · simp only [createWaypoint, if_neg h]
    simp [newWaypoint]

/-- The sequence numbers are the positions if and only if every item carries its
position. -/
theorem seqIsIndex_iff (ws : List Waypoint) :
    SeqIsIndex ws ↔ ∀ (j : Nat) (w : Waypoint), ws[j]? = some w → w.id = j := by
  unfold SeqIsIndex
  constructor
  · intro h j w hj
    have hlt : j < ws.length := (List.getElem?_eq_some_iff.mp hj).1
    have h1 : (ws.map (fun w => w.id))[j]? = (List.range ws.length)[j]? := by rw [h]
    rw [List.getElem?_map, hj, List.getElem?_range hlt] at h1
    simpa using h1
  · intro h
    apply List.ext_getElem?
    intro j
    rw [List.getElem?_map]
    by_cases hlt : j < ws.length
    · rw [List.getElem?_range hlt, List.getElem?_eq_getElem hlt]
      simp only [Option.map_some', Option.some.injEq]
      exact h j _ (List.getElem?_eq_getElem hlt)
    · rw [List.getElem?_eq_none (by omega), List.getElem?_eq_none (by simp; omega)]
      rfl

/-- Appending an item keeps the sequence numbers equal to the positions if and only if
the item carries the former length. -/
theorem seqIsIndex_append (ws : List Waypoint) (w : Waypoint) (h : SeqIsIndex ws) :
    SeqIsIndex (ws ++ [w]) ↔ w.id = ws.length := by
  unfold SeqIsIndex at *
  rw [List.map_append, List.length_append, List.length_singleton, List.range_succ, h]
  simp

/-- The list `fullList` has 65536 items. -/
theorem fullList_length : fullList.length = 65536 := by
  simp only [fullList, List.length_map, List.length_range]

/-- The ids of `fullList` are the positions. -/
theorem fullList_seqIsIndex : SeqIsIndex fullList := by
  unfold SeqIsIndex
  rw [fullList_length]
  unfold fullList
  rw [List.map_map]
  exact List.map_id _

/-- Claim C17 on the code: the editable list holds 65536 items with the sequence
numbers 0 .. 65535 in order.  `addWaypointEditable` stamps the new item with the count
truncated to 16 bits, which is 0, and appends it at position 65536: afterwards the
sequence numbers are no longer the positions. -/
theorem add_to_full_list_breaks_seq_is_index :
    SeqIsIndex fullManager.waypointsEditable
    ∧ fullManager.waypointsEditable.length = 65536
    ∧ ((addWaypointEditable (mkWaypoint 7 false) false
          fullManager).waypointsEditable[65536]?).map (fun w => w.id) = some 0
    ∧ ¬ SeqIsIndex (addWaypointEditable (mkWaypoint 7 false) false
          fullManager).waypointsEditable := by
  have e : fullManager.waypointsEditable = fullList := by
    simp only [fullManager, mkManager]
  refine ⟨?_, ?_, ?_, ?_⟩
  · rw [e]; exact fullList_seqIsIndex
  · rw [e]; exact fullList_length
  · rw [addWaypointEditable_waypointsEditable, e,
      List.getElem?_append_right (Nat.le_of_eq fullList_length), fullList_length,
      Nat.sub_self]
    simp [mkWaypoint]
  · rw [addWaypointEditable_waypointsEditable, e,
      seqIsIndex_append _ _ fullList_seqIsIndex, fullList_length]
    simp

/-- Claim C17 as amended: if every editable item carries its position as sequence
number (so the list has at most 65536 items, sequence numbers being 16-bit), then
after `removeWaypoint` and after `moveWaypoint`, for all arguments, in range or not,
every item again carries its position; after `addWaypointEditable` and after
`createWaypoint` this holds if the list had at most 65535 items before. -/
theorem edits_keep_seq_is_index (m : Manager) (h : SeqIsIndex m.waypointsEditable) :
    (∀ wp f, m.waypointsEditable.length ≤ 65535 →
        SeqIsIndex (addWaypointEditable wp f m).waypointsEditable)
    ∧ (∀ f, m.waypointsEditable.length ≤ 65535 →
        SeqIsIndex (createWaypoint f m).2.waypointsEditable)
    ∧ (∀ seq, m.waypointsEditable.length ≤ 65536 →
        SeqIsIndex (removeWaypoint seq m).2.waypointsEditable)
    ∧ (∀ c n, m.waypointsEditable.length ≤ 65536 →
        SeqIsIndex (moveWaypoint c n m).waypointsEditable) := by
  have hpt := (seqIsIndex_iff _).mp h
  refine ⟨?_, ?_, ?_, ?_⟩
  · intro wp f hl
    rw [addWaypointEditable_waypointsEditable, seqIsIndex_append _ _ h]
    exact Nat.mod_eq_of_lt (by omega)
  · intro f hl
    obtain ⟨e, hid, _, _⟩ := createWaypoint_waypointsEditable f m
    rw [e, seqIsIndex_append _ _ h, hid]
    exact Nat.mod_eq_of_lt (by omega)
  · intro seq hl
    by_cases hs : seq < m.waypointsEditable.length
    · rw [seqIsIndex_iff]
      intro j w hj
      have hjl : j < (removeWaypoint seq m).2.waypointsEditable.length :=
        (List.getElem?_eq_some_iff.mp hj).1
      have hlen := removeWaypoint_length seq m hs
      rw [removeWaypoint_getElem? seq m hs] at hj
      obtain ⟨w0, hw0, hw⟩ := Option.map_eq_some'.mp hj
      by_cases hsj : seq ≤ j
      · rw [if_pos hsj] at hw
        rw [← hw]
        exact Nat.mod_eq_of_lt (by omega)
      · rw [if_neg hsj] at hw
        subst hw
        rw [List.getElem?_eraseIdx_of_lt _ _ _ (by omega)] at hw0
        by_cases hc : m.waypointsEditable[seq].current = true
        · by_cases h1 : seq + 1 < m.waypointsEditable.length
          · rw [if_pos hc, if_pos h1, setCurrentAt_getElem?, if_neg (by omega)] at hw0
            exact hpt j _ hw0
          · by_cases h2 : 0 < seq
            · rw [if_pos hc, if_neg h1, if_pos h2, setCurrentAt_getElem?] at hw0
              by_cases hj1 : j = seq - 1
              · rw [if_pos hj1] at hw0
                obtain ⟨w1, hw1, e1⟩ := Option.map_eq_some'.mp hw0
                rw [← e1]
                exact hpt j w1 hw1
              · rw [if_neg hj1] at hw0
                exact hpt j _ hw0
            · rw [if_pos hc, if_neg h1, if_neg h2] at hw0
              exact hpt j _ hw0
        · rw [if_neg hc] at hw0
          exact hpt j _ hw0
    · rw [removeWaypoint_of_ge seq m (by omega)]
      exact h
  · intro c n hl
    by_cases hg : c ≠ n ∧ c < m.waypointsEditable.length ∧ n < m.waypointsEditable.length
    · rw [seqIsIndex_iff]
      intro j w hj
      have hjl : j < m.waypointsEditable.length := by
        rw [← moveWaypoint_length c n m]
        exact (List.getElem?_eq_some_iff.mp hj).1
      have hmod : j % 65536 = j := Nat.mod_eq_of_lt (by omega)
      rw [moveWaypoint_getElem? c n m hg] at hj
      split_ifs at hj with h1 h2 h3
      · obtain ⟨w1, _, e1⟩ := Option.map_eq_some'.mp hj
        rw [← e1]; exact hmod
      · obtain ⟨w1, _, e1⟩ := Option.map_eq_some'.mp hj
        rw [← e1]; exact hmod
      · obtain ⟨w1, _, e1⟩ := Option.map_eq_some'.mp hj
        rw [← e1]; exact hmod
      · exact hpt j w hj
    · rw [moveWaypoint_of_not_guard c n m hg]
      exact h

/-- Witness for C17: the theorem applied to the list of three items with the sequence
numbers 0, 1, 2. -/
theorem edits_keep_seq_is_index_witness :
    SeqIsIndex middleCurrent.waypointsEditable
    ∧ middleCurrent.waypointsEditable.length ≤ 65535
    ∧ SeqIsIndex (addWaypointEditable (mkWaypoint 7 true) false
        middleCurrent).waypointsEditable
    ∧ SeqIsIndex (createWaypoint false middleCurrent).2.waypointsEditable
    ∧ SeqIsIndex (removeWaypoint 1 middleCurrent).2.waypointsEditable
    ∧ SeqIsIndex (moveWaypoint 0 2 middleCurrent).waypointsEditable :=
  have hinv : SeqIsIndex middleCurrent.waypointsEditable := rfl
  have hl : middleCurrent.waypointsEditable.length ≤ 65535 := by decide
  have h := edits_keep_seq_is_index middleCurrent hinv
  ⟨hinv, hl, h.1 _ _ hl, h.2.1 _ hl, h.2.2.1 _ (Nat.le_succ_of_le hl),
    h.2.2.2 _ _ (Nat.le_succ_of_le hl)⟩

/-! ### At most one current item -/

/-- The marking loop flags no item when no item carries the sequence number. -/
theorem markCurrent_countP_zero (seq : Nat) : ∀ (ws : List Waypoint),
    seq ∉ ws.map (fun w => w.id) →
    (markCurrent seq ws).countP (fun w => w.current) = 0 := by
  intro ws
  induction ws with
  | nil => intro _; rfl
  | cons w ws ih =>
    intro h
    simp only [List.map_cons, List.mem_cons, not_or] at h
    have hne : ¬ w.id = seq := fun e => h.1 e.symm
    have := ih h.2
    simp only [markCurrent, List.map_cons, List.countP_cons] at this ⊢
    simp [hne, this]

/-- The marking loop flags at most one item when the sequence numbers of the list are
pairwise distinct. -/
theorem markCurrent_atMostOneCurrent (seq : Nat) : ∀ (ws : List Waypoint),
    (ws.map (fun w => w.id)).Nodup → AtMostOneCurrent (markCurrent seq ws) := by
  intro ws
  unfold AtMostOneCurrent
  induction ws with
  | nil => intro _; simp [markCurrent]
  | cons w ws ih =>
    intro h
    simp only [List.map_cons, List.nodup_cons] at h
    have e : markCurrent seq (w :: ws)
        = { w with current := decide (w.id = seq) } :: markCurrent seq ws := rfl
    rw [e, List.countP_cons]
    by_cases he : w.id = seq
    · have h0 := markCurrent_countP_zero seq ws (by rw [← he]; exact h.1)
      rw [h0]
      split_ifs <;> omega
    · have := ih h.2
      have hf : ¬ (decide (w.id = seq) = true) := by simp [he]
      rw [if_neg hf]
      omega

/-- At most one item is current after an append if and only if the appended item is
not current or no item was. -/
theorem atMostOneCurrent_append (ws : List Waypoint) (w : Waypoint) :
    AtMostOneCurrent (ws ++ [w])
      ↔ ws.countP (fun w => w.current) + (if w.current = true then 1 else 0) ≤ 1 := by
  unfold AtMostOneCurrent
  rw [List.countP_append]
  simp only [List.countP_cons, List.countP_nil, Nat.zero_add]

/-- No item of a list is current if and only if the list counts no current item. -/
theorem countP_current_eq_zero (ws : List Waypoint) :
    ws.countP (fun w => w.current) = 0 ↔ ∀ w ∈ ws, w.current = false := by
  rw [List.countP_eq_zero]
  constructor
  · intro h w hw
    have := h w hw
    simpa using this
  · intro h w hw
    simp [h w hw]

/-- The lists after `handleWaypoint`: each list is unchanged or has one item appended,
whose current flag is set exactly if the `current` field of the message is not zero. -/
theorem handleWaypoint_lists (s c : Nat) (wp : MissionItemInt) (m : Manager) :
    ((handleWaypoint s c wp m).waypointsViewOnly = m.waypointsViewOnly
      ∨ ∃ w, (handleWaypoint s c wp m).waypointsViewOnly = m.waypointsViewOnly ++ [w]
          ∧ w.current = decide (wp.current ≠ 0))
    ∧ ((handleWaypoint s c wp m).waypointsEditable = m.waypointsEditable
      ∨ ∃ w, (handleWaypoint s c wp m).waypointsEditable = m.waypointsEditable ++ [w]
          ∧ w.current = decide (wp.current ≠ 0)) := by
  by_cases ha : s = m.current_partner_systemid ∧ m.current_state = WP_GETLIST_GETWPS
      ∧ wp.seq = m.current_wp_id
  · by_cases hr : m.read_to_edit = true <;> by_cases hc : wp.current = 1 <;>
      by_cases hlt : (m.current_wp_id + 1) % 65536 < m.current_count <;>
      by_cases hu : m.uas = false <;>
      simp [handleWaypoint, ha.1, ha.2.1, ha.2.2, hr, hc, hlt, hu, addWaypointViewOnly,
        addWaypointEditable, sendWaypointRequest, sendWaypointAck, sendMessage,
        newWaypointFromItem]
  · rw [handleWaypoint_reject s c wp m ha]
    exact ⟨Or.inl rfl, Or.inl rfl⟩

/-- The lists after `handleWaypointCurrent`: the editable list is unchanged, the
view-only list is unchanged or went through the marking loop. -/
theorem handleWaypointCurrent_lists (s c q : Nat) (m : Manager) :
    (handleWaypointCurrent s c q m).waypointsEditable = m.waypointsEditable
    ∧ ((handleWaypointCurrent s c q m).waypointsViewOnly = m.waypointsViewOnly
      ∨ (handleWaypointCurrent s c q m).waypointsViewOnly
          = markCurrent q m.waypointsViewOnly) := by
  by_cases hu : m.uas = false <;> by_cases hs : s = m.uasid <;>
    by_cases hst : m.current_state = WP_SETCURRENT <;>
    by_cases hlt : q < m.waypointsViewOnly.length <;>
    by_cases hw : m.waypointIDHandled = q <;>
    simp [handleWaypointCurrent, hu, hs, hst, hlt, hw]

/-- The editable list after `setCurrentEditable`: unchanged, or through the marking
loop. -/
theorem setCurrentEditable_lists (seq : Nat) (m : Manager) :
    (setCurrentEditable seq m).2.waypointsEditable = m.waypointsEditable
    ∨ (setCurrentEditable seq m).2.waypointsEditable = markCurrent seq m.waypointsEditable := by
  by_cases h1 : seq < m.waypointsEditable.length <;>
    by_cases h2 : m.current_state = WP_IDLE <;>
    simp [setCurrentEditable, h1, h2]

/-- No item of `fullList` is current. -/
theorem fullList_countP : fullList.countP (fun w => w.current) = 0 := by
  rw [countP_current_eq_zero]
  intro w hw
  unfold fullList at hw
  obtain ⟨i, _, rfl⟩ := List.mem_map.mp hw
  rfl

/-- The editable list of `wrappedManager`. -/
theorem wrappedManager_waypointsEditable :
    wrappedManager.waypointsEditable
      = fullList ++ [{ mkWaypoint 7 false with id := 0 }] := by
  have e : fullManager.waypointsEditable = fullList := by
    simp only [fullManager, mkManager]
  unfold wrappedManager
  rw [addWaypointEditable_waypointsEditable, e, fullList_length]
  simp [mkWaypoint]

/-- The function `addWaypointEditable` does not change the protocol state. -/
theorem addWaypointEditable_current_state (wp : Waypoint) (f : Bool) (m : Manager) :
    (addWaypointEditable wp f m).current_state = m.current_state := by
  by_cases h : f = true ∧ m.waypointsEditable.length = 0
  · simp only [addWaypointEditable, if_pos h]
  · simp only [addWaypointEditable, if_neg h]

/-- At most one item of `wrappedManager` is current: none is. -/
theorem wrappedManager_atMostOneCurrent :
    AtMostOneCurrent wrappedManager.waypointsEditable := by
  rw [wrappedManager_waypointsEditable, atMostOneCurrent_append, fullList_countP]
  simp [mkWaypoint]

/-- The call `setCurrentEditable 0` on `wrappedManager` succeeds and runs the marking
loop. -/
theorem setCurrentEditable_wrappedManager :
    (setCurrentEditable 0 wrappedManager).1 = 0
    ∧ (setCurrentEditable 0 wrappedManager).2.waypointsEditable
        = markCurrent 0 wrappedManager.waypointsEditable := by
  have hl : 0 < wrappedManager.waypointsEditable.length := by
    rw [wrappedManager_waypointsEditable, List.length_append, fullList_length]
    exact Nat.succ_pos _
  have hs : wrappedManager.current_state = WP_IDLE := by
    unfold wrappedManager
    rw [addWaypointEditable_current_state]
    simp only [fullManager, mkManager]
  simp only [setCurrentEditable, if_pos hl, if_pos hs, and_self]

/-- The marking loop for the sequence number 0 flags two items of `wrappedManager`. -/
theorem markCurrent_wrappedManager :
    ¬ AtMostOneCurrent (markCurrent 0 wrappedManager.waypointsEditable) := by
  rw [wrappedManager_waypointsEditable]
  unfold AtMostOneCurrent markCurrent
  rw [List.map_append, List.countP_append]
  have h1 : 0 < (fullList.map
      (fun w => { w with current := decide (w.id = 0) })).countP (fun w => w.current) := by
    rw [List.countP_pos_iff]
    refine ⟨{ mkWaypoint 0 false with current := decide ((mkWaypoint 0 false).id = 0) },
      ?_, rfl⟩
    apply List.mem_map.mpr
    refine ⟨mkWaypoint 0 false, ?_, rfl⟩
    unfold fullList
    apply List.mem_map.mpr
    exact ⟨0, List.mem_range.mpr (by norm_num), rfl⟩
  have h2 : ([({ mkWaypoint 7 false with id := 0 } : Waypoint)].map
      (fun w => { w with current := decide (w.id = 0) })).countP (fun w => w.current)
        = 1 := by
    simp
  omega

/-- Claim C18 on the code, three cases.  (1) The editable list has one item, which is
current; `addWaypointEditable` with an item that is current appends it unchanged: two
items are current.  (2) A download has received its first item, flagged current; the
second ITEM, also with current = 1, is accepted and appended with its flag: two
view-only items are current.  (3) The editable list has 65537 items, none current, the
first and the last both with the sequence number 0; `setCurrentEditable 0` flags every
item whose sequence number is 0: two items are current. -/
theorem edits_may_flag_two_items_current :
    (AtMostOneCurrent idleManager.waypointsEditable
      ∧ ¬ AtMostOneCurrent
          (addWaypointEditable (mkWaypoint 9 true) false idleManager).waypointsEditable)
    ∧ (secondItemDue.current_state = WP_GETLIST_GETWPS
      ∧ secondItemDue.current_wp_id = 1
      ∧ AtMostOneCurrent secondItemDue.waypointsViewOnly
      ∧ ¬ AtMostOneCurrent
          (handleWaypoint 1 0 (mkItem 1 1) secondItemDue).waypointsViewOnly)
    ∧ (AtMostOneCurrent wrappedManager.waypointsEditable
      ∧ (setCurrentEditable 0 wrappedManager).1 = 0
      ∧ ¬ AtMostOneCurrent (setCurrentEditable 0 wrappedManager).2.waypointsEditable) := by
  refine ⟨⟨?_, ?_⟩, ⟨by decide, by decide, ?_, ?_⟩,
    ⟨wrappedManager_atMostOneCurrent, ?_, ?_⟩⟩
  · unfold AtMostOneCurrent; decide
  · unfold AtMostOneCurrent; decide
  · unfold AtMostOneCurrent; decide
  · unfold AtMostOneCurrent; decide
  · exact setCurrentEditable_wrappedManager.1
  · rw [setCurrentEditable_wrappedManager.2]
    exact markCurrent_wrappedManager

/-- The editing functions do not touch the view-only list. -/
theorem edits_keep_waypointsViewOnly (m : Manager) :
    (∀ f, (createWaypoint f m).2.waypointsViewOnly = m.waypointsViewOnly)
    ∧ (∀ wp f, (addWaypointEditable wp f m).waypointsViewOnly = m.waypointsViewOnly)
    ∧ (∀ seq, (removeWaypoint seq m).2.waypointsViewOnly = m.waypointsViewOnly)
    ∧ (∀ c n, (moveWaypoint c n m).waypointsViewOnly = m.waypointsViewOnly)
    ∧ (∀ seq, (setCurrentEditable seq m).2.waypointsViewOnly = m.waypointsViewOnly) := by
  refine ⟨?_, ?_, ?_, ?_, ?_⟩
  · intro f
    by_cases h : f = true ∧ m.waypointsEditable.length = 0
    · simp only [createWaypoint, if_pos h]
    · simp only [createWaypoint, if_neg h]
  · intro wp f
    by_cases h : f = true ∧ m.waypointsEditable.length = 0
    · simp only [addWaypointEditable, if_pos h]
    · simp only [addWaypointEditable, if_neg h]
  · intro seq
    by_cases h : seq < m.waypointsEditable.length
    · rw [removeWaypoint_of_lt seq m h]
    · rw [removeWaypoint_of_ge seq m (by omega)]
  · intro c n
    obtain ⟨E, e⟩ := moveWaypoint_frame c n m
    rw [e]
  · intro seq
    by_cases h1 : seq < m.waypointsEditable.length <;>
      by_cases h2 : m.current_state = WP_IDLE <;>
      simp [setCurrentEditable, h1, h2]

/-- Claim C18 as amended: let at most one item be current in each list.  Then at most
one editable item is current after `createWaypoint`, `removeWaypoint` and
`moveWaypoint`, for all arguments; after `addWaypointEditable` if the added item is not
current or no item of the list is; after `setCurrentEditable` if the sequence numbers
of the editable list are pairwise distinct; and these five leave the view-only list
unchanged.  After an ITEM (accepted or not) at most one item of a list is current if
the `current` field of the message is 0 or no item of that list is current.  After a
CURRENT notification (a set-current completion included) at most one view-only item is
current if the sequence numbers of the view-only list are pairwise distinct, and the
editable list is unchanged. -/
theorem edits_keep_at_most_one_current (m : Manager)
    (he : AtMostOneCurrent m.waypointsEditable)
    (hv : AtMostOneCurrent m.waypointsViewOnly) :
    (∀ f, AtMostOneCurrent (createWaypoint f m).2.waypointsEditable
        ∧ (createWaypoint f m).2.waypointsViewOnly = m.waypointsViewOnly)
    ∧ (∀ wp f, (wp.current = false ∨ ∀ w ∈ m.waypointsEditable, w.current = false) →
        AtMostOneCurrent (addWaypointEditable wp f m).waypointsEditable
        ∧ (addWaypointEditable wp f m).waypointsViewOnly = m.waypointsViewOnly)
    ∧ (∀ seq, AtMostOneCurrent (removeWaypoint seq m).2.waypointsEditable
        ∧ (removeWaypoint seq m).2.waypointsViewOnly = m.waypointsViewOnly)
    ∧ (∀ c n, AtMostOneCurrent (moveWaypoint c n m).waypointsEditable
        ∧ (moveWaypoint c n m).waypointsViewOnly = m.waypointsViewOnly)
    ∧ (∀ seq, (m.waypointsEditable.map (fun w => w.id)).Nodup →
        AtMostOneCurrent (setCurrentEditable seq m).2.waypointsEditable
        ∧ (setCurrentEditable seq m).2.waypointsViewOnly = m.waypointsViewOnly)
    ∧ (∀ s c wp, (wp.current = 0 ∨ ∀ w ∈ m.waypointsViewOnly, w.current = false) →
        AtMostOneCurrent (handleWaypoint s c wp m).waypointsViewOnly)
    ∧ (∀ s c wp, (wp.current = 0 ∨ ∀ w ∈ m.waypointsEditable, w.current = false) →
        AtMostOneCurrent (handleWaypoint s c wp m).waypointsEditable)
    ∧ (∀ s c q, (m.waypointsViewOnly.map (fun w => w.id)).Nodup →
        AtMostOneCurrent (handleWaypointCurrent s c q m).waypointsViewOnly
        ∧ (handleWaypointCurrent s c q m).waypointsEditable = m.waypointsEditable) := by
  have hvo := edits_keep_waypointsViewOnly m
  have happ : ∀ (ws : List Waypoint) (w : Waypoint), AtMostOneCurrent ws →
      (w.current = false ∨ ∀ x ∈ ws, x.current = false) → AtMostOneCurrent (ws ++ [w]) := by
    intro ws w hws h
    rw [atMostOneCurrent_append]
    unfold AtMostOneCurrent at hws
    rcases h with h | h
    · rw [h]; simpa using hws
    · rw [(countP_current_eq_zero ws).mpr h]
      split_ifs <;> omega
  refine ⟨?_, ?_, ?_, ?_, ?_, ?_, ?_, ?_⟩
  · intro f
    refine ⟨?_, hvo.1 f⟩
    obtain ⟨e, _, _, hc⟩ := createWaypoint_waypointsEditable f m
    rw [e]
    by_cases h : f = true ∧ m.waypointsEditable.length = 0
    · apply happ _ _ he
      right
      intro x hx
      rw [List.length_eq_zero.mp h.2] at hx
      simp at hx
    · rw [if_neg h] at hc
      exact happ _ _ he (Or.inl hc)
  · intro wp f h
    refine ⟨?_, hvo.2.1 wp f⟩
    rw [addWaypointEditable_waypointsEditable]
    by_cases hf : f = true ∧ m.waypointsEditable.length = 0
    · apply happ _ _ he
      right
      intro x hx
      rw [List.length_eq_zero.mp hf.2] at hx
      simp at hx
    · apply happ _ _ he
      rcases h with h | h
      · left
        simp only [if_neg hf]
        exact h
      · exact Or.inr h
  · intro seq
    exact ⟨removeWaypoint_atMostOneCurrent seq m he, hvo.2.2.1 seq⟩
  · intro c n
    refine ⟨?_, hvo.2.2.2.1 c n⟩
    unfold AtMostOneCurrent at he ⊢
    rw [moveWaypoint_countP (fun w => w.current) (fun w k => rfl)]
    exact he
  · intro seq hnd
    refine ⟨?_, hvo.2.2.2.2 seq⟩
    rcases setCurrentEditable_lists seq m with e | e
    · rw [e]; exact he
    · rw [e]; exact markCurrent_atMostOneCurrent seq _ hnd
  · intro s c wp h
    rcases (handleWaypoint_lists s c wp m).1 with e | ⟨w, e, hc⟩
    · rw [e]; exact hv
    · rw [e]
      apply happ _ _ hv
      rcases h with h | h
      · left; rw [hc, h]; rfl
      · exact Or.inr h
  · intro s c wp h
    rcases (handleWaypoint_lists s c wp m).2 with e | ⟨w, e, hc⟩
    · rw [e]; exact he
    · rw [e]
      apply happ _ _ he
      rcases h with h | h
      · left; rw [hc, h]; rfl
      · exact Or.inr h
  · intro s c q hnd
    obtain ⟨e1, e2⟩ := handleWaypointCurrent_lists s c q m
    refine ⟨?_, e1⟩
    rcases e2 with e | e
    · rw [e]; exact hv
    · rw [e]; exact markCurrent_atMostOneCurrent q _ hnd

/-- Witness for C18: the theorem applied to the manager with three editable items, the
middle one current, and no view-only item. -/
theorem edits_keep_at_most_one_current_witness :
    AtMostOneCurrent middleCurrent.waypointsEditable
    ∧ AtMostOneCurrent middleCurrent.waypointsViewOnly
    ∧ (mkWaypoint 7 false).current = false
    ∧ (middleCurrent.waypointsEditable.map (fun w => w.id)).Nodup
    ∧ AtMostOneCurrent (createWaypoint true middleCurrent).2.waypointsEditable
    ∧ AtMostOneCurrent
        (addWaypointEditable (mkWaypoint 7 false) true middleCurrent).waypointsEditable
    ∧ AtMostOneCurrent (removeWaypoint 1 middleCurrent).2.waypointsEditable
    ∧ AtMostOneCurrent (moveWaypoint 2 0 middleCurrent).waypointsEditable
    ∧ AtMostOneCurrent (setCurrentEditable 2 middleCurrent).2.waypointsEditable :=
  have he : AtMostOneCurrent middleCurrent.waypointsEditable := by
    unfold AtMostOneCurrent; decide
  have hv : AtMostOneCurrent middleCurrent.waypointsViewOnly := by
    unfold AtMostOneCurrent; decide
  have hnd : (middleCurrent.waypointsEditable.map (fun w => w.id)).Nodup := by decide
  have h := edits_keep_at_most_one_current middleCurrent he hv
  ⟨he, hv, rfl, hnd, (h.1 true).1, (h.2.1 (mkWaypoint 7 false) true (Or.inl rfl)).1,
    (h.2.2.1 1).1, (h.2.2.2.1 2 0).1, (h.2.2.2.2.1 2 hnd).1⟩

/-! ### The current-editable reference -/

/-- The reference is valid if and only if it is empty or the list counts an item with
the designated address. -/
theorem refValid_iff (m : Manager) :
    refValid m = true ↔ ∀ p, m.currentWaypointEditable = some p →
      0 < m.waypointsEditable.countP (fun w => w.ptr == p) := by
  unfold refValid
  cases h : m.currentWaypointEditable with
  | none => simp
  | some q =>
    simp only [Option.some.injEq, forall_eq', List.countP_pos_iff, List.any_eq_true]

/-- Deleting every item of the editable list empties a valid reference. -/
theorem onDelete_of_refValid (m : Manager) (hv : refValid m = true) :
    onDelete m.waypointsEditable m.currentWaypointEditable = none := by
  unfold refValid at hv
  unfold onDelete
  cases h : m.currentWaypointEditable with
  | none => rfl
  | some q =>
    rw [h] at hv
    simp only at hv
    simp only [hv, if_true]

/-- A manager with the same reference whose editable list counts every address as
often as before has a valid reference if the former one had. -/
theorem refValid_of_countP (m m1 : Manager)
    (hc : m1.currentWaypointEditable = m.currentWaypointEditable)
    (hl : ∀ p, m.waypointsEditable.countP (fun w => w.ptr == p)
      ≤ m1.waypointsEditable.countP (fun w => w.ptr == p))
    (hv : refValid m = true) : refValid m1 = true := by
  rw [refValid_iff] at hv ⊢
  intro p hp
  rw [hc] at hp
  exact Nat.lt_of_lt_of_le (hv p hp) (hl p)

/-- A manager whose editable list has one item more and whose reference is the
former one or designates the new item has a valid reference if the former one had. -/
theorem refValid_append (m m1 : Manager) (w : Waypoint)
    (hl : m1.waypointsEditable = m.waypointsEditable ++ [w])
    (hc : m1.currentWaypointEditable = m.currentWaypointEditable
      ∨ m1.currentWaypointEditable = some w.ptr)
    (hv : refValid m = true) : refValid m1 = true := by
  rw [refValid_iff] at hv ⊢
  intro p hp
  rw [hl, List.countP_append]
  rcases hc with hc | hc
  · rw [hc] at hp
    have := hv p hp
    omega
  · rw [hc] at hp
    cases hp
    simp

/-- The statement `waypointsEditable[i]->setCurrent(true)` keeps the number of items
that satisfy a property that does not depend on the current flag. -/
theorem setCurrentAt_countP (p : Waypoint → Bool)
    (hp : ∀ w, p { w with current := true } = p w) :
    ∀ (i : Nat) (ws : List Waypoint), (setCurrentAt i ws).countP p = ws.countP p := by
  intro i ws
  induction ws generalizing i with
  | nil => cases i <;> rfl
  | cons w ws ih =>
    cases i with
    | zero => simp only [setCurrentAt, List.countP_cons, hp]
    | succ i => simp only [setCurrentAt, List.countP_cons, ih]

/-- The marking loop keeps the number of items that satisfy a property that does not
depend on the current flag. -/
theorem markCurrent_countP (p : Waypoint → Bool)
    (hp : ∀ w b, p { w with current := b } = p w) (seq : Nat) :
    ∀ (ws : List Waypoint), (markCurrent seq ws).countP p = ws.countP p := by
  intro ws
  induction ws with
  | nil => rfl
  | cons w ws ih =>
    have e : markCurrent seq (w :: ws)
        = { w with current := decide (w.id = seq) } :: markCurrent seq ws := rfl
    rw [e, List.countP_cons, List.countP_cons, ih, hp]

/-- The reference after `removeWaypoint`. -/
theorem removeWaypoint_reference (seq : Nat) (m : Manager) (t : Waypoint)
    (ht : m.waypointsEditable[seq]? = some t) :
    (removeWaypoint seq m).2.currentWaypointEditable
      = onDelete [t] m.currentWaypointEditable := by
  obtain ⟨h, hte⟩ := List.getElem?_eq_some_iff.mp ht
  subst hte
  rw [removeWaypoint_of_lt seq m h]

/-- After `removeWaypoint` the reference is valid if it was before. -/
theorem removeWaypoint_refValid (seq : Nat) (m : Manager) (hv : refValid m = true) :
    refValid (removeWaypoint seq m).2 = true := by
  by_cases h : seq < m.waypointsEditable.length
  · have ht : m.waypointsEditable[seq]? = some m.waypointsEditable[seq] :=
      List.getElem?_eq_getElem h
    rw [refValid_iff] at hv ⊢
    intro p hp
    rw [removeWaypoint_reference seq m _ ht] at hp
    unfold onDelete at hp
    cases hc : m.currentWaypointEditable with
    | none => rw [hc] at hp; simp at hp
    | some q =>
      rw [hc] at hp
      simp only [List.any_cons, List.any_nil, Bool.or_false] at hp
      by_cases hq : (m.waypointsEditable[seq].ptr == q) = true
      · rw [if_pos hq] at hp; simp at hp
      · rw [if_neg hq] at hp
        have hqp : p = q := (Option.some.inj hp).symm
        rw [hqp]
        have h0 := hv q hc
        rw [removeWaypoint_of_lt seq m h]
        simp only
        rw [restampFrom_countP (fun w => w.ptr == q) (fun w k => rfl)]
        have key : ∀ ws1 : List Waypoint, ws1[seq]? = some m.waypointsEditable[seq] →
            ws1.countP (fun w => w.ptr == q) = m.waypointsEditable.countP (fun w => w.ptr == q) →
            0 < (ws1.eraseIdx seq).countP (fun w => w.ptr == q) := by
          intro ws1 h1 h2
          have h3 := countP_eraseIdx_add (fun w => w.ptr == q) ws1 seq _ h1
          have hq1 : ¬ ((fun w : Waypoint => w.ptr == q) m.waypointsEditable[seq] = true) := hq
          rw [if_neg hq1] at h3
          omega
        have hset : ∀ k, k ≠ seq →
            0 < ((setCurrentAt k m.waypointsEditable).eraseIdx seq).countP
              (fun w => w.ptr == q) := by
          intro k hk
          apply key
          · rw [setCurrentAt_getElem?, if_neg (Ne.symm hk), ht]
          · exact setCurrentAt_countP (fun w => w.ptr == q) (fun w => rfl) k _
        by_cases hcur : m.waypointsEditable[seq].current = true
        · by_cases h1 : seq + 1 < m.waypointsEditable.length
          · rw [if_pos hcur, if_pos h1]
            exact hset _ (by omega)
          · by_cases h2 : 0 < seq
            · rw [if_pos hcur, if_neg h1, if_pos h2]
              exact hset _ (by omega)
            · rw [if_pos hcur, if_neg h1, if_neg h2]
              exact key _ ht rfl
        · rw [if_neg hcur]
          exact key _ ht rfl
  · rw [removeWaypoint_of_ge seq m (by omega)]
    exact hv

/-- The editable list and the reference after `handleWaypointCount`: both unchanged,
or the list is empty and the objects of the former list were deleted. -/
theorem handleWaypointCount_reference (s c n : Nat) (m : Manager) :
    ((handleWaypointCount s c n m).waypointsEditable = m.waypointsEditable
      ∧ (handleWaypointCount s c n m).currentWaypointEditable = m.currentWaypointEditable)
    ∨ ((m.current_state = WP_GETLIST ∧ s = m.current_partner_systemid)
      ∧ m.read_to_edit = true
      ∧ (handleWaypointCount s c n m).waypointsEditable = []
      ∧ (handleWaypointCount s c n m).currentWaypointEditable
          = onDelete m.waypointsEditable m.currentWaypointEditable) := by
  by_cases hg : m.current_state = WP_GETLIST ∧ s = m.current_partner_systemid
  · by_cases hr : m.read_to_edit = true <;> by_cases hn : n > 0 <;>
      by_cases hu : m.uas = false <;>
      simp [handleWaypointCount, hg, hr, hn, hu, sendWaypointRequest, sendMessage]
  · simp [handleWaypointCount, hg]

/-- The editable list and the reference after `handleWaypoint`: both unchanged, or
one item is appended and the reference is the former one or designates that item. -/
theorem handleWaypoint_reference (s c : Nat) (wp : MissionItemInt) (m : Manager) :
    ((handleWaypoint s c wp m).waypointsEditable = m.waypointsEditable
      ∧ (handleWaypoint s c wp m).currentWaypointEditable = m.currentWaypointEditable)
    ∨ ∃ w, (handleWaypoint s c wp m).waypointsEditable = m.waypointsEditable ++ [w]
      ∧ ((handleWaypoint s c wp m).currentWaypointEditable = m.currentWaypointEditable
        ∨ (handleWaypoint s c wp m).currentWaypointEditable = some w.ptr) := by
  by_cases ha : s = m.current_partner_systemid ∧ m.current_state = WP_GETLIST_GETWPS
      ∧ wp.seq = m.current_wp_id
  · by_cases hr : m.read_to_edit = true <;> by_cases hc : wp.current = 1 <;>
      by_cases hlt : (m.current_wp_id + 1) % 65536 < m.current_count <;>
      by_cases hu : m.uas = false <;>
      simp [handleWaypoint, ha.1, ha.2.1, ha.2.2, hr, hc, hlt, hu, addWaypointViewOnly,
        addWaypointEditable, sendWaypointRequest, sendWaypointAck, sendMessage,
        newWaypointFromItem]
  · rw [handleWaypoint_reject s c wp m ha]
    exact Or.inl ⟨rfl, rfl⟩

/-- The reference after `addWaypointEditable`: the former one, or it designates the
added item. -/
theorem addWaypointEditable_reference (wp : Waypoint) (f : Bool) (m : Manager) :
    (addWaypointEditable wp f m).currentWaypointEditable = m.currentWaypointEditable
    ∨ (addWaypointEditable wp f m).currentWaypointEditable = some wp.ptr := by
  by_cases h : f = true ∧ m.waypointsEditable.length = 0
  · right; simp only [addWaypointEditable, if_pos h]
  · left; simp only [addWaypointEditable, if_neg h]

/-- The reference after `createWaypoint`: the former one, or it designates the
created item. -/
theorem createWaypoint_reference (f : Bool) (m : Manager) :
    (createWaypoint f m).2.currentWaypointEditable = m.currentWaypointEditable
    ∨ (createWaypoint f m).2.currentWaypointEditable = some (createWaypoint f m).1.ptr := by
  by_cases h : f = true ∧ m.waypointsEditable.length = 0
  · right; simp only [createWaypoint, if_pos h]
  · left; simp only [createWaypoint, if_neg h]

/-- The loading loop appends items and does not touch the reference. -/
theorem loadItems_reference : ∀ (items : List (Option Waypoint)) (m : Manager),
    (loadItems items m).currentWaypointEditable = m.currentWaypointEditable := by
  intro items
  induction items with
  | nil => intro m; rfl
  | cons it rest ih =>
    intro m
    cases it with
    | none => rfl
    | some w => simp only [loadItems, ih]

/-- What `loadWaypoints` returns for a file it could open: `none` exactly when the
header has two words; otherwise the reference is what is left of it after the former
items were deleted. -/
theorem loadWaypoints_reference (f : WaypointFile) (m : Manager) :
    (f.header.length = 2 ∧ loadWaypoints (some f) m = none)
    ∨ (f.header.length ≠ 2 ∧ ∃ m1, loadWaypoints (some f) m = some m1
        ∧ m1.currentWaypointEditable
            = onDelete m.waypointsEditable m.currentWaypointEditable) := by
  by_cases h2 : f.header.length < 2
  · right
    refine ⟨by omega, ?_⟩
    simp only [loadWaypoints, if_pos h2]
    exact ⟨_, rfl, rfl⟩
  · cases hv : f.header[2]? with
    | none =>
      left
      have : f.header.length ≤ 2 := List.getElem?_eq_none_iff.mp hv
      refine ⟨by omega, ?_⟩
      simp only [loadWaypoints, if_neg h2, hv]
    | some v2 =>
      right
      have : 2 < f.header.length := (List.getElem?_eq_some_iff.mp hv).1
      refine ⟨by omega, ?_⟩
      by_cases hok : ¬ (f.header.length = 3 ∧ f.header[0]? = some "QGC"
          ∧ f.header[1]? = some "WPL" ∧ toInt v2 ≥ 110)
      · simp only [loadWaypoints, if_neg h2, hv, if_pos hok]
        exact ⟨_, rfl, rfl⟩
      · simp only [loadWaypoints, if_neg h2, hv, if_neg hok]
        exact ⟨_, rfl, loadItems_reference _ _⟩

/-- A manager with the same editable list and the same reference is as valid. -/
theorem refValid_same (m m1 : Manager)
    (hl : m1.waypointsEditable = m.waypointsEditable)
    (hc : m1.currentWaypointEditable = m.currentWaypointEditable) :
    refValid m1 = refValid m := by
  unfold refValid
  rw [hl, hc]

/-- A manager with an empty reference is valid. -/
theorem refValid_of_none (m : Manager) (hc : m.currentWaypointEditable = none) :
    refValid m = true := by
  unfold refValid
  rw [hc]

/-- After a timeout or an inbound message the reference is valid if it was before. -/
theorem step_refValid (m : Manager) (ev : Event) (hv : refValid m = true) :
    refValid (step m ev) = true := by
  cases ev with
  | timeout =>
    simp only [step]
    split_ifs
    · by_cases hr : m.current_retries > 0
      · obtain ⟨B, S, e⟩ := timeout_retry_frame m hr
        rw [e]; exact hv
      · rw [timeout_abort m hr]; exact hv
    · exact hv
  | count s c n =>
    simp only [step]
    rcases handleWaypointCount_reference s c n m with ⟨h1, h2⟩ | ⟨_, _, _, h2⟩
    · rw [refValid_same m _ h1 h2]; exact hv
    · apply refValid_of_none
      rw [h2]
      exact onDelete_of_refValid m hv
  | item s c wp =>
    simp only [step]
    rcases handleWaypoint_reference s c wp m with ⟨h1, h2⟩ | ⟨w, h1, h2⟩
    · rw [refValid_same m _ h1 h2]; exact hv
    · exact refValid_append m _ w h1 h2 hv
  | ack s c t =>
    simp only [step]
    rcases handleWaypointAck_frame s c t m with e | ⟨_, e⟩ | ⟨_, S, e⟩ <;>
      rw [e] <;> exact hv
  | request s c q =>
    simp only [step]
    rcases handleWaypointRequest_frame s c q MissionItemEncoding.Float m with
      e | ⟨_, e | ⟨st, B, S, _, e⟩⟩ <;> rw [e] <;> exact hv
  | requestInt s c q =>
    simp only [step]
    rcases handleWaypointRequest_frame s c q MissionItemEncoding.Int m with
      e | ⟨_, e | ⟨st, B, S, _, e⟩⟩ <;> rw [e] <;> exact hv
  | current s c q =>
    simp only [step]
    rcases handleWaypointCurrent_frame s c q m with e | ⟨v, e⟩ | ⟨V, v, e⟩ <;>
      rw [e] <;> exact hv
  | reached s c q => exact hv

/-- Claim C20: let the current-editable reference be empty or designate an item of the
editable list.  After `removeWaypoint` removed the item it designates, the reference
is empty.  After a COUNT accepted with `read_to_edit` set the editable list is empty
and the reference is empty.  `loadWaypoints` with a file it could open, whose header
does not have exactly two words, returns with the reference empty.  After
`removeWaypoint`, `createWaypoint`, `addWaypointEditable`, `moveWaypoint`,
`setCurrentEditable`, a timeout, every inbound message and `loadWaypoints` the
reference is again empty or designates an item of the editable list. -/
theorem current_editable_reference_stays_valid (m : Manager) (hv : refValid m = true) :
    (∀ seq t, m.waypointsEditable[seq]? = some t →
        m.currentWaypointEditable = some t.ptr →
        (removeWaypoint seq m).1 = 0
        ∧ (removeWaypoint seq m).2.currentWaypointEditable = none)
    ∧ (∀ s c n, m.current_state = WP_GETLIST → s = m.current_partner_systemid →
        m.read_to_edit = true →
        (handleWaypointCount s c n m).waypointsEditable = []
        ∧ (handleWaypointCount s c n m).currentWaypointEditable = none)
    ∧ (∀ f, f.header.length ≠ 2 →
        (loadWaypoints (some f) m).map (fun m1 => m1.currentWaypointEditable) = some none)
    ∧ (∀ seq, refValid (removeWaypoint seq m).2 = true)
    ∧ (∀ f, refValid (createWaypoint f m).2 = true)
    ∧ (∀ wp f, refValid (addWaypointEditable wp f m) = true)
    ∧ (∀ c n, refValid (moveWaypoint c n m) = true)
    ∧ (∀ seq, refValid (setCurrentEditable seq m).2 = true)
    ∧ (∀ ev, refValid (step m ev) = true)
    ∧ (∀ file, (loadWaypoints file m).all refValid = true) := by
  have hload : ∀ f : WaypointFile, f.header.length ≠ 2 →
      (loadWaypoints (some f) m).map (fun m1 => m1.currentWaypointEditable) = some none := by
    intro f hf
    rcases loadWaypoints_reference f m with ⟨h, _⟩ | ⟨_, m1, e, hc⟩
    · exact absurd h hf
    · rw [e, Option.map_some', hc, onDelete_of_refValid m hv]
  refine ⟨?_, ?_, hload, fun seq => removeWaypoint_refValid seq m hv, ?_, ?_, ?_, ?_,
    fun ev => step_refValid m ev hv, ?_⟩
  · intro seq t ht hc
    have h := (List.getElem?_eq_some_iff.mp ht).1
    refine ⟨by rw [removeWaypoint_of_lt seq m h], ?_⟩
    rw [removeWaypoint_reference seq m t ht, hc]
    simp [onDelete]
  · intro s c n hg hs hr
    rcases handleWaypointCount_reference s c n m with ⟨h1, h2⟩ | ⟨_, _, h1, h2⟩
    · have := handleWaypointCount_waypointsEditable s c n m
      rw [if_pos ⟨⟨hg, hs⟩, hr⟩] at this
      refine ⟨this, ?_⟩
      rcases handleWaypointCount_reference s c n m with ⟨_, h3⟩ | ⟨_, _, _, h3⟩
      · rw [h3]
        rw [h1] at this
        have hnone := onDelete_of_refValid m hv
        rw [this] at hnone
        unfold onDelete at hnone
        cases hcur : m.currentWaypointEditable with
        | none => rfl
        | some p => rw [hcur] at hnone; simp at hnone
      · rw [h3]; exact onDelete_of_refValid m hv
    · exact ⟨h1, by rw [h2]; exact onDelete_of_refValid m hv⟩
  · intro f
    obtain ⟨e, _, _, _⟩ := createWaypoint_waypointsEditable f m
    exact refValid_append m _ _ e (createWaypoint_reference f m) hv
  · intro wp f
    refine refValid_append m _ _ (addWaypointEditable_waypointsEditable wp f m) ?_ hv
    exact addWaypointEditable_reference wp f m
  · intro c n
    obtain ⟨E, e⟩ := moveWaypoint_frame c n m
    refine refValid_of_countP m _ (by rw [e]) ?_ hv
    intro p
    rw [moveWaypoint_countP (fun w => w.ptr == p) (fun w k => rfl)]
  · intro seq
    by_cases h1 : seq < m.waypointsEditable.length
    · by_cases h2 : m.current_state = WP_IDLE
      · simp only [setCurrentEditable, if_pos h1, if_pos h2]
        refine refValid_of_countP m _ rfl ?_ hv
        intro p
        simp only
        rw [markCurrent_countP (fun w => w.ptr == p) (fun w b => rfl)]
      · simp only [setCurrentEditable, if_pos h1, if_neg h2]
        exact hv
    · simp only [setCurrentEditable, if_neg h1]
      exact hv
  · intro file
    cases file with
    | none => simpa [loadWaypoints] using hv
    | some f =>
      rcases loadWaypoints_reference f m with ⟨_, e⟩ | ⟨_, m1, e, hc⟩
      · rw [e]; rfl
      · rw [e]
        simp only [Option.all_some]
        apply refValid_of_none
        rw [hc]
        exact onDelete_of_refValid m hv

/-- Witness for C20: the theorem applied to a download into the editable list that
waits for the count; the list has three items and the reference designates the
middle one. -/
theorem current_editable_reference_stays_valid_witness :
    refValid awaitingCountToEdit = true
    ∧ awaitingCountToEdit.waypointsEditable[1]? = some (mkWaypoint 1 true)
    ∧ awaitingCountToEdit.currentWaypointEditable = some (mkWaypoint 1 true).ptr
    ∧ awaitingCountToEdit.current_state = WP_GETLIST
    ∧ 1 = awaitingCountToEdit.current_partner_systemid
    ∧ awaitingCountToEdit.read_to_edit = true
    ∧ twoItemFile.header.length ≠ 2
    ∧ (removeWaypoint 1 awaitingCountToEdit).2.currentWaypointEditable = none
    ∧ (handleWaypointCount 1 0 2 awaitingCountToEdit).waypointsEditable = []
    ∧ (handleWaypointCount 1 0 2 awaitingCountToEdit).currentWaypointEditable = none
    ∧ (loadWaypoints (some twoItemFile) awaitingCountToEdit).map
        (fun m1 => m1.currentWaypointEditable) = some none :=
  have hv : refValid awaitingCountToEdit = true := by decide
  have h := current_editable_reference_stays_valid awaitingCountToEdit hv
  have hr := h.1 1 (mkWaypoint 1 true) rfl rfl
  have hc := h.2.1 1 0 2 (by decide) (by decide) (by decide)
  ⟨hv, rfl, rfl, by decide, by decide, by decide, by decide, hr.2, hc.1, hc.2,
    h.2.2.1 twoItemFile (by decide)⟩

/-! ### Queries on the editable list -/

/-- The guard of `getWaypoint` fails only for index 0 on an empty list: that is the
only call that returns `NULL`. -/
theorem getWaypoint_null_iff (index : Int) (m : Manager) :
    getWaypoint index m = some none ↔ index = 0 ∧ m.waypointsEditable = [] := by
  unfold getWaypoint
  constructor
  · intro h
    by_cases hg : index > 0 ∨ index < (m.waypointsEditable.length : Int)
    · rw [if_pos hg] at h
      by_cases h0 : 0 ≤ index
      · rw [if_pos h0] at h
        cases hw : m.waypointsEditable[index.toNat]? with
        | none => rw [hw] at h; simp at h
        | some w => rw [hw] at h; simp at h
      · rw [if_neg h0] at h; simp at h
    · have h1 : index = 0 := by omega
      have h2 : m.waypointsEditable.length = 0 := by omega
      exact ⟨h1, List.length_eq_zero.mp h2⟩
  · rintro ⟨h1, h2⟩
    have hg : ¬ (index > 0 ∨ index < (m.waypointsEditable.length : Int)) := by
      rw [h1, h2]; simp
    rw [if_neg hg]

/-- The function `getWaypoint` reads the list outside its bounds for every negative
index and for every index from the count on, except index 0 on the empty list. -/
theorem getWaypoint_out_of_range (index : Int) (m : Manager)
    (h : index < 0 ∨ (m.waypointsEditable.length : Int) ≤ index)
    (hne : ¬ (index = 0 ∧ m.waypointsEditable = [])) :
    getWaypoint index m = none := by
  unfold getWaypoint
  have hg : index > 0 ∨ index < (m.waypointsEditable.length : Int) := by
    by_contra hc
    apply hne
    have h1 : index = 0 := by omega
    have h2 : m.waypointsEditable.length = 0 := by omega
    exact ⟨h1, List.length_eq_zero.mp h2⟩
  rw [if_pos hg]
  by_cases h0 : 0 ≤ index
  · rw [if_pos h0]
    have : m.waypointsEditable.length ≤ index.toNat := by omega
    rw [List.getElem?_eq_none this]
  · rw [if_neg h0]

/-- Claim C21 on the code: the editable list has three items.  The guard
`index > 0 || index < count` holds for index 3 and for index -1, so both calls read
`waypointsEditable[index]` outside the list instead of returning `NULL`; index 1 returns
its item. -/
theorem getWaypoint_reads_outside_list :
    threeItems.waypointsEditable.length = 3
    ∧ getWaypoint 3 threeItems = none
    ∧ getWaypoint (-1) threeItems = none
    ∧ getWaypoint 1 threeItems = some (some (mkWaypoint 1 false)) := by
  refine ⟨rfl, ?_, ?_, rfl⟩
  · exact getWaypoint_out_of_range 3 threeItems (Or.inr (by decide)) (by decide)
  · exact getWaypoint_out_of_range (-1) threeItems (Or.inl (by decide)) (by decide)

/-! ### The frame recommended for a new item -/

/-- Claim C27: `getFrameRecommendation` returns the frame of the last editable item when
the list has at least two items; otherwise GLOBAL_RELATIVE_ALT when a vehicle is
attached; without a vehicle GLOBAL for the empty list and GLOBAL_RELATIVE_ALT for a list
of one item. -/
theorem getFrameRecommendation_rule (m : Manager) :
    (2 ≤ m.waypointsEditable.length →
        (m.waypointsEditable.getLast?).map (fun w => w.frame)
          = some (getFrameRecommendation m))
    ∧ (m.waypointsEditable.length < 2 → m.uas = true →
        getFrameRecommendation m = MAV_FRAME_GLOBAL_RELATIVE_ALT)
    ∧ (m.uas = false → m.waypointsEditable.length = 0 →
        getFrameRecommendation m = MAV_FRAME_GLOBAL)
    ∧ (m.uas = false → m.waypointsEditable.length = 1 →
        getFrameRecommendation m = MAV_FRAME_GLOBAL_RELATIVE_ALT) := by
  refine ⟨?_, ?_, ?_, ?_⟩
  · intro h
    have h0 : ¬ m.waypointsEditable.length = 0 := by omega
    have h1 : m.waypointsEditable.length > 1 := by omega
    cases hl : m.waypointsEditable.getLast? with
    | none =>
      rw [List.getLast?_eq_none_iff] at hl
      rw [hl] at h0
      simp at h0
    | some w =>
      by_cases hu : m.uas = false
      · simp only [getFrameRecommendation, if_pos hu, if_neg h0, if_pos h1, hl, Option.map_some']
      · simp only [getFrameRecommendation, if_neg hu, if_pos h1, hl, Option.map_some']
  · intro h hu
    have hu1 : ¬ m.uas = false := by simp [hu]
    have h1 : ¬ m.waypointsEditable.length > 1 := by omega
    simp only [getFrameRecommendation, if_neg hu1, if_neg h1]
  · intro hu h
    simp only [getFrameRecommendation, if_pos hu, if_pos h]
  · intro hu h
    have h0 : ¬ m.waypointsEditable.length = 0 := by omega
    have h1 : ¬ m.waypointsEditable.length > 1 := by omega
    simp only [getFrameRecommendation, if_pos hu, if_neg h0, if_neg h1]

/-- Witness for C27: the theorem applied to a list of three items with a vehicle
attached and to the empty list without a vehicle. -/
theorem getFrameRecommendation_rule_witness :
    2 ≤ threeItems.waypointsEditable.length
    ∧ (threeItems.waypointsEditable.getLast?).map (fun w => w.frame)
        = some (getFrameRecommendation threeItems)
    ∧ (mkManager false 0 [] []).uas = false
    ∧ (mkManager false 0 [] []).waypointsEditable.length = 0
    ∧ getFrameRecommendation (mkManager false 0 [] []) = MAV_FRAME_GLOBAL :=
  ⟨by decide, (getFrameRecommendation_rule threeItems).1 (by decide), rfl, rfl,
    (getFrameRecommendation_rule (mkManager false 0 [] [])).2.2.1 rfl rfl⟩

/-! ### Loading a file: the header -/

/-- The function `loadWaypoints` reads `version[2]` outside the list exactly for a
file it could open whose first line has two words. -/
theorem loadWaypoints_eq_none_iff (file : Option WaypointFile) (m : Manager) :
    loadWaypoints file m = none ↔ ∃ f, file = some f ∧ f.header.length = 2 := by
  cases file with
  | none => simp [loadWaypoints]
  | some f =>
    rcases loadWaypoints_reference f m with ⟨h, e⟩ | ⟨h, m1, e, _⟩
    · rw [e]; simp [h]
    · rw [e]; simp [h]

/-- For a file it could open whose first line does not have two words, `loadWaypoints`
returns with an empty editable list if the first word is not `QGC`, or the second is
not `WPL`, or there is no third word or its integer value is below 110. -/
theorem loadWaypoints_rejects (f : WaypointFile) (m : Manager)
    (h2 : f.header.length ≠ 2)
    (hbad : f.header[0]? ≠ some "QGC" ∨ f.header[1]? ≠ some "WPL"
      ∨ ∀ v, f.header[2]? = some v → toInt v < 110) :
    (loadWaypoints (some f) m).map (fun m1 => m1.waypointsEditable) = some [] := by
  by_cases hlt : f.header.length < 2
  · simp only [loadWaypoints, if_pos hlt, Option.map_some']
  · cases hv : f.header[2]? with
    | none =>
      have : f.header.length ≤ 2 := List.getElem?_eq_none_iff.mp hv
      omega
    | some v2 =>
      have hok : ¬ (f.header.length = 3 ∧ f.header[0]? = some "QGC"
          ∧ f.header[1]? = some "WPL" ∧ toInt v2 ≥ 110) := by
        rintro ⟨_, a, b, c⟩
        rcases hbad with h | h | h
        · exact h a
        · exact h b
        · have := h v2 hv
          omega
      simp only [loadWaypoints, if_neg hlt, hv, if_pos hok, Option.map_some']

/-- Claim C23 on the code: the first line of the file is `FOO BAR`.  The list has two
words, so the guard `version.length() < 2` does not return, and `version[2]` is read
outside the list before the header is compared.  A first line with one word or with
the version 100 is rejected with the editable list empty. -/
theorem loadWaypoints_two_words_not_rejected :
    twoWordFile.header[0]? ≠ some "QGC"
    ∧ loadWaypoints (some twoWordFile) idleManager = none
    ∧ (loadWaypoints (some oneWordFile) idleManager).map (fun m1 => m1.waypointsEditable)
        = some []
    ∧ (loadWaypoints (some oldVersionFile) idleManager).map (fun m1 => m1.waypointsEditable)
        = some [] := by
  refine ⟨by decide, ?_, ?_, ?_⟩
  · exact (loadWaypoints_eq_none_iff _ _).mpr ⟨twoWordFile, rfl, rfl⟩
  · exact loadWaypoints_rejects oneWordFile idleManager (by decide) (Or.inr (Or.inl (by decide)))
  · exact loadWaypoints_rejects oldVersionFile idleManager (by decide)
      (Or.inr (Or.inr (by intro v hv; cases hv; decide)))

/-- Claim C29 on the code: the first line of the file is `QGC WPL`.  The guard
`version.length() < 2` lets the two words pass and `version[2]`, which does not exist,
is read; the file is not reported as corrupt. -/
theorem loadWaypoints_reads_missing_version :
    versionlessFile.header.length = 2
    ∧ ¬ (versionlessFile.header.length < 2)
    ∧ versionlessFile.header[2]? = none
    ∧ loadWaypoints (some versionlessFile) idleManager = none := by
  refine ⟨rfl, by decide, rfl, ?_⟩
  exact (loadWaypoints_eq_none_iff _ _).mpr ⟨versionlessFile, rfl, rfl⟩

/-! ### The global-frame navigation items -/

/-- The enumeration loop with `onlypath` false keeps the global-frame items that are of
navigation type or visible on the map. -/
theorem collectGlobalFrameAndNavType_false (K : WaypointKinds) : ∀ ws : List Waypoint,
    collectGlobalFrameAndNavType K false ws
      = ws.filter (fun w =>
          K.isGlobalFrame w && (K.isNavigationType w || K.visibleOnMapWidget w)) := by
  intro ws
  induction ws with
  | nil => rfl
  | cons w ws ih =>
    by_cases h : K.isGlobalFrame w = true
        ∧ (K.isNavigationType w = true ∨ K.visibleOnMapWidget w = true)
    · have hf : (K.isGlobalFrame w && (K.isNavigationType w || K.visibleOnMapWidget w))
          = true := by simpa using h
      have hn : ¬ (K.visibleOnMapWidget w = true ∧ false = true) := by simp
      simp only [List.filter_cons, hf, if_true, if_false, Bool.false_eq_true]
      simp only [collectGlobalFrameAndNavType, if_pos h, if_neg hn, ih]
    · have hf : ¬ (K.isGlobalFrame w && (K.isNavigationType w || K.visibleOnMapWidget w))
          = true := by simpa using h
      simp only [List.filter_cons, hf, if_true, if_false, Bool.false_eq_true]
      simp only [collectGlobalFrameAndNavType, if_neg h, ih]

/-- The counting loop adds the number of global-frame navigation items to its counter. -/
theorem countGlobalFrameAndNavType_eq (K : WaypointKinds) : ∀ (ws : List Waypoint) (i : Int),
    countGlobalFrameAndNavType K ws i
      = i + ((ws.filter (fun w => K.isGlobalFrame w && K.isNavigationType w)).length : Int) := by
  intro ws
  induction ws with
  | nil => intro i; simp [countGlobalFrameAndNavType]
  | cons w ws ih =>
    intro i
    by_cases h : K.isGlobalFrame w = true ∧ K.isNavigationType w = true
    · have hf : (K.isGlobalFrame w && K.isNavigationType w) = true := by simpa using h
      simp only [List.filter_cons, hf, if_true, if_false, Bool.false_eq_true]
      simp only [countGlobalFrameAndNavType, if_pos h, ih, List.length_cons]
      push_cast
      ring
    · have hf : ¬ (K.isGlobalFrame w && K.isNavigationType w) = true := by simpa using h
      simp only [List.filter_cons, hf, if_true, if_false, Bool.false_eq_true]
      simp only [countGlobalFrameAndNavType, if_neg h, ih]

/-- The search loop returns the counter plus the position of the item among the
global-frame navigation items, when each address is in the list once. -/
theorem searchGlobalFrameAndNavType_found (K : WaypointKinds) :
    ∀ (ws : List Waypoint) (i : Int), (ws.map (fun w => w.ptr)).Nodup →
      ∀ (k : Nat) (w : Waypoint),
        (ws.filter (fun w => K.isGlobalFrame w && K.isNavigationType w))[k]? = some w →
        searchGlobalFrameAndNavType K w.ptr ws i = i + (k : Int) := by
  intro ws
  induction ws with
  | nil => intro i _ k w h; simp at h
  | cons p rest ih =>
    intro i hnd k w h
    simp only [List.map_cons, List.nodup_cons] at hnd
    by_cases hp : K.isGlobalFrame p = true ∧ K.isNavigationType p = true
    · have hf : (K.isGlobalFrame p && K.isNavigationType p) = true := by simpa using hp
      simp only [List.filter_cons, hf, if_true, if_false, Bool.false_eq_true] at h
      cases k with
      | zero =>
        simp only [List.getElem?_cons_zero, Option.some.injEq] at h
        subst h
        simp only [searchGlobalFrameAndNavType, if_pos hp, if_true]
        simp
      | succ k =>
        simp only [List.getElem?_cons_succ] at h
        have hw : w ∈ rest := List.mem_of_mem_filter (List.getElem?_mem h)
        have hne : ¬ p.ptr = w.ptr := by
          intro e
          apply hnd.1
          rw [e]
          exact List.mem_map.mpr ⟨w, hw, rfl⟩
        simp only [searchGlobalFrameAndNavType, if_pos hp, if_neg hne]
        rw [ih (i + 1) hnd.2 k w h]
        push_cast
        ring
    · have hf : ¬ (K.isGlobalFrame p && K.isNavigationType p) = true := by simpa using hp
      simp only [List.filter_cons, hf, if_true, if_false, Bool.false_eq_true] at h
      simp only [searchGlobalFrameAndNavType, if_neg hp]
      exact ih i hnd.2 k w h

/-- The search loop returns -1 for an address that no global-frame navigation item
has. -/
theorem searchGlobalFrameAndNavType_absent (K : WaypointKinds) (q : Nat) :
    ∀ (ws : List Waypoint) (i : Int),
      q ∉ (ws.filter (fun w => K.isGlobalFrame w && K.isNavigationType w)).map
        (fun w => w.ptr) →
      searchGlobalFrameAndNavType K q ws i = -1 := by
  intro ws
  induction ws with
  | nil => intro i _; rfl
  | cons p rest ih =>
    intro i h
    by_cases hp : K.isGlobalFrame p = true ∧ K.isNavigationType p = true
    · have hf : (K.isGlobalFrame p && K.isNavigationType p) = true := by simpa using hp
      simp only [List.filter_cons, hf, if_true, if_false, Bool.false_eq_true, List.map_cons, List.mem_cons, not_or] at h
      have hne : ¬ p.ptr = q := fun e => h.1 e.symm
      simp only [searchGlobalFrameAndNavType, if_pos hp, if_neg hne]
      exact ih (i + 1) h.2
    · have hf : ¬ (K.isGlobalFrame p && K.isNavigationType p) = true := by simpa using hp
      simp only [List.filter_cons, hf, if_true, if_false, Bool.false_eq_true] at h
      simp only [searchGlobalFrameAndNavType, if_neg hp]
      exact ih i h

/-- The search loop returns at least its counter for an address that a global-frame
navigation item has. -/
theorem searchGlobalFrameAndNavType_present (K : WaypointKinds) (q : Nat) :
    ∀ (ws : List Waypoint) (i : Int),
      q ∈ (ws.filter (fun w => K.isGlobalFrame w && K.isNavigationType w)).map
        (fun w => w.ptr) →
      i ≤ searchGlobalFrameAndNavType K q ws i := by
  intro ws
  induction ws with
  | nil => intro i h; simp at h
  | cons p rest ih =>
    intro i h
    by_cases hp : K.isGlobalFrame p = true ∧ K.isNavigationType p = true
    · have hf : (K.isGlobalFrame p && K.isNavigationType p) = true := by simpa using hp
      simp only [List.filter_cons, hf, if_true, if_false, Bool.false_eq_true, List.map_cons, List.mem_cons] at h
      by_cases he : p.ptr = q
      · simp only [searchGlobalFrameAndNavType, if_pos hp, if_pos he]
        exact le_refl i
      · simp only [searchGlobalFrameAndNavType, if_pos hp, if_neg he]
        rcases h with h | h
        · exact absurd h.symm he
        · have := ih (i + 1) h
          omega
    · have hf : ¬ (K.isGlobalFrame p && K.isNavigationType p) = true := by simpa using hp
      simp only [List.filter_cons, hf, if_true, if_false, Bool.false_eq_true] at h
      simp only [searchGlobalFrameAndNavType, if_neg hp]
      exact ih i h

/-- Claim C22 on the code, with a region of interest between two waypoints, all in a
global frame: the enumeration with `onlypath` false holds the three items, the index
of the second waypoint is 1 although it is at position 2 of the enumeration, the index
of the region of interest is -1 although it is in the enumeration, and the count is 2. -/
theorem indexOf_skips_map_visible_items :
    (getGlobalFrameAndNavTypeWaypointList mapKinds false roiManager).map (fun w => w.ptr)
      = [0, 1, 2]
    ∧ getGlobalFrameAndNavTypeIndexOf mapKinds 2 roiManager = 1
    ∧ getGlobalFrameAndNavTypeIndexOf mapKinds 1 roiManager = -1
    ∧ getGlobalFrameAndNavTypeCount mapKinds roiManager = 2 := by
  decide

/-- Claim C22 as amended: let each item be in the editable list once.  The index that
`getGlobalFrameAndNavTypeIndexOf` returns for an item is its position among the items
that are in a global frame and of navigation type; it is -1 exactly for an address that
none of them has; `getGlobalFrameAndNavTypeCount` is their number.  The enumeration
`getGlobalFrameAndNavTypeWaypointList(false)` holds the global-frame items that are of
navigation type or visible on the map; it is the list of the global-frame navigation
items if no global-frame item is visible on the map without being of navigation type. -/
theorem indexOf_matches_global_nav_items (K : WaypointKinds) (m : Manager)
    (hnd : (m.waypointsEditable.map (fun w => w.ptr)).Nodup) :
    (∀ (k : Nat) (w : Waypoint), (globalNavItems K m)[k]? = some w →
        getGlobalFrameAndNavTypeIndexOf K w.ptr m = (k : Int))
    ∧ (∀ q : Nat, getGlobalFrameAndNavTypeIndexOf K q m = -1
        ↔ q ∉ (globalNavItems K m).map (fun w => w.ptr))
    ∧ getGlobalFrameAndNavTypeCount K m = ((globalNavItems K m).length : Int)
    ∧ getGlobalFrameAndNavTypeWaypointList K false m
        = m.waypointsEditable.filter (fun w =>
            K.isGlobalFrame w && (K.isNavigationType w || K.visibleOnMapWidget w))
    ∧ ((∀ w ∈ m.waypointsEditable, K.isGlobalFrame w = true →
          K.visibleOnMapWidget w = true → K.isNavigationType w = true) →
        getGlobalFrameAndNavTypeWaypointList K false m = globalNavItems K m) := by
  refine ⟨?_, ?_, ?_, collectGlobalFrameAndNavType_false K _, ?_⟩
  · intro k w h
    unfold getGlobalFrameAndNavTypeIndexOf
    rw [searchGlobalFrameAndNavType_found K _ 0 hnd k w h]
    simp
  · intro q
    unfold getGlobalFrameAndNavTypeIndexOf globalNavItems
    constructor
    · intro h hq
      have := searchGlobalFrameAndNavType_present K q m.waypointsEditable 0 hq
      omega
    · exact searchGlobalFrameAndNavType_absent K q m.waypointsEditable 0
  · unfold getGlobalFrameAndNavTypeCount globalNavItems
    rw [countGlobalFrameAndNavType_eq]
    simp
  · intro h
    unfold getGlobalFrameAndNavTypeWaypointList globalNavItems
    rw [collectGlobalFrameAndNavType_false]
    apply List.filter_congr
    intro w hw
    by_cases hg : K.isGlobalFrame w = true
    · by_cases hn : K.isNavigationType w = true
      · simp [hg, hn]
      · have hv : ¬ K.visibleOnMapWidget w = true := fun hv => hn (h w hw hg hv)
        simp [hg, hn, hv]
    · simp [hg]

/-- Witness for C22: the theorem applied to three waypoints in a global frame. -/
theorem indexOf_matches_global_nav_items_witness :
    (threeItems.waypointsEditable.map (fun w => w.ptr)).Nodup
    ∧ (globalNavItems mapKinds threeItems)[2]? = some (mkWaypoint 2 false)
    ∧ getGlobalFrameAndNavTypeIndexOf mapKinds (mkWaypoint 2 false).ptr threeItems = (2 : Nat)
    ∧ getGlobalFrameAndNavTypeCount mapKinds threeItems
        = ((globalNavItems mapKinds threeItems).length : Int)
    ∧ getGlobalFrameAndNavTypeWaypointList mapKinds false threeItems
        = globalNavItems mapKinds threeItems :=
  have hnd : (threeItems.waypointsEditable.map (fun w => w.ptr)).Nodup := by decide
  have h := indexOf_matches_global_nav_items mapKinds threeItems hnd
  ⟨hnd, rfl, h.1 2 (mkWaypoint 2 false) rfl, h.2.2.1,
    h.2.2.2.2 (by
      intro w hw _ hv
      simp only [threeItems, mkManager, List.mem_cons, List.mem_singleton,
        List.not_mem_nil, or_false] at hw
      rcases hw with rfl | rfl | rfl <;> simp [mapKinds, mkWaypoint, MAV_CMD_DO_SET_ROI] at hv)⟩

/-! ### Moving an item -/

/-- The items of a list after an insertion. -/
theorem getElem?_insertIdx {α : Type} (a : α) : ∀ (n : Nat) (l : List α) (j : Nat),
    n ≤ l.length →
    (l.insertIdx n a)[j]?
      = if j < n then l[j]? else if j = n then some a else l[j - 1]? := by
  intro n
  induction n with
  | zero =>
    intro l j _
    cases j with
    | zero => simp [List.insertIdx_zero]
    | succ j => simp [List.insertIdx_zero]
  | succ n ih =>
    intro l j h
    cases l with
    | nil => simp at h
    | cons x xs =>
      simp only [List.length_cons, Nat.add_le_add_iff_right] at h
      rw [List.insertIdx_succ_cons]
      cases j with
      | zero => simp
      | succ j =>
        rw [List.getElem?_cons_succ, ih xs j h]
        by_cases h1 : j < n
        · have h2 : j + 1 < n + 1 := by omega
          rw [if_pos h1, if_pos h2, List.getElem?_cons_succ]
        · have h2 : ¬ j + 1 < n + 1 := by omega
          rw [if_neg h1, if_neg h2]
          by_cases h3 : j = n
          · have h4 : j + 1 = n + 1 := by omega
            rw [if_pos h3, if_pos h4]
          · have h4 : ¬ j + 1 = n + 1 := by omega
            rw [if_neg h3, if_neg h4]
            have h5 : j - 1 + 1 = j := by omega
            have h6 : j + 1 - 1 = j := by omega
            rw [h6]
            conv_rhs => rw [← h5]
            rw [List.getElem?_cons_succ]

/-- Claim C28: for `cur_seq` and `new_seq` in range and different, the editable list
after `moveWaypoint` is, up to the sequence numbers, the list obtained by removing the
item at `cur_seq` and inserting it again at `new_seq`: all fields other than the
sequence number, the current flag among them, are unchanged, the order of the other
items is kept and the length is unchanged; nothing but the editable list changes.  For
equal or out-of-range arguments the manager is unchanged. -/
theorem moveWaypoint_is_remove_and_insert (m : Manager) (c n : Nat) :
    (c ≠ n → c < m.waypointsEditable.length → n < m.waypointsEditable.length →
        (moveWaypoint c n m).waypointsEditable.map (fun w => { w with id := 0 })
          = (removeAndInsert c n m.waypointsEditable).map (fun w => { w with id := 0 })
        ∧ (moveWaypoint c n m).waypointsEditable.length = m.waypointsEditable.length
        ∧ moveWaypoint c n m
            = { m with waypointsEditable := (moveWaypoint c n m).waypointsEditable })
    ∧ (¬ (c ≠ n ∧ c < m.waypointsEditable.length ∧ n < m.waypointsEditable.length) →
        moveWaypoint c n m = m) := by
  refine ⟨?_, moveWaypoint_of_not_guard c n m⟩
  intro hne hc hn
  have hg : c ≠ n ∧ c < m.waypointsEditable.length ∧ n < m.waypointsEditable.length :=
    ⟨hne, hc, hn⟩
  refine ⟨?_, moveWaypoint_length c n m, ?_⟩
  · have ht : m.waypointsEditable[c]? = some m.waypointsEditable[c] :=
      List.getElem?_eq_getElem hc
    have hlen : n ≤ (m.waypointsEditable.eraseIdx c).length := by
      rw [List.length_eraseIdx_of_lt hc]; omega
    apply List.ext_getElem?
    intro j
    simp only [removeAndInsert, ht, List.getElem?_map]
    rw [moveWaypoint_getElem? c n m hg j, getElem?_insertIdx _ n _ j hlen]
    by_cases hj : j = n
    · have h1 : ¬ j < n := by omega
      rw [if_pos hj, if_neg h1, if_pos hj, ht]
      rfl
    · rw [if_neg hj]
      by_cases h1 : c ≤ j ∧ j < n
      · rw [if_pos h1, if_pos h1.2, List.getElem?_eraseIdx_of_ge _ _ _ h1.1]
        cases m.waypointsEditable[j + 1]? <;> rfl
      · rw [if_neg h1]
        by_cases h2 : n < j ∧ j ≤ c
        · have h3 : ¬ j < n := by omega
          rw [if_pos h2, if_neg h3, if_neg hj,
            List.getElem?_eraseIdx_of_lt _ _ _ (by omega)]
          cases m.waypointsEditable[j - 1]? <;> rfl
        · rw [if_neg h2]
          by_cases h3 : j < n
          · rw [if_pos h3, List.getElem?_eraseIdx_of_lt _ _ _ (by omega)]
          · have h4 : j - 1 + 1 = j := by omega
            rw [if_neg h3, if_neg hj, List.getElem?_eraseIdx_of_ge _ _ _ (by omega), h4]
  · obtain ⟨E, e⟩ := moveWaypoint_frame c n m
    rw [e]

/-- Witness for C28: the theorem applied to the move of the first of three items, which
is not current, behind the current middle item to the end. -/
theorem moveWaypoint_is_remove_and_insert_witness :
    (0 : Nat) ≠ 2
    ∧ 0 < middleCurrent.waypointsEditable.length
    ∧ 2 < middleCurrent.waypointsEditable.length
    ∧ (removeAndInsert 0 2 middleCurrent.waypointsEditable).map (fun w => (w.ptr, w.current))
        = [(1, true), (2, false), (0, false)]
    ∧ (moveWaypoint 0 2 middleCurrent).waypointsEditable.map (fun w => { w with id := 0 })
        = (removeAndInsert 0 2 middleCurrent.waypointsEditable).map
            (fun w => { w with id := 0 })
    ∧ (moveWaypoint 0 2 middleCurrent).waypointsEditable.length
        = middleCurrent.waypointsEditable.length :=
  have h := (moveWaypoint_is_remove_and_insert middleCurrent 0 2).1 (by decide) (by decide)
    (by decide)
  ⟨by decide, by decide, by decide, by decide, h.1, h.2.1⟩

/-! ### The timer runs exactly outside IDLE -/

/-- The timer invariant holds after a timeout or an inbound message. -/
theorem step_timerInv (m : Manager) (ev : Event) (h : TimerInv m) : TimerInv (step m ev) := by
  unfold TimerInv at h ⊢
  cases ev with
  | timeout =>
    simp only [step]
    by_cases ht : m.protocol_timer = true ∧ m.uas = true
    · rw [if_pos ht]
      by_cases hr : m.current_retries > 0
      · obtain ⟨B, S, e⟩ := timeout_retry_frame m hr
        rw [e]
        exact ⟨fun _ => h.mp ht.1, fun _ => rfl⟩
      · rw [timeout_abort m hr]
        simp
    · rw [if_neg ht]; exact h
  | count s c n =>
    simp only [step]
    by_cases hg : m.current_state = WP_GETLIST
    · by_cases hs : s = m.current_partner_systemid
      · by_cases hn : n > 0
        · obtain ⟨E, C, S, e⟩ := handleWaypointCount_accept_pos s c n m hg hs hn
          rw [e]; simp
        · obtain ⟨E, C, e⟩ := handleWaypointCount_accept_zero s c n m hg hs hn
          rw [e]; simp
      · have e : handleWaypointCount s c n m = m := by
          simp [handleWaypointCount, hs]
        rw [e]; exact h
    · rw [handleWaypointCount_of_ne s c n m hg]; exact h
  | item s c wp =>
    simp only [step]
    by_cases ha : s = m.current_partner_systemid ∧ m.current_state = WP_GETLIST_GETWPS
        ∧ wp.seq = m.current_wp_id
    · by_cases hlt : (m.current_wp_id + 1) % 65536 < m.current_count
      · obtain ⟨E, C, H, S, e⟩ := handleWaypoint_accept_more s c wp m ha.1 ha.2.1 ha.2.2 hlt
        rw [e]
        simp [ha.2.1]
      · obtain ⟨E, C, H, S, e⟩ := handleWaypoint_accept_last s c wp m ha.1 ha.2.1 ha.2.2 hlt
        rw [e]; simp
    · rw [handleWaypoint_reject s c wp m ha]; exact h
  | ack s c t =>
    simp only [step]
    rcases handleWaypointAck_frame s c t m with e | ⟨_, e⟩ | ⟨_, S, e⟩
    · rw [e]; exact h
    · rw [e]; simp
    · rw [e]; simp
  | request s c q =>
    simp only [step]
    rcases handleWaypointRequest_frame s c q MissionItemEncoding.Float m with
      e | ⟨hs, e | ⟨st, B, S, hst, e⟩⟩
    · rw [e]; exact h
    · rw [e]
      rcases hs with hs | hs | hs <;> simp [hs]
    · rw [e]
      rcases hst with hst | hst <;> simp [hst]
  | requestInt s c q =>
    simp only [step]
    rcases handleWaypointRequest_frame s c q MissionItemEncoding.Int m with
      e | ⟨hs, e | ⟨st, B, S, hst, e⟩⟩
    · rw [e]; exact h
    · rw [e]
      rcases hs with hs | hs | hs <;> simp [hs]
    · rw [e]
      rcases hst with hst | hst <;> simp [hst]
  | current s c q =>
    simp only [step]
    rcases handleWaypointCurrent_frame s c q m with e | ⟨v, e⟩ | ⟨V, v, e⟩
    · rw [e]; exact h
    · rw [e]; exact h
    · rw [e]; simp
  | reached s c q => exact h

/-- The timer invariant holds after the call of a transfer function. -/
theorem transfers_timerInv (m : Manager) (h : TimerInv m) :
    (∀ b, TimerInv (readWaypoints b m))
    ∧ TimerInv (writeWaypoints m)
    ∧ TimerInv (clearWaypointList m)
    ∧ (∀ seq, TimerInv (setCurrentWaypoint seq m).2) := by
  unfold TimerInv at h ⊢
  refine ⟨?_, ?_, ?_, ?_⟩
  · intro b
    by_cases hi : m.current_state = WP_IDLE <;> by_cases hu : m.uas = false <;>
      simp [readWaypoints, hi, hu, sendWaypointRequestList, sendMessage, h]
  · by_cases hi : m.current_state = WP_IDLE <;> by_cases hu : m.uas = false <;>
      by_cases hp : m.waypointsEditable.length > 0 <;>
      simp [writeWaypoints, hi, hu, hp, sendWaypointCount, sendWaypointClearAll,
        sendMessage, h]
  · by_cases hi : m.current_state = WP_IDLE <;> by_cases hu : m.uas = false <;>
      simp [clearWaypointList, hi, hu, sendWaypointClearAll, sendMessage, h]
  · intro seq
    by_cases hi : m.current_state = WP_IDLE <;> by_cases hu : m.uas = false <;>
      by_cases hp : seq < m.waypointsViewOnly.length <;>
      simp [setCurrentWaypoint, hi, hu, hp, sendWaypointSetCurrent, sendMessage, h]

/-- The editing functions and `loadWaypoints` write neither the state nor the timer. -/
theorem edits_keep_state_and_timer (m : Manager) :
    (∀ seq, (setCurrentEditable seq m).2.current_state = m.current_state
        ∧ (setCurrentEditable seq m).2.protocol_timer = m.protocol_timer)
    ∧ (∀ wp f, (addWaypointEditable wp f m).current_state = m.current_state
        ∧ (addWaypointEditable wp f m).protocol_timer = m.protocol_timer)
    ∧ (∀ f, (createWaypoint f m).2.current_state = m.current_state
        ∧ (createWaypoint f m).2.protocol_timer = m.protocol_timer)
    ∧ (∀ seq, (removeWaypoint seq m).2.current_state = m.current_state
        ∧ (removeWaypoint seq m).2.protocol_timer = m.protocol_timer)
    ∧ (∀ c n, (moveWaypoint c n m).current_state = m.current_state
        ∧ (moveWaypoint c n m).protocol_timer = m.protocol_timer)
    ∧ (∀ file m1, loadWaypoints file m = some m1 →
        m1.current_state = m.current_state ∧ m1.protocol_timer = m.protocol_timer) := by
  refine ⟨?_, ?_, ?_, ?_, ?_, ?_⟩
  · intro seq
    by_cases h1 : seq < m.waypointsEditable.length <;>
      by_cases h2 : m.current_state = WP_IDLE <;>
      simp [setCurrentEditable, h1, h2]
  · intro wp f
    by_cases h : f = true ∧ m.waypointsEditable.length = 0
    · simp only [addWaypointEditable, if_pos h, and_self]
    · simp only [addWaypointEditable, if_neg h, and_self]
  · intro f
    by_cases h : f = true ∧ m.waypointsEditable.length = 0
    · simp only [createWaypoint, if_pos h, and_self]
    · simp only [createWaypoint, if_neg h, and_self]
  · intro seq
    by_cases h : seq < m.waypointsEditable.length
    · rw [removeWaypoint_of_lt seq m h]; exact ⟨rfl, rfl⟩
    · rw [removeWaypoint_of_ge seq m (by omega)]; exact ⟨rfl, rfl⟩
  · intro c n
    obtain ⟨E, e⟩ := moveWaypoint_frame c n m
    rw [e]; exact ⟨rfl, rfl⟩
  · intro file m1 hl
    have key : ∀ (items : List (Option Waypoint)) (m2 : Manager),
        (loadItems items m2).current_state = m2.current_state
        ∧ (loadItems items m2).protocol_timer = m2.protocol_timer := by
      intro items
      induction items with
      | nil => intro m2; exact ⟨rfl, rfl⟩
      | cons it rest ih =>
        intro m2
        cases it with
        | none => exact ⟨rfl, rfl⟩
        | some w =>
          simp only [loadItems]
          exact ih _
    cases file with
    | none =>
      simp only [loadWaypoints, Option.some.injEq] at hl
      rw [← hl]; exact ⟨rfl, rfl⟩
    | some f =>
      by_cases h2 : f.header.length < 2
      · simp only [loadWaypoints, if_pos h2, Option.some.injEq] at hl
        rw [← hl]; exact ⟨rfl, rfl⟩
      · cases hv : f.header[2]? with
        | none => simp [loadWaypoints, h2, hv] at hl
        | some v2 =>
          by_cases hok : ¬ (f.header.length = 3 ∧ f.header[0]? = some "QGC"
              ∧ f.header[1]? = some "WPL" ∧ toInt v2 ≥ 110)
          · simp only [loadWaypoints, if_neg h2, hv, if_pos hok, Option.some.injEq] at hl
            rw [← hl]; exact ⟨rfl, rfl⟩
          · simp only [loadWaypoints, if_neg h2, hv, if_neg hok, Option.some.injEq] at hl
            rw [← hl]
            exact key _ _

/-- The timer invariant holds after every action that returns. -/
theorem perform_timerInv (m m1 : Manager) (a : Action) (h : TimerInv m)
    (hp : perform m a = some m1) : TimerInv m1 := by
  have tr := transfers_timerInv m h
  have ed := edits_keep_state_and_timer m
  have keep : ∀ m2 : Manager, m2.current_state = m.current_state
      ∧ m2.protocol_timer = m.protocol_timer → TimerInv m2 := by
    intro m2 h2
    unfold TimerInv at h ⊢
    rw [h2.1, h2.2]; exact h
  cases a with
  | event ev =>
    simp only [perform, Option.some.injEq] at hp
    rw [← hp]; exact step_timerInv m ev h
  | readWaypoints b =>
    simp only [perform, Option.some.injEq] at hp
    rw [← hp]; exact tr.1 b
  | writeWaypoints =>
    simp only [perform, Option.some.injEq] at hp
    rw [← hp]; exact tr.2.1
  | clearWaypointList =>
    simp only [perform, Option.some.injEq] at hp
    rw [← hp]; exact tr.2.2.1
  | setCurrentWaypoint seq =>
    simp only [perform, Option.some.injEq] at hp
    rw [← hp]; exact tr.2.2.2 seq
  | setCurrentEditable seq =>
    simp only [perform, Option.some.injEq] at hp
    rw [← hp]; exact keep _ (ed.1 seq)
  | addWaypointEditable wp f =>
    simp only [perform, Option.some.injEq] at hp
    rw [← hp]; exact keep _ (ed.2.1 wp f)
  | createWaypoint f =>
    simp only [perform, Option.some.injEq] at hp
    rw [← hp]; exact keep _ (ed.2.2.1 f)
  | removeWaypoint seq =>
    simp only [perform, Option.some.injEq] at hp
    rw [← hp]; exact keep _ (ed.2.2.2.1 seq)
  | moveWaypoint c n =>
    simp only [perform, Option.some.injEq] at hp
    rw [← hp]; exact keep _ (ed.2.2.2.2.1 c n)
  | loadWaypoints file =>
    simp only [perform] at hp
    exact keep _ (ed.2.2.2.2.2 file m1 hp)

/-- The timer invariant holds after every sequence of actions that returns. -/
theorem performAll_timerInv : ∀ (acts : List Action) (m m1 : Manager), TimerInv m →
    performAll m acts = some m1 → TimerInv m1 := by
  intro acts
  induction acts with
  | nil =>
    intro m m1 h hp
    simp only [performAll, Option.some.injEq] at hp
    rw [← hp]; exact h
  | cons a rest ih =>
    intro m m1 h hp
    simp only [performAll] at hp
    cases ha : perform m a with
    | none => rw [ha] at hp; simp at hp
    | some m2 =>
      rw [ha] at hp
      exact ih m2 m1 (perform_timerInv m m2 a h ha) hp

/-- Claim C30 on the code: no vehicle is attached and an upload of one item is started.
`writeWaypoints` starts the protocol timer and enters SENDLIST, but the constructor has
not connected the timer to `timeout()` (the connection is made under `if (uas)`): an
expiry changes nothing, and after six expiries the manager is still in SENDLIST with
its five retries, where the same upload with a vehicle attached has given up and is
back in IDLE. -/
theorem offline_upload_is_never_timed_out :
    performAll (mkManager false 0 [] [mkWaypoint 0 true]) [Action.writeWaypoints]
      = some offlineUpload
    ∧ offlineUpload.current_state = WP_SENDLIST
    ∧ offlineUpload.protocol_timer = true
    ∧ step offlineUpload Event.timeout = offlineUpload
    ∧ (run offlineUpload (List.replicate 6 Event.timeout)).current_state = WP_SENDLIST
    ∧ (run offlineUpload (List.replicate 6 Event.timeout)).current_retries = 5
    ∧ (run onlineUpload (List.replicate 6 Event.timeout)).current_state = WP_IDLE :=
  ⟨rfl, by decide, by decide, rfl, by decide, by decide, by decide⟩

/-- Claim C30 as amended: in every state reached from the state left by the constructor
by calls of the public functions, inbound messages and timer expiries, the protocol
timer runs if and only if `current_state` is not IDLE; in IDLE a timer expiry does not
reach `timeout`; in every other state it does when a vehicle is attached, and with no
vehicle attached the timer is not connected and an expiry changes nothing. -/
theorem timer_armed_iff_not_idle (uas : Bool) (uasid : Nat) (viewOnly editable : List Waypoint)
    (acts : List Action) (m : Manager)
    (h : performAll (mkManager uas uasid viewOnly editable) acts = some m) :
    (m.protocol_timer = true ↔ m.current_state ≠ WP_IDLE)
    ∧ (m.current_state = WP_IDLE → step m Event.timeout = m)
    ∧ (m.uas = true → m.current_state ≠ WP_IDLE → step m Event.timeout = timeout m)
    ∧ (m.uas = false → step m Event.timeout = m) := by
  have h0 : TimerInv (mkManager uas uasid viewOnly editable) := by
    unfold TimerInv; simp [mkManager]
  have hinv := performAll_timerInv acts _ m h0 h
  unfold TimerInv at hinv
  refine ⟨hinv, ?_, ?_, ?_⟩
  · intro hi
    have : ¬ (m.protocol_timer = true ∧ m.uas = true) := fun ht => (hinv.mp ht.1) hi
    simp only [step, if_neg this]
  · intro hu hi
    simp only [step, if_pos (⟨hinv.mpr hi, hu⟩ : m.protocol_timer = true ∧ m.uas = true)]
  · intro hu
    simp [step, hu]

/-- Witness for C30: the theorem applied to a run with an upload, the download that
follows it, a load, an edit and a clear that times out. -/
theorem timer_armed_iff_not_idle_witness :
    ((performAll (mkManager true 1 [] []) busyDay).map (fun m => m.current_state))
      = some WP_IDLE
    ∧ ((performAll (mkManager true 1 [] []) (busyDay.take 11)).map
        (fun m => (m.current_state, m.protocol_timer))) = some (WP_CLEARLIST, true)
    ∧ ((performAll (mkManager true 1 [] []) busyDay).map (fun m => m.protocol_timer))
      = some false :=
  match hm : performAll (mkManager true 1 [] []) busyDay with
  | some m =>
    have h := timer_armed_iff_not_idle true 1 [] [] busyDay m hm
    have hs : m.current_state = WP_IDLE := by
      have : ((performAll (mkManager true 1 [] []) busyDay).map (fun m => m.current_state))
          = some WP_IDLE := by decide
      rw [hm] at this
      exact Option.some.inj this
    ⟨by simp [hs], by decide, by
      have ht : ¬ m.protocol_timer = true := fun ht => (h.1.mp ht) hs
      simp [ht]⟩
  | none => absurd hm (by decide)

/-! ### Download into the editable list -/

/-- The members that matter for a download after an accepted ITEM with read-to-edit
set: both lists have the item appended, the editable copy stamped with the count of the
editable list, and the reference designates the editable copy if the `current` field
of the item is 1. -/
theorem handleWaypoint_accept_to_edit (s c : Nat) (wp : MissionItemInt) (m : Manager)
    (ha : s = m.current_partner_systemid ∧ m.current_state = WP_GETLIST_GETWPS
      ∧ wp.seq = m.current_wp_id)
    (hr : m.read_to_edit = true) :
    (handleWaypoint s c wp m).read_to_edit = true
    ∧ (handleWaypoint s c wp m).waypointsViewOnly
        = m.waypointsViewOnly ++ [newWaypointFromItem m.heap_next wp]
    ∧ (handleWaypoint s c wp m).waypointsEditable
        = m.waypointsEditable ++
            [{ newWaypointFromItem (m.heap_next + 1) wp with
               id := m.waypointsEditable.length % 65536 }]
    ∧ (handleWaypoint s c wp m).currentWaypointEditable
        = (if wp.current = 1 then some (m.heap_next + 1) else m.currentWaypointEditable) := by
  by_cases hc : wp.current = 1 <;>
    by_cases hlt : (m.current_wp_id + 1) % 65536 < m.current_count <;>
    by_cases hu : m.uas = false <;>
    simp [handleWaypoint, ha.1, ha.2.1, ha.2.2, hr, hc, hlt, hu, addWaypointViewOnly,
      addWaypointEditable, sendWaypointRequest, sendWaypointAck, sendMessage,
      newWaypointFromItem]

/-- The state members after an accepted ITEM that is not the last one. -/
theorem handleWaypoint_accept_more_state (s c : Nat) (wp : MissionItemInt) (m : Manager)
    (ha : s = m.current_partner_systemid ∧ m.current_state = WP_GETLIST_GETWPS
      ∧ wp.seq = m.current_wp_id)
    (hlt : (m.current_wp_id + 1) % 65536 < m.current_count) :
    (handleWaypoint s c wp m).current_state = WP_GETLIST_GETWPS
    ∧ (handleWaypoint s c wp m).current_count = m.current_count
    ∧ (handleWaypoint s c wp m).current_wp_id = (m.current_wp_id + 1) % 65536 := by
  obtain ⟨E, C, H, S, e⟩ := handleWaypoint_accept_more s c wp m ha.1 ha.2.1 ha.2.2 hlt
  rw [e]
  exact ⟨ha.2.1, rfl, rfl⟩

/-- The members that matter for a download after an accepted COUNT with read-to-edit
set and a positive count. -/
theorem handleWaypointCount_accept_to_edit (s c n : Nat) (m : Manager)
    (hg : m.current_state = WP_GETLIST) (hs : s = m.current_partner_systemid)
    (hn : n > 0) (hr : m.read_to_edit = true) :
    (handleWaypointCount s c n m).current_state = WP_GETLIST_GETWPS
    ∧ (handleWaypointCount s c n m).read_to_edit = true
    ∧ (handleWaypointCount s c n m).current_count = n
    ∧ (handleWaypointCount s c n m).current_wp_id = 0
    ∧ (handleWaypointCount s c n m).waypointsViewOnly = m.waypointsViewOnly
    ∧ (handleWaypointCount s c n m).waypointsEditable = [] := by
  by_cases hu : m.uas = false <;>
    simp [handleWaypointCount, hg, hs, hn, hr, hu, sendWaypointRequest, sendMessage]

/-- Every event keeps the invariant of a download with read-to-edit that waits for the
count. -/
theorem step_awaitingCountToEditInv (m : Manager) (ev : Event)
    (h : AwaitingCountToEditInv m) : AwaitingCountToEditInv (step m ev) := by
  unfold AwaitingCountToEditInv at *
  have n3 : m.current_state ≠ WP_SENDLIST := by
    rcases h with ⟨h, _⟩ | h | h <;> simp [h]
  have n4 : m.current_state ≠ WP_SENDLIST_SENDWPSINT := by
    rcases h with ⟨h, _⟩ | h | h <;> simp [h]
  have n5 : m.current_state ≠ WP_SENDLIST_SENDWPSFLOAT := by
    rcases h with ⟨h, _⟩ | h | h <;> simp [h]
  have n6 : m.current_state ≠ WP_CLEARLIST := by
    rcases h with ⟨h, _⟩ | h | h <;> simp [h]
  have n7 : m.current_state ≠ WP_SETCURRENT := by
    rcases h with ⟨h, _⟩ | h | h <;> simp [h]
  cases ev with
  | timeout =>
    simp only [step]
    by_cases ht : m.protocol_timer = true ∧ m.uas = true
    · rw [if_pos ht]
      by_cases hr : m.current_retries > 0
      · obtain ⟨B, S, e⟩ := timeout_retry_frame m hr
        rw [e]; exact h
      · rw [timeout_abort m hr]; exact Or.inr (Or.inr rfl)
    · rw [if_neg ht]; exact h
  | count s c n =>
    simp only [step]
    by_cases hg : m.current_state = WP_GETLIST
    · by_cases hs : s = m.current_partner_systemid
      · by_cases hn : n > 0
        · obtain ⟨E, C, S, e⟩ := handleWaypointCount_accept_pos s c n m hg hs hn
          rw [e]; exact Or.inr (Or.inl rfl)
        · obtain ⟨E, C, e⟩ := handleWaypointCount_accept_zero s c n m hg hs hn
          rw [e]; exact Or.inr (Or.inr rfl)
      · have e : handleWaypointCount s c n m = m := by simp [handleWaypointCount, hs]
        rw [e]; exact h
    · rw [handleWaypointCount_of_ne s c n m hg]; exact h
  | item s c wp =>
    simp only [step]
    by_cases ha : s = m.current_partner_systemid ∧ m.current_state = WP_GETLIST_GETWPS
        ∧ wp.seq = m.current_wp_id
    · by_cases hlt : (m.current_wp_id + 1) % 65536 < m.current_count
      · exact Or.inr (Or.inl (handleWaypoint_accept_more_state s c wp m ha hlt).1)
      · obtain ⟨E, C, H, S, e⟩ := handleWaypoint_accept_last s c wp m ha.1 ha.2.1 ha.2.2 hlt
        rw [e]; exact Or.inr (Or.inr rfl)
    · rw [handleWaypoint_reject s c wp m ha]; exact h
  | ack s c t => simp only [step]; rw [handleWaypointAck_of_ne s c t m n3 n4 n5 n6]; exact h
  | request s c q =>
    simp only [step]; rw [handleWaypointRequest_of_ne s c q _ m n3 n4 n5]; exact h
  | requestInt s c q =>
    simp only [step]; rw [handleWaypointRequest_of_ne s c q _ m n3 n4 n5]; exact h
  | current s c q =>
    simp only [step]
    obtain ⟨v, e⟩ := handleWaypointCurrent_of_ne s c q m n7
    rw [e]; exact h
  | reached s c q => exact h

/-- The reference follows the received items after one more accepted ITEM. -/
theorem referenceFollows_append (R : List MissionItemInt) (wp : MissionItemInt)
    (m m1 : Manager) (x : Waypoint)
    (hlen : m.waypointsEditable.length = R.length)
    (he : m1.waypointsEditable = m.waypointsEditable ++ [x])
    (hc : m1.currentWaypointEditable
      = (if wp.current = 1 then some x.ptr else m.currentWaypointEditable))
    (h : ReferenceFollows R m) : ReferenceFollows (R ++ [wp]) m1 := by
  intro i it hi hcur hlast
  by_cases hiR : i < R.length
  · have hwp : wp.current ≠ 1 :=
      hlast R.length wp hiR (by simp)
    rw [hc, if_neg hwp, he, List.getElem?_append_left (by omega)]
    rw [List.getElem?_append_left hiR] at hi
    apply h i it hi hcur
    intro j it2 hij hj
    have hjR : j < R.length := (List.getElem?_eq_some_iff.mp hj).1
    exact hlast j it2 hij (by rw [List.getElem?_append_left hjR]; exact hj)
  · have hil : i < (R ++ [wp]).length := (List.getElem?_eq_some_iff.mp hi).1
    simp only [List.length_append, List.length_singleton] at hil
    have hiE : i = R.length := by omega
    subst hiE
    have hit : it = wp := by
      have : (R ++ [wp])[R.length]? = some wp := by simp
      rw [this] at hi
      exact (Option.some.inj hi).symm
    rw [hit] at hcur
    rw [hc, if_pos hcur, he, ← hlen]
    simp

/-- Every event keeps the invariant of a download into the editable list; the received
items grow by the item the event delivers. -/
theorem step_mirrorInv (N : Nat) (R : List MissionItemInt) (m : Manager) (ev : Event)
    (h : MirrorInv N R m) : MirrorInv N (R ++ acceptedItem m ev) (step m ev) := by
  unfold MirrorInv at *
  have hne : m.current_state ≠ WP_GETLIST ∧ m.current_state ≠ WP_SENDLIST
      ∧ m.current_state ≠ WP_SENDLIST_SENDWPSINT ∧ m.current_state ≠ WP_SENDLIST_SENDWPSFLOAT
      ∧ m.current_state ≠ WP_CLEARLIST ∧ m.current_state ≠ WP_SETCURRENT := by
    rcases h with h | ⟨h, _⟩ <;> simp [h]
  obtain ⟨n1, n2, n3, n4, n5, n6⟩ := hne
  cases ev with
  | timeout =>
    simp only [step, acceptedItem, List.append_nil]
    by_cases ht : m.protocol_timer = true ∧ m.uas = true
    · rw [if_pos ht]
      by_cases hr : m.current_retries > 0
      · obtain ⟨B, S, e⟩ := timeout_retry_frame m hr
        rw [e]; exact h
      · rw [timeout_abort m hr]; exact Or.inl rfl
    · rw [if_neg ht]; exact h
  | count s c n =>
    simp only [step, acceptedItem, List.append_nil]
    rw [handleWaypointCount_of_ne s c n m n1]; exact h
  | item s c wp =>
    simp only [step, acceptedItem]
    by_cases ha : s = m.current_partner_systemid ∧ m.current_state = WP_GETLIST_GETWPS
        ∧ wp.seq = m.current_wp_id
    · rw [if_pos ha]
      by_cases hlt : (m.current_wp_id + 1) % 65536 < m.current_count
      · rcases h with h | ⟨hg, hr, hc, hw, hv⟩
        · rw [h] at ha; simp at ha
        · obtain ⟨f1, f2, f3⟩ := handleWaypoint_accept_more_state s c wp m ha hlt
          obtain ⟨g1, g2, g3, g4⟩ := handleWaypoint_accept_to_edit s c wp m ha hr
          refine Or.inr ⟨f1, g1, by rw [f2]; exact hc, by rw [f3, ← hc]; exact hlt, ?_⟩
          intro hN
          obtain ⟨v1, v2, v3, v4, v5⟩ := hv hN
          have hmod : (m.current_wp_id + 1) % 65536 = m.current_wp_id + 1 := by omega
          have hlenE : m.waypointsEditable.length = R.length := by
            have := congrArg List.length v4
            simpa using this
          have hidE : m.waypointsEditable.length % 65536 = wp.seq := by
            rw [hlenE, v1, ha.2.2]
            exact Nat.mod_eq_of_lt (by omega)
          refine ⟨?_, ?_, ?_, ?_, ?_⟩
          · rw [f3, hmod, List.length_append, v1]; rfl
          · rw [List.map_append, v2, List.length_append, List.length_singleton,
              List.range_succ, v1]
            simp [ha.2.2]
          · rw [g2, List.map_append, v3, List.map_append]
            rfl
          · rw [g3, List.map_append, v4, List.map_append, hidE]
            rfl
          · exact referenceFollows_append R wp m _ _ hlenE g3 g4 v5
      · obtain ⟨E, C, H, S, e⟩ := handleWaypoint_accept_last s c wp m ha.1 ha.2.1 ha.2.2 hlt
        rw [e]; exact Or.inl rfl
    · rw [if_neg ha, List.append_nil, handleWaypoint_reject s c wp m ha]; exact h
  | ack s c t =>
    simp only [step, acceptedItem, List.append_nil]
    rw [handleWaypointAck_of_ne s c t m n2 n3 n4 n5]; exact h
  | request s c q =>
    simp only [step, acceptedItem, List.append_nil]
    rw [handleWaypointRequest_of_ne s c q _ m n2 n3 n4]; exact h
  | requestInt s c q =>
    simp only [step, acceptedItem, List.append_nil]
    rw [handleWaypointRequest_of_ne s c q _ m n2 n3 n4]; exact h
  | current s c q =>
    simp only [step, acceptedItem, List.append_nil]
    obtain ⟨v, e⟩ := handleWaypointCurrent_of_ne s c q m n6
    rw [e]; exact h
  | reached s c q =>
    simp only [acceptedItem, List.append_nil]
    exact h

/-- An action that is allowed during a transfer keeps the invariant of a download with
read-to-edit that waits for the count. -/
theorem perform_awaitingCountToEditInv (m m1 : Manager) (a : Action)
    (h : AwaitingCountToEditInv m) (hal : allowedDuring m a = true)
    (hp : perform m a = some m1) : AwaitingCountToEditInv m1 := by
  cases a with
  | event ev =>
    simp only [perform, Option.some.injEq] at hp
    rw [← hp]; exact step_awaitingCountToEditInv m ev h
  | readWaypoints r =>
    simp only [allowedDuring, Bool.and_eq_true, decide_eq_true_eq] at hal
    simp only [perform, Option.some.injEq] at hp
    have e : readWaypoints r m = { m with read_to_edit := true } := by
      simp [readWaypoints, hal.1, hal.2]
    rw [← hp, e]
    unfold AwaitingCountToEditInv at *
    rcases h with ⟨h1, _, h3⟩ | h | h
    · exact Or.inl ⟨h1, rfl, h3⟩
    · exact Or.inr (Or.inl h)
    · exact Or.inr (Or.inr h)
  | writeWaypoints =>
    simp only [allowedDuring, decide_eq_true_eq] at hal
    simp only [perform, Option.some.injEq] at hp
    have e : writeWaypoints m = m := by simp [writeWaypoints, hal]
    rw [← hp, e]; exact h
  | clearWaypointList =>
    simp only [allowedDuring, decide_eq_true_eq] at hal
    simp only [perform, Option.some.injEq] at hp
    have e : clearWaypointList m = m := by simp [clearWaypointList, hal]
    rw [← hp, e]; exact h
  | setCurrentWaypoint seq =>
    simp only [allowedDuring, decide_eq_true_eq] at hal
    simp only [perform, Option.some.injEq] at hp
    have e : (setCurrentWaypoint seq m).2 = m := by simp [setCurrentWaypoint, hal]
    rw [← hp, e]; exact h
  | setCurrentEditable seq =>
    simp only [allowedDuring, decide_eq_true_eq] at hal
    simp only [perform, Option.some.injEq] at hp
    have e : (setCurrentEditable seq m).2 = m := by
      by_cases h1 : seq < m.waypointsEditable.length <;> simp [setCurrentEditable, hal, h1]
    rw [← hp, e]; exact h
  | addWaypointEditable wp f => simp [allowedDuring] at hal
  | createWaypoint f => simp [allowedDuring] at hal
  | removeWaypoint seq => simp [allowedDuring] at hal
  | moveWaypoint c n => simp [allowedDuring] at hal
  | loadWaypoints file => simp [allowedDuring] at hal

/-- An action that is allowed during a transfer keeps the invariant of a download into
the editable list; the received items grow by the item the action delivers. -/
theorem perform_mirrorInv (N : Nat) (R : List MissionItemInt) (m m1 : Manager) (a : Action)
    (h : MirrorInv N R m) (hal : allowedDuring m a = true)
    (hp : perform m a = some m1) : MirrorInv N (R ++ acceptedBy m a) m1 := by
  cases a with
  | event ev =>
    simp only [perform, Option.some.injEq] at hp
    rw [← hp]; exact step_mirrorInv N R m ev h
  | readWaypoints r =>
    simp only [allowedDuring, Bool.and_eq_true, decide_eq_true_eq] at hal
    simp only [perform, Option.some.injEq] at hp
    have e : readWaypoints r m = { m with read_to_edit := true } := by
      simp [readWaypoints, hal.1, hal.2]
    rw [← hp, e]
    simp only [acceptedBy, List.append_nil]
    unfold MirrorInv at *
    rcases h with h | ⟨h1, _, h3, h4, h5⟩
    · exact absurd h hal.2
    · exact Or.inr ⟨h1, rfl, h3, h4, h5⟩
  | writeWaypoints =>
    simp only [allowedDuring, decide_eq_true_eq] at hal
    simp only [perform, Option.some.injEq] at hp
    have e : writeWaypoints m = m := by simp [writeWaypoints, hal]
    rw [← hp, e]; simpa [acceptedBy] using h
  | clearWaypointList =>
    simp only [allowedDuring, decide_eq_true_eq] at hal
    simp only [perform, Option.some.injEq] at hp
    have e : clearWaypointList m = m := by simp [clearWaypointList, hal]
    rw [← hp, e]; simpa [acceptedBy] using h
  | setCurrentWaypoint seq =>
    simp only [allowedDuring, decide_eq_true_eq] at hal
    simp only [perform, Option.some.injEq] at hp
    have e : (setCurrentWaypoint seq m).2 = m := by simp [setCurrentWaypoint, hal]
    rw [← hp, e]; simpa [acceptedBy] using h
  | setCurrentEditable seq =>
    simp only [allowedDuring, decide_eq_true_eq] at hal
    simp only [perform, Option.some.injEq] at hp
    have e : (setCurrentEditable seq m).2 = m := by
      by_cases h1 : seq < m.waypointsEditable.length <;> simp [setCurrentEditable, hal, h1]
    rw [← hp, e]; simpa [acceptedBy] using h
  | addWaypointEditable wp f => simp [allowedDuring] at hal
  | createWaypoint f => simp [allowedDuring] at hal
  | removeWaypoint seq => simp [allowedDuring] at hal
  | moveWaypoint c n => simp [allowedDuring] at hal
  | loadWaypoints file => simp [allowedDuring] at hal

/-- Every sequence of actions that are allowed during a transfer keeps the invariant
of a download with read-to-edit that waits for the count. -/
theorem during_awaitingCountToEditInv : ∀ (acts : List Action) (m m1 : Manager),
    AwaitingCountToEditInv m → during m acts = some m1 → AwaitingCountToEditInv m1 := by
  intro acts
  induction acts with
  | nil =>
    intro m m1 h hd
    simp only [during, Option.some.injEq] at hd
    rw [← hd]; exact h
  | cons a rest ih =>
    intro m m1 h hd
    simp only [during] at hd
    by_cases hal : allowedDuring m a = true
    · rw [if_pos hal] at hd
      cases hp : perform m a with
      | none => rw [hp] at hd; simp at hd
      | some m2 =>
        rw [hp] at hd
        exact ih m2 m1 (perform_awaitingCountToEditInv m m2 a h hal hp) hd
    · rw [if_neg hal] at hd; simp at hd

/-- Every sequence of actions that are allowed during a transfer keeps the invariant
of a download into the editable list. -/
theorem during_mirrorInv (N : Nat) : ∀ (acts : List Action) (R : List MissionItemInt)
    (m m1 : Manager), MirrorInv N R m → during m acts = some m1 →
    MirrorInv N (R ++ acceptedDuring m acts) m1 := by
  intro acts
  induction acts with
  | nil =>
    intro R m m1 h hd
    simp only [during, Option.some.injEq] at hd
    rw [← hd]
    simpa [acceptedDuring] using h
  | cons a rest ih =>
    intro R m m1 h hd
    simp only [during] at hd
    by_cases hal : allowedDuring m a = true
    · rw [if_pos hal] at hd
      cases hp : perform m a with
      | none => rw [hp] at hd; simp at hd
      | some m2 =>
        rw [hp] at hd
        have e2 : R ++ acceptedDuring m (a :: rest)
            = (R ++ acceptedBy m a) ++ acceptedDuring m2 rest := by
          simp [acceptedDuring, hp, List.append_assoc]
        rw [e2]
        exact ih _ m2 m1 (perform_mirrorInv N R m m2 a h hal hp) hd
    · rw [if_neg hal] at hd; simp at hd

/-- Claim C26 on the code: a download of two items into the editable list is started by
`readWaypoints(true)` and the caller adds an item of its own between the two items of
the vehicle.  The download completes (the manager is back in IDLE and the view-only
list holds the two items), but the editable list holds three items: the sequence numbers
are 0, 1, 2 and item 1 is the caller's. -/
theorem download_with_local_edit_does_not_mirror :
    (performAll emptyManager editedDownload).map
        (fun m => (m.current_state, m.waypointsViewOnly.length, m.waypointsEditable.length))
      = some (WP_IDLE, 2, 3)
    ∧ (performAll emptyManager editedDownload).map
        (fun m => m.waypointsEditable.map (fun w => (w.id, w.ptr)))
      = some [(0, 1001), (1, 7), (2, 1003)]
    ∧ (performAll emptyManager editedDownload).map
        (fun m => m.waypointsViewOnly.map (fun w => (w.id, w.ptr)))
      = some [(0, 1000), (1, 1002)] := by
  decide

/-- Claim C26 as amended: a download is started by `readWaypoints(true)` in state IDLE;
a COUNT(N) is accepted; then an ITEM arrives that completes the download; before and
after the COUNT any timer expiries and inbound messages may occur and any calls that
the manager refuses because of the transfer in progress (`readWaypoints(true)`,
`writeWaypoints`, `clearWaypointList`, `setCurrentWaypoint`, `setCurrentEditable`), but
no call that edits the editable list and no `readWaypoints(false)`.  Afterwards N is at
least 1, the editable list has exactly N items, with the sequence numbers 0 .. N-1, it
is field-equal to the view-only list item by item (all members but the address, the
current flag among them), both lists hold the received items in order, and the
reference designates the editable copy of the last received item whose `current` field
is 1, if there is one. -/
theorem download_to_edit_mirrors_view_only (m0 m1 m2 : Manager) (pre post : List Action)
    (sysC compC N sysI compI : Nat) (wp : MissionItemInt)
    (hidle : m0.current_state = WP_IDLE)
    (hpre : during (readWaypoints true m0) pre = some m1)
    (hcount : countAccepted sysC m1)
    (hpost : during (handleWaypointCount sysC compC N m1) post = some m2)
    (hdone : completesDownload sysI wp m2) :
    1 ≤ N
    ∧ (handleWaypoint sysI compI wp m2).waypointsEditable.length = N
    ∧ (handleWaypoint sysI compI wp m2).waypointsEditable.map (fun w => w.id) = List.range N
    ∧ (handleWaypoint sysI compI wp m2).waypointsEditable.map withoutAddress
        = (handleWaypoint sysI compI wp m2).waypointsViewOnly.map withoutAddress
    ∧ (handleWaypoint sysI compI wp m2).waypointsEditable.map withoutAddress
        = (acceptedDuring (handleWaypointCount sysC compC N m1) post ++ [wp]).map
            (fun it => withoutAddress (newWaypointFromItem 0 it))
    ∧ ReferenceFollows (acceptedDuring (handleWaypointCount sysC compC N m1) post ++ [wp])
        (handleWaypoint sysI compI wp m2) := by
  have hA : AwaitingCountToEditInv m1 := by
    apply during_awaitingCountToEditInv pre _ m1 _ hpre
    unfold AwaitingCountToEditInv
    left
    by_cases hu : m0.uas = false <;>
      simp [readWaypoints, hidle, sendWaypointRequestList, sendMessage, hu]
  obtain ⟨hcg, hcs⟩ := hcount
  have hA1 : m1.read_to_edit = true ∧ m1.waypointsViewOnly = [] := by
    rcases hA with ⟨_, h1, h2⟩ | h | h
    · exact ⟨h1, h2⟩
    · rw [h] at hcg; simp at hcg
    · rw [h] at hcg; simp at hcg
  have hC : MirrorInv N [] (handleWaypointCount sysC compC N m1) := by
    unfold MirrorInv
    by_cases hn : N > 0
    · obtain ⟨c1, c2, c3, c4, c5, c6⟩ :=
        handleWaypointCount_accept_to_edit sysC compC N _ hcg hcs hn hA1.1
      refine Or.inr ⟨c1, c2, c3, by rw [c4]; exact hn, ?_⟩
      intro _
      refine ⟨by rw [c4]; rfl, rfl, by rw [c5, hA1.2]; rfl, by rw [c6]; rfl, ?_⟩
      intro i it hi
      simp at hi
    · obtain ⟨E, C, e⟩ := handleWaypointCount_accept_zero sysC compC N _ hcg hcs hn
      rw [e]; exact Or.inl rfl
  have hB := during_mirrorInv N post [] _ m2 hC hpost
  rw [List.nil_append] at hB
  generalize acceptedDuring (handleWaypointCount sysC compC N m1) post = R at hB
  obtain ⟨hs, hg, hq, hlt⟩ := hdone
  rcases hB with hB | ⟨_, hr, hc, hw, hv⟩
  · rw [hB] at hg; simp at hg
  · rw [hc] at hlt
    have hN : N < 65536 := by omega
    have hN1 : m2.current_wp_id + 1 = N := by omega
    obtain ⟨v1, v2, v3, v4, v5⟩ := hv hN
    obtain ⟨g1, g2, g3, g4⟩ := handleWaypoint_accept_to_edit sysI compI wp m2 ⟨hs, hg, hq⟩ hr
    have hlenE : m2.waypointsEditable.length = R.length := by
      have := congrArg List.length v4
      simpa using this
    have hidE : m2.waypointsEditable.length % 65536 = wp.seq := by
      rw [hlenE, v1, hq]
      exact Nat.mod_eq_of_lt (by omega)
    have hedit : (handleWaypoint sysI compI wp m2).waypointsEditable.map withoutAddress
        = (R ++ [wp]).map (fun it => withoutAddress (newWaypointFromItem 0 it)) := by
      rw [g3, List.map_append, v4, List.map_append, hidE]
      rfl
    have hview : (handleWaypoint sysI compI wp m2).waypointsViewOnly.map withoutAddress
        = (R ++ [wp]).map (fun it => withoutAddress (newWaypointFromItem 0 it)) := by
      rw [g2, List.map_append, v3, List.map_append]
      rfl
    have hseq : (R ++ [wp]).map (fun it => it.seq) = List.range N := by
      rw [List.map_append, v2, ← hN1, List.range_succ, v1]
      simp [hq]
    refine ⟨by omega, ?_, ?_, ?_, hedit, ?_⟩
    · rw [g3, List.length_append, hlenE, v1]
      simpa using hN1
    · have := congrArg (List.map (fun w : Waypoint => w.id)) hedit
      simp only [List.map_map] at this
      rw [← hseq]
      exact this
    · rw [hedit, hview]
    · exact referenceFollows_append R wp m2 _ _ hlenE g3 g4 v5

/-- Witness for C26: the theorem applied to the spec's scenario 2, a download of two
items with read-to-edit into a manager with one editable item, with a call of
`writeWaypoints` and a call of `readWaypoints(true)` between the two items, both
refused; the second item has `current` 1 and the reference designates its editable
copy. -/
theorem download_to_edit_mirrors_view_only_witness :
    idleManager.current_state = WP_IDLE
    ∧ during (readWaypoints true idleManager) [] = some (readWaypoints true idleManager)
    ∧ countAccepted 1 (readWaypoints true idleManager)
    ∧ during (handleWaypointCount 1 0 2 (readWaypoints true idleManager)) quietDownload
        = some (run (handleWaypointCount 1 0 2 (readWaypoints true idleManager))
            [Event.item 1 0 (mkItem 0 0)])
    ∧ completesDownload 1 (mkItem 1 1)
        (run (handleWaypointCount 1 0 2 (readWaypoints true idleManager))
            [Event.item 1 0 (mkItem 0 0)])
    ∧ (handleWaypoint 1 0 (mkItem 1 1)
        (run (handleWaypointCount 1 0 2 (readWaypoints true idleManager))
            [Event.item 1 0 (mkItem 0 0)])).waypointsEditable.length = 2
    ∧ (handleWaypoint 1 0 (mkItem 1 1)
        (run (handleWaypointCount 1 0 2 (readWaypoints true idleManager))
            [Event.item 1 0 (mkItem 0 0)])).waypointsEditable.map withoutAddress
      = (handleWaypoint 1 0 (mkItem 1 1)
        (run (handleWaypointCount 1 0 2 (readWaypoints true idleManager))
            [Event.item 1 0 (mkItem 0 0)])).waypointsViewOnly.map withoutAddress :=
  have h := download_to_edit_mirrors_view_only idleManager (readWaypoints true idleManager)
    (run (handleWaypointCount 1 0 2 (readWaypoints true idleManager))
      [Event.item 1 0 (mkItem 0 0)])
    [] quietDownload 1 0 2 1 0 (mkItem 1 1) (by decide) rfl ⟨by decide, by decide⟩ rfl
    ⟨by decide, by decide, by decide, by decide⟩
  ⟨by decide, rfl, ⟨by decide, by decide⟩, rfl, ⟨by decide, by decide, by decide, by decide⟩,
    h.2.1, h.2.2.2.1⟩

/-! ### The upload buffer while items are sent -/

/-- The copy loop fills as many entries as the count and the list allow. -/
theorem copyToBuffer_length_min (c : Nat) : ∀ (ws : List Waypoint) (i : Nat) (nc : Bool),
    (copyToBuffer c ws i nc).length = min (c - i) ws.length := by
  intro ws
  induction ws with
  | nil => intro i nc; simp [copyToBuffer]
  | cons w rest ih =>
    intro i nc
    by_cases hi : i < c
    · simp only [copyToBuffer, if_pos hi, List.length_cons, ih]
      omega
    · simp only [copyToBuffer, if_neg hi, List.length_nil]
      omega

/-- The function `sendWaypoint` keeps the members the lookup depends on, up to the
target ids stamped into one buffer entry. -/
theorem sendWaypoint_upload_members (q : Nat) (m : Manager) :
    (sendWaypoint q m).current_state = m.current_state
    ∧ (sendWaypoint q m).current_count = m.current_count
    ∧ (sendWaypoint q m).current_wp_id = m.current_wp_id
    ∧ (sendWaypoint q m).waypoint_buffer.length = m.waypoint_buffer.length := by
  by_cases hu : m.uas = false
  · simp [sendWaypoint, hu]
  · cases hb : m.waypoint_buffer[q]? with
    | none => simp [sendWaypoint, hu, hb]
    | some wp0 =>
      by_cases h1 : m.current_state = WP_SENDLIST_SENDWPSINT
      · simp [sendWaypoint, hu, hb, h1, sendMessage]
      · by_cases h2 : m.current_state = WP_SENDLIST_SENDWPSFLOAT
        · simp [sendWaypoint, hu, hb, h2, sendMessage]
        · simp [sendWaypoint, hu, hb, h1, h2]

/-- A manager that agrees with another in the members the lookup depends on satisfies
the buffer invariant if the other does. -/
theorem bufferInv_of_view (m m2 : Manager) (hv : uploadView m2 = uploadView m)
    (h : BufferInv m) : BufferInv m2 := by
  unfold uploadView at hv
  simp only [Prod.mk.injEq] at hv
  obtain ⟨h1, h2, h3, h4⟩ := hv
  unfold BufferInv at *
  rw [h1, h2, h3, h4]
  exact h

/-- The buffer invariant holds after a timeout or an inbound message. -/
theorem step_bufferInv (m : Manager) (ev : Event) (h : BufferInv m) :
    BufferInv (step m ev) := by
  cases ev with
  | timeout =>
    simp only [step]
    by_cases ht : m.protocol_timer = true ∧ m.uas = true
    · rw [if_pos ht]
      by_cases hr : m.current_retries > 0
      · by_cases hst : m.current_state = WP_SENDLIST_SENDWPSINT
            ∨ m.current_state = WP_SENDLIST_SENDWPSFLOAT
        · rw [timeout_sendwps m hr hst]
          obtain ⟨s1, s2, s3, s4⟩ := sendWaypoint_upload_members m.current_wp_id
            { m with protocol_timer := true, current_retries := m.current_retries - 1 }
          unfold BufferInv at *
          rw [s1, s2, s3, s4]
          exact h
        · have e : uploadView (timeout m) = uploadView m := by
            have n1 : m.current_state ≠ WP_SENDLIST_SENDWPSINT := fun e => hst (Or.inl e)
            have n2 : m.current_state ≠ WP_SENDLIST_SENDWPSFLOAT := fun e => hst (Or.inr e)
            unfold uploadView
            by_cases hu : m.uas = false <;> cases hs : m.current_state <;>
              simp_all [timeout, sendWaypointRequestList, sendWaypointRequest,
                sendWaypointCount, sendWaypointClearAll, sendWaypointSetCurrent, sendMessage]
          exact bufferInv_of_view m _ e h
      · rw [timeout_abort m hr]
        unfold BufferInv
        simp
    · rw [if_neg ht]; exact h
  | count s c n =>
    simp only [step]
    by_cases hg : m.current_state = WP_GETLIST
    · by_cases hs : s = m.current_partner_systemid
      · by_cases hn : n > 0
        · obtain ⟨E, C, S, e⟩ := handleWaypointCount_accept_pos s c n m hg hs hn
          rw [e]; unfold BufferInv; simp
        · obtain ⟨E, C, e⟩ := handleWaypointCount_accept_zero s c n m hg hs hn
          rw [e]; unfold BufferInv; simp
      · have e : handleWaypointCount s c n m = m := by simp [handleWaypointCount, hs]
        rw [e]; exact h
    · rw [handleWaypointCount_of_ne s c n m hg]; exact h
  | item s c wp =>
    simp only [step]
    by_cases ha : s = m.current_partner_systemid ∧ m.current_state = WP_GETLIST_GETWPS
        ∧ wp.seq = m.current_wp_id
    · by_cases hlt : (m.current_wp_id + 1) % 65536 < m.current_count
      · obtain ⟨E, C, H, S, e⟩ := handleWaypoint_accept_more s c wp m ha.1 ha.2.1 ha.2.2 hlt
        rw [e]; unfold BufferInv; simp [ha.2.1]
      · obtain ⟨E, C, H, S, e⟩ := handleWaypoint_accept_last s c wp m ha.1 ha.2.1 ha.2.2 hlt
        rw [e]; unfold BufferInv; simp
    · rw [handleWaypoint_reject s c wp m ha]; exact h
  | ack s c t =>
    simp only [step]
    rcases handleWaypointAck_frame s c t m with e | ⟨_, e⟩ | ⟨_, S, e⟩
    · rw [e]; exact h
    · rw [e]; unfold BufferInv; simp
    · rw [e]; unfold BufferInv; simp
  | request s c q =>
    simp only [step]
    by_cases h1 : s = m.current_partner_systemid
        ∧ ((m.current_state = WP_SENDLIST ∧ q = 0)
          ∨ ((m.current_state = WP_SENDLIST_SENDWPSINT
                ∨ m.current_state = WP_SENDLIST_SENDWPSFLOAT)
              ∧ (q = m.current_wp_id ∨ q = m.current_wp_id + 1)))
    · have hup : m.current_state = WP_SENDLIST ∨ m.current_state = WP_SENDLIST_SENDWPSINT
          ∨ m.current_state = WP_SENDLIST_SENDWPSFLOAT := by
        rcases h1.2 with ⟨a, _⟩ | ⟨a | a, _⟩
        · exact Or.inl a
        · exact Or.inr (Or.inl a)
        · exact Or.inr (Or.inr a)
      by_cases h2 : q < m.waypoint_buffer.length
      · rw [handleWaypointRequest_accept_in s c q _ m h1 h2]
        obtain ⟨s1, s2, s3, s4⟩ := sendWaypoint_upload_members q
          { m with
            protocol_timer := true
            current_retries := PROTOCOL_MAX_RETRIES
            current_state :=
              if MissionItemEncoding.Float = MissionItemEncoding.Int then WP_SENDLIST_SENDWPSINT
              else WP_SENDLIST_SENDWPSFLOAT
            current_wp_id := q }
        unfold BufferInv at *
        rw [s1, s2, s3, s4]
        exact ⟨fun _ => h.1 hup, fun _ => h2⟩
      · rw [handleWaypointRequest_accept_beyond s c q _ m h1 h2]
        exact bufferInv_of_view m _ rfl h
    · rw [handleWaypointRequest_reject s c q _ m h1]; exact h
  | requestInt s c q =>
    simp only [step]
    by_cases h1 : s = m.current_partner_systemid
        ∧ ((m.current_state = WP_SENDLIST ∧ q = 0)
          ∨ ((m.current_state = WP_SENDLIST_SENDWPSINT
                ∨ m.current_state = WP_SENDLIST_SENDWPSFLOAT)
              ∧ (q = m.current_wp_id ∨ q = m.current_wp_id + 1)))
    · have hup : m.current_state = WP_SENDLIST ∨ m.current_state = WP_SENDLIST_SENDWPSINT
          ∨ m.current_state = WP_SENDLIST_SENDWPSFLOAT := by
        rcases h1.2 with ⟨a, _⟩ | ⟨a | a, _⟩
        · exact Or.inl a
        · exact Or.inr (Or.inl a)
        · exact Or.inr (Or.inr a)
      by_cases h2 : q < m.waypoint_buffer.length
      · rw [handleWaypointRequest_accept_in s c q _ m h1 h2]
        obtain ⟨s1, s2, s3, s4⟩ := sendWaypoint_upload_members q
          { m with
            protocol_timer := true
            current_retries := PROTOCOL_MAX_RETRIES
            current_state :=
              if MissionItemEncoding.Int = MissionItemEncoding.Int then WP_SENDLIST_SENDWPSINT
              else WP_SENDLIST_SENDWPSFLOAT
            current_wp_id := q }
        unfold BufferInv at *
        rw [s1, s2, s3, s4]
        exact ⟨fun _ => h.1 hup, fun _ => h2⟩
      · rw [handleWaypointRequest_accept_beyond s c q _ m h1 h2]
        exact bufferInv_of_view m _ rfl h
    · rw [handleWaypointRequest_reject s c q _ m h1]; exact h
  | current s c q =>
    simp only [step]
    rcases handleWaypointCurrent_frame s c q m with e | ⟨v, e⟩ | ⟨V, v, e⟩
    · rw [e]; exact h
    · rw [e]; exact bufferInv_of_view m _ rfl h
    · rw [e]; unfold BufferInv; simp
  | reached s c q => exact h

/-- The buffer invariant holds after the call of a transfer function. -/
theorem transfers_bufferInv (m : Manager) (h : BufferInv m) :
    (∀ b, BufferInv (readWaypoints b m))
    ∧ BufferInv (writeWaypoints m)
    ∧ BufferInv (clearWaypointList m)
    ∧ (∀ seq, BufferInv (setCurrentWaypoint seq m).2) := by
  refine ⟨?_, ?_, ?_, ?_⟩
  · intro b
    by_cases hi : m.current_state = WP_IDLE
    · unfold BufferInv
      by_cases hu : m.uas = false <;>
        simp [readWaypoints, hi, hu, sendWaypointRequestList, sendMessage]
    · have e : uploadView (readWaypoints b m) = uploadView m := by
        simp [uploadView, readWaypoints, hi]
      exact bufferInv_of_view m _ e h
  · by_cases hi : m.current_state = WP_IDLE
    · by_cases hp : m.waypointsEditable.length > 0
      · have hl : (copyToBuffer (m.waypointsEditable.length % 65536) m.waypointsEditable 0
            true).length = m.waypointsEditable.length % 65536 := by
          rw [copyToBuffer_length_min]
          have := Nat.mod_le m.waypointsEditable.length 65536
          omega
        unfold BufferInv
        by_cases hu : m.uas = false <;>
          simp [writeWaypoints, hi, hp, hu, sendWaypointCount, sendMessage, hl]
      · unfold BufferInv
        by_cases hu : m.uas = false <;>
          simp [writeWaypoints, hi, hp, hu, sendWaypointClearAll, sendMessage]
    · have e : writeWaypoints m = m := by simp [writeWaypoints, hi]
      rw [e]; exact h
  · by_cases hi : m.current_state = WP_IDLE
    · unfold BufferInv
      by_cases hu : m.uas = false <;>
        simp [clearWaypointList, hi, hu, sendWaypointClearAll, sendMessage]
    · have e : clearWaypointList m = m := by simp [clearWaypointList, hi]
      rw [e]; exact h
  · intro seq
    by_cases hi : m.current_state = WP_IDLE
    · by_cases hp : seq < m.waypointsViewOnly.length
      · unfold BufferInv
        by_cases hu : m.uas = false <;>
          simp [setCurrentWaypoint, hi, hp, hu, sendWaypointSetCurrent, sendMessage]
      · have e : (setCurrentWaypoint seq m).2 = m := by simp [setCurrentWaypoint, hp]
        rw [e]; exact h
    · have e : (setCurrentWaypoint seq m).2 = m := by simp [setCurrentWaypoint, hi]
      rw [e]; exact h

/-- The editing functions and `loadWaypoints` write none of the members the lookup
depends on. -/
theorem edits_keep_uploadView (m : Manager) :
    (∀ seq, uploadView (setCurrentEditable seq m).2 = uploadView m)
    ∧ (∀ wp f, uploadView (addWaypointEditable wp f m) = uploadView m)
    ∧ (∀ f, uploadView (createWaypoint f m).2 = uploadView m)
    ∧ (∀ seq, uploadView (removeWaypoint seq m).2 = uploadView m)
    ∧ (∀ c n, uploadView (moveWaypoint c n m) = uploadView m)
    ∧ (∀ file m1, loadWaypoints file m = some m1 → uploadView m1 = uploadView m) := by
  refine ⟨?_, ?_, ?_, ?_, ?_, ?_⟩
  · intro seq
    by_cases h1 : seq < m.waypointsEditable.length <;>
      by_cases h2 : m.current_state = WP_IDLE <;>
      simp [setCurrentEditable, h1, h2, uploadView]
  · intro wp f
    by_cases h : f = true ∧ m.waypointsEditable.length = 0
    · simp only [addWaypointEditable, if_pos h, uploadView]
    · simp only [addWaypointEditable, if_neg h, uploadView]
  · intro f
    by_cases h : f = true ∧ m.waypointsEditable.length = 0
    · simp only [createWaypoint, if_pos h, uploadView]
    · simp only [createWaypoint, if_neg h, uploadView]
  · intro seq
    by_cases h : seq < m.waypointsEditable.length
    · rw [removeWaypoint_of_lt seq m h]; rfl
    · rw [removeWaypoint_of_ge seq m (by omega)]
  · intro c n
    obtain ⟨E, e⟩ := moveWaypoint_frame c n m
    rw [e]; rfl
  · intro file m1 hl
    have key : ∀ (items : List (Option Waypoint)) (m2 : Manager),
        uploadView (loadItems items m2) = uploadView m2 := by
      intro items
      induction items with
      | nil => intro m2; rfl
      | cons it rest ih =>
        intro m2
        cases it with
        | none => rfl
        | some w =>
          simp only [loadItems]
          rw [ih]
          rfl
    cases file with
    | none =>
      simp only [loadWaypoints, Option.some.injEq] at hl
      rw [← hl]
    | some f =>
      by_cases h2 : f.header.length < 2
      · simp only [loadWaypoints, if_pos h2, Option.some.injEq] at hl
        rw [← hl]; rfl
      · cases hv : f.header[2]? with
        | none => simp [loadWaypoints, h2, hv] at hl
        | some v2 =>
          by_cases hok : ¬ (f.header.length = 3 ∧ f.header[0]? = some "QGC"
              ∧ f.header[1]? = some "WPL" ∧ toInt v2 ≥ 110)
          · simp only [loadWaypoints, if_neg h2, hv, if_pos hok, Option.some.injEq] at hl
            rw [← hl]; rfl
          · simp only [loadWaypoints, if_neg h2, hv, if_neg hok, Option.some.injEq] at hl
            rw [← hl, key]
            rfl

/-- The buffer invariant holds after every action that returns. -/
theorem perform_bufferInv (m m1 : Manager) (a : Action) (h : BufferInv m)
    (hp : perform m a = some m1) : BufferInv m1 := by
  have tr := transfers_bufferInv m h
  have ed := edits_keep_uploadView m
  cases a with
  | event ev =>
    simp only [perform, Option.some.injEq] at hp
    rw [← hp]; exact step_bufferInv m ev h
  | readWaypoints b =>
    simp only [perform, Option.some.injEq] at hp
    rw [← hp]; exact tr.1 b
  | writeWaypoints =>
    simp only [perform, Option.some.injEq] at hp
    rw [← hp]; exact tr.2.1
  | clearWaypointList =>
    simp only [perform, Option.some.injEq] at hp
    rw [← hp]; exact tr.2.2.1
  | setCurrentWaypoint seq =>
    simp only [perform, Option.some.injEq] at hp
    rw [← hp]; exact tr.2.2.2 seq
  | setCurrentEditable seq =>
    simp only [perform, Option.some.injEq] at hp
    rw [← hp]; exact bufferInv_of_view m _ (ed.1 seq) h
  | addWaypointEditable wp f =>
    simp only [perform, Option.some.injEq] at hp
    rw [← hp]; exact bufferInv_of_view m _ (ed.2.1 wp f) h
  | createWaypoint f =>
    simp only [perform, Option.some.injEq] at hp
    rw [← hp]; exact bufferInv_of_view m _ (ed.2.2.1 f) h
  | removeWaypoint seq =>
    simp only [perform, Option.some.injEq] at hp
    rw [← hp]; exact bufferInv_of_view m _ (ed.2.2.2.1 seq) h
  | moveWaypoint c n =>
    simp only [perform, Option.some.injEq] at hp
    rw [← hp]; exact bufferInv_of_view m _ (ed.2.2.2.2.1 c n) h
  | loadWaypoints file =>
    simp only [perform] at hp
    exact bufferInv_of_view m _ (ed.2.2.2.2.2 file m1 hp) h

/-- The buffer invariant holds after every sequence of actions that returns. -/
theorem performAll_bufferInv : ∀ (acts : List Action) (m m1 : Manager), BufferInv m →
    performAll m acts = some m1 → BufferInv m1 := by
  intro acts
  induction acts with
  | nil =>
    intro m m1 h hp
    simp only [performAll, Option.some.injEq] at hp
    rw [← hp]; exact h
  | cons a rest ih =>
    intro m m1 h hp
    simp only [performAll] at hp
    cases ha : perform m a with
    | none => rw [ha] at hp; simp at hp
    | some m2 =>
      rw [ha] at hp
      exact ih m2 m1 (perform_bufferInv m m2 a h ha) hp

/-- Claim C31: in every state reached from the state left by the constructor in which
the manager is in SENDLIST_SENDWPSINT or SENDLIST_SENDWPSFLOAT, `current_wp_id` is below
the count of the upload buffer and that count equals `current_count`, so the lookup of
`sendWaypoint(current_wp_id)` finds an entry.  The timer runs in these states, and a
timeout retry, that is an expiry that reaches `timeout()` with retries left, sends
exactly one message, the item message of that entry.  The expiry reaches `timeout()`
through the connection that the constructor makes when a vehicle is attached; with no
vehicle attached there is no timeout retry (the expiry changes nothing). -/
theorem upload_lookup_in_range (uas : Bool) (uasid : Nat) (viewOnly editable : List Waypoint)
    (acts : List Action) (m : Manager)
    (h : performAll (mkManager uas uasid viewOnly editable) acts = some m)
    (hst : m.current_state = WP_SENDLIST_SENDWPSINT
      ∨ m.current_state = WP_SENDLIST_SENDWPSFLOAT) :
    m.current_wp_id < m.waypoint_buffer.length
    ∧ m.waypoint_buffer.length = m.current_count
    ∧ (m.waypoint_buffer[m.current_wp_id]?).isSome = true
    ∧ m.protocol_timer = true
    ∧ (∀ wp0, m.waypoint_buffer[m.current_wp_id]? = some wp0 → m.current_retries > 0 →
        m.uas = true →
        step m Event.timeout = timeout m ∧ (timeout m).sent = m.sent ++ [itemMsg m wp0])
    ∧ (m.uas = false → step m Event.timeout = m) := by
  have h0 : BufferInv (mkManager uas uasid viewOnly editable) := by
    unfold BufferInv; simp [mkManager]
  have hinv := performAll_bufferInv acts _ m h0 h
  unfold BufferInv at hinv
  have ht0 : TimerInv (mkManager uas uasid viewOnly editable) := by
    unfold TimerInv; simp [mkManager]
  have htinv := performAll_timerInv acts _ m ht0 h
  unfold TimerInv at htinv
  have hni : m.current_state ≠ WP_IDLE := by
    rcases hst with hs | hs <;> rw [hs] <;> simp
  have hlt := hinv.2 hst
  have hup : m.current_state = WP_SENDLIST ∨ m.current_state = WP_SENDLIST_SENDWPSINT
      ∨ m.current_state = WP_SENDLIST_SENDWPSFLOAT := Or.inr hst
  refine ⟨hlt, hinv.1 hup, ?_, htinv.mpr hni, ?_, ?_⟩
  · rw [List.getElem?_eq_getElem hlt]; rfl
  · intro wp0 hwp hr hu
    constructor
    · simp only [step]
      rw [if_pos ⟨htinv.mpr hni, hu⟩]
    · rcases hst with hs | hs <;>
        simp [timeout, hr, hs, hu, sendWaypoint, sendMessage, hwp, stampTarget, itemMsg]
  · intro hu
    simp [step, hu]

/-- Witness for C31: the theorem applied to an upload of one item to vehicle 1 after
the request for item 0 and one timeout. -/
theorem upload_lookup_in_range_witness :
    performAll (mkManager true 1 [] [mkWaypoint 0 true])
        [Action.writeWaypoints, Action.event (Event.requestInt 1 0 0),
         Action.event Event.timeout] = some uploadAfterTimeout
    ∧ uploadAfterTimeout.current_state = WP_SENDLIST_SENDWPSINT
    ∧ uploadAfterTimeout.current_retries > 0
    ∧ uploadAfterTimeout.uas = true
    ∧ uploadAfterTimeout.current_wp_id < uploadAfterTimeout.waypoint_buffer.length
    ∧ uploadAfterTimeout.waypoint_buffer.length = uploadAfterTimeout.current_count
    ∧ (step uploadAfterTimeout Event.timeout).sent.length
        = uploadAfterTimeout.sent.length + 1 :=
  have h := upload_lookup_in_range true 1 [] [mkWaypoint 0 true]
    [Action.writeWaypoints, Action.event (Event.requestInt 1 0 0),
     Action.event Event.timeout] uploadAfterTimeout rfl (Or.inl (by decide))
  have hl : uploadAfterTimeout.current_wp_id < uploadAfterTimeout.waypoint_buffer.length :=
    h.1
  have hs := h.2.2.2.2.1 _ (List.getElem?_eq_getElem hl) (by decide) (by decide)
  ⟨rfl, by decide, by decide, by decide, h.1, h.2.1, by
    rw [hs.1, hs.2]
    simp⟩

/-! ### Setting the current editable item -/

/-- Claim C32: `setCurrentEditable(seq)` returns -1 and changes nothing when `seq` is
not below the count of the editable list or the state is not IDLE.  Otherwise it
returns 0, only the current flags of the editable list change (every other member of
the manager, the state and the reference among them, and every other field of the
items is unchanged), and afterwards an editable item is current if and only if its
stored sequence number equals `seq`; if the sequence numbers are the positions, that is
exactly the item at position `seq`. -/
theorem setCurrentEditable_marks_item (m : Manager) (seq : Nat) :
    ((m.waypointsEditable.length ≤ seq ∨ m.current_state ≠ WP_IDLE) →
        setCurrentEditable seq m = (-1, m))
    ∧ (seq < m.waypointsEditable.length → m.current_state = WP_IDLE →
        (setCurrentEditable seq m).1 = 0
        ∧ (setCurrentEditable seq m).2
            = { m with
                waypointsEditable :=
                  m.waypointsEditable.map (fun w => { w with current := decide (w.id = seq) }) }
        ∧ (∀ w, w ∈ (setCurrentEditable seq m).2.waypointsEditable →
            (w.current = true ↔ w.id = seq))
        ∧ (SeqIsIndex m.waypointsEditable →
            ∀ (i : Nat) (w : Waypoint),
              (setCurrentEditable seq m).2.waypointsEditable[i]? = some w →
              (w.current = true ↔ i = seq))) := by
  refine ⟨?_, ?_⟩
  · intro h
    by_cases h1 : seq < m.waypointsEditable.length
    · have h2 : ¬ m.current_state = WP_IDLE := by
        rcases h with h | h
        · omega
        · exact h
      simp only [setCurrentEditable, if_pos h1, if_neg h2]
    · simp only [setCurrentEditable, if_neg h1]
  · intro h1 h2
    have e : setCurrentEditable seq m
        = (0, { m with
                waypointsEditable :=
                  m.waypointsEditable.map (fun w => { w with current := decide (w.id = seq) }) }) := by
      simp only [setCurrentEditable, if_pos h1, if_pos h2, markCurrent]
    rw [e]
    refine ⟨rfl, rfl, ?_, ?_⟩
    · intro w hw
      obtain ⟨w0, _, rfl⟩ := List.mem_map.mp hw
      simp
    · intro hidx i w hi
      simp only [List.getElem?_map] at hi
      obtain ⟨w0, hw0, rfl⟩ := Option.map_eq_some'.mp hi
      have hid := (seqIsIndex_iff _).mp hidx i w0 hw0
      simp [hid]

/-- Witness for C32: the theorem applied to the list of three items with the middle
one current: item 2 is made current; during a download the call is refused. -/
theorem setCurrentEditable_marks_item_witness :
    2 < middleCurrent.waypointsEditable.length
    ∧ middleCurrent.current_state = WP_IDLE
    ∧ SeqIsIndex middleCurrent.waypointsEditable
    ∧ busyDownload.current_state ≠ WP_IDLE
    ∧ (setCurrentEditable 2 middleCurrent).1 = 0
    ∧ (setCurrentEditable 2 middleCurrent).2.waypointsEditable.map (fun w => w.current)
        = [false, false, true]
    ∧ (setCurrentEditable 2 middleCurrent).2.currentWaypointEditable
        = middleCurrent.currentWaypointEditable
    ∧ setCurrentEditable 0 busyDownload = (-1, busyDownload) :=
  have h := (setCurrentEditable_marks_item middleCurrent 2).2 (by decide) (by decide)
  ⟨by decide, by decide, rfl, by decide, h.1, by rw [h.2.1]; decide, by rw [h.2.1],
    (setCurrentEditable_marks_item busyDownload 0).1 (Or.inr (by decide))⟩

/-! ### Rounding and truncation -/

/-- The result of `roundHalfEven` is within one half of its argument. -/
theorem roundHalfEven_sub_le (q : ℚ) : |((roundHalfEven q : Int) : ℚ) - q| ≤ 1 / 2 := by
  have h1 := Int.floor_le q
  have h2 := Int.lt_floor_add_one q
  unfold roundHalfEven
  rw [abs_le]
  split_ifs <;> push_cast <;> constructor <;> linarith

/-- A whole number nearer than one half is the result of `roundHalfEven`. -/
theorem roundHalfEven_eq_of_near (q : ℚ) (n : Int) (h : |q - n| < 1 / 2) :
    roundHalfEven q = n := by
  have h0 := roundHalfEven_sub_le q
  rw [abs_lt] at h
  rw [abs_le] at h0
  have h1 : ((roundHalfEven q - n : Int) : ℚ) < 1 := by push_cast; linarith
  have h2 : (-1 : ℚ) < ((roundHalfEven q - n : Int) : ℚ) := by push_cast; linarith
  have h3 : roundHalfEven q - n < 1 := by exact_mod_cast h1
  have h4 : -1 < roundHalfEven q - n := by exact_mod_cast h2
  omega

/-- A whole number is not moved by `roundHalfEven`. -/
theorem roundHalfEven_intCast (n : Int) : roundHalfEven (n : ℚ) = n :=
  roundHalfEven_eq_of_near _ n (by simp)

/-- The binary logarithm of a value between two consecutive powers of two. -/
theorem log_two_eq (r : ℚ) (L : Int) (h1 : (2 : ℚ) ^ L ≤ r) (h2 : r < (2 : ℚ) ^ (L + 1)) :
    Int.log 2 r = L := by
  have hr : 0 < r := lt_of_lt_of_le (zpow_pos (by norm_num) L) h1
  have a : L ≤ Int.log 2 r := by
    rw [← Int.zpow_le_iff_le_log (by norm_num) hr]
    simpa using h1
  have b : Int.log 2 r < L + 1 := by
    rw [← Int.lt_zpow_iff_log_lt (by norm_num) hr]
    simpa using h2
  omega

/-- A positive value lies between the powers of two around its binary logarithm. -/
theorem log_two_bounds (r : ℚ) (hr : 0 < r) :
    (2 : ℚ) ^ Int.log 2 r ≤ r ∧ r < (2 : ℚ) ^ (Int.log 2 r + 1) := by
  have a := Int.zpow_log_le_self (b := 2) (by norm_num) hr
  have b := Int.lt_zpow_succ_log_self (b := 2) (by norm_num) r
  constructor
  · simpa using a
  · simpa using b

/-- The result of `roundBinary` from the binade of `q` and the nearest significand. -/
theorem roundBinary_eq (p : Nat) (q : ℚ) (L n : Int) (h1 : (2 : ℚ) ^ L ≤ |q|)
    (h2 : |q| < (2 : ℚ) ^ (L + 1)) (hn : |q / 2 ^ (L - ((p : Int) - 1)) - n| < 1 / 2) :
    roundBinary p q = (n : ℚ) * 2 ^ (L - ((p : Int) - 1)) := by
  have hq : q ≠ 0 := by
    intro h
    rw [h, abs_zero] at h1
    exact absurd h1 (not_le.mpr (zpow_pos (by norm_num) L))
  unfold roundBinary
  rw [if_neg hq, log_two_eq _ L h1 h2, roundHalfEven_eq_of_near _ n hn]

/-- The relative error of `roundBinary` is at most `2 ^ (-p)`. -/
theorem roundBinary_sub_le (p : Nat) (q : ℚ) : |roundBinary p q - q| ≤ |q| / 2 ^ p := by
  by_cases hq : q = 0
  · simp [roundBinary, hq]
  · have hpos : 0 < |q| := abs_pos.mpr hq
    obtain ⟨hl, _⟩ := log_two_bounds |q| hpos
    unfold roundBinary
    rw [if_neg hq]
    obtain ⟨e, he⟩ : ∃ e : Int, e = Int.log 2 |q| - ((p : Int) - 1) := ⟨_, rfl⟩
    rw [← he]
    have hepos : (0 : ℚ) < 2 ^ e := zpow_pos (by norm_num) e
    have hr := roundHalfEven_sub_le (q / 2 ^ e)
    have e1 : ((roundHalfEven (q / 2 ^ e) : Int) : ℚ) * 2 ^ e - q
        = (((roundHalfEven (q / 2 ^ e) : Int) : ℚ) - q / 2 ^ e) * 2 ^ e := by
      field_simp
    rw [e1, abs_mul, abs_of_pos hepos]
    have e2 : (2 : ℚ) ^ Int.log 2 |q| = 2 ^ e * 2 ^ p / 2 := by
      have : Int.log 2 |q| = e + (p : Int) - 1 := by omega
      rw [this, zpow_sub₀ (by norm_num), zpow_add₀ (by norm_num)]
      simp
    rw [e2] at hl
    have hp2 : (0 : ℚ) < 2 ^ p := pow_pos (by norm_num) p
    rw [le_div_iff₀ hp2]
    calc |((roundHalfEven (q / 2 ^ e) : Int) : ℚ) - q / 2 ^ e| * 2 ^ e * 2 ^ p
        ≤ 1 / 2 * 2 ^ e * 2 ^ p := by gcongr
      _ = 2 ^ e * 2 ^ p / 2 := by ring
      _ ≤ |q| := hl

/-- A whole number below `2 ^ p` in absolute value is a floating-point number with a
significand of `p` bits. -/
theorem roundBinary_intCast (p : Nat) (n : Int) (h : |n| < 2 ^ p) :
    roundBinary p (n : ℚ) = n := by
  by_cases hn : n = 0
  · simp [roundBinary, hn]
  · have hq : (n : ℚ) ≠ 0 := by exact_mod_cast hn
    have hpos : 0 < |(n : ℚ)| := abs_pos.mpr hq
    obtain ⟨hl, _⟩ := log_two_bounds |(n : ℚ)| hpos
    have hlt : |(n : ℚ)| < (2 : ℚ) ^ (p : Int) := by
      rw [zpow_natCast]
      exact_mod_cast h
    have hL : Int.log 2 |(n : ℚ)| < (p : Int) := by
      rw [← Int.lt_zpow_iff_log_lt (by norm_num) hpos]
      simpa using hlt
    unfold roundBinary
    rw [if_neg hq]
    obtain ⟨k, hk⟩ : ∃ k : Nat, Int.log 2 |(n : ℚ)| - ((p : Int) - 1) = -(k : Int) :=
      ⟨(-(Int.log 2 |(n : ℚ)| - ((p : Int) - 1))).toNat, by omega⟩
    rw [hk]
    have e1 : (n : ℚ) / 2 ^ (-(k : Int)) = ((n * 2 ^ k : Int) : ℚ) := by
      rw [zpow_neg, zpow_natCast]
      push_cast
      field_simp
    rw [e1, roundHalfEven_intCast, zpow_neg, zpow_natCast]
    push_cast
    field_simp

/-- Truncation of a value that is not negative. -/
theorem truncate_of_nonneg (v : ℚ) (h : 0 ≤ v) : truncate v = ⌊v⌋ := by
  have hd : (0 : Int) ≤ (v.den : Int) := by exact_mod_cast Nat.zero_le v.den
  unfold truncate
  rw [Int.tdiv_eq_ediv (Rat.num_nonneg.mpr h) hd, Rat.floor_def]

/-- Truncation of a value that is not positive. -/
theorem truncate_of_nonpos (v : ℚ) (h : v ≤ 0) : truncate v = ⌈v⌉ := by
  have hd : (0 : Int) ≤ (v.den : Int) := by exact_mod_cast Nat.zero_le v.den
  have hneg : 0 ≤ -v.num := by
    have := Rat.num_nonpos.mpr h
    omega
  have e : v.num.tdiv (v.den : Int) = -((-v.num) / (v.den : Int)) := by
    have := Int.neg_tdiv (-v.num) (v.den : Int)
    rw [neg_neg] at this
    rw [this, Int.tdiv_eq_ediv hneg hd]
  have hc : ⌈v⌉ = -⌊-v⌋ := by
    have := Int.ceil_neg (α := ℚ) (a := -v)
    rw [neg_neg] at this
    exact this
  unfold truncate
  rw [e, hc, Rat.floor_def, Rat.num_neg_eq_neg_num, Rat.den_neg_eq_den]

/-- Truncation moves its argument by less than one, toward zero. -/
theorem truncate_near (v : ℚ) :
    v - 1 < (truncate v : ℚ) ∧ (truncate v : ℚ) < v + 1
    ∧ (0 ≤ v → 0 ≤ truncate v ∧ (truncate v : ℚ) ≤ v)
    ∧ (v ≤ 0 → truncate v ≤ 0 ∧ v ≤ (truncate v : ℚ)) := by
  rcases le_total 0 v with h | h
  · rw [truncate_of_nonneg v h]
    have h1 := Int.floor_le v
    have h2 := Int.lt_floor_add_one v
    refine ⟨by linarith, by linarith, fun _ => ⟨Int.floor_nonneg.mpr h, h1⟩, fun h0 => ?_⟩
    have : v = 0 := le_antisymm h0 h
    subst this
    simp
  · rw [truncate_of_nonpos v h]
    have h1 := Int.le_ceil v
    have h2 := Int.ceil_lt_add_one v
    refine ⟨by linarith, by linarith, fun h0 => ?_, fun _ => ⟨?_, h1⟩⟩
    · have : v = 0 := le_antisymm h h0
      subst this
      simp
    · exact Int.ceil_le.mpr (by simpa using h)

/-- The cast `(int32_t)` of a value whose truncation is a 32-bit number. -/
theorem toInt32_of_range (v : ℚ) (h1 : -2147483648 ≤ truncate v)
    (h2 : truncate v ≤ 2147483647) : toInt32 v = truncate v := by
  unfold toInt32
  rw [if_pos ⟨h1, h2⟩]

/-- The cast `(int32_t)` of a whole 32-bit number is that number. -/
theorem toInt32_intCast (n : Int) (h1 : -2147483648 ≤ n) (h2 : n ≤ 2147483647) :
    toInt32 (n : ℚ) = n := by
  have e : truncate (n : ℚ) = n := by simp [truncate]
  rw [toInt32_of_range _ (by rw [e]; exact h1) (by rw [e]; exact h2), e]

/-! ### Scaling of x and y -/

/-- The literal `1e-7`: the `double` nearest to 10^-7. -/
theorem roundDouble_literal : roundDouble (1 / 10000000) = 7555786372591432 / 2 ^ 76 := by
  have h := roundBinary_eq 53 (1 / 10000000) (-24) 7555786372591432
    (by norm_num [abs_of_pos]) (by norm_num [abs_of_pos]) (by
      rw [abs_lt]; constructor <;> norm_num)
  unfold roundDouble
  rw [h]
  norm_num

/-- The float item of a wire value of 30000000 holds 3. -/
theorem convert_thirty_million :
    roundFloat (roundDouble (roundDouble (1 / 10000000) * ((30000000 : Int) : ℚ))) = 3 := by
  rw [roundDouble_literal]
  have h := roundBinary_eq 53 (7555786372591432 / 2 ^ 76 * ((30000000 : Int) : ℚ)) 1
    6755399441055744
    (by norm_num [abs_of_pos]) (by norm_num [abs_of_pos]) (by
      rw [abs_lt]; constructor <;> norm_num)
  have e : roundDouble (7555786372591432 / 2 ^ 76 * ((30000000 : Int) : ℚ)) = ((3 : Int) : ℚ) := by
    unfold roundDouble
    rw [h]
    norm_num
  rw [e]
  unfold roundFloat
  rw [roundBinary_intCast 24 3 (by decide)]
  norm_num

/-- The float item of a wire value of 40000000 holds 4. -/
theorem convert_forty_million :
    roundFloat (roundDouble (roundDouble (1 / 10000000) * ((40000000 : Int) : ℚ))) = 4 := by
  rw [roundDouble_literal]
  have h := roundBinary_eq 53 (7555786372591432 / 2 ^ 76 * ((40000000 : Int) : ℚ)) 1
    9007199254740992
    (by norm_num [abs_of_pos]) (by norm_num [abs_of_pos]) (by
      rw [abs_lt]; constructor <;> norm_num)
  have e : roundDouble (7555786372591432 / 2 ^ 76 * ((40000000 : Int) : ℚ)) = ((4 : Int) : ℚ) := by
    unfold roundDouble
    rw [h]
    norm_num
  rw [e]
  unfold roundFloat
  rw [roundBinary_intCast 24 4 (by decide)]
  norm_num

/-- The wire value 473977447 is decoded to the `double` 6670639542785059 / 2^47. -/
theorem decode_lossy : roundDouble (((473977447 : Int) : ℚ) / 10000000)
    = 6670639542785059 / 2 ^ 47 := by
  have h := roundBinary_eq 53 (((473977447 : Int) : ℚ) / 10000000) 5 6670639542785059
    (by norm_num [abs_of_pos]) (by norm_num [abs_of_pos]) (by
      rw [abs_lt]; constructor <;> norm_num)
  unfold roundDouble
  rw [h]
  norm_num

/-- The decoded value of 473977447 is encoded as 473977446. -/
theorem encode_lossy :
    toInt32 (roundDouble (roundDouble (((473977447 : Int) : ℚ) / 10000000) * 10000000))
      = 473977446 := by
  rw [decode_lossy]
  have h := roundBinary_eq 53 (6670639542785059 / 2 ^ 47 * 10000000) 28 7952022007447551
    (by norm_num [abs_of_pos]) (by norm_num [abs_of_pos]) (by
      rw [abs_lt]; constructor <;> norm_num)
  have e : roundDouble (6670639542785059 / 2 ^ 47 * 10000000)
      = 7952022007447551 / 16777216 := by
    unfold roundDouble
    rw [h]
    norm_num
  rw [e]
  have ht : truncate (7952022007447551 / 16777216 : ℚ) = 473977446 := by
    rw [truncate_of_nonneg _ (by norm_num), Int.floor_eq_iff]
    constructor <;> norm_num
  rw [toInt32_of_range _ (by rw [ht]; decide) (by rw [ht]; decide), ht]

/-- The copy loop of `writeWaypoints` scales x and y of every item by 10^7 and
truncates, whatever the frame. -/
theorem copyToBuffer_xy (c : Nat) : ∀ (ws : List Waypoint) (i : Nat) (nc : Bool),
    i + ws.length ≤ c →
    (copyToBuffer c ws i nc).map (fun d => (d.frame, d.x, d.y))
      = ws.map (fun w => (w.frame, toInt32 (roundDouble (w.x * 10000000)),
          toInt32 (roundDouble (w.y * 10000000)))) := by
  intro ws
  induction ws with
  | nil => intro i nc _; simp [copyToBuffer]
  | cons w rest ih =>
    intro i nc h
    simp only [List.length_cons] at h
    have hi : i < c := by omega
    simp [copyToBuffer, hi, ih (i + 1) _ (by omega)]

/-- The upload buffer after `writeWaypoints` in state IDLE with a non-empty editable
list of at most 65535 items. -/
theorem writeWaypoints_waypoint_buffer (m : Manager) (hidle : m.current_state = WP_IDLE)
    (hpos : 0 < m.waypointsEditable.length) (hN : m.waypointsEditable.length ≤ 65535) :
    (writeWaypoints m).waypoint_buffer
      = copyToBuffer m.waypointsEditable.length m.waypointsEditable 0 true := by
  have hmod : m.waypointsEditable.length % 65536 = m.waypointsEditable.length :=
    Nat.mod_eq_of_lt (by omega)
  by_cases hu : m.uas = false <;>
    simp [writeWaypoints, hidle, hpos, hmod, sendWaypointCount, sendMessage, hu]

/-- The view-only list after an accepted ITEM: the item is appended as built by
`newWaypointFromItem`. -/
theorem handleWaypoint_waypointsViewOnly (s c : Nat) (wp : MissionItemInt) (m : Manager)
    (ha : s = m.current_partner_systemid ∧ m.current_state = WP_GETLIST_GETWPS
      ∧ wp.seq = m.current_wp_id) :
    (handleWaypoint s c wp m).waypointsViewOnly
      = m.waypointsViewOnly ++ [newWaypointFromItem m.heap_next wp] := by
  by_cases hr : m.read_to_edit = true <;> by_cases hc : wp.current = 1 <;>
    by_cases hlt : (m.current_wp_id + 1) % 65536 < m.current_count <;>
    by_cases hu : m.uas = false <;>
    simp [handleWaypoint, ha.1, ha.2.1, ha.2.2, hr, hc, hlt, hu, addWaypointViewOnly,
      addWaypointEditable, sendWaypointRequest, sendWaypointAck, sendMessage]

/-- Claim C24 on the code, for items in the frame LOCAL_NED.  `writeWaypoints` writes
x = 3, y = 4 into the buffer as 30000000 and 40000000; `convertMavlinkMissionItem`
turns the wire values 30000000 and 40000000 into 3 and 4; `handleWaypoint` stores the
wire values 30000000 and 40000000 as 3 and 4.  None of the three passes the values
through. -/
theorem local_frame_items_are_scaled :
    (writeWaypoints localManager).waypoint_buffer.map (fun d => (d.frame, d.x, d.y))
      = [(MAV_FRAME_LOCAL_NED, 30000000, 40000000)]
    ∧ (convertMavlinkMissionItem localItem).frame = MAV_FRAME_LOCAL_NED
    ∧ (convertMavlinkMissionItem localItem).x = 3
    ∧ (convertMavlinkMissionItem localItem).y = 4
    ∧ (handleWaypoint 1 0 localItem firstItemDue).waypointsViewOnly.map
        (fun w => (w.frame, w.x, w.y))
      = [(MAV_FRAME_LOCAL_NED, 3, 4)] := by
  have r3 : roundDouble ((3 : ℚ) * 10000000) = ((30000000 : Int) : ℚ) := by
    have e : ((3 : ℚ) * 10000000) = ((30000000 : Int) : ℚ) := by norm_num
    rw [e]
    exact roundBinary_intCast 53 30000000 (by decide)
  have r4 : roundDouble ((4 : ℚ) * 10000000) = ((40000000 : Int) : ℚ) := by
    have e : ((4 : ℚ) * 10000000) = ((40000000 : Int) : ℚ) := by norm_num
    rw [e]
    exact roundBinary_intCast 53 40000000 (by decide)
  have d3 : roundDouble (((30000000 : Int) : ℚ) / 10000000) = 3 := by
    have e : (((30000000 : Int) : ℚ) / 10000000) = ((3 : Int) : ℚ) := by norm_num
    rw [e]
    have := roundBinary_intCast 53 3 (by decide)
    unfold roundDouble
    rw [this]
    norm_num
  have d4 : roundDouble (((40000000 : Int) : ℚ) / 10000000) = 4 := by
    have e : (((40000000 : Int) : ℚ) / 10000000) = ((4 : Int) : ℚ) := by norm_num
    rw [e]
    have := roundBinary_intCast 53 4 (by decide)
    unfold roundDouble
    rw [this]
    norm_num
  refine ⟨?_, rfl, ?_, ?_, ?_⟩
  · rw [writeWaypoints_waypoint_buffer localManager rfl (by decide) (by decide),
      copyToBuffer_xy _ _ _ _ (by decide)]
    simp only [localManager, mkManager, List.map_cons, List.map_nil, r3, r4]
    rw [toInt32_intCast _ (by decide) (by decide), toInt32_intCast _ (by decide) (by decide)]
  · exact convert_thirty_million
  · exact convert_forty_million
  · rw [handleWaypoint_waypointsViewOnly 1 0 localItem firstItemDue
      ⟨by decide, by decide, by decide⟩]
    have e : firstItemDue.waypointsViewOnly = [] := by decide
    rw [e]
    simp only [List.nil_append, List.map_cons, List.map_nil, newWaypointFromItem, localItem, d3,
      d4]

/-- The two rounded operations of a round trip move a 32-bit wire value by less than
one. -/
theorem round_trip_near (n : Int) (hlo : -2147483648 ≤ n) (hhi : n ≤ 2147483647) :
    |roundDouble (roundDouble ((n : ℚ) / 10000000) * 10000000) - (n : ℚ)| < 1 := by
  obtain ⟨d, hdd⟩ : ∃ d : ℚ, d = roundDouble ((n : ℚ) / 10000000) := ⟨_, rfl⟩
  obtain ⟨p, hpp⟩ : ∃ p : ℚ, p = roundDouble (d * 10000000) := ⟨_, rfl⟩
  have hd : |d - (n : ℚ) / 10000000| ≤ |(n : ℚ) / 10000000| / 2 ^ 53 := by
    rw [hdd]; exact roundBinary_sub_le 53 _
  have hp : |p - d * 10000000| ≤ |d * 10000000| / 2 ^ 53 := by
    rw [hpp]; exact roundBinary_sub_le 53 _
  rw [← hdd, ← hpp]
  have hN : |(n : ℚ)| ≤ 2147483648 := by
    rw [abs_le]
    constructor
    · exact_mod_cast hlo
    · have : (n : ℚ) ≤ 2147483647 := by exact_mod_cast hhi
      linarith
  have ha : |(n : ℚ) / 10000000| = |(n : ℚ)| / 10000000 := by
    rw [abs_div]; norm_num
  rw [ha] at hd
  have h1 : |d * 10000000 - (n : ℚ)| ≤ |(n : ℚ)| / 2 ^ 53 := by
    have : d * 10000000 - (n : ℚ) = (d - (n : ℚ) / 10000000) * 10000000 := by ring
    rw [this, abs_mul]
    have : |(10000000 : ℚ)| = 10000000 := by norm_num
    rw [this]
    calc |d - (n : ℚ) / 10000000| * 10000000
        ≤ (|(n : ℚ)| / 10000000 / 2 ^ 53) * 10000000 := by
          apply mul_le_mul_of_nonneg_right hd; norm_num
      _ = |(n : ℚ)| / 2 ^ 53 := by ring
  have h2 : |d * 10000000| ≤ |(n : ℚ)| + |(n : ℚ)| / 2 ^ 53 := by
    have : d * 10000000 = (n : ℚ) + (d * 10000000 - (n : ℚ)) := by ring
    rw [this]
    exact le_trans (abs_add _ _) (by linarith)
  have : p - (n : ℚ) = (p - d * 10000000) + (d * 10000000 - (n : ℚ)) := by ring
  rw [this]
  have hu : (0 : ℚ) < 2 ^ 53 := by norm_num
  have h4 : |p - d * 10000000| ≤ (|(n : ℚ)| + |(n : ℚ)| / 2 ^ 53) / 2 ^ 53 :=
    le_trans hp (div_le_div_of_nonneg_right h2 (le_of_lt hu))
  have h5 : (|(n : ℚ)| + |(n : ℚ)| / 2 ^ 53) / 2 ^ 53 + |(n : ℚ)| / 2 ^ 53 < 1 := by
    have hb : |(n : ℚ)| / 2 ^ 53 ≤ 2147483648 / 2 ^ 53 :=
      div_le_div_of_nonneg_right hN (le_of_lt hu)
    have hb2 : (|(n : ℚ)| + |(n : ℚ)| / 2 ^ 53) / 2 ^ 53
        ≤ (2147483648 + 2147483648 / 2 ^ 53) / 2 ^ 53 :=
      div_le_div_of_nonneg_right (by linarith) (le_of_lt hu)
    have : ((2147483648 : ℚ) + 2147483648 / 2 ^ 53) / 2 ^ 53 + 2147483648 / 2 ^ 53 < 1 := by
      norm_num
    linarith
  exact lt_of_le_of_lt (abs_add _ _) (by linarith)

/-- The cast of a value that is less than one away from a 32-bit number is at most one
away from it, and in the 32-bit range. -/
theorem toInt32_near (p : ℚ) (n : Int) (hlo : -2147483648 ≤ n) (hhi : n ≤ 2147483647)
    (h : |p - (n : ℚ)| < 1) : |toInt32 p - n| ≤ 1 := by
  obtain ⟨t1, t2, t3, t4⟩ := truncate_near p
  rw [abs_lt] at h
  have hlt : ((truncate p - n : Int) : ℚ) < 2 := by push_cast; linarith
  have hgt : (-2 : ℚ) < ((truncate p - n : Int) : ℚ) := by push_cast; linarith
  have hlt1 : truncate p - n < 2 := by exact_mod_cast hlt
  have hgt1 : -2 < truncate p - n := by exact_mod_cast hgt
  have hnq1 : (n : ℚ) ≤ 2147483647 := by exact_mod_cast hhi
  have hnq2 : (-2147483648 : ℚ) ≤ (n : ℚ) := by exact_mod_cast hlo
  have hr : -2147483648 ≤ truncate p ∧ truncate p ≤ 2147483647 := by
    rcases le_total 0 p with h0 | h0
    · obtain ⟨a, b⟩ := t3 h0
      have : ((truncate p : Int) : ℚ) < 2147483648 := by linarith
      have : truncate p < 2147483648 := by exact_mod_cast this
      omega
    · obtain ⟨a, b⟩ := t4 h0
      have : (-2147483649 : ℚ) < ((truncate p : Int) : ℚ) := by linarith
      have : -2147483649 < truncate p := by exact_mod_cast this
      omega
  rw [toInt32_of_range p hr.1 hr.2, abs_le]
  constructor <;> omega

/-- Claim C25: a signed 32-bit wire value n is decoded as `handleWaypoint` does (the
quotient n / 1E7, a `double`) and encoded again as the copy loop of `writeWaypoints`
does (the product by 1E7, a `double`, cast to `int32_t`).  The result differs from n by
at most 1, for x and for y: for the buffer entry that the copy loop makes of the
decoded item, and for the buffer that `writeWaypoints` fills after `handleWaypoint` has
accepted the item as the only item of a download into the editable list.  With exact
arithmetic the result is n. -/
theorem wire_round_trip (n : Int) (hlo : -2147483648 ≤ n) (hhi : n ≤ 2147483647) :
    (∀ (ptr : Nat) (wp : MissionItemInt) (nc : Bool) (b : MissionItemInt),
        (copyToBuffer 1 [newWaypointFromItem ptr wp] 0 nc)[0]? = some b →
        (wp.x = n → |b.x - n| ≤ 1) ∧ (wp.y = n → |b.y - n| ≤ 1))
    ∧ (∀ (m : Manager) (s c : Nat) (wp : MissionItemInt),
        s = m.current_partner_systemid → m.current_state = WP_GETLIST_GETWPS →
        wp.seq = m.current_wp_id → ¬ (m.current_wp_id + 1) % 65536 < m.current_count →
        m.read_to_edit = true → m.waypointsEditable = [] →
        (writeWaypoints (handleWaypoint s c wp m)).waypoint_buffer.length = 1
        ∧ ∀ b, b ∈ (writeWaypoints (handleWaypoint s c wp m)).waypoint_buffer →
            (wp.x = n → |b.x - n| ≤ 1) ∧ (wp.y = n → |b.y - n| ≤ 1))
    ∧ toInt32 ((n : ℚ) / 10000000 * 10000000) = n := by
  have key : |toInt32 (roundDouble (roundDouble ((n : ℚ) / 10000000) * 10000000)) - n| ≤ 1 :=
    toInt32_near _ n hlo hhi (round_trip_near n hlo hhi)
  refine ⟨?_, ?_, ?_⟩
  · intro ptr wp nc b hb
    have hb0 : (copyToBuffer 1 [newWaypointFromItem ptr wp] 0 nc).map (fun d => (d.frame, d.x, d.y))
        = [((newWaypointFromItem ptr wp).frame,
            toInt32 (roundDouble ((newWaypointFromItem ptr wp).x * 10000000)),
            toInt32 (roundDouble ((newWaypointFromItem ptr wp).y * 10000000)))] := by
      rw [copyToBuffer_xy 1 _ 0 nc (by simp)]
      rfl
    have hl : copyToBuffer 1 [newWaypointFromItem ptr wp] 0 nc = [b] := by
      have h1 : (copyToBuffer 1 [newWaypointFromItem ptr wp] 0 nc).length = 1 := by
        have := congrArg List.length hb0
        simpa using this
      match hc : copyToBuffer 1 [newWaypointFromItem ptr wp] 0 nc, h1 with
      | [b0], _ =>
        rw [hc] at hb
        simp at hb
        rw [hb]
    rw [hl] at hb0
    simp only [List.map_cons, List.map_nil, List.cons.injEq, Prod.mk.injEq, and_true] at hb0
    obtain ⟨_, hx, hy⟩ := hb0
    constructor
    · intro h
      rw [hx]
      simp only [newWaypointFromItem, h]
      exact key
    · intro h
      rw [hy]
      simp only [newWaypointFromItem, h]
      exact key
  · intro m s c wp hs hg hq hlt hr hE
    obtain ⟨E, C, H, S, e⟩ := handleWaypoint_accept_last s c wp m hs hg hq hlt
    obtain ⟨g1, g2, g3, g4⟩ := handleWaypoint_accept_to_edit s c wp m ⟨hs, hg, hq⟩ hr
    have hidle : (handleWaypoint s c wp m).current_state = WP_IDLE := by rw [e]
    rw [hE] at g3
    simp only [List.nil_append, List.length_nil] at g3
    have hbuf := writeWaypoints_waypoint_buffer (handleWaypoint s c wp m) hidle
      (by rw [g3]; simp) (by rw [g3]; simp)
    have hxy := copyToBuffer_xy (handleWaypoint s c wp m).waypointsEditable.length
      (handleWaypoint s c wp m).waypointsEditable 0 true (by omega)
    rw [← hbuf, g3] at hxy
    simp only [List.map_cons, List.map_nil] at hxy
    have hlen : (writeWaypoints (handleWaypoint s c wp m)).waypoint_buffer.length = 1 := by
      have := congrArg List.length hxy
      simpa using this
    refine ⟨hlen, ?_⟩
    intro b hb
    match hc : (writeWaypoints (handleWaypoint s c wp m)).waypoint_buffer, hlen with
    | [b0], _ =>
      rw [hc] at hb hxy
      simp only [List.mem_singleton] at hb
      simp only [List.map_cons, List.map_nil, List.cons.injEq, Prod.mk.injEq, and_true] at hxy
      obtain ⟨_, hx, hy⟩ := hxy
      rw [hb]
      constructor
      · intro h
        rw [hx]
        simp only [newWaypointFromItem, h]
        exact key
      · intro h
        rw [hy]
        simp only [newWaypointFromItem, h]
        exact key
  · have e : (n : ℚ) / 10000000 * 10000000 = (n : ℚ) := by field_simp
    rw [e, toInt32_intCast n hlo hhi]

/-- Witness for C25: the theorem applied to the wire value 473977447 (47.3977447
degrees): the decoded value is the `double` 6670639542785059 / 2^47, a little below
47.3977447, and the copy loop encodes it as 473977446, one unit below. -/
theorem wire_round_trip_witness :
    (-2147483648 : Int) ≤ 473977447
    ∧ (473977447 : Int) ≤ 2147483647
    ∧ (wireItem 473977447 0).x = 473977447
    ∧ (newWaypointFromItem 0 (wireItem 473977447 0)).x = 6670639542785059 / 2 ^ 47
    ∧ toInt32 (roundDouble ((newWaypointFromItem 0 (wireItem 473977447 0)).x * 10000000))
        = 473977446
    ∧ |toInt32 (roundDouble ((newWaypointFromItem 0 (wireItem 473977447 0)).x * 10000000))
        - 473977447| ≤ 1 :=
  ⟨by decide, by decide, rfl, decode_lossy, encode_lossy,
    ((wire_round_trip 473977447 (by decide) (by decide)).1 0 (wireItem 473977447 0) true _
      rfl).1 rfl⟩

end UASWaypointManager
